import Mathlib

/-!
# cess-fuse: the inode table and the request dispatcher of `pkg/fs/fs.go`

A shallow embedding of the dispatcher in `src/pkg/fs/fs.go` and of the panic
facade in `src/pkg/fs/panic_logger.go`.

* Go pointers to `Inode` objects are addresses into an explicit heap
  (`FileSystem.heap`); a nil pointer is `none`, and dereferencing an address
  that holds no object is a nil-dereference panic.
* Go maps are association lists with at most one entry per key (`GoMap`).
* A handler is a state transformer returning an `Outcome`: it returns, it
  panics (the state reached at the panic is kept, as `recover` sees it), it
  blocks on a lock that is held, or the runtime aborts.
* `sync.RWMutex` and `sync.Mutex` carry their state, so a lock that is never
  released is visible in the state that the next request starts from.
* `FileSystem.trace` is a ghost log of lock events, backend calls and id
  allocations, in the order the code performs them.
* Backend calls (`parent.LookUp`, `parent.Rename`) are answered by a response
  that is a parameter of the request; `time.Now()` reads `FileSystem.clock`.
-/

namespace Fs

/-! ## Basic types -/

/-- Inode ids, `fuseops.InodeID`, a `uint64`. -/
abbrev InodeID := Nat

/-- Handle ids, `fuseops.HandleID`, a `uint64`. -/
abbrev HandleID := Nat

/-- Address of an `Inode` object in the heap. -/
abbrev Ptr := Nat

/-- Instants, `time.Time`, in nanoseconds relative to the Unix epoch. -/
abbrev Time := Int

/-- Durations, `time.Duration`, in nanoseconds. -/
abbrev Duration := Int

/-- The id of the root inode, `fuseops.RootInodeID`. -/
def RootInodeID : InodeID := 1

/-- The number of values of a `uint64`. -/
def U64 : Nat := 2 ^ 64

/-- The number of values of a `uint32`. -/
def U32 : Nat := 2 ^ 32

/-- `TIMEMAX` of `utils.go`: `time.Unix(1<<63-62135596801, 999999999)`. -/
def TIMEMAX : Time := ((2 : Int) ^ 63 - 62135596801) * 1000000000 + 999999999

/-- The zero `time.Time` (January 1, year 1, UTC). -/
def zeroTime : Time := -62135596800 * 1000000000

/-- Filesystem error codes returned to the kernel. `ioFailure` is `fuse.EIO`;
`other` stands for any error value that is none of the named ones. -/
inductive Errno where
  | ENOENT
  | ioFailure
  | EEXIST
  | ENXIO
  | EINVAL
  | EACCES
  | ENOTSUP
  | EINTR
  | EAGAIN
  | other (code : Nat)
  deriving DecidableEq, Repr

/-- A Go `error` value: `none` is `nil`. -/
abbrev GoError := Option Errno

/-! ## Go maps -/

/-- A Go map as an association list; `set` and `delete` keep at most one entry
per key. -/
abbrev GoMap (κ : Type) (β : Type) := List (κ × β)

namespace GoMap

variable {κ β : Type} [DecidableEq κ]

/-- The value `m[k]`, `none` when the key is absent. -/
def get (m : GoMap κ β) (k : κ) : Option β :=
  match m with
  | [] => none
  | (k0, v) :: rest => if k0 = k then some v else get rest k

/-- The statement `delete(m, k)`. -/
def delete (m : GoMap κ β) (k : κ) : GoMap κ β :=
  m.filter (fun e => decide (e.1 ≠ k))

/-- The assignment `m[k] = v`. -/
def set (m : GoMap κ β) (k : κ) (v : β) : GoMap κ β :=
  (k, v) :: delete m k

/-- The keys of the map. -/
def keys (m : GoMap κ β) : List κ :=
  m.map Prod.fst

end GoMap

/-! ## Data model -/

/-- The fields of `InodeAttributes` that `fs.go` reads and writes. -/
structure InodeAttributes where
  Size : Nat
  Mtime : Time
  deriving DecidableEq, Repr

/-- The object backend bound to a directory, identified by a number. -/
abbrev Backend := Nat

/-- The directory part of an inode (`inode.dir`): the bound backend, the key
prefix of a mount, the listing horizon and the child index, which maps a child
name to the child inode. -/
structure DirInodeData where
  cloud : Option Backend
  mountPrefix : String
  DirTime : Time
  Children : GoMap String Ptr
  deriving DecidableEq, Repr

/-- An `Inode` object. `mu` is the state of the inode's mutex (`true` when
held); `dir` is `none` for an inode that is not a directory. -/
structure Inode where
  Id : InodeID
  Name : String
  Attributes : InodeAttributes
  KnownSize : Option Nat
  AttrTime : Time
  mu : Bool
  Parent : Option Ptr
  dir : Option DirInodeData
  fileHandles : Int
  knownETag : Option String
  invalidateCache : Bool
  refcnt : Nat
  deriving DecidableEq, Repr

/-- The tuning flags of `Flags` that the dispatcher consults. -/
structure Flags where
  ExplicitDir : Bool
  StatCacheTTL : Duration
  TypeCacheTTL : Duration
  HTTPTimeout : Duration
  deriving DecidableEq, Repr

/-- The state of a `sync.RWMutex`: the number of readers holding it and
whether a writer holds it. -/
structure RWMutex where
  readers : Nat
  writer : Bool
  deriving DecidableEq, Repr

/-- The fields of a `Ticket` (`ticket.go`). -/
structure Ticket where
  Total : Nat
  total : Nat
  outstanding : Nat
  deriving DecidableEq, Repr

/-- The fields of a `FileHandle` that `fs.go` reads and writes. -/
structure FileHandle where
  inode : Ptr
  Tgid : Option Int
  keepPageCache : Bool
  deriving DecidableEq, Repr

/-- Events of the ghost trace. -/
inductive Ev where
  | muRLock
  | muRUnlock
  | muLock
  | muUnlock
  | lock (p : Ptr)
  | unlock (p : Ptr)
  | allocId (id : InodeID)
  | backendLookUp (parent : Ptr) (name : String)
  | backendRename (parent : Ptr) (oldName : String) (newParent : Ptr) (newName : String)
  | backendMkDir (parent : Ptr) (name : String)
  | handleFlush (h : HandleID)
  deriving DecidableEq, Repr

/-- The `FileSystem` struct, together with the heap of inode objects, the
reading of `time.Now()` during the current request, and the ghost trace. -/
structure FileSystem where
  flags : Flags
  cloud : Backend
  umask : Nat
  rootAttrs : InodeAttributes
  mu : RWMutex
  nextInodeID : InodeID
  inodes : GoMap InodeID Ptr
  nextHandleID : HandleID
  dirHandles : GoMap HandleID Ptr
  fileHandles : GoMap HandleID FileHandle
  replicators : Ticket
  restorers : Ticket
  forgotCnt : Nat
  heap : List Inode
  clock : Time
  trace : List Ev
  deriving DecidableEq, Repr

/-! ## Handlers as state transformers -/

/-- Why a handler did not return. A panic carries the value that the handler's
named result `err` holds when the panic is raised; `outOfFuel` is the model
running out of recursion depth, which the code cannot do. -/
inductive Abort where
  | panic (msg : String) (err : GoError)
  | blocked
  | fatal (msg : String)
  | outOfFuel
  deriving DecidableEq, Repr

/-- The result of running a piece of code. -/
inductive Outcome (α : Type) where
  | ok (a : α)
  | abort (r : Abort)
  deriving DecidableEq, Repr

/-- Code acting on the file system state. -/
def M (α : Type) : Type := FileSystem → Outcome α × FileSystem

/-- Sequencing: an abort ends the run with the state reached so far. -/
def M.bind {α β : Type} (m : M α) (f : α → M β) : M β := fun s =>
  match m s with
  | (Outcome.ok a, s1) => f a s1
  | (Outcome.abort r, s1) => (Outcome.abort r, s1)

instance : Monad M where
  pure := fun a s => (Outcome.ok a, s)
  bind := M.bind

/-- The Go statement `panic(msg)`. -/
def goPanic {α : Type} (msg : String) : M α := fun s =>
  (Outcome.abort (Abort.panic msg none), s)

/-- The message of the runtime panic raised by a nil dereference. -/
def nilDeref : String := "invalid memory address or nil pointer dereference"

/-- Run `body` with a deferred call `cleanup`: the deferred call runs when the
body returns and when it panics; a blocked or aborted run never reaches it. -/
def withDefer {α : Type} (cleanup : M Unit) (body : M α) : M α := fun s =>
  match body s with
  | (Outcome.ok a, s1) =>
    match cleanup s1 with
    | (Outcome.ok _, s2) => (Outcome.ok a, s2)
    | (Outcome.abort r, s2) => (Outcome.abort r, s2)
  | (Outcome.abort (Abort.panic msg e), s1) =>
    match cleanup s1 with
    | (Outcome.ok _, s2) => (Outcome.abort (Abort.panic msg e), s2)
    | (Outcome.abort r, s2) => (Outcome.abort r, s2)
  | (Outcome.abort r, s1) => (Outcome.abort r, s1)

/-- Run `body` while the named result `err` holds `e`: a panic raised inside
leaves that value in `err`. -/
def whileErr {α : Type} (e : GoError) (body : M α) : M α := fun s =>
  match body s with
  | (Outcome.abort (Abort.panic msg _), s1) => (Outcome.abort (Abort.panic msg e), s1)
  | r => r

/-- Append an event to the ghost trace. -/
def emit (e : Ev) : M Unit := fun s =>
  (Outcome.ok (), { s with trace := s.trace ++ [e] })

/-! ## The heap -/

/-- Read the object at `p`; a nil dereference panics. -/
def deref (p : Ptr) : M Inode := fun s =>
  match s.heap[p]? with
  | some o => (Outcome.ok o, s)
  | none => (Outcome.abort (Abort.panic nilDeref none), s)

/-- Update the object at `p` in place. -/
def modifyObj (p : Ptr) (f : Inode → Inode) : M Unit := fun s =>
  match s.heap[p]? with
  | some o => (Outcome.ok (), { s with heap := s.heap.set p (f o) })
  | none => (Outcome.abort (Abort.panic nilDeref none), s)

/-- Allocate a new object and return its address. -/
def newObj (o : Inode) : M Ptr := fun s =>
  (Outcome.ok s.heap.length, { s with heap := s.heap ++ [o] })

/-! ## Locks -/

/-- The call `fs.mu.RLock()`: blocks while a writer holds the lock. -/
def muRLock : M Unit := fun s =>
  if s.mu.writer then (Outcome.abort Abort.blocked, s)
  else (Outcome.ok (),
    { s with mu := { s.mu with readers := s.mu.readers + 1 }, trace := s.trace ++ [Ev.muRLock] })

/-- The call `fs.mu.RUnlock()`. -/
def muRUnlock : M Unit := fun s =>
  if s.mu.readers = 0 then
    (Outcome.abort (Abort.fatal "sync: RUnlock of unlocked RWMutex"), s)
  else (Outcome.ok (),
    { s with mu := { s.mu with readers := s.mu.readers - 1 }, trace := s.trace ++ [Ev.muRUnlock] })

/-- The call `fs.mu.Lock()`: blocks while a reader or a writer holds the
lock. -/
def muLock : M Unit := fun s =>
  if s.mu.writer ∨ s.mu.readers ≠ 0 then (Outcome.abort Abort.blocked, s)
  else (Outcome.ok (),
    { s with mu := { s.mu with writer := true }, trace := s.trace ++ [Ev.muLock] })

/-- The call `fs.mu.Unlock()`. -/
def muUnlock : M Unit := fun s =>
  if s.mu.writer then (Outcome.ok (),
    { s with mu := { s.mu with writer := false }, trace := s.trace ++ [Ev.muUnlock] })
  else (Outcome.abort (Abort.fatal "sync: Unlock of unlocked RWMutex"), s)

/-- The call `inode.mu.Lock()` on the inode at `p`: blocks while the mutex is
held. -/
def lockInode (p : Ptr) : M Unit := fun s =>
  match s.heap[p]? with
  | none => (Outcome.abort (Abort.panic nilDeref none), s)
  | some o =>
    if o.mu then (Outcome.abort Abort.blocked, s)
    else (Outcome.ok (),
      { s with heap := s.heap.set p { o with mu := true }, trace := s.trace ++ [Ev.lock p] })

/-- The call `inode.mu.Unlock()` on the inode at `p`. -/
def unlockInode (p : Ptr) : M Unit := fun s =>
  match s.heap[p]? with
  | none => (Outcome.abort (Abort.panic nilDeref none), s)
  | some o =>
    if o.mu then (Outcome.ok (),
      { s with heap := s.heap.set p { o with mu := false }, trace := s.trace ++ [Ev.unlock p] })
    else (Outcome.abort (Abort.fatal "sync: unlock of unlocked mutex"), s)

/-! ## Inode methods

The file that declares `Inode` and its methods is not part of the sources at
hand; the methods `fs.go` calls are modelled from the specification. -/

/-- Modelled from the spec: `NewInode` (not in src). A new namespace entry: no
identity assigned yet, the given name and parent back-reference, not a
directory, no open handles, one reference (the one handed to the kernel with
the entry), attributes stamped with the current instant. -/
def newInodeObj (now : Time) (parent : Option Ptr) (name : String) : Inode :=
  { Id := 0
    Name := name
    Attributes := { Size := 0, Mtime := zeroTime }
    KnownSize := none
    AttrTime := now
    mu := false
    Parent := parent
    dir := none
    fileHandles := 0
    knownETag := none
    invalidateCache := false
    refcnt := 1 }

/-- Modelled from the spec: `NewInode` (not in src), allocating the object
described by `newInodeObj` at the current instant. -/
def NewInode (parent : Option Ptr) (name : String) : M Ptr := fun s =>
  newObj (newInodeObj s.clock parent name) s

/-- Modelled from the spec: `Inode.isDir` (not in src). An inode is of kind
directory when it holds the directory data. -/
def Inode.isDir (o : Inode) : Bool := o.dir.isSome

/-- Modelled from the spec: `Inode.ToDir` (not in src). Turns the inode into a
directory with an empty child index and no backend binding of its own. -/
def ToDir (p : Ptr) : M Unit :=
  modifyObj p (fun o =>
    match o.dir with
    | some _ => o
    | none =>
      { o with dir := some { cloud := none, mountPrefix := "", DirTime := zeroTime, Children := [] } })

/-- Modelled from the spec: `Inode.Ref` (not in src). Takes one more
reference. -/
def Ref (p : Ptr) : M Unit :=
  modifyObj p (fun o => { o with refcnt := o.refcnt + 1 })

/-- Modelled from the spec: the arithmetic of `Inode.DeRef` (not in src).
Decrements the reference count by `n`, never below zero, and reports whether
the inode became unreferenced. -/
def Inode.deRef (o : Inode) (n : Nat) : Inode × Bool :=
  ({ o with refcnt := o.refcnt - n }, decide (o.refcnt - n = 0))

/-- Modelled from the spec: `Inode.DeRef` (not in src), on the object at
`p`. -/
def DeRef (p : Ptr) (n : Nat) : M Bool := do
  let o ← deref p
  modifyObj p (fun o1 => (o1.deRef n).1)
  pure (o.deRef n).2

/-- Modelled from the spec: `Inode.findChildUnlocked` (not in src). Looks the
name up in the child index of the directory at `parent`. -/
def findChildUnlocked (parent : Ptr) (name : String) : M (Option Ptr) := do
  let par ← deref parent
  match par.dir with
  | none => goPanic nilDeref
  | some d => pure (GoMap.get d.Children name)

/-- Modelled from the spec: `Inode.insertChildUnlocked` (not in src). Links the
inode into the child index of the directory at `parent`, under the inode's
name. -/
def insertChildUnlocked (parent inode : Ptr) : M Unit := do
  let par ← deref parent
  match par.dir with
  | none => goPanic nilDeref
  | some _ => do
    let ino ← deref inode
    modifyObj parent (fun o =>
      { o with dir := o.dir.map (fun d => { d with Children := GoMap.set d.Children ino.Name inode }) })

/-- Modelled from the spec: `Inode.removeChildUnlocked` (not in src). Detaches
the inode from the child index of the directory at `parent`: the entry under
the inode's name is removed. -/
def removeChildUnlocked (parent inode : Ptr) : M Unit := do
  let par ← deref parent
  match par.dir with
  | none => goPanic nilDeref
  | some _ => do
    let ino ← deref inode
    modifyObj parent (fun o =>
      { o with dir := o.dir.map (fun d => { d with Children := GoMap.delete d.Children ino.Name }) })

/-- Modelled from the spec: `Inode.removeChild` (not in src). The locked form
of `removeChildUnlocked`: takes the directory's lock for the removal. -/
def removeChild (parent inode : Ptr) : M Unit := do
  lockInode parent
  withDefer (unlockInode parent) (removeChildUnlocked parent inode)

/-! ## The inode table (`fs.go`) -/

/-- `FileSystem.getInodeOrDie`: find the given inode, panic if it does not
exist. -/
def getInodeOrDie (id : InodeID) : M Ptr := fun s =>
  match GoMap.get s.inodes id with
  | some p => (Outcome.ok p, s)
  | none => goPanic "Unknown inode" s

/-- `FileSystem.allocateInodeId`: hand out `nextInodeID` and increment it (a
`uint64`). -/
def allocateInodeId : M InodeID := fun s =>
  (Outcome.ok s.nextInodeID,
    { s with nextInodeID := (s.nextInodeID + 1) % U64, trace := s.trace ++ [Ev.allocId s.nextInodeID] })

/-- `FileSystem.addDotAndDotDot`, with the `insertInode` it calls as a
parameter. -/
def addDotAndDotDotWith (insert : Ptr → Ptr → M Unit) (dir : Ptr) : M Unit := do
  let dot ← NewInode (some dir) "."
  ToDir dot
  modifyObj dot (fun o => { o with AttrTime := TIMEMAX })
  insert dir dot
  let dotdot ← NewInode (some dir) ".."
  ToDir dotdot
  modifyObj dotdot (fun o => { o with AttrTime := TIMEMAX })
  insert dir dotdot

/-- `FileSystem.insertInode` with a bound on the depth of the mutual recursion
with `addDotAndDotDot`. -/
def insertInodeFuel : Nat → Ptr → Ptr → M Unit
  | 0, _, _ => fun s => (Outcome.abort Abort.outOfFuel, s)
  | fuel + 1, parent, inode => do
    let ino ← deref inode
    if ino.Name = "." then do
      let par ← deref parent
      modifyObj inode (fun o => { o with Id := par.Id })
      insertChildUnlocked parent inode
    else if ino.Name = ".." then do
      modifyObj inode (fun o => { o with Id := RootInodeID })
      let par ← deref parent
      match par.Parent with
      | some pp => do
        let grand ← deref pp
        modifyObj inode (fun o => { o with Id := grand.Id })
      | none => pure ()
      insertChildUnlocked parent inode
    else do
      if ino.Id ≠ 0 then goPanic "inode id is set" else pure ()
      let id ← allocateInodeId
      modifyObj inode (fun o => { o with Id := id })
      insertChildUnlocked parent inode
      (fun s => (Outcome.ok (), { s with inodes := GoMap.set s.inodes id inode }))
      let ino1 ← deref inode
      if ino1.isDir then addDotAndDotDotWith (insertInodeFuel fuel) inode else pure ()

/-- `FileSystem.insertInode`. The recursion through `addDotAndDotDot` has depth
two: the synthesized entries are named `.` and `..` and take the branches that
do not recurse. -/
def insertInode (parent inode : Ptr) : M Unit :=
  insertInodeFuel 2 parent inode

/-- `FileSystem.addDotAndDotDot`. -/
def addDotAndDotDot (dir : Ptr) : M Unit :=
  addDotAndDotDotWith (insertInodeFuel 1) dir

/-- `Ticket.Init`. -/
def Ticket.Init (t : Ticket) : Ticket := { t with total := t.Total }

/-- The body of `NewFileSystem`, run on the struct literal it starts from. -/
def NewFileSystemBody (cloud : Backend) : M Unit := do
  let root ← NewInode none ""
  modifyObj root (fun o => { o with Id := RootInodeID })
  ToDir root
  modifyObj root (fun o => { o with dir := o.dir.map (fun d => { d with cloud := some cloud }) })
  (fun s => modifyObj root (fun o => { o with Attributes := { o.Attributes with Mtime := s.rootAttrs.Mtime } }) s)
  (fun s => (Outcome.ok (), { s with inodes := GoMap.set s.inodes RootInodeID root }))
  addDotAndDotDot root

/-- The struct `NewFileSystem` sets up before it creates the root inode. -/
def NewFileSystemStruct (cloud : Backend) (flags : Flags) (now : Time) : FileSystem :=
  { flags := flags
    cloud := cloud
    umask := 0o122
    rootAttrs := { Size := 4096, Mtime := now }
    mu := { readers := 0, writer := false }
    nextInodeID := RootInodeID + 1
    inodes := []
    nextHandleID := 1
    dirHandles := []
    fileHandles := []
    replicators := Ticket.Init { Total := 16, total := 0, outstanding := 0 }
    restorers := Ticket.Init { Total := 20, total := 0, outstanding := 0 }
    forgotCnt := 0
    heap := []
    clock := now
    trace := [] }

/-- `NewFileSystem`, called at the instant `now`. -/
def NewFileSystem (cloud : Backend) (flags : Flags) (now : Time) : FileSystem :=
  (NewFileSystemBody cloud (NewFileSystemStruct cloud flags now)).2

/-- `expired`: whether a cache entry stamped `cache` is past its time to live
at the instant `now`. -/
def expiredAt (now : Time) (cache : Time) (ttl : Duration) : Bool :=
  if cache > now then false else !(decide (cache + ttl > now))

/-- `expired`, reading the clock. -/
def expired (cache : Time) (ttl : Duration) : M Bool := fun s =>
  (Outcome.ok (expiredAt s.clock cache ttl), s)

/-! ## Requests (`fs.go`) -/

/-- The fields of `fuseops.ChildInodeEntry` that the dispatcher fills in from
the file system state. -/
structure ChildInodeEntry where
  Child : InodeID
  AttributesExpiration : Time
  EntryExpiration : Time
  deriving DecidableEq, Repr

/-- The entry of a request that has not been answered. -/
def ChildInodeEntry.zero : ChildInodeEntry :=
  { Child := 0, AttributesExpiration := zeroTime, EntryExpiration := zeroTime }

/-- The request `fuseops.LookUpInodeOp`. -/
structure LookUpInodeOp where
  Parent : InodeID
  Name : String
  deriving DecidableEq, Repr

/-- What the backend query `parent.LookUp(name)` answers: the freshly built
inode object (nil when there is none) and the error. -/
structure LookUpResp where
  newInode : Option Inode
  err : GoError
  deriving DecidableEq, Repr

/-- The request `fuseops.ForgetInodeOp`. -/
structure ForgetInodeOp where
  Inode : InodeID
  N : Nat
  deriving DecidableEq, Repr

/-- The request `fuseops.WriteFileOp`, without the payload. -/
structure WriteFileOp where
  Handle : HandleID
  deriving DecidableEq, Repr

/-- The request `fuseops.RenameOp`. -/
structure RenameOp where
  OldParent : InodeID
  OldName : String
  NewParent : InodeID
  NewName : String
  deriving DecidableEq, Repr

/-- Modelled from the spec: `InodeAttributes.Equal` (not in src). Two attribute
snapshots are equal when no cacheable attribute besides the size differs. -/
def InodeAttributes.Equal (a b : InodeAttributes) : Bool :=
  decide (a.Mtime = b.Mtime)

/-- The backend query `parent.LookUp(name)`: blocking, answered by `resp`; the
inode object it returns is allocated by the callee. -/
def parentLookUp (parent : Ptr) (name : String) (resp : LookUpResp) :
    M (Option Ptr × GoError) := do
  emit (Ev.backendLookUp parent name)
  match resp.newInode with
  | some o => do
    let p ← newObj o
    pure (some p, resp.err)
  | none => pure (none, resp.err)

/-- The cache probe of `LookUpInode` (the statements under the parent's lock):
returns the cached child and whether it can answer the request. -/
def lookUpProbe (parent : Ptr) (name : String) : M (Option Ptr × Bool) := do
  let inode ← findChildUnlocked parent name
  match inode with
  | some i => do
    Ref i
    let ino ← deref i
    let ttl ← (fun s => (Outcome.ok s.flags.StatCacheTTL, s))
    if (← expired ino.AttrTime ttl) then
      if ino.fileHandles ≠ 0 then pure (inode, true) else pure (inode, false)
    else pure (inode, true)
  | none => pure (none, false)

/-- The merge of the freshly fetched inode at `n` into the cached inode (the
statements of `LookUpInode` under `if newInode != nil`). -/
def lookUpMergeAttrs (inode n : Ptr) : M Unit := do
  let ino ← deref inode
  let new ← deref n
  (if !(ino.Attributes.Equal new.Attributes) then
    modifyObj inode (fun o => { o with invalidateCache := true })
  else if ino.knownETag ≠ none ∧ new.knownETag ≠ none ∧ ino.knownETag ≠ new.knownETag then
    modifyObj inode (fun o => { o with invalidateCache := true })
  else pure ())
  (if new.Attributes.Mtime = zeroTime then
    modifyObj n (fun o => { o with Attributes := { o.Attributes with Mtime := ino.Attributes.Mtime } })
  else pure ())
  let new1 ← deref n
  modifyObj inode (fun o => { o with Attributes := new1.Attributes })
  modifyObj inode (fun o => { o with knownETag := new1.knownETag })

/-- The merge of a freshly fetched inode into the cached one, under the cached
inode's lock. -/
def lookUpMerge (inode : Ptr) (newInode : Option Ptr) : M Unit := do
  lockInode inode
  (match newInode with
    | some n => lookUpMergeAttrs inode n
    | none => pure ())
  (fun s => modifyObj inode (fun o => { o with AttrTime := s.clock }) s)
  unlockInode inode

/-- The end of `LookUpInode`: fill in the entry from the resolved inode. -/
def lookUpReply (inode : Ptr) : M (GoError × ChildInodeEntry) := do
  let ino ← deref inode
  (fun s => (Outcome.ok (none,
    { Child := ino.Id
      AttributesExpiration := s.clock + s.flags.StatCacheTTL
      EntryExpiration := s.clock + s.flags.TypeCacheTTL }), s))

/-- The roll-back of `LookUpInode` when the backend query failed and a cached
entry exists. -/
def lookUpRollback (parent inode : Ptr) : M Unit := do
  muLock
  withDefer muUnlock (do
    let stale ← DeRef inode 1
    if stale then do
      let ino ← deref inode
      (fun s => (Outcome.ok (), { s with inodes := GoMap.delete s.inodes ino.Id }))
      removeChild parent inode
    else pure ())

/-- The insertion of the freshly fetched inode when the probe found no cached
entry: the child index is checked again under the parent's lock. -/
def lookUpInsert (parent : Ptr) (name : String) (newInode : Option Ptr) : M Ptr := do
  lockInode parent
  let again ← findChildUnlocked parent name
  let found ← (match again with
    | some j => pure j
    | none => do
      muLock
      match newInode with
      | some n => do
        insertInode parent n
        muUnlock
        pure n
      | none => goPanic nilDeref)
  unlockInode parent
  pure found

/-- The statements of `LookUpInode` after the backend query returned. -/
def lookUpSettle (parent : Ptr) (inode : Option Ptr) (name : String) (newInode : Option Ptr)
    (err : GoError) : M (GoError × ChildInodeEntry) := do
  let cachedDir ← (match inode with
    | some i => do
      let ino ← deref i
      pure ino.isDir
    | none => pure false)
  if err = some Errno.ENOENT ∧ cachedDir = true then
    match inode with
    | some i => do
      lookUpMerge i newInode
      lookUpReply i
    | none => goPanic nilDeref
  else if err ≠ none then
    match inode with
    | some i => do
      whileErr err (lookUpRollback parent i)
      pure (err, ChildInodeEntry.zero)
    | none => pure (err, ChildInodeEntry.zero)
  else
    match inode with
    | none => do
      let found ← lookUpInsert parent name newInode
      lookUpReply found
    | some i => do
      lookUpMerge i newInode
      lookUpReply i

/-- The cache-miss path of `LookUpInode`: the backend query, then the
reconciliation. -/
def lookUpMiss (parent : Ptr) (inode : Option Ptr) (name : String) (resp : LookUpResp) :
    M (GoError × ChildInodeEntry) := do
  let (newInode, err) ← parentLookUp parent name resp
  lookUpSettle parent inode name newInode err

/-- `FileSystem.LookUpInode`. -/
def LookUpInode (op : LookUpInodeOp) (resp : LookUpResp) : M (GoError × ChildInodeEntry) := do
  muRLock
  let parent ← getInodeOrDie op.Parent
  muRUnlock
  lockInode parent
  let (inode, ok) ← lookUpProbe parent op.Name
  unlockInode parent
  if ok then
    match inode with
    | some i => lookUpReply i
    | none => goPanic nilDeref
  else lookUpMiss parent inode op.Name resp

/-- The statements of `ForgetInode` after the parent's lock is taken. -/
def forgetLocked (op : ForgetInodeOp) (inode : Ptr) : M GoError := do
  let stale ← DeRef inode op.N
  if stale then
    do
      muLock
      withDefer muUnlock (do
        (fun s => (Outcome.ok (), { s with inodes := GoMap.delete s.inodes op.Inode }))
        (fun s => (Outcome.ok (), { s with forgotCnt := (s.forgotCnt + 1) % U32 }))
        let ino ← deref inode
        match ino.Parent with
        | some q => removeChildUnlocked q inode
        | none => pure ()
        pure none)
  else pure none

/-- `FileSystem.ForgetInode`. -/
def ForgetInode (op : ForgetInodeOp) : M GoError := do
  muRLock
  let inode ← getInodeOrDie op.Inode
  muRUnlock
  let ino ← deref inode
  match ino.Parent with
  | some q => do
    lockInode q
    withDefer (unlockInode q) (forgetLocked op inode)
  | none => forgetLocked op inode

/-- `FileSystem.WriteFile`. The write on the handle itself (`fh.WriteFile`) is
answered by `resp`. -/
def WriteFile (op : WriteFileOp) (resp : GoError) : M GoError := do
  muRLock
  let fh ← (fun s => (Outcome.ok (GoMap.get s.fileHandles op.Handle), s))
  match fh with
  | none => goPanic "WriteFile: can't find handle"
  | some _ => do
    muRUnlock
    pure resp

/-- The backend rename `parent.Rename(oldName, newParent, newName)`: blocking,
answered by `resp`. -/
def parentRename (parent : Ptr) (oldName : String) (newParent : Ptr) (newName : String)
    (resp : GoError) : M GoError := do
  emit (Ev.backendRename parent oldName newParent newName)
  pure resp

/-- The local move of `Rename`, under the moved inode's lock. -/
def renameMove (op : RenameOp) (parent newParent inode : Ptr) : M Unit := do
  removeChildUnlocked parent inode
  let newNode ← findChildUnlocked newParent op.NewName
  (match newNode with
    | some n => do
      removeChildUnlocked newParent n
      modifyObj n (fun o => { o with Parent := none })
    | none => pure ())
  modifyObj inode (fun o => { o with Name := op.NewName })
  modifyObj inode (fun o => { o with Parent := some newParent })
  insertChildUnlocked newParent inode

/-- The statements of `Rename` after the backend rename returned `err0`. -/
def renameSettle (op : RenameOp) (err0 : GoError) (parent newParent : Ptr) : M GoError := do
  let err ← (if err0 = some Errno.ENOENT then
      whileErr err0 (do
        let inode ← findChildUnlocked parent op.OldName
        match inode with
        | some i => do
          let ino ← deref i
          if ino.fileHandles ≠ 0 then pure none else pure err0
        | none => pure err0)
    else pure err0)
  if err = none then do
    let inode ← findChildUnlocked parent op.OldName
    (match inode with
      | some i => do
        lockInode i
        withDefer (unlockInode i) (renameMove op parent newParent i)
      | none => pure ())
    pure err
  else pure err

/-- The statements of `Rename` after the directory locks are taken. -/
def renameLocked (op : RenameOp) (resp : GoError) (parent newParent : Ptr) : M GoError := do
  let err0 ← parentRename parent op.OldName newParent op.NewName resp
  renameSettle op err0 parent newParent

/-- `FileSystem.Rename`. -/
def Rename (op : RenameOp) (resp : GoError) : M GoError := do
  muRLock
  let parent ← getInodeOrDie op.OldParent
  let newParent ← getInodeOrDie op.NewParent
  muRUnlock
  if op.OldParent = op.NewParent then do
    lockInode parent
    withDefer (unlockInode parent) (renameLocked op resp parent newParent)
  else do
    if op.OldParent < op.NewParent then do
      lockInode parent
      lockInode newParent
    else do
      lockInode newParent
      lockInode parent
    withDefer (unlockInode parent)
      (withDefer (unlockInode newParent) (renameLocked op resp parent newParent))

/-! ## The panic facade (`panic_logger.go`) -/

/-- `LogPanic`, deferred by a method of the facade around
`return fs.Fs.Handler(ctx, op)`: a panic of the handler is recovered. The `err`
that `LogPanic` tests is the named result of the facade's method, which is
assigned only when the handler returns; at a recovered panic it is still nil,
whatever the handler's own result held, so `fuse.EIO` is reported. -/
def LogPanic (handler : M GoError) : M GoError := fun s =>
  match handler s with
  | (Outcome.abort (Abort.panic _ _), s1) => (Outcome.ok (some Errno.ioFailure), s1)
  | r => r

/-- `FusePanicLogger.ForgetInode`. -/
def FusePanicLogger.ForgetInode (op : ForgetInodeOp) : M GoError :=
  LogPanic (Fs.ForgetInode op)

/-- `FusePanicLogger.WriteFile`. -/
def FusePanicLogger.WriteFile (op : WriteFileOp) (resp : GoError) : M GoError :=
  LogPanic (Fs.WriteFile op resp)

/-- `FusePanicLogger.Rename`. -/
def FusePanicLogger.Rename (op : RenameOp) (resp : GoError) : M GoError :=
  LogPanic (Fs.Rename op resp)

/-- `FusePanicLogger.LookUpInode`: on a recovered panic `fuse.EIO` is reported,
as by `LogPanic`, and the entry of the request is left as it was. -/
def FusePanicLogger.LookUpInode (op : LookUpInodeOp) (resp : LookUpResp) :
    M (GoError × ChildInodeEntry) := fun s =>
  match Fs.LookUpInode op resp s with
  | (Outcome.abort (Abort.panic _ _), s1) =>
    (Outcome.ok (some Errno.ioFailure, ChildInodeEntry.zero), s1)
  | r => r

/-! ## Sequences of insert calls -/

/-- One step of a client of the inode table: create an inode object, or call
`insertInode` on two inode pointers. -/
inductive InsertCall where
  | newObject (o : Inode)
  | insertInode (parent inode : Ptr)
  deriving DecidableEq, Repr

/-- The state after one step; a call that panics leaves the state it reached,
as the panic facade does. -/
def InsertCall.run (c : InsertCall) (s : FileSystem) : FileSystem :=
  match c with
  | InsertCall.newObject o => (newObj o s).2
  | InsertCall.insertInode parent inode => (Fs.insertInode parent inode s).2

/-- The state after a sequence of steps. -/
def runCalls (calls : List InsertCall) (s : FileSystem) : FileSystem :=
  calls.foldl (fun t c => c.run t) s

/-- The ids that `allocateInodeId` handed out, in order, read off the
trace. -/
def allocated (tr : List Ev) : List InodeID :=
  tr.filterMap (fun e => match e with
    | Ev.allocId i => some i
    | _ => none)

/-- The invariants stated on `FileSystem.inodes`: every key `k` satisfies
`RootInodeID <= k < nextInodeID`, `inodes[k].Id == k`, and
`inodes[RootInodeID]` is a directory. -/
def tableInvariant (s : FileSystem) : Prop :=
  (∀ k p, GoMap.get s.inodes k = some p →
    RootInodeID ≤ k ∧ k < s.nextInodeID ∧ ∃ o, s.heap[p]? = some o ∧ o.Id = k) ∧
  (∃ p o, GoMap.get s.inodes RootInodeID = some p ∧ s.heap[p]? = some o ∧ o.isDir = true)


/-- Whether a trace event is a call to the backend. -/
def Ev.isBackend (e : Ev) : Bool :=
  match e with
  | Ev.backendLookUp _ _ => true
  | Ev.backendRename _ _ _ _ => true
  | Ev.backendMkDir _ _ => true
  | _ => false

/-- The backend calls recorded in a trace, in order. -/
def backendCalls (tr : List Ev) : List Ev :=
  tr.filter Ev.isBackend

/-! ## Specification predicates -/

/-- Hoare triple: from a state satisfying `P`, the code either returns a
value and a state satisfying `Q`, or aborts for a reason and in a state
satisfying `E`. -/
def Triple {α : Type} (P : FileSystem → Prop) (m : M α) (Q : α → FileSystem → Prop)
    (E : Abort → FileSystem → Prop) : Prop :=
  ∀ s, P s → match m s with
    | (Outcome.ok a, s1) => Q a s1
    | (Outcome.abort r, s1) => E r s1

/-- The abort condition "the state satisfies `I` and the model did not run out
of recursion depth". -/
def Safe (I : FileSystem → Prop) : Abort → FileSystem → Prop :=
  fun r s => r ≠ Abort.outOfFuel ∧ I s

/-- The state `s` descends from `s0` by steps that leave the inode table, the
id allocator and the trace as they are, keep every object of `s0`
with its name and its directory kind, and keep its id unless `X` holds of its
address. -/
def Stable (X : Ptr → Prop) (s0 s : FileSystem) : Prop :=
  s.inodes = s0.inodes ∧ s.nextInodeID = s0.nextInodeID ∧
  s.trace = s0.trace ∧
  ∀ p o, s0.heap[p]? = some o → ∃ o1, s.heap[p]? = some o1 ∧ o1.Name = o.Name ∧
    (o.isDir = true → o1.isDir = true) ∧ (¬ X p → o1.Id = o.Id)

/-- The object at `p` exists and is named `nm`. -/
def NameAt (p : Ptr) (nm : String) (s : FileSystem) : Prop :=
  ∃ o, s.heap[p]? = some o ∧ o.Name = nm

/-- The state right after `allocateInodeId` in `insertInode`. -/
def afterAlloc (s : FileSystem) : FileSystem :=
  { s with nextInodeID := (s.nextInodeID + 1) % U64,
           trace := s.trace ++ [Ev.allocId s.nextInodeID] }

/-- The state right after `inode.Id = fs.allocateInodeId()`. -/
def afterSetId (s : FileSystem) (inode : Ptr) (ino : Inode) : FileSystem :=
  { afterAlloc s with heap := s.heap.set inode { ino with Id := s.nextInodeID } }

/-- The state `afterSetId` with the inode registered in the table. -/
def afterRegister (s : FileSystem) (inode : Ptr) (ino : Inode) : FileSystem :=
  { afterSetId s inode ino with inodes := GoMap.set s.inodes s.nextInodeID inode }

/-- What one call of `insertInode` can do to the state `s`: either nothing is
allocated or registered and only an inode named `.` or `..` changes its id, or
the inode has an ordinary name and no id, one id is handed out, and the run
stops after the allocation, after the id is stored, or after the registration. -/
def InsertPost (s : FileSystem) (inode : Ptr) (t : FileSystem) : Prop :=
  Stable (fun p => p = inode ∧ (NameAt inode "." s ∨ NameAt inode ".." s)) s t ∨
  ∃ ino, s.heap[inode]? = some ino ∧ ino.Name ≠ "." ∧ ino.Name ≠ ".." ∧ ino.Id = 0 ∧
    (Stable (fun _ => False) (afterAlloc s) t ∨
     Stable (fun _ => False) (afterSetId s inode ino) t ∨
     Stable (fun _ => False) (afterRegister s inode ino) t)

/-- No registered inode is named `.` or `..`. -/
def namesInvariant (s : FileSystem) : Prop :=
  ∀ k p o, GoMap.get s.inodes k = some p → s.heap[p]? = some o →
    o.Name ≠ "." ∧ o.Name ≠ ".."

/-- The invariant of the states reached by insert calls. -/
def ReachInv (s : FileSystem) : Prop :=
  tableInvariant s ∧ namesInvariant s ∧ (allocated s.trace).Pairwise (fun a b => a < b) ∧
  ∀ i ∈ allocated s.trace, i < s.nextInodeID

/-- The code `m` only appends events to the trace, and every event it appends
satisfies `P`. -/
def TraceAdds (P : Ev → Prop) {α : Type} (m : M α) : Prop :=
  ∀ s, ∃ rest, (m s).2.trace = s.trace ++ rest ∧ ∀ e ∈ rest, P e

/-- The condition under which a lookup of `name` in the child index `d` has to
go to the backend, in terms of the clock: the name is absent, or the cached
child's `AttrTime` is expired under `StatCacheTTL` at the current instant (the
`AttrTime` is not in the future and `AttrTime + StatCacheTTL` is not after the
current instant) and the child has no open file handle. -/
def cacheMiss (s : FileSystem) (d : DirInodeData) (name : String) : Prop :=
  GoMap.get d.Children name = none ∨
  ∃ i child, GoMap.get d.Children name = some i ∧ s.heap[i]? = some child ∧
    child.AttrTime ≤ s.clock ∧ child.AttrTime + s.flags.StatCacheTTL ≤ s.clock ∧
    child.fileHandles = 0

/-- What the reconciliation of `LookUpInode` keeps when the cached child at `i`
is a directory: the table, the clock and the flags of `s`, the id and the kind
of the child (whose mutex is in state `locked`), and the child index `d` of the
parent. -/
def LookUpKeeps (s : FileSystem) (parent i : Ptr) (d : DirInodeData) (childId : InodeID)
    (locked : Bool) (t : FileSystem) : Prop :=
  t.inodes = s.inodes ∧ t.clock = s.clock ∧ t.flags = s.flags ∧
  (∃ c, t.heap[i]? = some c ∧ c.Id = childId ∧ c.mu = locked ∧ c.isDir = true) ∧
  (∃ p1, t.heap[parent]? = some p1 ∧ p1.dir = some d)

/-- No child index differs between `s` and `t`: every inode object of `s` is
still there with the directory data it had. -/
def childIndexesUnchanged (s t : FileSystem) : Prop :=
  ∀ (x : Ptr) (o : Inode), s.heap[x]? = some o →
    ∃ o1 : Inode, t.heap[x]? = some o1 ∧ o1.dir = o.dir

/-- The state of `Rename` while the inode at `i` is moved from the directory at
`a` to the directory at `b`: both directories are locked, every entry of the
child index of `b` points to an object, and the mutex of `i` is in state `li`. -/
def RenameInv (a b i : Ptr) (li : Bool) (t : FileSystem) : Prop :=
  (∃ o, t.heap[a]? = some o ∧ o.mu = true ∧ o.isDir = true) ∧
  (∃ o, t.heap[b]? = some o ∧ o.mu = true ∧ o.isDir = true ∧
    ∀ d nm n, o.dir = some d → GoMap.get d.Children nm = some n →
      ∃ tgt, t.heap[n]? = some tgt) ∧
  (∃ o, t.heap[i]? = some o ∧ o.mu = li)

/-- The state of `Rename` after the local move: the directory at `b` lists the
inode at `i` under `name`, and the inode carries that name and `b` as its
parent; `la`, `lb` and `li` are the states of the three mutexes. -/
def RenameDone (a b i : Ptr) (name : String) (la lb li : Bool) (t : FileSystem) : Prop :=
  (∃ o, t.heap[a]? = some o ∧ o.mu = la) ∧
  (∃ nb dn, t.heap[b]? = some nb ∧ nb.mu = lb ∧ nb.dir = some dn ∧
    GoMap.get dn.Children name = some i) ∧
  (∃ ci, t.heap[i]? = some ci ∧ ci.mu = li ∧ ci.Name = name ∧ ci.Parent = some b)

/-- The child index of the directory at `a` has no entry under `name`. -/
def NotListed (a : Ptr) (name : String) (t : FileSystem) : Prop :=
  ∃ o d, t.heap[a]? = some o ∧ o.dir = some d ∧ GoMap.get d.Children name = none

/-- The inode at `n` has no parent: it is detached from the tree. -/
def Detached (n : Ptr) (t : FileSystem) : Prop :=
  ∃ o, t.heap[n]? = some o ∧ o.Parent = none

/-- The state predicate `Q` does not depend on the state of the inode mutexes
nor on the trace. -/
def KeptByMutex (Q : FileSystem → Prop) : Prop :=
  ∀ (x : Ptr) (t : FileSystem) (o : Inode) (m : Bool) (tr : List Ev),
    Q t → t.heap[x]? = some o →
      Q { t with heap := t.heap.set x { o with mu := m }, trace := tr }

/-! ## A small file system used in the examples -/

/-- The flags of the example: a time to live of sixty nanoseconds. -/
def exampleFlags (explicitDir : Bool) : Flags :=
  { ExplicitDir := explicitDir, StatCacheTTL := 60, TypeCacheTTL := 60, HTTPTimeout := 30 }

/-- An inode object of the example. -/
def exampleInode (id : InodeID) (name : String) (parent : Option Ptr)
    (dir : Option DirInodeData) (handles : Int) (refs : Nat) : Inode :=
  { Id := id, Name := name, Attributes := { Size := 0, Mtime := 50 }, KnownSize := none,
    AttrTime := 100, mu := false, Parent := parent, dir := dir, fileHandles := handles,
    knownETag := none, invalidateCache := false, refcnt := refs }

/-- The child index of an example directory. -/
def exampleDir (children : GoMap String Ptr) : DirInodeData :=
  { cloud := none, mountPrefix := "", DirTime := 0, Children := children }

/-- A file system with the root (address 0, id 1), a file `a` (address 1, id 2,
`handles` open file handles), and two directories `d` (address 2, id 3) and `e`
(address 3, id 4) under the root, all stamped at the instant 100, at the
instant `now`. -/
def exampleFs (now : Time) (explicitDir : Bool) (handles : Int) : FileSystem :=
  { flags := exampleFlags explicitDir
    cloud := 7
    umask := 0o122
    rootAttrs := { Size := 4096, Mtime := 50 }
    mu := { readers := 0, writer := false }
    nextInodeID := 5
    inodes := [(4, 3), (3, 2), (2, 1), (1, 0)]
    nextHandleID := 1
    dirHandles := []
    fileHandles := []
    replicators := { Total := 16, total := 16, outstanding := 0 }
    restorers := { Total := 20, total := 20, outstanding := 0 }
    forgotCnt := 0
    heap :=
      [ exampleInode 1 "" none (some (exampleDir [("e", 3), ("d", 2), ("a", 1)])) 0 1,
        exampleInode 2 "a" (some 0) none handles 1,
        exampleInode 3 "d" (some 0) (some (exampleDir [])) 0 1,
        exampleInode 4 "e" (some 0) (some (exampleDir [])) 0 1 ]
    clock := now
    trace := [] }

/-! ## Admission tickets (`ticket.go`) -/

/-- What a call of `Ticket.Take` does: it returns `took` with the ticket in the
state `t`, or it waits on the condition variable (`t.cond.Wait()`), which only a
`Return` of another holder ends. -/
inductive TakeResult where
  | returned (took : Bool) (t : Ticket)
  | waiting (t : Ticket)
  deriving DecidableEq, Repr

/-- `Ticket.Take`. The counters are `uint32`: the sum `t.outstanding+howmany`
wraps around. -/
def Ticket.Take (t : Ticket) (howmany : Nat) (block : Bool) : TakeResult :=
  if (t.outstanding + howmany) % U32 > t.total then
    if block then TakeResult.waiting t else TakeResult.returned false t
  else TakeResult.returned true { t with outstanding := (t.outstanding + howmany) % U32 }

/-- `Ticket.Return`. The difference `t.outstanding - howmany` of two `uint32`
wraps around. -/
def Ticket.Return (t : Ticket) (howmany : Nat) : Ticket :=
  { t with outstanding := (t.outstanding + (U32 - howmany % U32)) % U32 }

/-- A call on a ticket: a non-blocking `Take(n, false)` or a `Return(n)`. -/
inductive TicketCall where
  | take (n : Nat)
  | giveBack (n : Nat)
  deriving DecidableEq, Repr

/-- The ticket after one call. -/
def TicketCall.run (c : TicketCall) (t : Ticket) : Ticket :=
  match c with
  | TicketCall.take n =>
    match t.Take n false with
    | TakeResult.returned _ t1 => t1
    | TakeResult.waiting t1 => t1
  | TicketCall.giveBack n => t.Return n

/-- The ticket after a sequence of calls. -/
def runTicket (calls : List TicketCall) (t : Ticket) : Ticket :=
  calls.foldl (fun u c => c.run u) t

/-- No `Return` of the sequence gives back more than is outstanding when it is
called. -/
def returnsCovered : List TicketCall → Ticket → Bool
  | [], _ => true
  | TicketCall.take n :: rest, t => returnsCovered rest ((TicketCall.take n).run t)
  | TicketCall.giveBack n :: rest, t =>
    decide (n ≤ t.outstanding) && returnsCovered rest ((TicketCall.giveBack n).run t)

/-! ## Error mapping (`fs.go`) -/

/-- The sentinel errors that `storage/errors.go` declares. -/
inductive StorageErr where
  | ErrNoSuchKey
  | ErrNoSuchBucket
  | ErrKeyAlreadyExists
  | ErrUnsupportedMethod
  deriving DecidableEq, Repr

/-- A Go `error` value as the mapping functions see it: a filesystem error
code, one of the storage sentinels that `storage/errors.go` declares, the
already-exists sentinel that `fs.go` names, or any other error value. Error
values are compared by identity: no `other` value equals a sentinel, whatever
its text. -/
inductive GoErr where
  | errno (e : Errno)
  | storage (e : StorageErr)
  | alreadyExists
  | other (msg : String)
  deriving DecidableEq, Repr

/-- Modelled from the spec: `storage.ErrFileAlreadyExists`, the already-exists
sentinel that `mapStorageError` compares with; `storage/errors.go` does not
declare it. It is an error value of its own. -/
def ErrFileAlreadyExists : GoErr := GoErr.alreadyExists

/-- `mapHttpError`; `http.StatusConflict` is 409. -/
def mapHttpError (status : Int) : GoError :=
  if status = 400 then some Errno.EINVAL
  else if status = 401 then some Errno.EACCES
  else if status = 403 then some Errno.EACCES
  else if status = 404 then some Errno.ENOENT
  else if status = 405 then some Errno.ENOTSUP
  else if status = 409 then some Errno.EINTR
  else if status = 429 then some Errno.EAGAIN
  else if status = 500 then some Errno.EAGAIN
  else none

/-- `mapStorageError`. -/
def mapStorageError (err : Option GoErr) : Option GoErr :=
  match err with
  | none => none
  | some e =>
    if e = GoErr.storage StorageErr.ErrNoSuchKey then some (GoErr.errno Errno.ENXIO)
    else if e = ErrFileAlreadyExists then some (GoErr.errno Errno.EEXIST)
    else some e

/-! ## Flushing a file handle (`fs.go`) -/

/-- The request `fuseops.FlushFileOp`; `Pid` is `op.Metadata.Pid`. -/
structure FlushFileOp where
  Inode : InodeID
  Handle : HandleID
  Pid : Nat
  deriving DecidableEq, Repr

/-- The statements of `FlushFile` from the call `fh.FlushFile()` on. The flush
of the handle is an event of the trace, answered by `flushResp`. -/
def flushHandle (op : FlushFileOp) (flushResp : GoError) : M GoError := do
  emit (Ev.handleFlush op.Handle)
  if flushResp ≠ none then do
    whileErr flushResp (do
      muRLock
      let inode ← getInodeOrDie op.Inode
      muRUnlock
      let ino ← deref inode
      if ino.KnownSize = none then modifyObj inode (fun o => { o with AttrTime := zeroTime })
      else pure ())
    pure flushResp
  else pure flushResp

/-- `FileSystem.FlushFile`. `callerTgid` is what `GetTgid(op.Metadata.Pid)`
answers, `none` when it fails; the log lines are left out. -/
def FlushFile (op : FlushFileOp) (callerTgid : Option Int) (flushResp : GoError) :
    M GoError := do
  muRLock
  let fh ← (fun s => (Outcome.ok (GoMap.get s.fileHandles op.Handle), s))
  muRUnlock
  match fh with
  | none => goPanic nilDeref
  | some h =>
    match h.Tgid with
    | some own =>
      match callerTgid with
      | none => pure (some Errno.ioFailure)
      | some caller =>
        if own ≠ caller then pure none
        else flushHandle op flushResp
    | none => flushHandle op flushResp

/-- Whether a trace event is a flush of a file handle. -/
def Ev.isFlush (e : Ev) : Bool :=
  match e with
  | Ev.handleFlush _ => true
  | _ => false

/-- The flushes of file handles recorded in a trace, in order. -/
def flushCalls (tr : List Ev) : List Ev :=
  tr.filter Ev.isFlush

/-! ## Frames -/

/-- The code `m` leaves the component `f` of the state as it is, however it
ends. -/
def Keeps {α β : Type} (f : FileSystem → β) (m : M α) : Prop :=
  ∀ s, f (m s).2 = f s

/-- The table lock is in the state `m0` and the object at `i` carries the
id `id`. -/
def FrameAt (m0 : RWMutex) (i : Ptr) (id : InodeID) (t : FileSystem) : Prop :=
  t.mu = m0 ∧ ∃ ci, t.heap[i]? = some ci ∧ ci.Id = id

/-! ## Mount grafting (`fs.go`) -/

/-- The record `Mount`; `keyPrefix` is its field `prefix`. -/
structure Mount where
  name : String
  cloud : Backend
  keyPrefix : String
  mounted : Bool
  deriving DecidableEq, Repr

/-- The call `strings.Index(name, "/")`, `none` for -1. -/
def indexSlash : List Char → Option Nat
  | [] => none
  | c :: cs => if c = '/' then some 0 else (indexSlash cs).map (fun k => k + 1)

/-- The call `strings.Trim(name, "/")`. -/
def trimSlash (cs : List Char) : List Char :=
  ((cs.dropWhile (fun c => c = '/')).reverse.dropWhile (fun c => c = '/')).reverse

/-- Modelled from the spec: the inode objects that a recursive walk from `p`
over the child indexes visits within `fuel` levels; `Inode.resetDirTimeRec` is
not in src. -/
def descendants : Nat → List Inode → Ptr → List Ptr
  | 0, _, p => [p]
  | fuel + 1, heap, p =>
    p :: (match heap[p]? with
      | some o =>
        match o.dir with
        | some d => ((d.Children.map Prod.snd).map (descendants fuel heap)).flatten
        | none => []
      | none => [])

/-- Modelled from the spec: the heap after the directory-listing horizon
(`DirTime`) of every object in `ps` has been reset. -/
def resetDirTimes (heap : List Inode) (ps : List Ptr) : List Inode :=
  ps.foldl (fun h x =>
    match h[x]? with
    | some o => h.set x { o with dir := o.dir.map (fun d => { d with DirTime := zeroTime }) }
    | none => h) heap

/-- Modelled from the spec: `Inode.resetDirTimeRec` (not in src). Forces the
recursive invalidation of the directory-listing horizon of the inode at `p` and
of every descendant; the attribute horizon (`AttrTime`) is not touched. A walk
of as many levels as the heap has objects reaches every descendant. -/
def resetDirTimeRec (p : Ptr) : M Unit := fun s =>
  (Outcome.ok (), { s with heap := resetDirTimes s.heap (descendants s.heap.length s.heap p) })

/-- The assignment `inode.dir.cloud = cloud` on the inode at `p`. -/
def setDirCloud (p : Ptr) (cloud : Backend) : M Unit := do
  let o ← deref p
  match o.dir with
  | none => goPanic nilDeref
  | some d => modifyObj p (fun o1 => { o1 with dir := some { d with cloud := some cloud } })

/-- The assignment `inode.dir.mountPrefix = pfx` on the inode at `p`. -/
def setDirMountPrefix (p : Ptr) (pfx : String) : M Unit := do
  let o ← deref p
  match o.dir with
  | none => goPanic nilDeref
  | some d => modifyObj p (fun o1 => { o1 with dir := some { d with mountPrefix := pfx } })

/-- One round of the loop of `mount`: the directory `dirName` under `mp` is
looked up and, when it is not there, created with the never-expire horizon. -/
def mountStep (mp : Ptr) (dirName : String) : M Ptr := do
  lockInode mp
  let found ← findChildUnlocked mp dirName
  let dirInode ← (match found with
    | some d => pure d
    | none => do
      muLock
      let d ← NewInode (some mp) dirName
      ToDir d
      modifyObj d (fun o => { o with AttrTime := TIMEMAX })
      insertInode mp d
      muUnlock
      pure d)
  unlockInode mp
  pure dirInode

/-- The loop of `mount`, with a bound on the number of rounds: it walks down
the segments of `name` that are followed by a slash and returns the directory
reached and the rest of the name. -/
def mountWalk : Nat → Ptr → List Char → M (Ptr × List Char)
  | 0, _, _ => fun s => (Outcome.abort Abort.outOfFuel, s)
  | fuel + 1, mp, name =>
    match indexSlash name with
    | none => pure (mp, name)
    | some idx => do
      let dirInode ← mountStep mp (String.mk (name.take idx))
      mountWalk fuel dirInode (name.drop (idx + 1))

/-- The statements of `mount` after the loop: the terminal segment `name` is
created under `mp` as a directory bound to the mount's backend, or the
directory that is already there is bound to it. Returns the mount record with
`mounted` set. -/
def mountTerminal (mp : Ptr) (name : String) (b : Mount) : M Mount := do
  lockInode mp
  withDefer (unlockInode mp) (do
    let prev ← findChildUnlocked mp name
    match prev with
    | none => do
      let mountInode ← NewInode (some mp) name
      ToDir mountInode
      setDirCloud mountInode b.cloud
      setDirMountPrefix mountInode b.keyPrefix
      modifyObj mountInode (fun o => { o with AttrTime := TIMEMAX })
      muLock
      withDefer muUnlock (do
        insertInode mp mountInode
        pure { b with mounted := true })
    | some p => do
      let o ← deref p
      if !o.isDir then goPanic "inode is not a directory"
      else do
        resetDirTimeRec p
        lockInode p
        withDefer (unlockInode p) (do
          setDirCloud p b.cloud
          setDirMountPrefix p b.keyPrefix
          modifyObj p (fun o1 => { o1 with AttrTime := TIMEMAX })
          pure { b with mounted := true }))

/-- The body of `mount` after the test of `mounted`: the loop over the
segments of `name` that are followed by a slash, then the terminal segment. -/
def mountFrom (fuel : Nat) (mp : Ptr) (name : List Char) (b : Mount) : M Mount := do
  let r ← mountWalk fuel mp name
  mountTerminal r.1 (String.mk r.2) b

/-- `FileSystem.mount`. A round of the loop consumes at least one character of
the name, so the bound on the rounds is never reached. -/
def mount (mp : Ptr) (b : Mount) : M Mount :=
  if b.mounted then pure b
  else mountFrom ((trimSlash b.name.toList).length + 1) mp (trimSlash b.name.toList) b

/-- The object of a synthesized `.` or `..` entry of the directory at `dir`, as
`addDotAndDotDot` leaves it: a directory without children that never expires
and carries the id `id`. -/
def dotEntry (now : Time) (dir : Ptr) (name : String) (id : InodeID) : Inode :=
  { newInodeObj now (some dir) name with
    Id := id
    AttrTime := TIMEMAX
    dir := some { cloud := none, mountPrefix := "", DirTime := zeroTime, Children := [] } }

/-- The child index of a directory after `addDotAndDotDot`, the two entries
being allocated at `l` and `l + 1`. -/
def withDots (children : GoMap String Ptr) (l : Ptr) : GoMap String Ptr :=
  GoMap.set (GoMap.set children "." l) ".." (l + 1)

/-- The object of a directory that `mount` creates under `parent`, after its
insertion: it carries the id `id`, never expires, and holds the `.` and `..`
entries allocated at `l` and `l + 1`. -/
def newDirObj (now : Time) (parent : Ptr) (name : String) (id : InodeID) (cloud : Option Backend)
    (pfx : String) (l : Ptr) : Inode :=
  { dotEntry now parent name id with
    dir := some { cloud := cloud, mountPrefix := pfx, DirTime := zeroTime,
                  Children := withDots [] l } }

/-- The state after `mount` has created the directory `seg` under the
directory at `mp`, whose object is `omp` with the directory data `dmp`: the new
directory, bound to `cloud` and `pfx`, and its two entries are appended to the
heap. -/
def afterMountStep (t : FileSystem) (mp : Ptr) (omp : Inode) (dmp : DirInodeData)
    (seg : String) (cloud : Option Backend) (pfx : String) : FileSystem :=
  { t with
    nextInodeID := (t.nextInodeID + 1) % U64
    inodes := GoMap.set t.inodes t.nextInodeID t.heap.length
    trace := t.trace ++ [Ev.lock mp, Ev.muLock, Ev.allocId t.nextInodeID, Ev.muUnlock,
      Ev.unlock mp]
    heap := (t.heap.set mp
        { omp with dir := some { dmp with Children := GoMap.set dmp.Children seg t.heap.length } }
      ++ [newDirObj t.clock mp seg t.nextInodeID cloud pfx (t.heap.length + 1),
          dotEntry t.clock t.heap.length "." t.nextInodeID,
          dotEntry t.clock t.heap.length ".." omp.Id]) }

/-- The name `s1/.../sk/t` as a list of characters. -/
def joinPath (segs : List String) (term : String) : List Char :=
  segs.foldr (fun x acc => x.toList ++ '/' :: acc) term.toList

/-- The `k` inode ids that are allocated from `n` on. -/
def idsFrom (n : InodeID) : Nat → List InodeID
  | 0 => []
  | k + 1 => n :: idsFrom ((n + 1) % U64) k

/-- The child `name` of the directory at `mp`, when that child is a directory:
its pointer, its object and its directory data. -/
def childDirAt (heap : List Inode) (mp : Ptr) (name : String) :
    Option (Ptr × Inode × DirInodeData) :=
  match heap[mp]? with
  | none => none
  | some o =>
    match o.dir with
    | none => none
    | some d =>
      match GoMap.get d.Children name with
      | none => none
      | some p =>
        match heap[p]? with
        | none => none
        | some oc =>
          match oc.dir with
          | none => none
          | some dc => some (p, oc, dc)

/-- The path `segs/term` is there under the directory at `mp`, made of
directory objects allocated at `l0` or later that never expire and carry the
consecutive ids from `n` on; the terminal one is bound to the backend and the
prefix of `b`. -/
def mountedPath (heap : List Inode) (b : Mount) (l0 : Nat) :
    Ptr → InodeID → List String → String → Bool
  | mp, n, [], term =>
    match childDirAt heap mp term with
    | none => false
    | some (p, o, d) =>
      decide (l0 ≤ p) && decide (o.Id = n) && decide (o.Name = term) &&
      decide (o.Parent = some mp) && decide (o.AttrTime = TIMEMAX) &&
      decide (d.cloud = some b.cloud) && decide (d.mountPrefix = b.keyPrefix)
  | mp, n, x :: rest, term =>
    match childDirAt heap mp x with
    | none => false
    | some (p, o, _) =>
      decide (l0 ≤ p) && decide (o.Id = n) && decide (o.Name = x) &&
      decide (o.Parent = some mp) && decide (o.AttrTime = TIMEMAX) &&
      mountedPath heap b l0 p ((n + 1) % U64) rest term

/-- The object `o` with the directory-listing horizon `tm`. -/
def setDirTime (o : Inode) (tm : Time) : Inode :=
  { o with dir := o.dir.map (fun d => { d with DirTime := tm }) }

/-- The directory reached from the directory at `mp` along the segments `segs`
through the child indexes, when every directory on the way is there and
unlocked. -/
def resolveDirs (heap : List Inode) : Ptr → List String → Option Ptr
  | mp, [] => some mp
  | mp, x :: rest =>
    match heap[mp]? with
    | none => none
    | some o =>
      if o.mu then none
      else
        match o.dir with
        | none => none
        | some d =>
          match GoMap.get d.Children x with
          | none => none
          | some p => resolveDirs heap p rest

/-! ## The lazily initialised backend (`storage/storage.go`) -/

/-- The struct `Capabilities`; `Base` is the pointer to the `CapacityBase`,
`none` when nil. -/
structure Capabilities where
  NoParallelMultipart : Bool
  MaxMultipartSize : Nat
  DirBlob : Bool
  Name : String
  Base : Option Nat
  deriving DecidableEq, Repr

/-- An `error` value of the storage layer: an error of a backend, identified by
its message, or an `ObjectBackendInitError`, the struct that embeds the error
of the failed `Init` together with the capabilities. -/
inductive StoreError where
  | backend (msg : String)
  | ObjectBackendInitError (err : StoreError) (cap : Capabilities)
  deriving DecidableEq, Repr

/-- The method `Error()`: `ObjectBackendInitError` has the one promoted from the
error it embeds. -/
def StoreError.Error : StoreError → String
  | StoreError.backend msg => msg
  | StoreError.ObjectBackendInitError err _ => err.Error

/-- The blob operations of the interface `ObjectBackend`. -/
inductive BlobOp where
  | HeadBlob
  | ListBlobs
  | DeleteBlob
  | DeleteBlobs
  | RenameBlob
  | CopyBlob
  | GetBlob
  | PutBlob
  | MultipartBlobBegin
  | MultipartBlobAdd
  | MultipartBlobAbort
  | MultipartBlobCommit
  | MultipartExpire
  | RemoveBucket
  | MakeBucket
  deriving DecidableEq, Repr

/-- A backend behind the wrapper, given by its answers: what `Init(key)`
returns, what `Capabilities()` returns (`none` for nil), and the output and the
error of a blob operation on a parameter. Parameters and outputs are identified
by numbers; a nil output is `none`. -/
structure BackendImpl where
  initResult : String → Option StoreError
  caps : Option Capabilities
  answer : BlobOp → Nat → Option Nat × Option StoreError

/-- A value of the interface `ObjectBackend` held by the wrapper: a backend, or
the `ObjectBackendInitError` that replaces it after a failed `Init`. -/
inductive ObjectBackend where
  | impl (b : BackendImpl)
  | initError (err : StoreError) (cap : Capabilities)

/-- The method `Init` of the interface value: `ObjectBackendInitError.Init`
returns the error value itself. -/
def ObjectBackend.Init (b : ObjectBackend) (key : String) : Option StoreError :=
  match b with
  | ObjectBackend.impl r => r.initResult key
  | ObjectBackend.initError err cap => some (StoreError.ObjectBackendInitError err cap)

/-- The method `Capabilities` of the interface value. -/
def ObjectBackend.Capabilities (b : ObjectBackend) : Option Capabilities :=
  match b with
  | ObjectBackend.impl r => r.caps
  | ObjectBackend.initError _ cap => some cap

/-- A blob operation of the interface value: every blob operation of
`ObjectBackendInitError` returns a nil output and the error value itself. -/
def ObjectBackend.blob (b : ObjectBackend) (op : BlobOp) (param : Nat) :
    Option Nat × Option StoreError :=
  match b with
  | ObjectBackend.impl r => r.answer op param
  | ObjectBackend.initError err cap => (none, some (StoreError.ObjectBackendInitError err cap))

/-- The struct `ObjectBackendInitWrapper`. `init` is the state of the
`sync.Once` (true once `Do` has run); `initCalls` is a ghost counter of the
invocations of the wrapped backend's `Init`. -/
structure ObjectBackendInitWrapper where
  ObjectBackend : ObjectBackend
  init : Bool
  initKey : String
  initErr : Option StoreError
  initCalls : Nat

/-- What a call on the wrapper does: `Init` returns an error value (`none` for
nil), a blob operation returns an output and an error value, or the call
panics. -/
inductive CallResult where
  | initReturned (err : Option StoreError)
  | blobReturned (out : Option Nat) (err : Option StoreError)
  | panicked
  deriving DecidableEq, Repr

/-- `ObjectBackendInitWrapper.Init`. The function passed to `init.Do` runs on
the first call only; `Do` counts as done also when that function panics, which
it does when it dereferences a nil `Capabilities()`. -/
def ObjectBackendInitWrapper.Init (s : ObjectBackendInitWrapper) (_key : String) :
    CallResult × ObjectBackendInitWrapper :=
  if s.init then (CallResult.initReturned s.initErr, s)
  else
    let s1 := { s with init := true
                       initErr := s.ObjectBackend.Init s.initKey
                       initCalls := s.initCalls + 1 }
    match s1.initErr with
    | none => (CallResult.initReturned s1.initErr, s1)
    | some e =>
      match s1.ObjectBackend.Capabilities with
      | none => (CallResult.panicked, s1)
      | some cap =>
        (CallResult.initReturned s1.initErr,
          { s1 with ObjectBackend := ObjectBackend.initError e cap })

/-- The blob operations of `ObjectBackendInitWrapper`, which all read
`s.Init(""); return s.ObjectBackend.Op(param)`. -/
def ObjectBackendInitWrapper.blob (s : ObjectBackendInitWrapper) (op : BlobOp) (param : Nat) :
    CallResult × ObjectBackendInitWrapper :=
  match s.Init "" with
  | (CallResult.panicked, s1) => (CallResult.panicked, s1)
  | (_, s1) =>
    (CallResult.blobReturned (s1.ObjectBackend.blob op param).1 (s1.ObjectBackend.blob op param).2,
      s1)

/-- A call on the wrapper. -/
inductive WrapperCall where
  | Init (key : String)
  | blob (op : BlobOp) (param : Nat)
  deriving DecidableEq, Repr

/-- Run one call on the wrapper. -/
def WrapperCall.run (c : WrapperCall) (s : ObjectBackendInitWrapper) :
    CallResult × ObjectBackendInitWrapper :=
  match c with
  | WrapperCall.Init key => s.Init key
  | WrapperCall.blob op param => s.blob op param

/-- Run a sequence of calls on the wrapper: the results, in order, and the
wrapper after the last call. -/
def runWrapper : List WrapperCall → ObjectBackendInitWrapper →
    List CallResult × ObjectBackendInitWrapper
  | [], s => ([], s)
  | c :: cs, s =>
    let r := c.run s
    let rest := runWrapper cs r.2
    (r.1 :: rest.1, rest.2)

/-- A wrapper as it is constructed around the backend `r`: nothing has been
initialised. -/
def newWrapper (r : BackendImpl) (key : String) : ObjectBackendInitWrapper :=
  { ObjectBackend := ObjectBackend.impl r, init := false, initKey := key, initErr := none,
    initCalls := 0 }

/-- An example backend whose `Init` fails with the message `msg` when it is not
empty, and whose blob operations answer with the output `7` and no error. -/
def exampleBackend (msg : String) : BackendImpl :=
  { initResult := fun _ => if msg = "" then none else some (StoreError.backend msg)
    caps := some { NoParallelMultipart := false, MaxMultipartSize := 5, DirBlob := false,
                   Name := "example", Base := none }
    answer := fun _ _ => (some 7, none) }

/-! ## Opening and creating files (`fs.go`) -/

/-- The request `fuseops.OpenFileOp`; `Pid` is `op.Metadata.Pid`. -/
structure OpenFileOp where
  Inode : InodeID
  Pid : Nat
  deriving DecidableEq, Repr

/-- The fields of `fuseops.OpenFileOp` that the handler fills in. -/
structure OpenFileReply where
  Handle : HandleID
  KeepPageCache : Bool
  deriving DecidableEq, Repr

/-- Modelled from the spec: `Inode.OpenFile` (not in src). Opens a handle on
the inode at `p`: the count of live file handles of the inode is incremented
and a new handle that references the inode is returned; `tgid` is the process
group recorded in the handle and `resp` the error of the call. -/
def Inode.OpenFile (p : Ptr) (tgid : Option Int) (resp : GoError) :
    M (Option FileHandle × GoError) :=
  match resp with
  | some e => pure (none, some e)
  | none => do
    modifyObj p (fun o => { o with fileHandles := o.fileHandles + 1 })
    pure (some { inode := p, Tgid := tgid, keepPageCache := false }, none)

/-- The statements of `OpenFile` under the inode's lock. The handle is held by
`fs.fileHandles` through a pointer, so the assignment to `fh.keepPageCache`
shows in the entry of the map. -/
def openFileFlag (ino : Ptr) (handleID : HandleID) (fh : FileHandle) :
    M (GoError × OpenFileReply) := do
  let o ← deref ino
  (fun s => (Outcome.ok (), { s with
    fileHandles := GoMap.set s.fileHandles handleID
      { fh with keepPageCache := !o.invalidateCache } }))
  modifyObj ino (fun o1 => { o1 with invalidateCache := false })
  pure (none, { Handle := handleID, KeepPageCache := !o.invalidateCache })

/-- `FileSystem.OpenFile`. `tgid` and `resp` are what `in.OpenFile(op.Metadata)`
records and returns. -/
def OpenFile (op : OpenFileOp) (tgid : Option Int) (resp : GoError) :
    M (GoError × OpenFileReply) := do
  muRLock
  let ino ← getInodeOrDie op.Inode
  muRUnlock
  let (fh, err) ← Inode.OpenFile ino tgid resp
  if err ≠ none then pure (err, { Handle := 0, KeepPageCache := false })
  else
    match fh with
    | none => goPanic nilDeref
    | some h => do
      muLock
      let handleID ← (fun s => (Outcome.ok s.nextHandleID,
        { s with nextHandleID := (s.nextHandleID + 1) % U64 }))
      (fun s => (Outcome.ok (), { s with fileHandles := GoMap.set s.fileHandles handleID h }))
      muUnlock
      lockInode ino
      withDefer (unlockInode ino) (openFileFlag ino handleID h)

/-- The inode locks held after the events `tr`, when `held` were held before
them, most recent first. -/
def heldAfter (held : List Ptr) : List Ev → List Ptr
  | [] => held
  | Ev.lock p :: rest => heldAfter (p :: held) rest
  | Ev.unlock p :: rest => heldAfter (held.erase p) rest
  | _ :: rest => heldAfter held rest

/-- Whether the event acquires the table lock `fs.mu`, for reading or for writing. -/
def Ev.acquiresMu : Ev → Bool
  | Ev.muLock => true
  | Ev.muRLock => true
  | _ => false

/-- Whether, in the events `tr`, a blocking backend call is issued while the
table lock or an inode lock is held; `mu` counts the holders of the table lock
and `held` are the inode locks held before the events. -/
def backendUnderLock (mu : Nat) (held : List Ptr) : List Ev → Bool
  | [] => false
  | Ev.lock p :: rest => backendUnderLock mu (p :: held) rest
  | Ev.unlock p :: rest => backendUnderLock mu (held.erase p) rest
  | Ev.muLock :: rest => backendUnderLock (mu + 1) held rest
  | Ev.muRLock :: rest => backendUnderLock (mu + 1) held rest
  | Ev.muUnlock :: rest => backendUnderLock (mu - 1) held rest
  | Ev.muRUnlock :: rest => backendUnderLock (mu - 1) held rest
  | e :: rest =>
    (e.isBackend && (decide (mu ≠ 0) || !held.isEmpty)) || backendUnderLock mu held rest

end Fs

/-! ## Reasoning about handlers -/

namespace Fs

theorem bind_apply {α β : Type} (m : M α) (f : α → M β) (s : FileSystem) :
    (m >>= f) s = match m s with
      | (Outcome.ok a, s1) => f a s1
      | (Outcome.abort r, s1) => (Outcome.abort r, s1) := rfl

theorem pure_apply {α : Type} (a : α) (s : FileSystem) :
    (pure a : M α) s = (Outcome.ok a, s) := rfl

theorem bind_assoc_M {α β γ : Type} (m : M α) (f : α → M β) (g : β → M γ) :
    (m >>= f) >>= g = m >>= fun a => f a >>= g := by
  funext s
  simp only [bind_apply]
  rcases m s with ⟨o, t⟩
  cases o <;> rfl

theorem GoMap.get_set {κ β : Type} [DecidableEq κ] (m : GoMap κ β) (k k1 : κ) (v : β) :
    GoMap.get (GoMap.set m k v) k1 = if k = k1 then some v else GoMap.get m k1 := by
  unfold GoMap.set
  simp only [GoMap.get]
  by_cases h : k = k1
  · simp [h]
  · simp only [h, if_false]
    induction m with
    | nil => simp [GoMap.delete, GoMap.get]
    | cons e rest ih =>
      obtain ⟨k0, v0⟩ := e
      by_cases h0 : k0 = k
      · subst h0
        simp only [GoMap.delete, List.filter, GoMap.get, h, if_false] at ih ⊢
        simpa using ih
      · simp only [GoMap.delete, List.filter, GoMap.get] at ih ⊢
        simp only [ne_eq, h0, not_false_eq_true, decide_True, GoMap.get]
        by_cases h1 : k0 = k1
        · simp [h1]
        · simpa [h1] using ih

theorem GoMap.get_delete {κ β : Type} [DecidableEq κ] (m : GoMap κ β) (k k1 : κ) :
    GoMap.get (GoMap.delete m k) k1 = if k = k1 then none else GoMap.get m k1 := by
  induction m with
  | nil => simp [GoMap.delete, GoMap.get]
  | cons e rest ih =>
    obtain ⟨k0, v0⟩ := e
    by_cases h0 : k0 = k
    · subst h0
      simp only [GoMap.delete, List.filter, GoMap.get] at ih ⊢
      by_cases h1 : k0 = k1
      · simpa [h1] using ih
      · simpa [h1] using ih
    · simp only [GoMap.delete, List.filter, GoMap.get] at ih ⊢
      simp only [ne_eq, h0, not_false_eq_true, decide_True, GoMap.get]
      by_cases h1 : k0 = k1
      · subst h1
        simp [Ne.symm h0]
      · simpa [h1] using ih

theorem Safe.panic {I : FileSystem → Prop} {s : FileSystem} (msg : String) (e : GoError)
    (h : I s) : Safe I (Abort.panic msg e) s :=
  ⟨fun hc => Abort.noConfusion hc, h⟩

theorem Triple.bind {α β : Type} {P : FileSystem → Prop} {m : M α} {f : α → M β}
    {Q : α → FileSystem → Prop} {R : β → FileSystem → Prop} {E : Abort → FileSystem → Prop}
    (h1 : Triple P m Q E) (h2 : ∀ a, Triple (Q a) (f a) R E) : Triple P (m >>= f) R E := by
  intro s hs
  have h := h1 s hs
  rw [bind_apply]
  rcases hm : m s with ⟨o, s1⟩
  rw [hm] at h
  cases o with
  | ok a => exact h2 a s1 h
  | abort r => exact h

theorem Triple.assume {α : Type} {P : FileSystem → Prop} {m : M α}
    {Q : α → FileSystem → Prop} {E : Abort → FileSystem → Prop}
    (h : ∀ s, P s → Triple P m Q E) : Triple P m Q E :=
  fun s hs => h s hs s hs

theorem Triple.pure {α : Type} {P : FileSystem → Prop} {Q : α → FileSystem → Prop}
    {E : Abort → FileSystem → Prop} (a : α) (h : ∀ s, P s → Q a s) :
    Triple P (pure a) Q E := by
  intro s hs
  exact h s hs

theorem Triple.weaken {α : Type} {P P1 : FileSystem → Prop} {m : M α}
    {Q Q1 : α → FileSystem → Prop} {E E1 : Abort → FileSystem → Prop}
    (h : Triple P1 m Q1 E1) (hp : ∀ s, P s → P1 s) (hq : ∀ a s, Q1 a s → Q a s)
    (he : ∀ r s, E1 r s → E r s) : Triple P m Q E := by
  intro s hs
  have h0 := h s (hp s hs)
  rcases hm : m s with ⟨o, s1⟩
  rw [hm] at h0
  cases o with
  | ok a => exact hq a s1 h0
  | abort r => exact he r s1 h0

theorem Triple.goPanic {α : Type} {P I : FileSystem → Prop} {Q : α → FileSystem → Prop}
    (msg : String) (he : ∀ s, P s → I s) : Triple P (goPanic msg) Q (Safe I) := by
  intro s hs
  exact Safe.panic _ _ (he s hs)

theorem Triple.deref {P I : FileSystem → Prop} (p : Ptr) (he : ∀ s, P s → I s) :
    Triple P (deref p) (fun o s => P s ∧ s.heap[p]? = some o) (Safe I) := by
  intro s hs
  unfold Fs.deref
  cases h : s.heap[p]? with
  | none => exact Safe.panic _ _ (he s hs)
  | some o => exact ⟨hs, h⟩

theorem Triple.modifyObj {P Q I : FileSystem → Prop} (p : Ptr) (f : Inode → Inode)
    (h : ∀ s o, P s → s.heap[p]? = some o → Q { s with heap := s.heap.set p (f o) })
    (he : ∀ s, P s → I s) :
    Triple P (modifyObj p f) (fun _ s => Q s) (Safe I) := by
  intro s hs
  unfold Fs.modifyObj
  cases hp : s.heap[p]? with
  | none => exact Safe.panic _ _ (he s hs)
  | some o => exact h s o hs hp

end Fs

namespace Fs

theorem Stable.refl (X : Ptr → Prop) (s : FileSystem) : Stable X s s :=
  ⟨rfl, rfl, rfl, fun _ o h => ⟨o, h, rfl, id, fun _ => rfl⟩⟩

theorem Stable.trans {X : Ptr → Prop} {s0 s1 s2 : FileSystem}
    (h1 : Stable X s0 s1) (h2 : Stable X s1 s2) : Stable X s0 s2 := by
  obtain ⟨a1, b1, c1, d1⟩ := h1
  obtain ⟨a2, b2, c2, d2⟩ := h2
  refine ⟨a2.trans a1, b2.trans b1, c2.trans c1, ?_⟩
  intro p o ho
  obtain ⟨o1, ho1, n1, k1, i1⟩ := d1 p o ho
  obtain ⟨o2, ho2, n2, k2, i2⟩ := d2 p o1 ho1
  exact ⟨o2, ho2, n2.trans n1, fun h => k2 (k1 h), fun h => (i2 h).trans (i1 h)⟩

theorem Stable.mono {X Y : Ptr → Prop} {s0 s : FileSystem} (hXY : ∀ p, X p → Y p)
    (h : Stable X s0 s) : Stable Y s0 s := by
  obtain ⟨a, b, c, d⟩ := h
  refine ⟨a, b, c, ?_⟩
  intro p o ho
  obtain ⟨o1, ho1, n1, k1, i1⟩ := d p o ho
  exact ⟨o1, ho1, n1, k1, fun hy => i1 (fun hx => hy (hXY p hx))⟩

theorem Stable.fresh {X : Ptr → Prop} {s0 s : FileSystem} (h : Stable X s0 s) :
    s0.heap[s.heap.length]? = none := by
  cases h0 : s0.heap[s.heap.length]? with
  | none => rfl
  | some o =>
    obtain ⟨o1, ho1, _⟩ := h.2.2.2 _ o h0
    have hlt : s.heap.length < s.heap.length := by
      have := List.getElem?_eq_some.mp ho1
      exact this.1
    exact absurd hlt (lt_irrefl _)

theorem Stable.set {X : Ptr → Prop} {s0 s : FileSystem} (h : Stable X s0 s) (p : Ptr)
    (o o1 : Inode) (hp : s.heap[p]? = some o) (hn : o1.Name = o.Name)
    (hd : o.isDir = true → o1.isDir = true)
    (hid : X p ∨ s0.heap[p]? = none ∨ o1.Id = o.Id) :
    Stable X s0 { s with heap := s.heap.set p o1 } := by
  obtain ⟨a, b, c, d⟩ := h
  refine ⟨a, b, c, ?_⟩
  intro q oq hq
  obtain ⟨o2, ho2, n2, k2, i2⟩ := d q oq hq
  by_cases hqp : p = q
  · subst hqp
    have hlt : p < s.heap.length := (List.getElem?_eq_some.mp hp).1
    have e : o2 = o := Option.some.inj (ho2.symm.trans hp)
    subst e
    refine ⟨o1, ?_, hn.trans n2, fun hh => hd (k2 hh), ?_⟩
    · simp [List.getElem?_set, hlt]
    · intro hx
      rcases hid with h1 | h1 | h1
      · exact absurd h1 hx
      · rw [h1] at hq
        exact absurd hq (by simp)
      · exact h1.trans (i2 hx)
  · refine ⟨o2, ?_, n2, k2, i2⟩
    simp [List.getElem?_set, hqp, ho2]

theorem Stable.push {X : Ptr → Prop} {s0 s : FileSystem} (h : Stable X s0 s) (o : Inode) :
    Stable X s0 { s with heap := s.heap ++ [o] } := by
  obtain ⟨a, b, c, d⟩ := h
  refine ⟨a, b, c, ?_⟩
  intro q oq hq
  obtain ⟨o2, ho2, n2, k2, i2⟩ := d q oq hq
  have hlt : q < s.heap.length := (List.getElem?_eq_some.mp ho2).1
  exact ⟨o2, by simp [List.getElem?_append, hlt, ho2], n2, k2, i2⟩

theorem NameAt.setObj {q : Ptr} {nm : String} {s : FileSystem} (h : NameAt q nm s) (p : Ptr)
    (o o1 : Inode) (hp : s.heap[p]? = some o) (hn : o1.Name = o.Name) :
    NameAt q nm { s with heap := s.heap.set p o1 } := by
  obtain ⟨oq, hq, hnm⟩ := h
  by_cases hqp : p = q
  · subst hqp
    have hlt : p < s.heap.length := (List.getElem?_eq_some.mp hp).1
    have e : oq = o := Option.some.inj (hq.symm.trans hp)
    subst e
    exact ⟨o1, by simp [List.getElem?_set, hlt], hn.trans hnm⟩
  · exact ⟨oq, by simp [List.getElem?_set, hqp, hq], hnm⟩

theorem NameAt.pushObj {q : Ptr} {nm : String} {s : FileSystem} (h : NameAt q nm s) (o : Inode) :
    NameAt q nm { s with heap := s.heap ++ [o] } := by
  obtain ⟨oq, hq, hnm⟩ := h
  have hlt : q < s.heap.length := (List.getElem?_eq_some.mp hq).1
  exact ⟨oq, by simp [List.getElem?_append, hlt, hq], hnm⟩

/-- `insertChildUnlocked` only rewrites the child index of the parent. -/
theorem insertChildUnlocked_triple (P I : FileSystem → Prop) (parent inode : Ptr)
    (hset : ∀ s o o1, P s → s.heap[parent]? = some o → o1.Name = o.Name → o1.Id = o.Id →
      (o.isDir = true → o1.isDir = true) → P { s with heap := s.heap.set parent o1 })
    (he : ∀ s, P s → I s) :
    Triple P (insertChildUnlocked parent inode) (fun _ s => P s) (Safe I) := by
  unfold insertChildUnlocked
  apply Triple.bind (Triple.deref parent he)
  intro par
  cases hd : par.dir with
  | none => exact Triple.goPanic _ (fun s h => he s h.1)
  | some d =>
    apply Triple.bind (Q := fun _ s => P s)
    · exact Triple.weaken (Triple.deref inode he) (fun s h => h.1) (fun _ _ h => h.1)
        (fun _ _ h => h)
    · intro ino
      apply Triple.modifyObj
      · intro s o hs ho
        refine hset s o _ hs ho rfl rfl ?_
        intro hdir
        cases hod : o.dir with
        | none => simp [Inode.isDir, hod] at hdir
        | some d0 => simp [Inode.isDir, hod]
      · exact he

theorem insertChildUnlocked_stable (X : Ptr → Prop) (s0 : FileSystem) (parent inode : Ptr) :
    Triple (Stable X s0) (insertChildUnlocked parent inode) (fun _ s => Stable X s0 s)
      (Safe (Stable X s0)) :=
  insertChildUnlocked_triple _ _ parent inode
    (fun _ o o1 hs ho hn hi hd => Stable.set hs parent o o1 ho hn hd (Or.inr (Or.inr hi)))
    (fun _ h => h)

/-- An inode named `.` or `..` is inserted without touching the table or the
allocator, whatever the recursion bound. -/
theorem insertInodeFuel_special (k : Nat) (X : Ptr → Prop) (s0 : FileSystem)
    (parent inode : Ptr) :
    Triple (fun s => Stable X s0 s ∧ (NameAt inode "." s ∨ NameAt inode ".." s) ∧
        (X inode ∨ s0.heap[inode]? = none))
      (insertInodeFuel (k + 1) parent inode) (fun _ s => Stable X s0 s)
      (Safe (Stable X s0)) := by
  unfold insertInodeFuel
  apply Triple.bind (Triple.deref inode (fun s h => h.1))
  intro ino
  have hId : ∀ (v : InodeID) (P : FileSystem → Prop), (∀ s, P s → Stable X s0 s ∧
      (X inode ∨ s0.heap[inode]? = none)) →
      Triple P (modifyObj inode (fun o => { o with Id := v })) (fun _ s => Stable X s0 s)
        (Safe (Stable X s0)) := by
    intro v P hP
    apply Triple.modifyObj
    · intro s o hs ho
      exact Stable.set (hP s hs).1 inode o _ ho rfl (fun h => h)
        ((hP s hs).2.elim Or.inl (fun h => Or.inr (Or.inl h)))
    · exact fun s hs => (hP s hs).1
  by_cases h1 : ino.Name = "."
  · rw [if_pos h1]
    apply Triple.bind (Triple.deref parent (fun s h => h.1.1))
    intro par
    apply Triple.bind (hId par.Id _ (fun s hs => ⟨hs.1.1.1, hs.1.1.2.2⟩))
    intro _
    exact insertChildUnlocked_stable X s0 parent inode
  · rw [if_neg h1]
    by_cases h2 : ino.Name = ".."
    · rw [if_pos h2]
      apply Triple.bind (Q := fun _ s => Stable X s0 s ∧ (X inode ∨ s0.heap[inode]? = none))
      · apply Triple.modifyObj
        · intro s o hs ho
          exact ⟨Stable.set hs.1.1 inode o _ ho rfl (fun h => h)
            (hs.1.2.2.elim Or.inl (fun h => Or.inr (Or.inl h))), hs.1.2.2⟩
        · exact fun s hs => hs.1.1
      · intro _
        apply Triple.bind (Triple.deref parent (fun s h => h.1))
        intro par
        dsimp only
        cases hpp : par.Parent with
        | none =>
          dsimp only
          apply Triple.bind (Q := fun _ s => Stable X s0 s)
          · exact Triple.pure () (fun s h => h.1.1)
          · intro _
            exact insertChildUnlocked_stable X s0 parent inode
        | some pp =>
          dsimp only
          apply Triple.bind (Triple.deref pp (fun s h => h.1.1))
          intro grand
          apply Triple.bind (hId grand.Id _ (fun s hs => hs.1.1))
          intro _
          exact insertChildUnlocked_stable X s0 parent inode
    · rw [if_neg h2]
      intro s hs
      exfalso
      obtain ⟨⟨_, hnm, _⟩, hino⟩ := hs
      rcases hnm with ⟨o, ho, hn⟩ | ⟨o, ho, hn⟩
      · exact h1 ((Option.some.inj (hino.symm.trans ho)) ▸ hn)
      · exact h2 ((Option.some.inj (hino.symm.trans ho)) ▸ hn)

/-- `NewInode` allocates an object with the given name at a fresh address. -/
theorem NewInode_stable (X : Ptr → Prop) (s0 : FileSystem) (parent : Option Ptr)
    (nm : String) :
    Triple (Stable X s0) (NewInode parent nm)
      (fun p s => Stable X s0 s ∧ NameAt p nm s ∧ s0.heap[p]? = none) (Safe (Stable X s0)) := by
  intro s hs
  show Stable X s0 { s with heap := s.heap ++ [_] } ∧
    NameAt s.heap.length nm { s with heap := s.heap ++ [_] } ∧ s0.heap[s.heap.length]? = none
  refine ⟨Stable.push hs _, ⟨newInodeObj s.clock parent nm, ?_, rfl⟩, Stable.fresh hs⟩
  simp

/-- The synthesized `.` and `..` entries are inserted without touching the
table or the allocator. -/
theorem addDotAndDotDotWith_stable (k : Nat) (X : Ptr → Prop) (s0 : FileSystem) (dir : Ptr) :
    Triple (Stable X s0) (addDotAndDotDotWith (insertInodeFuel (k + 1)) dir)
      (fun _ s => Stable X s0 s) (Safe (Stable X s0)) := by
  have hmk : ∀ (nm : String) (dot : Ptr) (f : Inode → Inode), (∀ o, (f o).Name = o.Name) →
      (∀ o, o.isDir = true → (f o).isDir = true) →
      Triple (fun s => Stable X s0 s ∧ NameAt dot nm s ∧ s0.heap[dot]? = none)
        (modifyObj dot f)
        (fun _ s => Stable X s0 s ∧ NameAt dot nm s ∧ s0.heap[dot]? = none)
        (Safe (Stable X s0)) := by
    intro nm dot f hf hd
    apply Triple.modifyObj
    · intro s o hs ho
      exact ⟨Stable.set hs.1 dot o _ ho (hf o) (hd o) (Or.inr (Or.inl hs.2.2)),
        NameAt.setObj hs.2.1 dot o _ ho (hf o), hs.2.2⟩
    · exact fun s hs => hs.1
  have htodir : ∀ o : Inode, o.isDir = true → (match o.dir with
      | some _ => o
      | none => { o with dir := some { cloud := none, mountPrefix := "", DirTime := zeroTime,
                                       Children := [] } }).isDir = true := by
    intro o ho
    cases hod : o.dir with
    | none => simp [Inode.isDir]
    | some d => simpa using ho
  have htoname : ∀ o : Inode, (match o.dir with
      | some _ => o
      | none => { o with dir := some { cloud := none, mountPrefix := "", DirTime := zeroTime,
                                       Children := [] } }).Name = o.Name := by
    intro o
    cases hod : o.dir <;> rfl
  have hone : ∀ nm : String, (nm = "." ∨ nm = "..") →
      Triple (Stable X s0) (do
        let dot ← NewInode (some dir) nm
        ToDir dot
        modifyObj dot (fun o => { o with AttrTime := TIMEMAX })
        insertInodeFuel (k + 1) dir dot) (fun _ s => Stable X s0 s) (Safe (Stable X s0)) := by
    intro nm hnm
    apply Triple.bind (NewInode_stable X s0 (some dir) nm)
    intro dot
    have hToDir : Triple (fun s => Stable X s0 s ∧ NameAt dot nm s ∧ s0.heap[dot]? = none)
        (ToDir dot) (fun _ s => Stable X s0 s ∧ NameAt dot nm s ∧ s0.heap[dot]? = none)
        (Safe (Stable X s0)) := hmk nm dot _ htoname htodir
    apply Triple.bind hToDir
    intro _
    apply Triple.bind (hmk nm dot (fun o => { o with AttrTime := TIMEMAX }) (fun _ => rfl)
      (fun _ h => h))
    intro _
    refine Triple.weaken (insertInodeFuel_special k X s0 dir dot) ?_ (fun _ _ h => h)
      (fun _ _ h => h)
    intro s hs
    refine ⟨hs.1, ?_, Or.inr hs.2.2⟩
    rcases hnm with h | h
    · exact Or.inl (h ▸ hs.2.1)
    · exact Or.inr (h ▸ hs.2.1)
  have h1 := hone "." (Or.inl rfl)
  have h2 := hone ".." (Or.inr rfl)
  intro s hs
  have e : addDotAndDotDotWith (insertInodeFuel (k + 1)) dir s =
      ((do
        let dot ← NewInode (some dir) "."
        ToDir dot
        modifyObj dot (fun o => { o with AttrTime := TIMEMAX })
        insertInodeFuel (k + 1) dir dot) >>= fun _ => (do
        let dot ← NewInode (some dir) ".."
        ToDir dot
        modifyObj dot (fun o => { o with AttrTime := TIMEMAX })
        insertInodeFuel (k + 1) dir dot)) s := by
    unfold addDotAndDotDotWith
    simp only [bind_assoc_M]
  rw [e]
  exact Triple.bind h1 (fun _ => h2) s hs

end Fs

namespace Fs

theorem insertInodeFuel_cases (k : Nat) (s : FileSystem) (parent inode : Ptr) :
    Triple (fun t => t = s) (insertInodeFuel (k + 2) parent inode)
      (fun _ t => InsertPost s inode t) (Safe (InsertPost s inode)) := by
  by_cases hsp : NameAt inode "." s ∨ NameAt inode ".." s
  · refine Triple.weaken (insertInodeFuel_special (k + 1)
      (fun p => p = inode ∧ (NameAt inode "." s ∨ NameAt inode ".." s)) s parent inode) ?_
      (fun _ _ h => Or.inl h) (fun _ _ h => ⟨h.1, Or.inl h.2⟩)
    intro t ht
    subst ht
    exact ⟨Stable.refl _ _, hsp, Or.inl ⟨rfl, hsp⟩⟩
  · unfold insertInodeFuel
    apply Triple.bind (Triple.deref (P := fun t => t = s) (I := InsertPost s inode) inode
      (fun t ht => Or.inl (ht ▸ Stable.refl _ _)))
    intro ino
    apply Triple.assume
    rintro t0 ⟨rfl, hino⟩
    have e1 : ino.Name ≠ "." := fun hc => hsp (Or.inl ⟨ino, hino, hc⟩)
    have e2 : ino.Name ≠ ".." := fun hc => hsp (Or.inr ⟨ino, hino, hc⟩)
    rw [if_neg e1, if_neg e2]
    dsimp only
    by_cases hid : ino.Id ≠ 0
    · rw [if_pos hid]
      apply Triple.bind (Q := fun _ _ => False)
      · exact Triple.goPanic _ (fun t ht => Or.inl (ht.1 ▸ Stable.refl _ _))
      · intro _ t ht
        exact absurd ht id
    · rw [if_neg hid]
      have hid0 : ino.Id = 0 := not_not.mp hid
      have hA : ∀ t, Stable (fun _ => False) (afterSetId t0 inode ino) t → InsertPost t0 inode t :=
        fun t ht => Or.inr ⟨ino, hino, e1, e2, hid0, Or.inr (Or.inl ht)⟩
      have hB : ∀ t, Stable (fun _ => False) (afterRegister t0 inode ino) t →
          InsertPost t0 inode t :=
        fun t ht => Or.inr ⟨ino, hino, e1, e2, hid0, Or.inr (Or.inr ht)⟩
      apply Triple.bind (Q := fun _ t => t = t0)
      · exact Triple.pure () (fun t ht => ht.1)
      intro _
      apply Triple.bind (Q := fun id t => id = t0.nextInodeID ∧ t = afterAlloc t0)
      · rintro t rfl
        exact ⟨rfl, rfl⟩
      intro id
      apply Triple.bind (Q := fun _ t => Stable (fun _ => False) (afterSetId t0 inode ino) t ∧
        id = t0.nextInodeID)
      · rintro t ⟨rfl, rfl⟩
        unfold modifyObj
        have : (afterAlloc t0).heap[inode]? = some ino := hino
        rw [this]
        exact ⟨Stable.refl _ _, rfl⟩
      intro _
      apply Triple.bind (Q := fun _ t => Stable (fun _ => False) (afterSetId t0 inode ino) t ∧
        id = t0.nextInodeID)
      · exact insertChildUnlocked_triple _ _ parent inode
          (fun _ o o1 hs ho hn hi hd =>
            ⟨Stable.set hs.1 parent o o1 ho hn hd (Or.inr (Or.inr hi)), hs.2⟩)
          (fun t ht => hA t ht.1)
      intro _
      apply Triple.bind (Q := fun _ t => Stable (fun _ => False) (afterRegister t0 inode ino) t)
      · rintro t ⟨⟨a, b, c, d⟩, rfl⟩
        refine ⟨?_, b, c, d⟩
        show GoMap.set t.inodes t0.nextInodeID inode = GoMap.set t0.inodes t0.nextInodeID inode
        rw [a]
        rfl
      intro _
      apply Triple.bind (Triple.deref inode hB)
      intro ino1
      by_cases hdir : ino1.isDir = true
      · rw [if_pos hdir]
        exact Triple.weaken (addDotAndDotDotWith_stable k (fun _ => False)
          (afterRegister t0 inode ino) inode) (fun _ h => h.1) (fun _ t h => hB t h)
          (fun _ t h => ⟨h.1, hB t h.2⟩)
      · rw [if_neg hdir]
        exact Triple.pure () (fun t h => hB t h.1)

end Fs

namespace Fs

theorem NewFileSystem_eq (cloud : Backend) (flags : Flags) (now : Time) :
    NewFileSystem cloud flags now =
      { NewFileSystemStruct cloud flags now with
        inodes := [(RootInodeID, 0)]
        heap :=
          [ { newInodeObj now none "" with
              Id := RootInodeID
              Attributes := { Size := 0, Mtime := now }
              dir := some { cloud := some cloud, mountPrefix := "", DirTime := zeroTime,
                            Children := [("..", 2), (".", 1)] } },
            { newInodeObj now (some 0) "." with
              Id := RootInodeID
              AttrTime := TIMEMAX
              dir := some { cloud := none, mountPrefix := "", DirTime := zeroTime,
                            Children := [] } },
            { newInodeObj now (some 0) ".." with
              Id := RootInodeID
              AttrTime := TIMEMAX
              dir := some { cloud := none, mountPrefix := "", DirTime := zeroTime,
                            Children := [] } } ] } := by
  simp [NewFileSystem, NewFileSystemBody, NewFileSystemStruct, bind_apply, pure_apply, NewInode,
    newObj, modifyObj, ToDir, addDotAndDotDot, addDotAndDotDotWith, insertInodeFuel, deref,
    insertChildUnlocked, newInodeObj, GoMap.set, GoMap.delete]

theorem NewFileSystem_get (cloud : Backend) (flags : Flags) (now : Time) (k : InodeID) (p : Ptr)
    (h : GoMap.get (NewFileSystem cloud flags now).inodes k = some p) :
    k = RootInodeID ∧ p = 0 := by
  rw [NewFileSystem_eq] at h
  simp only [GoMap.get] at h
  by_cases hk : RootInodeID = k
  · rw [if_pos hk] at h
    exact ⟨hk.symm, (Option.some.inj h).symm⟩
  · rw [if_neg hk] at h
    exact absurd h (by simp)

theorem NewFileSystem_tableInvariant (cloud : Backend) (flags : Flags) (now : Time) :
    tableInvariant (NewFileSystem cloud flags now) := by
  constructor
  · intro k p h
    obtain ⟨rfl, rfl⟩ := NewFileSystem_get cloud flags now k p h
    rw [NewFileSystem_eq]
    refine ⟨le_refl _, by simp [NewFileSystemStruct, RootInodeID], _, rfl, rfl⟩
  · rw [NewFileSystem_eq]
    exact ⟨0, _, by simp [GoMap.get], rfl, rfl⟩

theorem NewFileSystem_namesInvariant (cloud : Backend) (flags : Flags) (now : Time) :
    namesInvariant (NewFileSystem cloud flags now) := by
  intro k p o h ho
  obtain ⟨rfl, rfl⟩ := NewFileSystem_get cloud flags now k p h
  rw [NewFileSystem_eq] at ho
  have e : o = _ := (Option.some.inj ho).symm
  subst e
  simp [newInodeObj]

theorem tableInvariant_of_stable {X : Ptr → Prop} {s0 t : FileSystem}
    (h0 : tableInvariant s0) (hX : ∀ k p, GoMap.get s0.inodes k = some p → ¬ X p)
    (hst : Stable X s0 t) : tableInvariant t := by
  obtain ⟨a, b, _, d⟩ := hst
  constructor
  · intro k p h
    rw [a] at h
    obtain ⟨h1, h2, o, ho, hid⟩ := h0.1 k p h
    obtain ⟨o1, ho1, _, _, hi⟩ := d p o ho
    exact ⟨h1, b ▸ h2, o1, ho1, (hi (hX k p h)).trans hid⟩
  · obtain ⟨p, o, hp, ho, hd⟩ := h0.2
    obtain ⟨o1, ho1, _, hk, _⟩ := d p o ho
    exact ⟨p, o1, a ▸ hp, ho1, hk hd⟩

theorem namesInvariant_of_stable {X : Ptr → Prop} {s0 t : FileSystem}
    (h0 : namesInvariant s0) (hst : Stable X s0 t)
    (hreg : ∀ k p, GoMap.get s0.inodes k = some p → ∃ o, s0.heap[p]? = some o) :
    namesInvariant t := by
  obtain ⟨a, _, _, d⟩ := hst
  intro k p o1 h ho1
  rw [a] at h
  obtain ⟨o, ho⟩ := hreg k p h
  obtain ⟨o2, ho2, hn, _, _⟩ := d p o ho
  have e : o2 = o1 := Option.some.inj (ho2.symm.trans ho1)
  subst e
  rw [hn]
  exact h0 k p o h ho

theorem allocated_append (a b : List Ev) : allocated (a ++ b) = allocated a ++ allocated b := by
  simp [allocated, List.filterMap_append]

end Fs

namespace Fs

theorem mod_U64_succ {n : Nat} (h : n + 1 < U64) : (n + 1) % U64 = n + 1 :=
  Nat.mod_eq_of_lt h

theorem tableInvariant_afterAlloc {s : FileSystem} (h : tableInvariant s)
    (hov : s.nextInodeID + 1 < U64) : tableInvariant (afterAlloc s) := by
  constructor
  · intro k p hk
    obtain ⟨h1, h2, ho⟩ := h.1 k p hk
    refine ⟨h1, ?_, ho⟩
    show k < (s.nextInodeID + 1) % U64
    rw [mod_U64_succ hov]
    exact Nat.lt_succ_of_lt h2
  · exact h.2

theorem tableInvariant_afterSetId {s : FileSystem} {inode : Ptr} {ino : Inode}
    (h : tableInvariant s) (hov : s.nextInodeID + 1 < U64)
    (hfresh : ∀ k, GoMap.get s.inodes k ≠ some inode) :
    tableInvariant (afterSetId s inode ino) := by
  have h1 := tableInvariant_afterAlloc h hov
  have hget : ∀ k p, GoMap.get s.inodes k = some p →
      (afterSetId s inode ino).heap[p]? = s.heap[p]? := by
    intro k p hk
    have hne : inode ≠ p := fun hc => hfresh k (hc ▸ hk)
    show (s.heap.set inode _)[p]? = s.heap[p]?
    simp [List.getElem?_set, hne]
  constructor
  · intro k p hk
    obtain ⟨a, b, c⟩ := h1.1 k p hk
    refine ⟨a, b, ?_⟩
    rw [hget k p hk]
    exact c
  · obtain ⟨p, o, hp, ho, hd⟩ := h.2
    exact ⟨p, o, hp, (hget _ p hp).trans ho, hd⟩

theorem tableInvariant_afterRegister {s : FileSystem} {inode : Ptr} {ino : Inode}
    (h : tableInvariant s) (hov : s.nextInodeID + 1 < U64)
    (hfresh : ∀ k, GoMap.get s.inodes k ≠ some inode) (hino : s.heap[inode]? = some ino) :
    tableInvariant (afterRegister s inode ino) := by
  have h1 := @tableInvariant_afterSetId _ _ ino h hov hfresh
  have hroot : RootInodeID < s.nextInodeID := by
    obtain ⟨p, o, hp, _, _⟩ := h.2
    exact (h.1 _ p hp).2.1
  have hlt : inode < s.heap.length := (List.getElem?_eq_some.mp hino).1
  constructor
  · intro k p hk
    have hk1 : GoMap.get (GoMap.set s.inodes s.nextInodeID inode) k = some p := hk
    rw [GoMap.get_set] at hk1
    by_cases hkn : s.nextInodeID = k
    · rw [if_pos hkn] at hk1
      have hp : p = inode := (Option.some.inj hk1).symm
      subst hp hkn
      refine ⟨le_of_lt hroot, ?_, { ino with Id := s.nextInodeID }, ?_, rfl⟩
      · show s.nextInodeID < (s.nextInodeID + 1) % U64
        rw [mod_U64_succ hov]
        exact Nat.lt_succ_self _
      · show (s.heap.set p _)[p]? = _
        simp [List.getElem?_set, hlt]
    · rw [if_neg hkn] at hk1
      exact h1.1 k p hk1
  · obtain ⟨p, o, hp, ho, hd⟩ := h1.2
    refine ⟨p, o, ?_, ho, hd⟩
    show GoMap.get (GoMap.set s.inodes s.nextInodeID inode) RootInodeID = some p
    rw [GoMap.get_set, if_neg (Nat.ne_of_gt hroot)]
    exact hp

/-- One call of `insertInode` preserves the table invariant, provided the id
counter does not overflow and the inode, if it is registered already, carries an
ordinary name and an id. -/
theorem InsertPost.preserves {s t : FileSystem} {inode : Ptr} (hinv : tableInvariant s)
    (hov : s.nextInodeID + 1 < U64)
    (H : ∀ k, GoMap.get s.inodes k = some inode → ∀ o, s.heap[inode]? = some o →
      o.Name ≠ "." ∧ o.Name ≠ ".." ∧ o.Id ≠ 0)
    (hpost : InsertPost s inode t) :
    tableInvariant t ∧ (namesInvariant s → namesInvariant t) ∧
    ((t.nextInodeID = s.nextInodeID ∧ allocated t.trace = allocated s.trace) ∨
     (t.nextInodeID = s.nextInodeID + 1 ∧
      allocated t.trace = allocated s.trace ++ [s.nextInodeID])) := by
  have hreg : ∀ k p, GoMap.get s.inodes k = some p → ∃ o, s.heap[p]? = some o :=
    fun k p hk => let ⟨_, _, o, ho, _⟩ := hinv.1 k p hk; ⟨o, ho⟩
  rcases hpost with hA | ⟨ino, hino, hn1, hn2, hid0, hB⟩
  · refine ⟨tableInvariant_of_stable hinv ?_ hA, fun hnm => namesInvariant_of_stable hnm hA hreg,
      Or.inl ⟨hA.2.1, congrArg allocated hA.2.2.1⟩⟩
    rintro k p hk ⟨rfl, hsp⟩
    obtain ⟨o, ho⟩ := hreg k p hk
    have hh := H k hk o ho
    rcases hsp with ⟨o1, ho1, hnm⟩ | ⟨o1, ho1, hnm⟩
    · exact hh.1 ((Option.some.inj (ho.symm.trans ho1)) ▸ hnm)
    · exact hh.2.1 ((Option.some.inj (ho.symm.trans ho1)) ▸ hnm)
  · have hfresh : ∀ k, GoMap.get s.inodes k ≠ some inode :=
      fun k hk => (H k hk ino hino).2.2 hid0
    have hallocA : allocated (afterAlloc s).trace = allocated s.trace ++ [s.nextInodeID] := by
      show allocated (s.trace ++ [Ev.allocId s.nextInodeID]) = _
      rw [allocated_append]
      rfl
    have hnext : (afterAlloc s).nextInodeID = s.nextInodeID + 1 := mod_U64_succ hov
    have hnoX : ∀ (s0 : FileSystem) k p, GoMap.get s0.inodes k = some p →
        ¬ (fun _ : Ptr => False) p := fun _ _ _ _ hc => hc
    have hget : ∀ p, inode ≠ p → (s.heap.set inode { ino with Id := s.nextInodeID })[p]? =
        s.heap[p]? := by
      intro p hne
      simp [List.getElem?_set, hne]
    have hnamesSet : namesInvariant s → namesInvariant (afterSetId s inode ino) := by
      intro hnm k p o hk ho
      have hne : inode ≠ p := fun hc => hfresh k (hc ▸ hk)
      have ho1 : s.heap[p]? = some o := (hget p hne).symm.trans ho
      exact hnm k p o hk ho1
    rcases hB with h1 | h2 | h3
    · refine ⟨tableInvariant_of_stable (tableInvariant_afterAlloc hinv hov) (hnoX _) h1,
        fun hnm => @namesInvariant_of_stable _ (afterAlloc s) _ hnm h1 hreg,
        Or.inr ⟨h1.2.1.trans hnext, (congrArg allocated h1.2.2.1).trans hallocA⟩⟩
    · refine ⟨tableInvariant_of_stable (tableInvariant_afterSetId hinv hov hfresh) (hnoX _) h2,
        fun hnm => namesInvariant_of_stable (hnamesSet hnm) h2 ?_,
        Or.inr ⟨h2.2.1.trans hnext, (congrArg allocated h2.2.2.1).trans hallocA⟩⟩
      intro k p hk
      obtain ⟨_, _, o, ho, _⟩ := (@tableInvariant_afterSetId _ _ ino hinv hov hfresh).1 k p hk
      exact ⟨o, ho⟩
    · have hti := tableInvariant_afterRegister hinv hov hfresh hino
      refine ⟨tableInvariant_of_stable hti (hnoX _) h3,
        fun hnm => namesInvariant_of_stable ?_ h3 ?_,
        Or.inr ⟨h3.2.1.trans hnext, (congrArg allocated h3.2.2.1).trans hallocA⟩⟩
      · intro k p o hk ho
        have hk1 : GoMap.get (GoMap.set s.inodes s.nextInodeID inode) k = some p := hk
        rw [GoMap.get_set] at hk1
        by_cases hkn : s.nextInodeID = k
        · rw [if_pos hkn] at hk1
          have hp : p = inode := (Option.some.inj hk1).symm
          subst hp
          have hlt : p < s.heap.length := (List.getElem?_eq_some.mp hino).1
          have ho1 : (s.heap.set p { ino with Id := s.nextInodeID })[p]? = some o := ho
          simp [List.getElem?_set, hlt] at ho1
          subst ho1
          exact ⟨hn1, hn2⟩
        · rw [if_neg hkn] at hk1
          exact hnamesSet hnm k p o hk1 ho
      · intro k p hk
        obtain ⟨_, _, o, ho, _⟩ := hti.1 k p hk
        exact ⟨o, ho⟩

end Fs

namespace Fs

/-! ### The recursion bound of `insertInode` is enough -/

theorem bind_congr_run {α β : Type} {m : M α} {f g : α → M β} {s : FileSystem}
    (h : ∀ a t, m s = (Outcome.ok a, t) → f a t = g a t) : (m >>= f) s = (m >>= g) s := by
  rw [bind_apply, bind_apply]
  rcases hm : m s with ⟨o, t⟩
  cases o with
  | ok a => exact h a t hm
  | abort r => rfl

theorem NewInode_named (parent : Option Ptr) (nm : String) (s t : FileSystem) (dot : Ptr)
    (h : NewInode parent nm s = (Outcome.ok dot, t)) : NameAt dot nm t := by
  simp only [NewInode, newObj, Prod.mk.injEq, Outcome.ok.injEq] at h
  obtain ⟨rfl, rfl⟩ := h
  exact ⟨newInodeObj s.clock parent nm, by simp, rfl⟩

theorem modifyObj_named (p : Ptr) (f : Inode → Inode) (nm : String) (s t : FileSystem)
    (u : Unit) (hf : ∀ o, (f o).Name = o.Name)
    (h : modifyObj p f s = (Outcome.ok u, t)) (hn : NameAt p nm s) : NameAt p nm t := by
  obtain ⟨o, ho, hnm⟩ := hn
  simp only [modifyObj, ho, Prod.mk.injEq, Outcome.ok.injEq] at h
  obtain ⟨-, rfl⟩ := h
  have hlt : p < s.heap.length := (List.getElem?_eq_some.mp ho).1
  exact ⟨f o, by simp [List.getElem?_set, hlt], (hf o).trans hnm⟩

/-- On an inode named `.` or `..`, `insertInode` does not recurse: the result
is the same for every recursion bound. -/
theorem insertInodeFuel_special_eq (k : Nat) (parent inode : Ptr) (t : FileSystem)
    (h : NameAt inode "." t ∨ NameAt inode ".." t) :
    insertInodeFuel (k + 1) parent inode t = insertInodeFuel (0 + 1) parent inode t := by
  rcases h with ⟨o, ho, hn⟩ | ⟨o, ho, hn⟩
  · simp [insertInodeFuel, bind_apply, deref, ho, hn]
  · simp [insertInodeFuel, bind_apply, deref, ho, hn]

end Fs

namespace Fs

/-- One synthesized entry is created, turned into a directory and stamped; what
follows sees an object that carries the entry's name. -/
theorem dotEntry_congr (dir : Ptr) (nm : String) (F G : Ptr → M Unit) (s : FileSystem)
    (hFG : ∀ dot t, NameAt dot nm t → F dot t = G dot t) :
    (NewInode (some dir) nm >>= fun dot =>
      ToDir dot >>= fun _ =>
      modifyObj dot (fun o => { o with AttrTime := TIMEMAX }) >>= fun _ => F dot) s =
    (NewInode (some dir) nm >>= fun dot =>
      ToDir dot >>= fun _ =>
      modifyObj dot (fun o => { o with AttrTime := TIMEMAX }) >>= fun _ => G dot) s := by
  apply bind_congr_run
  intro dot t1 h1
  apply bind_congr_run
  intro u2 t2 h2
  apply bind_congr_run
  intro u3 t3 h3
  have hn1 := NewInode_named (some dir) nm s t1 dot h1
  have hn2 : NameAt dot nm t2 := by
    refine modifyObj_named dot _ nm t1 t2 u2 ?_ h2 hn1
    intro o
    cases hod : o.dir <;> rfl
  exact hFG dot t3
    (modifyObj_named dot (fun o => { o with AttrTime := TIMEMAX }) nm t2 t3 u3 (fun _ => rfl)
      h3 hn2)

/-- The synthesized entries do not depend on the recursion bound. -/
theorem addDotAndDotDotWith_fuel (k : Nat) (dir : Ptr) (s : FileSystem) :
    addDotAndDotDotWith (insertInodeFuel (k + 1)) dir s =
      addDotAndDotDotWith (insertInodeFuel (0 + 1)) dir s := by
  unfold addDotAndDotDotWith
  refine dotEntry_congr dir "." _ _ s ?_
  intro dot t hn
  rw [bind_apply, bind_apply, insertInodeFuel_special_eq k dir dot t (Or.inl hn)]
  rcases insertInodeFuel (0 + 1) dir dot t with ⟨o, t4⟩
  cases o with
  | abort r => rfl
  | ok a =>
    refine dotEntry_congr dir ".." _ _ t4 ?_
    intro dotdot t5 hn5
    exact insertInodeFuel_special_eq k dir dotdot t5 (Or.inr hn5)

/-- The recursion bound two of `insertInode` is enough: a larger bound gives
the same result in every state. -/
theorem insertInodeFuel_adequate (k : Nat) (parent inode : Ptr) (s : FileSystem) :
    insertInodeFuel (k + 2) parent inode s = insertInode parent inode s := by
  show insertInodeFuel (k + 1 + 1) parent inode s = insertInodeFuel (0 + 1 + 1) parent inode s
  unfold insertInodeFuel
  apply bind_congr_run
  intro ino t1 h1
  split
  · rfl
  · split
    · rfl
    · dsimp only
      split
      · apply bind_congr_run
        intro y t2 h2
        simp [goPanic] at h2
      · apply bind_congr_run
        intro _ t2 _
        apply bind_congr_run
        intro id t3 _
        apply bind_congr_run
        intro _ t4 _
        apply bind_congr_run
        intro _ t5 _
        apply bind_congr_run
        intro _ t6 _
        apply bind_congr_run
        intro ino1 t7 _
        split
        · exact addDotAndDotDotWith_fuel k inode t7
        · rfl

end Fs

namespace Fs

theorem insertInode_post (s : FileSystem) (parent inode : Ptr) :
    InsertPost s inode (insertInode parent inode s).2 ∧
    (insertInode parent inode s).1 ≠ Outcome.abort Abort.outOfFuel := by
  have h := insertInodeFuel_cases 0 s parent inode s rfl
  unfold insertInode
  rcases hm : insertInodeFuel (0 + 2) parent inode s with ⟨o, t⟩
  rw [hm] at h
  cases o with
  | ok a => exact ⟨h, fun hc => Outcome.noConfusion hc⟩
  | abort r => exact ⟨h.2, fun hc => h.1 (Outcome.abort.inj hc)⟩

theorem ReachInv.registered {s : FileSystem} (h : ReachInv s) (inode : Ptr) :
    ∀ k, GoMap.get s.inodes k = some inode → ∀ o, s.heap[inode]? = some o →
      o.Name ≠ "." ∧ o.Name ≠ ".." ∧ o.Id ≠ 0 := by
  intro k hk o ho
  obtain ⟨h1, _, o1, ho1, hid⟩ := h.1.1 k inode hk
  have e : o1 = o := Option.some.inj (ho1.symm.trans ho)
  subst e
  have hn := h.2.1 k inode o1 hk ho
  refine ⟨hn.1, hn.2, ?_⟩
  rw [hid]
  exact Nat.ne_of_gt (Nat.lt_of_lt_of_le (by decide) h1)

theorem runCall_inv (c : InsertCall) {s : FileSystem} (h : ReachInv s)
    (hov : s.nextInodeID + 1 < U64) :
    ReachInv (c.run s) ∧ (c.run s).nextInodeID ≤ s.nextInodeID + 1 ∧
    s.nextInodeID ≤ (c.run s).nextInodeID ∧
    ∃ extra, allocated (c.run s).trace = allocated s.trace ++ extra ∧
      ∀ i ∈ extra, s.nextInodeID ≤ i := by
  cases c with
  | newObject o =>
    have hst : Stable (fun _ => False) s (InsertCall.run (InsertCall.newObject o) s) :=
      Stable.push (Stable.refl _ s) o
    have hreg : ∀ k p, GoMap.get s.inodes k = some p → ∃ o, s.heap[p]? = some o :=
      fun k p hk => let ⟨_, _, o, ho, _⟩ := h.1.1 k p hk; ⟨o, ho⟩
    refine ⟨⟨tableInvariant_of_stable h.1 (fun _ _ _ hc => hc) hst,
      namesInvariant_of_stable h.2.1 hst hreg, h.2.2.1, h.2.2.2⟩, Nat.le_succ _, le_refl _,
      [], by simp [InsertCall.run, newObj], by simp⟩
  | insertInode parent inode =>
    obtain ⟨hpost, _⟩ := insertInode_post s parent inode
    obtain ⟨ht, hn, hcase⟩ := InsertPost.preserves h.1 hov (h.registered inode) hpost
    show ReachInv (insertInode parent inode s).2 ∧ _
    rcases hcase with ⟨e1, e2⟩ | ⟨e1, e2⟩
    · refine ⟨⟨ht, hn h.2.1, e2 ▸ h.2.2.1, ?_⟩, ?_, ?_, [], ?_, by simp⟩
      · rw [e2, e1]
        exact h.2.2.2
      · show (insertInode parent inode s).2.nextInodeID ≤ _
        rw [e1]
        exact Nat.le_succ _
      · show _ ≤ (insertInode parent inode s).2.nextInodeID
        rw [e1]
      · show allocated (insertInode parent inode s).2.trace = _
        rw [e2]
        simp
    · refine ⟨⟨ht, hn h.2.1, ?_, ?_⟩, ?_, ?_, [s.nextInodeID], e2, by simp⟩
      · rw [e2, List.pairwise_append]
        refine ⟨h.2.2.1, List.pairwise_singleton _ _, ?_⟩
        intro a ha b hb
        rw [List.mem_singleton] at hb
        subst hb
        exact h.2.2.2 a ha
      · rw [e2, e1]
        intro i hi
        rw [List.mem_append, List.mem_singleton] at hi
        rcases hi with hi | hi
        · exact Nat.lt_succ_of_lt (h.2.2.2 i hi)
        · rw [hi]
          exact Nat.lt_succ_self _
      · show (insertInode parent inode s).2.nextInodeID ≤ _
        rw [e1]
      · show _ ≤ (insertInode parent inode s).2.nextInodeID
        rw [e1]
        exact Nat.le_succ _

theorem runCalls_inv (calls : List InsertCall) :
    ∀ s : FileSystem, ReachInv s → s.nextInodeID + calls.length < U64 →
      ReachInv (runCalls calls s) ∧
      ∃ extra, allocated (runCalls calls s).trace = allocated s.trace ++ extra ∧
        ∀ i ∈ extra, s.nextInodeID ≤ i := by
  induction calls with
  | nil =>
    intro s h _
    exact ⟨h, [], by simp [runCalls], by simp⟩
  | cons c rest ih =>
    intro s h hov
    have hov0 : s.nextInodeID + (rest.length + 1) < U64 := hov
    have hov1 : s.nextInodeID + 1 < U64 :=
      Nat.lt_of_le_of_lt (Nat.add_le_add_left (Nat.le_add_left 1 _) _) hov0
    obtain ⟨h1, hle, hge, ex1, hex1, hb1⟩ := runCall_inv c h hov1
    have hov2 : (c.run s).nextInodeID + rest.length < U64 := by
      refine Nat.lt_of_le_of_lt ?_ hov0
      calc (c.run s).nextInodeID + rest.length
          ≤ (s.nextInodeID + 1) + rest.length := Nat.add_le_add_right hle _
        _ = s.nextInodeID + (rest.length + 1) := by
          rw [Nat.add_assoc, Nat.add_comm 1]
    obtain ⟨h2, ex2, hex2, hb2⟩ := ih (c.run s) h1 hov2
    refine ⟨h2, ex1 ++ ex2, ?_, ?_⟩
    · show allocated (runCalls rest (c.run s)).trace = _
      rw [hex2, hex1, List.append_assoc]
    · intro i hi
      rw [List.mem_append] at hi
      rcases hi with hi | hi
      · exact hb1 i hi
      · exact le_trans hge (hb2 i hi)

theorem NewFileSystem_reachInv (cloud : Backend) (flags : Flags) (now : Time) :
    ReachInv (NewFileSystem cloud flags now) := by
  refine ⟨NewFileSystem_tableInvariant cloud flags now,
    NewFileSystem_namesInvariant cloud flags now, ?_, ?_⟩
  · rw [NewFileSystem_eq]
    simp [NewFileSystemStruct, allocated]
  · rw [NewFileSystem_eq]
    simp [NewFileSystemStruct, allocated]

theorem NewFileSystem_next (cloud : Backend) (flags : Flags) (now : Time) :
    (NewFileSystem cloud flags now).nextInodeID = RootInodeID + 1 := by
  rw [NewFileSystem_eq]
  rfl

theorem runCalls_next (calls : List InsertCall) :
    ∀ s : FileSystem, ReachInv s → s.nextInodeID + calls.length < U64 →
      (runCalls calls s).nextInodeID ≤ s.nextInodeID + calls.length := by
  induction calls with
  | nil =>
    intro s _ _
    exact le_refl _
  | cons c rest ih =>
    intro s h hov
    have hov0 : s.nextInodeID + (rest.length + 1) < U64 := hov
    have hov1 : s.nextInodeID + 1 < U64 :=
      Nat.lt_of_le_of_lt (Nat.add_le_add_left (Nat.le_add_left 1 _) _) hov0
    obtain ⟨h1, hle, _, _⟩ := runCall_inv c h hov1
    have hle2 : (c.run s).nextInodeID + rest.length ≤ s.nextInodeID + (rest.length + 1) :=
      calc (c.run s).nextInodeID + rest.length
          ≤ (s.nextInodeID + 1) + rest.length := Nat.add_le_add_right hle _
        _ = s.nextInodeID + (rest.length + 1) := by
          rw [Nat.add_assoc, Nat.add_comm 1]
    exact le_trans (ih (c.run s) h1 (Nat.lt_of_le_of_lt hle2 hov0)) hle2

/-- C1: starting from the state that `NewFileSystem` builds, after any sequence
of `insertInode` calls (on any pointers, interleaved with the creation of inode
objects) that does not overflow `nextInodeID`, the ids handed out by
`allocateInodeId` are strictly increasing, no two registered inodes share an
`Id`, and no id that is in the table at some point is handed out later. -/
theorem C1_ids_strictly_increasing (cloud : Backend) (flags : Flags) (now : Time)
    (before later : List InsertCall)
    (hov : RootInodeID + 1 + (before.length + later.length) < U64) :
    (allocated (runCalls later (runCalls before (NewFileSystem cloud flags now))).trace).Pairwise
      (fun a b => a < b) ∧
    (∀ k1 p1 o1 k2 p2 o2,
      GoMap.get (runCalls later (runCalls before (NewFileSystem cloud flags now))).inodes k1
        = some p1 →
      (runCalls later (runCalls before (NewFileSystem cloud flags now))).heap[p1]? = some o1 →
      GoMap.get (runCalls later (runCalls before (NewFileSystem cloud flags now))).inodes k2
        = some p2 →
      (runCalls later (runCalls before (NewFileSystem cloud flags now))).heap[p2]? = some o2 →
      o1.Id = o2.Id → k1 = k2 ∧ p1 = p2) ∧
    (∃ handedLater,
      allocated (runCalls later (runCalls before (NewFileSystem cloud flags now))).trace =
        allocated (runCalls before (NewFileSystem cloud flags now)).trace ++ handedLater ∧
      ∀ k p, GoMap.get (runCalls before (NewFileSystem cloud flags now)).inodes k = some p →
        k ∉ handedLater) := by
  have h0 := NewFileSystem_reachInv cloud flags now
  have hn0 := NewFileSystem_next cloud flags now
  have hovA : RootInodeID + 1 + before.length + later.length < U64 := by
    rw [Nat.add_assoc]
    exact hov
  have hov1 : (NewFileSystem cloud flags now).nextInodeID + before.length < U64 := by
    rw [hn0]
    exact Nat.lt_of_le_of_lt (Nat.le_add_right _ _) hovA
  obtain ⟨h1, _⟩ := runCalls_inv before _ h0 hov1
  have hnext1 := runCalls_next before _ h0 hov1
  rw [hn0] at hnext1
  have hov2 : (runCalls before (NewFileSystem cloud flags now)).nextInodeID + later.length
      < U64 := Nat.lt_of_le_of_lt (Nat.add_le_add_right hnext1 _) hovA
  obtain ⟨h2, ex2, hex2, hb2⟩ := runCalls_inv later _ h1 hov2
  refine ⟨h2.2.2.1, ?_, ex2, hex2, ?_⟩
  · intro k1 p1 o1 k2 p2 o2 hk1 ho1 hk2 ho2 hid
    obtain ⟨_, _, a1, ha1, hi1⟩ := h2.1.1 k1 p1 hk1
    obtain ⟨_, _, a2, ha2, hi2⟩ := h2.1.1 k2 p2 hk2
    have e1 : a1 = o1 := Option.some.inj (ha1.symm.trans ho1)
    have e2 : a2 = o2 := Option.some.inj (ha2.symm.trans ho2)
    subst e1 e2
    have hk : k1 = k2 := hi1.symm.trans (hid.trans hi2)
    subst hk
    exact ⟨rfl, Option.some.inj (hk1.symm.trans hk2)⟩
  · intro k p hk hmem
    have hlt := (h1.1.1 k p hk).2.1
    exact absurd (hb2 k hmem) (Nat.not_le_of_lt hlt)

/-- C2: `NewFileSystem` establishes the table invariant (every key `k` of
`fs.inodes` satisfies `RootInodeID <= k < nextInodeID`, `fs.inodes[k].Id == k`,
and `fs.inodes[RootInodeID]` is a directory); a call of `insertInode` on an
inode that is not yet in the table preserves it in any state, while
`nextInodeID` does not overflow; and it holds after any sequence of
`insertInode` calls, on any pointers, from the state `NewFileSystem` builds.
The depth bound of the model's recursion is never reached, and a larger bound
gives the same result. -/
theorem C2_table_invariant (cloud : Backend) (flags : Flags) (now : Time)
    (s : FileSystem) (parent inode : Ptr) (calls : List InsertCall)
    (hinv : tableInvariant s) (hov : s.nextInodeID + 1 < U64)
    (hfresh : ∀ k, GoMap.get s.inodes k ≠ some inode)
    (hlen : RootInodeID + 1 + calls.length < U64) :
    tableInvariant (NewFileSystem cloud flags now) ∧
    tableInvariant (insertInode parent inode s).2 ∧
    (insertInode parent inode s).1 ≠ Outcome.abort Abort.outOfFuel ∧
    tableInvariant (runCalls calls (NewFileSystem cloud flags now)) ∧
    (∀ k, insertInodeFuel (k + 2) parent inode s = insertInode parent inode s) := by
  obtain ⟨hpost, hfuel⟩ := insertInode_post s parent inode
  refine ⟨NewFileSystem_tableInvariant cloud flags now,
    (InsertPost.preserves hinv hov (fun k hk => absurd hk (hfresh k)) hpost).1, hfuel, ?_,
    fun k => insertInodeFuel_adequate k parent inode s⟩
  have h0 := NewFileSystem_reachInv cloud flags now
  have hn0 := NewFileSystem_next cloud flags now
  exact (runCalls_inv calls _ h0 (by rw [hn0]; exact hlen)).1.1

end Fs

namespace Fs

theorem TraceAdds.of_same {P : Ev → Prop} {α : Type} {m : M α}
    (h : ∀ s, (m s).2.trace = s.trace) : TraceAdds P m :=
  fun s => ⟨[], by simp [h s], by simp⟩

theorem TraceAdds.of_one {P : Ev → Prop} {α : Type} {m : M α} (e : Ev) (hP : P e)
    (h : ∀ s, (m s).2.trace = s.trace ∨ (m s).2.trace = s.trace ++ [e]) : TraceAdds P m := by
  intro s
  rcases h s with h1 | h1
  · exact ⟨[], by simp [h1], by simp⟩
  · exact ⟨[e], h1, by simpa using hP⟩

theorem TraceAdds.ret {P : Ev → Prop} {α : Type} (a : α) : TraceAdds P (pure a : M α) :=
  TraceAdds.of_same (fun _ => rfl)

theorem TraceAdds.seq {P : Ev → Prop} {α β : Type} {m : M α} {f : α → M β}
    (h1 : TraceAdds P m) (h2 : ∀ a, TraceAdds P (f a)) : TraceAdds P (m >>= f) := by
  intro s
  obtain ⟨r1, e1, p1⟩ := h1 s
  rw [bind_apply]
  rcases hm : m s with ⟨o, s1⟩
  rw [hm] at e1
  cases o with
  | abort r => exact ⟨r1, e1, p1⟩
  | ok a =>
    obtain ⟨r2, e2, p2⟩ := h2 a s1
    refine ⟨r1 ++ r2, ?_, ?_⟩
    · show (f a s1).2.trace = _
      rw [e2]
      show s1.trace ++ r2 = _
      have e1b : s1.trace = s.trace ++ r1 := e1
      rw [e1b, List.append_assoc]
    · intro e he
      rcases List.mem_append.mp he with h | h
      · exact p1 e h
      · exact p2 e h

theorem TraceAdds.withDefer {P : Ev → Prop} {α : Type} {c : M Unit} {b : M α}
    (hc : TraceAdds P c) (hb : TraceAdds P b) : TraceAdds P (withDefer c b) := by
  intro s
  obtain ⟨r1, e1, p1⟩ := hb s
  unfold Fs.withDefer
  rcases hm : b s with ⟨o, s1⟩
  rw [hm] at e1
  have e1b : s1.trace = s.trace ++ r1 := e1
  obtain ⟨r2, e2, p2⟩ := hc s1
  have hboth : ∀ e ∈ r1 ++ r2, P e := by
    intro e he
    rcases List.mem_append.mp he with h | h
    · exact p1 e h
    · exact p2 e h
  have e2b : (c s1).2.trace = s.trace ++ (r1 ++ r2) := by
    rw [e2, e1b, List.append_assoc]
  cases o with
  | ok a =>
    dsimp only
    rcases hcs : c s1 with ⟨o2, s2⟩
    rw [hcs] at e2b
    cases o2 <;> exact ⟨r1 ++ r2, e2b, hboth⟩
  | abort r =>
    cases r with
    | panic msg e =>
      dsimp only
      rcases hcs : c s1 with ⟨o2, s2⟩
      rw [hcs] at e2b
      cases o2 <;> exact ⟨r1 ++ r2, e2b, hboth⟩
    | blocked => exact ⟨r1, e1, p1⟩
    | fatal msg => exact ⟨r1, e1, p1⟩
    | outOfFuel => exact ⟨r1, e1, p1⟩

theorem TraceAdds.whileErr {P : Ev → Prop} {α : Type} {b : M α} (e : GoError)
    (hb : TraceAdds P b) : TraceAdds P (whileErr e b) := by
  intro s
  obtain ⟨r1, e1, p1⟩ := hb s
  unfold Fs.whileErr
  rcases hm : b s with ⟨o, s1⟩
  rw [hm] at e1
  cases o with
  | ok a => exact ⟨r1, e1, p1⟩
  | abort r => cases r <;> exact ⟨r1, e1, p1⟩

theorem TraceAdds.panics {P : Ev → Prop} {α : Type} (msg : String) :
    TraceAdds P (goPanic msg : M α) :=
  TraceAdds.of_same (fun _ => rfl)

theorem TraceAdds.reads {P : Ev → Prop} (p : Ptr) : TraceAdds P (deref p) := by
  apply TraceAdds.of_same
  intro s
  unfold Fs.deref
  cases s.heap[p]? <;> rfl

theorem TraceAdds.updates {P : Ev → Prop} (p : Ptr) (f : Inode → Inode) :
    TraceAdds P (modifyObj p f) := by
  apply TraceAdds.of_same
  intro s
  unfold Fs.modifyObj
  cases s.heap[p]? <;> rfl

theorem TraceAdds.newObj {P : Ev → Prop} (o : Inode) : TraceAdds P (newObj o) :=
  TraceAdds.of_same (fun _ => rfl)

theorem TraceAdds.getInodeOrDie {P : Ev → Prop} (id : InodeID) :
    TraceAdds P (getInodeOrDie id) := by
  apply TraceAdds.of_same
  intro s
  unfold Fs.getInodeOrDie
  cases GoMap.get s.inodes id <;> rfl

theorem TraceAdds.emit {P : Ev → Prop} (e : Ev) (h : P e) : TraceAdds P (emit e) :=
  TraceAdds.of_one e h (fun _ => Or.inr rfl)

theorem TraceAdds.muRLock {P : Ev → Prop} (h : P Ev.muRLock) : TraceAdds P muRLock := by
  apply TraceAdds.of_one _ h
  intro s
  unfold Fs.muRLock
  split
  · exact Or.inl rfl
  · exact Or.inr rfl

theorem TraceAdds.muRUnlock {P : Ev → Prop} (h : P Ev.muRUnlock) : TraceAdds P muRUnlock := by
  apply TraceAdds.of_one _ h
  intro s
  unfold Fs.muRUnlock
  split
  · exact Or.inl rfl
  · exact Or.inr rfl

theorem TraceAdds.muLock {P : Ev → Prop} (h : P Ev.muLock) : TraceAdds P muLock := by
  apply TraceAdds.of_one _ h
  intro s
  unfold Fs.muLock
  split
  · exact Or.inl rfl
  · exact Or.inr rfl

theorem TraceAdds.muUnlock {P : Ev → Prop} (h : P Ev.muUnlock) : TraceAdds P muUnlock := by
  apply TraceAdds.of_one _ h
  intro s
  unfold Fs.muUnlock
  split
  · exact Or.inr rfl
  · exact Or.inl rfl

theorem TraceAdds.lockInode {P : Ev → Prop} (p : Ptr) (h : P (Ev.lock p)) :
    TraceAdds P (lockInode p) := by
  apply TraceAdds.of_one _ h
  intro s
  unfold Fs.lockInode
  cases s.heap[p]? with
  | none => exact Or.inl rfl
  | some o =>
    dsimp only
    split
    · exact Or.inl rfl
    · exact Or.inr rfl

theorem TraceAdds.unlockInode {P : Ev → Prop} (p : Ptr) (h : P (Ev.unlock p)) :
    TraceAdds P (unlockInode p) := by
  apply TraceAdds.of_one _ h
  intro s
  unfold Fs.unlockInode
  cases s.heap[p]? with
  | none => exact Or.inl rfl
  | some o =>
    dsimp only
    split
    · exact Or.inr rfl
    · exact Or.inl rfl

theorem TraceAdds.findChildUnlocked {P : Ev → Prop} (parent : Ptr) (name : String) :
    TraceAdds P (findChildUnlocked parent name) := by
  unfold Fs.findChildUnlocked
  apply TraceAdds.seq (TraceAdds.reads parent)
  intro par
  cases par.dir with
  | none => exact TraceAdds.panics _
  | some d => exact TraceAdds.ret _

theorem TraceAdds.insertChildUnlocked {P : Ev → Prop} (parent inode : Ptr) :
    TraceAdds P (insertChildUnlocked parent inode) := by
  unfold Fs.insertChildUnlocked
  apply TraceAdds.seq (TraceAdds.reads parent)
  intro par
  cases par.dir with
  | none => exact TraceAdds.panics _
  | some d =>
    exact TraceAdds.seq (TraceAdds.reads inode) (fun _ => TraceAdds.updates _ _)

theorem TraceAdds.removeChildUnlocked {P : Ev → Prop} (parent inode : Ptr) :
    TraceAdds P (removeChildUnlocked parent inode) := by
  unfold Fs.removeChildUnlocked
  apply TraceAdds.seq (TraceAdds.reads parent)
  intro par
  cases par.dir with
  | none => exact TraceAdds.panics _
  | some d =>
    exact TraceAdds.seq (TraceAdds.reads inode) (fun _ => TraceAdds.updates _ _)

theorem TraceAdds.removeChild {P : Ev → Prop} (parent inode : Ptr) (h1 : P (Ev.lock parent))
    (h2 : P (Ev.unlock parent)) : TraceAdds P (removeChild parent inode) := by
  unfold Fs.removeChild
  exact TraceAdds.seq (TraceAdds.lockInode parent h1)
    (fun _ => TraceAdds.withDefer (TraceAdds.unlockInode parent h2)
      (TraceAdds.removeChildUnlocked parent inode))

theorem TraceAdds.DeRef {P : Ev → Prop} (p : Ptr) (n : Nat) : TraceAdds P (DeRef p n) := by
  unfold Fs.DeRef
  exact TraceAdds.seq (TraceAdds.reads p)
    (fun _ => TraceAdds.seq (TraceAdds.updates _ _) (fun _ => TraceAdds.ret _))

theorem TraceAdds.insertInode {P : Ev → Prop} (parent inode : Ptr)
    (h : ∀ id, P (Ev.allocId id)) : TraceAdds P (insertInode parent inode) := by
  intro s
  obtain ⟨hpost, _⟩ := insertInode_post s parent inode
  rcases hpost with hA | ⟨ino, _, _, _, _, hB⟩
  · exact ⟨[], by simp [hA.2.2.1], by simp⟩
  · have hone : (Fs.insertInode parent inode s).2.trace = s.trace ++ [Ev.allocId s.nextInodeID] := by
      rcases hB with h1 | h1 | h1 <;> exact h1.2.2.1
    exact ⟨[Ev.allocId s.nextInodeID], hone, by simpa using h s.nextInodeID⟩

end Fs

namespace Fs

theorem TraceAdds.expired {P : Ev → Prop} (cache : Time) (ttl : Duration) :
    TraceAdds P (expired cache ttl) :=
  TraceAdds.of_same (fun _ => rfl)

theorem TraceAdds.lookUpReply {P : Ev → Prop} (inode : Ptr) :
    TraceAdds P (lookUpReply inode) := by
  unfold Fs.lookUpReply
  exact TraceAdds.seq (TraceAdds.reads inode) (fun _ => TraceAdds.of_same (fun _ => rfl))

theorem TraceAdds.lookUpMergeAttrs {P : Ev → Prop} (inode n : Ptr) :
    TraceAdds P (lookUpMergeAttrs inode n) := by
  unfold Fs.lookUpMergeAttrs
  apply TraceAdds.seq (TraceAdds.reads inode)
  intro ino
  apply TraceAdds.seq (TraceAdds.reads n)
  intro new
  apply TraceAdds.seq
  · split
    · exact TraceAdds.updates _ _
    · split
      · exact TraceAdds.updates _ _
      · exact TraceAdds.ret _
  intro _
  apply TraceAdds.seq
  · split
    · exact TraceAdds.updates _ _
    · exact TraceAdds.ret _
  intro _
  apply TraceAdds.seq (TraceAdds.reads n)
  intro new1
  exact TraceAdds.seq (TraceAdds.updates _ _) (fun _ => TraceAdds.updates _ _)

theorem TraceAdds.lookUpMerge {P : Ev → Prop} (inode : Ptr) (newInode : Option Ptr)
    (h1 : P (Ev.lock inode)) (h2 : P (Ev.unlock inode)) :
    TraceAdds P (lookUpMerge inode newInode) := by
  unfold Fs.lookUpMerge
  apply TraceAdds.seq (TraceAdds.lockInode inode h1)
  intro _
  apply TraceAdds.seq
  · cases newInode with
    | none => exact TraceAdds.ret _
    | some n => exact TraceAdds.lookUpMergeAttrs inode n
  intro _
  apply TraceAdds.seq
  · apply TraceAdds.of_same
    intro s
    show (Fs.modifyObj inode _ s).2.trace = s.trace
    unfold Fs.modifyObj
    cases s.heap[inode]? <;> rfl
  intro _
  exact TraceAdds.unlockInode inode h2

theorem TraceAdds.lookUpRollback {P : Ev → Prop} (parent inode : Ptr)
    (hP : ∀ e, e.isBackend = false → P e) : TraceAdds P (lookUpRollback parent inode) := by
  unfold Fs.lookUpRollback
  apply TraceAdds.seq (TraceAdds.muLock (hP _ rfl))
  intro _
  apply TraceAdds.withDefer (TraceAdds.muUnlock (hP _ rfl))
  apply TraceAdds.seq (TraceAdds.DeRef inode 1)
  intro stale
  split
  · apply TraceAdds.seq (TraceAdds.reads inode)
    intro ino
    apply TraceAdds.seq (TraceAdds.of_same (fun _ => rfl))
    intro _
    exact TraceAdds.removeChild parent inode (hP _ rfl) (hP _ rfl)
  · exact TraceAdds.ret _

theorem TraceAdds.lookUpInsert {P : Ev → Prop} (parent : Ptr) (name : String)
    (newInode : Option Ptr) (hP : ∀ e, e.isBackend = false → P e) :
    TraceAdds P (lookUpInsert parent name newInode) := by
  unfold Fs.lookUpInsert
  apply TraceAdds.seq (TraceAdds.lockInode parent (hP _ rfl))
  intro _
  apply TraceAdds.seq (TraceAdds.findChildUnlocked parent name)
  intro again
  apply TraceAdds.seq
  · cases again with
    | some j => exact TraceAdds.ret _
    | none =>
      dsimp only
      apply TraceAdds.seq (TraceAdds.muLock (hP _ rfl))
      intro _
      cases newInode with
      | none => exact TraceAdds.panics _
      | some n =>
        dsimp only
        apply TraceAdds.seq (TraceAdds.insertInode parent n (fun _ => hP _ rfl))
        intro _
        exact TraceAdds.seq (TraceAdds.muUnlock (hP _ rfl)) (fun _ => TraceAdds.ret _)
  intro found
  exact TraceAdds.seq (TraceAdds.unlockInode parent (hP _ rfl)) (fun _ => TraceAdds.ret _)

/-- After the backend query has returned, `LookUpInode` makes no further
backend call. -/
theorem TraceAdds.lookUpSettle {P : Ev → Prop} (parent : Ptr) (inode : Option Ptr)
    (name : String) (newInode : Option Ptr) (err : GoError)
    (hP : ∀ e, e.isBackend = false → P e) :
    TraceAdds P (lookUpSettle parent inode name newInode err) := by
  unfold Fs.lookUpSettle
  apply TraceAdds.seq
  · cases inode with
    | none => exact TraceAdds.ret _
    | some i => exact TraceAdds.seq (TraceAdds.reads i) (fun _ => TraceAdds.ret _)
  intro cachedDir
  split
  · cases inode with
    | none => exact TraceAdds.panics _
    | some i =>
      exact TraceAdds.seq (TraceAdds.lookUpMerge i newInode (hP _ rfl) (hP _ rfl))
        (fun _ => TraceAdds.lookUpReply i)
  · split
    · cases inode with
      | none => exact TraceAdds.ret _
      | some i =>
        exact TraceAdds.seq (TraceAdds.whileErr _ (TraceAdds.lookUpRollback parent i hP))
          (fun _ => TraceAdds.ret _)
    · cases inode with
      | none =>
        exact TraceAdds.seq (TraceAdds.lookUpInsert parent name newInode hP)
          (fun found => TraceAdds.lookUpReply found)
      | some i =>
        exact TraceAdds.seq (TraceAdds.lookUpMerge i newInode (hP _ rfl) (hP _ rfl))
          (fun _ => TraceAdds.lookUpReply i)

theorem backendCalls_append (a b : List Ev) :
    backendCalls (a ++ b) = backendCalls a ++ backendCalls b := by
  simp [backendCalls, List.filter_append]

theorem backendCalls_quiet (l : List Ev) (h : ∀ e ∈ l, e.isBackend = false) :
    backendCalls l = [] := by
  simp only [backendCalls, List.filter_eq_nil_iff]
  intro e he
  simp [h e he]

/-- The backend calls on the cache-miss path of `LookUpInode`: exactly the
query `parent.LookUp(name)`. -/
theorem lookUpMiss_backendCalls (parent : Ptr) (inode : Option Ptr) (name : String)
    (resp : LookUpResp) (t : FileSystem) :
    backendCalls (lookUpMiss parent inode name resp t).2.trace =
      backendCalls t.trace ++ [Ev.backendLookUp parent name] := by
  have hsettle := fun (n : Option Ptr) (u : FileSystem) =>
    TraceAdds.lookUpSettle (P := fun e => e.isBackend = false) parent inode name n resp.err
      (fun _ h => h) u
  unfold lookUpMiss parentLookUp
  cases hn : resp.newInode with
  | none =>
    simp only [bind_apply, emit, pure_apply]
    obtain ⟨rest, e1, p1⟩ := hsettle none { t with trace := t.trace ++ [Ev.backendLookUp parent name] }
    rw [e1, backendCalls_append, backendCalls_append, backendCalls_quiet rest p1]
    simp [backendCalls, Ev.isBackend]
  | some o =>
    simp only [bind_apply, emit, pure_apply, newObj]
    obtain ⟨rest, e1, p1⟩ := hsettle (some t.heap.length)
      { t with trace := t.trace ++ [Ev.backendLookUp parent name], heap := t.heap ++ [o] }
    rw [e1, backendCalls_append, backendCalls_append, backendCalls_quiet rest p1]
    simp [backendCalls, Ev.isBackend]

end Fs

namespace Fs

theorem LookUpInode_prefix_none (s : FileSystem) (op : LookUpInodeOp) (resp : LookUpResp)
    (parent : Ptr) (par : Inode) (d : DirInodeData)
    (hw : s.mu.writer = false)
    (hparent : GoMap.get s.inodes op.Parent = some parent)
    (hpar : s.heap[parent]? = some par) (hmu : par.mu = false) (hdir : par.dir = some d)
    (hnone : GoMap.get d.Children op.Name = none) :
    ∃ t, LookUpInode op resp s = lookUpMiss parent none op.Name resp t ∧
      backendCalls t.trace = backendCalls s.trace := by
  have hlt : parent < s.heap.length := (List.getElem?_eq_some.mp hpar).1
  have hpar1 : s.heap[parent] = par := (List.getElem?_eq_some.mp hpar).2
  apply Exists.intro
  constructor
  · simp [LookUpInode, lookUpProbe, bind_apply, pure_apply, muRLock, muRUnlock, getInodeOrDie,
      lockInode, unlockInode, findChildUnlocked, deref, hw, hparent, hpar, hmu, hdir, hnone,
      List.getElem?_set, hlt, hpar1]
    rfl
  · simp [backendCalls, List.filter_append, Ev.isBackend]

theorem LookUpInode_prefix_miss (s : FileSystem) (op : LookUpInodeOp) (resp : LookUpResp)
    (parent : Ptr) (par : Inode) (d : DirInodeData) (i : Ptr) (child : Inode)
    (hw : s.mu.writer = false)
    (hparent : GoMap.get s.inodes op.Parent = some parent)
    (hpar : s.heap[parent]? = some par) (hmu : par.mu = false) (hdir : par.dir = some d)
    (hsome : GoMap.get d.Children op.Name = some i) (hchild : s.heap[i]? = some child)
    (hexp : expiredAt s.clock child.AttrTime s.flags.StatCacheTTL = true)
    (hfh : child.fileHandles = 0) :
    ∃ t, LookUpInode op resp s = lookUpMiss parent (some i) op.Name resp t ∧
      backendCalls t.trace = backendCalls s.trace ∧
      (child.isDir = true → LookUpKeeps s parent i d child.Id child.mu t) := by
  have hlt : parent < s.heap.length := (List.getElem?_eq_some.mp hpar).1
  have hpar1 : s.heap[parent] = par := (List.getElem?_eq_some.mp hpar).2
  have hilt : i < s.heap.length := (List.getElem?_eq_some.mp hchild).1
  have hch1 : s.heap[i] = child := (List.getElem?_eq_some.mp hchild).2
  by_cases hip : parent = i
  · subst hip
    have e : child = par := Option.some.inj (hchild.symm.trans hpar)
    subst e
    apply Exists.intro
    constructor
    · simp [LookUpInode, lookUpProbe, bind_apply, pure_apply, muRLock, muRUnlock, getInodeOrDie,
        lockInode, unlockInode, findChildUnlocked, deref, Ref, modifyObj, expired, hw, hparent,
        hpar, hmu, hdir, hsome, hexp, hfh, List.getElem?_set, hlt, hpar1]
      rfl
    · refine ⟨by simp [backendCalls, List.filter_append, Ev.isBackend], ?_⟩
      intro hd
      simp [LookUpKeeps, List.getElem?_set, hlt, hd, hdir, Inode.isDir, hmu]
  · apply Exists.intro
    constructor
    · simp [LookUpInode, lookUpProbe, bind_apply, pure_apply, muRLock, muRUnlock, getInodeOrDie,
        lockInode, unlockInode, findChildUnlocked, deref, Ref, modifyObj, expired, hw, hparent,
        hpar, hmu, hdir, hsome, hchild, hexp, hfh, List.getElem?_set, hlt, hpar1, hilt, hch1,
        hip, Ne.symm hip]
      rfl
    · refine ⟨by simp [backendCalls, List.filter_append, Ev.isBackend], ?_⟩
      intro hd
      simp [LookUpKeeps, List.getElem?_set, hlt, hilt, hip, Ne.symm hip, hd, hdir, Inode.isDir,
        hpar, hchild]
      simpa [Inode.isDir] using hd

theorem LookUpInode_hit (s : FileSystem) (op : LookUpInodeOp) (resp : LookUpResp)
    (parent : Ptr) (par : Inode) (d : DirInodeData) (i : Ptr) (child : Inode)
    (hw : s.mu.writer = false)
    (hparent : GoMap.get s.inodes op.Parent = some parent)
    (hpar : s.heap[parent]? = some par) (hmu : par.mu = false) (hdir : par.dir = some d)
    (hsome : GoMap.get d.Children op.Name = some i) (hchild : s.heap[i]? = some child)
    (hhit : ¬ (expiredAt s.clock child.AttrTime s.flags.StatCacheTTL = true ∧
      child.fileHandles = 0)) :
    (LookUpInode op resp s).1 = Outcome.ok (none,
        { Child := child.Id
          AttributesExpiration := s.clock + s.flags.StatCacheTTL
          EntryExpiration := s.clock + s.flags.TypeCacheTTL }) ∧
    backendCalls (LookUpInode op resp s).2.trace = backendCalls s.trace := by
  have hlt : parent < s.heap.length := (List.getElem?_eq_some.mp hpar).1
  have hpar1 : s.heap[parent] = par := (List.getElem?_eq_some.mp hpar).2
  have hilt : i < s.heap.length := (List.getElem?_eq_some.mp hchild).1
  have hch1 : s.heap[i] = child := (List.getElem?_eq_some.mp hchild).2
  by_cases hexp : expiredAt s.clock child.AttrTime s.flags.StatCacheTTL = true
  · have hfh : child.fileHandles ≠ 0 := fun hc => hhit ⟨hexp, hc⟩
    by_cases hip : parent = i
    · subst hip
      have e : child = par := Option.some.inj (hchild.symm.trans hpar)
      subst e
      simp [LookUpInode, lookUpProbe, lookUpReply, bind_apply, pure_apply, muRLock, muRUnlock,
        getInodeOrDie, lockInode, unlockInode, findChildUnlocked, deref, Ref, modifyObj, expired,
        hw, hparent, hpar, hmu, hdir, hsome, hexp, hfh, List.getElem?_set, hlt, hpar1,
        backendCalls, List.filter_append, Ev.isBackend]
    · simp [LookUpInode, lookUpProbe, lookUpReply, bind_apply, pure_apply, muRLock, muRUnlock,
        getInodeOrDie, lockInode, unlockInode, findChildUnlocked, deref, Ref, modifyObj, expired,
        hw, hparent, hpar, hmu, hdir, hsome, hchild, hexp, hfh, List.getElem?_set, hlt, hpar1,
        hilt, hch1, hip, Ne.symm hip, backendCalls, List.filter_append, Ev.isBackend]
  · by_cases hip : parent = i
    · subst hip
      have e : child = par := Option.some.inj (hchild.symm.trans hpar)
      subst e
      simp [LookUpInode, lookUpProbe, lookUpReply, bind_apply, pure_apply, muRLock, muRUnlock,
        getInodeOrDie, lockInode, unlockInode, findChildUnlocked, deref, Ref, modifyObj, expired,
        hw, hparent, hpar, hmu, hdir, hsome, hexp, List.getElem?_set, hlt, hpar1,
        backendCalls, List.filter_append, Ev.isBackend]
    · simp [LookUpInode, lookUpProbe, lookUpReply, bind_apply, pure_apply, muRLock, muRUnlock,
        getInodeOrDie, lockInode, unlockInode, findChildUnlocked, deref, Ref, modifyObj, expired,
        hw, hparent, hpar, hmu, hdir, hsome, hchild, hexp, List.getElem?_set, hlt, hpar1,
        hilt, hch1, hip, Ne.symm hip, backendCalls, List.filter_append, Ev.isBackend]

end Fs

namespace Fs

theorem Triple.derefTotal {P : FileSystem → Prop} {E : Abort → FileSystem → Prop} (p : Ptr)
    (hv : ∀ t, P t → ∃ o, t.heap[p]? = some o) :
    Triple P (Fs.deref p) (fun o t => P t ∧ t.heap[p]? = some o) E := by
  intro t ht
  obtain ⟨o, ho⟩ := hv t ht
  unfold Fs.deref
  rw [ho]
  exact ⟨ht, ho⟩

theorem Triple.modifyObjTotal {P Q : FileSystem → Prop} {E : Abort → FileSystem → Prop}
    (p : Ptr) (f : Inode → Inode)
    (h : ∀ t o, P t → t.heap[p]? = some o → Q { t with heap := t.heap.set p (f o) })
    (hv : ∀ t, P t → ∃ o, t.heap[p]? = some o) :
    Triple P (Fs.modifyObj p f) (fun _ t => Q t) E := by
  intro t ht
  obtain ⟨o, ho⟩ := hv t ht
  unfold Fs.modifyObj
  rw [ho]
  exact h t o ht ho

theorem Triple.lockInodeTotal {P Q : FileSystem → Prop} {E : Abort → FileSystem → Prop}
    (p : Ptr)
    (h : ∀ t o, P t → t.heap[p]? = some o → o.mu = false →
      Q { t with heap := t.heap.set p { o with mu := true }, trace := t.trace ++ [Ev.lock p] })
    (hv : ∀ t, P t → ∃ o, t.heap[p]? = some o ∧ o.mu = false) :
    Triple P (Fs.lockInode p) (fun _ t => Q t) E := by
  intro t ht
  obtain ⟨o, ho, hm⟩ := hv t ht
  unfold Fs.lockInode
  rw [ho]
  simp only [hm]
  exact h t o ht ho hm

theorem Triple.unlockInodeTotal {P Q : FileSystem → Prop} {E : Abort → FileSystem → Prop}
    (p : Ptr)
    (h : ∀ t o, P t → t.heap[p]? = some o → o.mu = true →
      Q { t with heap := t.heap.set p { o with mu := false }, trace := t.trace ++ [Ev.unlock p] })
    (hv : ∀ t, P t → ∃ o, t.heap[p]? = some o ∧ o.mu = true) :
    Triple P (Fs.unlockInode p) (fun _ t => Q t) E := by
  intro t ht
  obtain ⟨o, ho, hm⟩ := hv t ht
  unfold Fs.unlockInode
  rw [ho]
  simp only [hm]
  exact h t o ht ho hm

/-- An update of one object that keeps its id and its directory data, and sets
the mutex of the child to `l1` if the object is the child, keeps `LookUpKeeps`. -/
theorem LookUpKeeps.setKept {s : FileSystem} {parent i : Ptr} {d : DirInodeData} {cid : InodeID}
    {l l1 : Bool} {t : FileSystem} (h : LookUpKeeps s parent i d cid l t) (p : Ptr)
    (o o1 : Inode) (hp : t.heap[p]? = some o) (hid : o1.Id = o.Id) (hdir : o1.dir = o.dir)
    (hmu : p = i → o1.mu = l1) (hl : p ≠ i → l1 = l) (tr : List Ev) :
    LookUpKeeps s parent i d cid l1 { t with heap := t.heap.set p o1, trace := tr } := by
  obtain ⟨a, b, c, ⟨ci, hci, hcid, hcmu, hcdir⟩, ⟨p1, hp1, hp1d⟩⟩ := h
  have hlt : p < t.heap.length := (List.getElem?_eq_some.mp hp).1
  refine ⟨a, b, c, ?_, ?_⟩
  · by_cases hpi : p = i
    · subst hpi
      have e : ci = o := Option.some.inj (hci.symm.trans hp)
      subst e
      refine ⟨o1, by simp [List.getElem?_set, hlt], hid.trans hcid, hmu rfl, ?_⟩
      simpa [Inode.isDir, hdir] using hcdir
    · exact ⟨ci, by simp [List.getElem?_set, hpi, hci], hcid, (hl hpi) ▸ hcmu, hcdir⟩
  · by_cases hpp : p = parent
    · subst hpp
      have e : p1 = o := Option.some.inj (hp1.symm.trans hp)
      subst e
      exact ⟨o1, by simp [List.getElem?_set, hlt], hdir.trans hp1d⟩
    · exact ⟨p1, by simp [List.getElem?_set, hpp, hp1], hp1d⟩

theorem LookUpKeeps.pushKept {s : FileSystem} {parent i : Ptr} {d : DirInodeData} {cid : InodeID}
    {l : Bool} {t : FileSystem} (h : LookUpKeeps s parent i d cid l t) (o : Inode)
    (tr : List Ev) :
    LookUpKeeps s parent i d cid l { t with heap := t.heap ++ [o], trace := tr } := by
  obtain ⟨a, b, c, ⟨ci, hci, hcid, hcmu, hcdir⟩, ⟨p1, hp1, hp1d⟩⟩ := h
  have hlt1 : i < t.heap.length := (List.getElem?_eq_some.mp hci).1
  have hlt2 : parent < t.heap.length := (List.getElem?_eq_some.mp hp1).1
  exact ⟨a, b, c, ⟨ci, by simp [List.getElem?_append, hlt1, hci], hcid, hcmu, hcdir⟩,
    ⟨p1, by simp [List.getElem?_append, hlt2, hp1], hp1d⟩⟩

theorem LookUpKeeps.trace {s : FileSystem} {parent i : Ptr} {d : DirInodeData} {cid : InodeID}
    {l : Bool} {t : FileSystem} (h : LookUpKeeps s parent i d cid l t) (tr : List Ev) :
    LookUpKeeps s parent i d cid l { t with trace := tr } := h

end Fs

namespace Fs

theorem valid_set {h : List Inode} {q : Ptr} (p : Ptr) (x : Inode)
    (hv : ∃ o, h[q]? = some o) : ∃ o, (h.set p x)[q]? = some o := by
  obtain ⟨o, ho⟩ := hv
  have hlt : q < h.length := (List.getElem?_eq_some.mp ho).1
  by_cases hpq : p = q
  · subst hpq
    exact ⟨x, by simp [List.getElem?_set, hlt]⟩
  · exact ⟨o, by simp [List.getElem?_set, hpq, ho]⟩

/-- The invariant of the reconciliation of `LookUpInode` for a cached
directory: `LookUpKeeps` together with the validity of the fetched object. -/
theorem lookUpMergeAttrs_keeps (s : FileSystem) (parent i : Ptr) (d : DirInodeData)
    (cid : InodeID) (n : Ptr) :
    Triple (fun t => LookUpKeeps s parent i d cid true t ∧ ∃ o, t.heap[n]? = some o)
      (lookUpMergeAttrs i n)
      (fun _ t => LookUpKeeps s parent i d cid true t) (fun _ _ => False) := by
  have hvi : ∀ t, (LookUpKeeps s parent i d cid true t ∧ ∃ o, t.heap[n]? = some o) →
      ∃ o, t.heap[i]? = some o := fun t ht => let ⟨c, hc, _⟩ := ht.1.2.2.2.1; ⟨c, hc⟩
  have hmod : ∀ (p : Ptr) (f : Inode → Inode), (∀ o, (f o).Id = o.Id) →
      (∀ o, (f o).dir = o.dir) → (∀ o, (f o).mu = o.mu) →
      (∀ t, (LookUpKeeps s parent i d cid true t ∧ ∃ o, t.heap[n]? = some o) →
        ∃ o, t.heap[p]? = some o) →
      Triple (fun t => LookUpKeeps s parent i d cid true t ∧ ∃ o, t.heap[n]? = some o)
        (modifyObj p f)
        (fun _ t => LookUpKeeps s parent i d cid true t ∧ ∃ o, t.heap[n]? = some o)
        (fun _ _ => False) := by
    intro p f h1 h2 h3 hv
    apply Triple.modifyObjTotal p f _ hv
    intro t o ht ho
    refine ⟨?_, valid_set p _ ht.2⟩
    have hk := @LookUpKeeps.setKept _ _ _ _ _ _ true _ ht.1 p o (f o) ho (h1 o) (h2 o) ?_ (fun _ => rfl)
      t.trace
    · exact hk
    · intro hpi
      obtain ⟨c, hc, _, hcmu, _⟩ := ht.1.2.2.2.1
      have e : c = o := Option.some.inj (hc.symm.trans (hpi ▸ ho))
      rw [h3 o, ← e]
      exact hcmu
  unfold lookUpMergeAttrs
  apply Triple.bind (Triple.derefTotal i hvi)
  intro ino
  apply Triple.bind (Q := fun _ t => LookUpKeeps s parent i d cid true t ∧
    ∃ o, t.heap[n]? = some o)
  · exact Triple.weaken (Triple.derefTotal n (fun t ht => ht.1.2)) (fun _ h => h)
      (fun _ _ h => h.1.1) (fun _ _ h => h)
  intro new
  apply Triple.bind (Q := fun _ t => LookUpKeeps s parent i d cid true t ∧
    ∃ o, t.heap[n]? = some o)
  · split
    · exact hmod i (fun o => { o with invalidateCache := true }) (fun _ => rfl) (fun _ => rfl)
        (fun _ => rfl) hvi
    · split
      · exact hmod i (fun o => { o with invalidateCache := true }) (fun _ => rfl)
          (fun _ => rfl) (fun _ => rfl) hvi
      · exact Triple.pure () (fun _ h => h)
  intro _
  apply Triple.bind (Q := fun _ t => LookUpKeeps s parent i d cid true t ∧
    ∃ o, t.heap[n]? = some o)
  · split
    · exact hmod n (fun o => { o with Attributes :=
          { o.Attributes with Mtime := ino.Attributes.Mtime } }) (fun _ => rfl) (fun _ => rfl)
        (fun _ => rfl) (fun t ht => ht.2)
    · exact Triple.pure () (fun _ h => h)
  intro _
  apply Triple.bind (Q := fun _ t => LookUpKeeps s parent i d cid true t ∧
    ∃ o, t.heap[n]? = some o)
  · exact Triple.weaken (Triple.derefTotal n (fun t ht => ht.2)) (fun _ h => h)
      (fun _ _ h => h.1) (fun _ _ h => h)
  intro new1
  apply Triple.bind (hmod i (fun o => { o with Attributes := new1.Attributes }) (fun _ => rfl)
    (fun _ => rfl) (fun _ => rfl) hvi)
  intro _
  exact Triple.weaken (hmod i (fun o => { o with knownETag := new1.knownETag }) (fun _ => rfl)
    (fun _ => rfl) (fun _ => rfl) hvi) (fun _ h => h) (fun _ _ h => h.1) (fun _ _ h => h)

theorem lookUpMerge_keeps (s : FileSystem) (parent i : Ptr) (d : DirInodeData)
    (cid : InodeID) (newInode : Option Ptr) :
    Triple (fun t => LookUpKeeps s parent i d cid false t ∧
        ∀ n, newInode = some n → ∃ o, t.heap[n]? = some o)
      (lookUpMerge i newInode)
      (fun _ t => LookUpKeeps s parent i d cid false t) (fun _ _ => False) := by
  unfold lookUpMerge
  apply Triple.bind (Q := fun _ t => LookUpKeeps s parent i d cid true t ∧
    ∀ n, newInode = some n → ∃ o, t.heap[n]? = some o)
  · apply Triple.lockInodeTotal i
    · intro t o ht ho hm
      exact ⟨LookUpKeeps.setKept ht.1 i o { o with mu := true } ho rfl rfl (fun _ => rfl)
        (fun h => absurd rfl h) _, fun n hn => valid_set i _ (ht.2 n hn)⟩
    · intro t ht
      obtain ⟨c, hc, _, hcmu, _⟩ := ht.1.2.2.2.1
      exact ⟨c, hc, hcmu⟩
  intro _
  apply Triple.bind (Q := fun _ t => LookUpKeeps s parent i d cid true t)
  · cases newInode with
    | none => exact Triple.pure () (fun _ h => h.1)
    | some n =>
      exact Triple.weaken (lookUpMergeAttrs_keeps s parent i d cid n)
        (fun t ht => ⟨ht.1, ht.2 n rfl⟩) (fun _ _ h => h) (fun _ _ h => h)
  intro _
  apply Triple.bind (Q := fun _ t => LookUpKeeps s parent i d cid true t)
  · intro t ht
    have hv : ∃ o, t.heap[i]? = some o := let ⟨c, hc, _⟩ := ht.2.2.2.1; ⟨c, hc⟩
    obtain ⟨o, ho⟩ := hv
    simp only [modifyObj, ho]
    refine LookUpKeeps.setKept ht i o { o with AttrTime := t.clock } ho rfl rfl ?_ (fun _ => rfl)
      t.trace
    intro _
    obtain ⟨c, hc, _, hcmu, _⟩ := ht.2.2.2.1
    have e : c = o := Option.some.inj (hc.symm.trans ho)
    exact e ▸ hcmu
  intro _
  apply Triple.unlockInodeTotal i
  · intro t o ht ho hm
    exact LookUpKeeps.setKept ht i o { o with mu := false } ho rfl rfl (fun _ => rfl)
      (fun h => absurd rfl h) _
  · intro t ht
    obtain ⟨c, hc, _, hcmu, _⟩ := ht.2.2.2.1
    exact ⟨c, hc, hcmu⟩

/-- On the cache-miss path, when the backend reports `ENOENT` and the cached
child is a directory, `LookUpInode` answers with the cached inode. -/
theorem lookUpMiss_enoent_dir (s : FileSystem) (parent i : Ptr) (d : DirInodeData)
    (cid : InodeID) (name : String) (resp : LookUpResp) (herr : resp.err = some Errno.ENOENT) :
    Triple (LookUpKeeps s parent i d cid false) (lookUpMiss parent (some i) name resp)
      (fun r t => r = (none,
          { Child := cid
            AttributesExpiration := s.clock + s.flags.StatCacheTTL
            EntryExpiration := s.clock + s.flags.TypeCacheTTL }) ∧
        LookUpKeeps s parent i d cid false t)
      (fun _ _ => False) := by
  unfold lookUpMiss
  apply Triple.bind (Q := fun r t => r.2 = some Errno.ENOENT ∧
    LookUpKeeps s parent i d cid false t ∧ ∀ n, r.1 = some n → ∃ o, t.heap[n]? = some o)
  · intro t ht
    unfold parentLookUp
    cases hn : resp.newInode with
    | none =>
      simp only [bind_apply, emit, pure_apply]
      exact ⟨herr, LookUpKeeps.trace ht _, fun n hc => absurd hc (by simp)⟩
    | some o =>
      simp only [bind_apply, emit, pure_apply, newObj]
      refine ⟨herr, LookUpKeeps.pushKept ht o _, ?_⟩
      intro n hc
      have e : n = t.heap.length := (Option.some.inj hc).symm
      subst e
      exact ⟨o, by simp⟩
  rintro ⟨newInode, err⟩
  apply Triple.assume
  rintro t0 ⟨he, -, -⟩
  have he1 : err = some Errno.ENOENT := he
  subst he1
  unfold lookUpSettle
  apply Triple.bind (Q := fun cachedDir t => cachedDir = true ∧
    LookUpKeeps s parent i d cid false t ∧ ∀ n, newInode = some n → ∃ o, t.heap[n]? = some o)
  · apply Triple.bind (Triple.derefTotal i (fun t ht => let ⟨c, hc, _⟩ := ht.2.1.2.2.2.1; ⟨c, hc⟩))
    intro ino
    intro t ht
    obtain ⟨c, hc, _, _, hcd⟩ := ht.1.2.1.2.2.2.1
    have e : c = ino := Option.some.inj (hc.symm.trans ht.2)
    exact ⟨e ▸ hcd, ht.1.2.1, ht.1.2.2⟩
  intro cachedDir
  apply Triple.assume
  rintro t1 ⟨hcd, -, -⟩
  subst hcd
  rw [if_pos ⟨rfl, rfl⟩]
  apply Triple.bind (Q := fun _ t => LookUpKeeps s parent i d cid false t)
  · exact Triple.weaken (lookUpMerge_keeps s parent i d cid newInode) (fun t ht => ht.2)
      (fun _ _ h => h) (fun _ _ h => h)
  intro _
  unfold lookUpReply
  apply Triple.bind (Triple.derefTotal i (fun t ht => let ⟨c, hc, _⟩ := ht.2.2.2.1; ⟨c, hc⟩))
  intro ino
  intro t ht
  obtain ⟨c, hc, hcid, _, _⟩ := ht.1.2.2.2.1
  have e : c = ino := Option.some.inj (hc.symm.trans ht.2)
  subst e
  refine ⟨?_, ht.1⟩
  rw [hcid, ht.1.2.1, ht.1.2.2.1]

end Fs

namespace Fs

/-- When the cached child is an expired directory without open handles and the
backend reports `ENOENT`, `LookUpInode` returns the cached inode's id and
leaves the table and the parent's child index as they are. -/
theorem LookUpInode_enoent_dir (s : FileSystem) (op : LookUpInodeOp) (resp : LookUpResp)
    (parent : Ptr) (par : Inode) (d : DirInodeData) (i : Ptr) (child : Inode)
    (hw : s.mu.writer = false)
    (hparent : GoMap.get s.inodes op.Parent = some parent)
    (hpar : s.heap[parent]? = some par) (hmu : par.mu = false) (hdir : par.dir = some d)
    (hsome : GoMap.get d.Children op.Name = some i) (hchild : s.heap[i]? = some child)
    (hexp : expiredAt s.clock child.AttrTime s.flags.StatCacheTTL = true)
    (hfh : child.fileHandles = 0)
    (hcdir : child.isDir = true) (hcmu : child.mu = false)
    (herr : resp.err = some Errno.ENOENT) :
    (LookUpInode op resp s).1 = Outcome.ok (none,
        { Child := child.Id
          AttributesExpiration := s.clock + s.flags.StatCacheTTL
          EntryExpiration := s.clock + s.flags.TypeCacheTTL }) ∧
    (LookUpInode op resp s).2.inodes = s.inodes ∧
    (∃ par1, (LookUpInode op resp s).2.heap[parent]? = some par1 ∧ par1.dir = some d) ∧
    (∃ c1, (LookUpInode op resp s).2.heap[i]? = some c1 ∧ c1.Id = child.Id ∧
      c1.isDir = true) := by
  obtain ⟨t, ht, _, hk⟩ := LookUpInode_prefix_miss s op resp parent par d i child hw hparent
    hpar hmu hdir hsome hchild hexp hfh
  have hk1 : LookUpKeeps s parent i d child.Id false t := hcmu ▸ hk hcdir
  have h := lookUpMiss_enoent_dir s parent i d child.Id op.Name resp herr t hk1
  rw [ht]
  rcases hm : lookUpMiss parent (some i) op.Name resp t with ⟨o, t1⟩
  rw [hm] at h
  cases o with
  | abort r => exact absurd h id
  | ok r =>
    obtain ⟨hr, hinodes, _, _, ⟨c, hc, hcid, _, hcd⟩, hp1⟩ := h
    exact ⟨by rw [hr], hinodes, hp1, c, hc, hcid, hcd⟩

/-- The test `expired` of `fs.go` in terms of the clock: the stamp is not in
the future, and the stamp plus the time to live is not after the current
instant. -/
theorem expiredAt_iff (now cache : Time) (ttl : Duration) :
    expiredAt now cache ttl = true ↔ cache ≤ now ∧ cache + ttl ≤ now := by
  unfold expiredAt
  split
  · rename_i h
    constructor
    · intro hc
      exact absurd hc (by simp)
    · intro hc
      exact absurd h (not_lt.mpr hc.1)
  · rename_i h
    simp only [Bool.not_eq_true', decide_eq_false_iff_not, not_lt]
    constructor
    · intro hc
      exact ⟨not_lt.mp h, hc⟩
    · intro hc
      exact hc.2

/-- C3: `LookUpInode` calls the backend (`parent.LookUp`) exactly when the name
is absent from the parent's child index, or the cached child's `AttrTime` is
expired under `StatCacheTTL` (it is not in the future and `AttrTime +
StatCacheTTL` is not after the current instant) and the child has no open file
handle; in every other case it makes no backend call and answers with the
cached inode. -/
theorem C3_backend_consulted_exactly_on_miss (s : FileSystem) (op : LookUpInodeOp)
    (resp : LookUpResp) (parent : Ptr) (par : Inode) (d : DirInodeData)
    (hw : s.mu.writer = false)
    (hparent : GoMap.get s.inodes op.Parent = some parent)
    (hpar : s.heap[parent]? = some par) (hmu : par.mu = false) (hdir : par.dir = some d)
    (hvalid : ∀ i, GoMap.get d.Children op.Name = some i → ∃ child, s.heap[i]? = some child) :
    (cacheMiss s d op.Name →
      backendCalls (LookUpInode op resp s).2.trace =
        backendCalls s.trace ++ [Ev.backendLookUp parent op.Name]) ∧
    (¬ cacheMiss s d op.Name →
      backendCalls (LookUpInode op resp s).2.trace = backendCalls s.trace ∧
      ∃ i child, GoMap.get d.Children op.Name = some i ∧ s.heap[i]? = some child ∧
        (LookUpInode op resp s).1 = Outcome.ok (none,
          { Child := child.Id
            AttributesExpiration := s.clock + s.flags.StatCacheTTL
            EntryExpiration := s.clock + s.flags.TypeCacheTTL })) := by
  constructor
  · intro hmiss
    rcases hmiss with hnone | ⟨i, child, hsome, hchild, hpast, hdue, hfh⟩
    · obtain ⟨t, ht, htr⟩ := LookUpInode_prefix_none s op resp parent par d hw hparent hpar hmu
        hdir hnone
      rw [ht, lookUpMiss_backendCalls, htr]
    · have hexp : expiredAt s.clock child.AttrTime s.flags.StatCacheTTL = true :=
        (expiredAt_iff _ _ _).mpr ⟨hpast, hdue⟩
      obtain ⟨t, ht, htr, _⟩ := LookUpInode_prefix_miss s op resp parent par d i child hw
        hparent hpar hmu hdir hsome hchild hexp hfh
      rw [ht, lookUpMiss_backendCalls, htr]
  · intro hhit
    cases hget : GoMap.get d.Children op.Name with
    | none => exact absurd (Or.inl hget) hhit
    | some i =>
      obtain ⟨child, hchild⟩ := hvalid i hget
      have hnot : ¬ (expiredAt s.clock child.AttrTime s.flags.StatCacheTTL = true ∧
          child.fileHandles = 0) := by
        intro hc
        obtain ⟨hpast, hdue⟩ := (expiredAt_iff _ _ _).mp hc.1
        exact hhit (Or.inr ⟨i, child, hget, hchild, hpast, hdue, hc.2⟩)
      obtain ⟨h1, h2⟩ := LookUpInode_hit s op resp parent par d i child hw hparent hpar hmu
        hdir hget hchild hnot
      exact ⟨h2, i, child, rfl, hchild, h1⟩

/-- The instances of C3 at the example file system for the name `a`, stamped at
the instant 100 with a time to live of 60: at the instant 100 the cached child
is fresh and is served from the cache without a backend call; at the instant
200 it is expired and the backend is queried once. -/
theorem C3_witness :
    (¬ cacheMiss (exampleFs 100 false 0) (exampleDir [("e", 3), ("d", 2), ("a", 1)]) "a" ∧
      backendCalls (LookUpInode ⟨1, "a"⟩ ⟨none, none⟩ (exampleFs 100 false 0)).2.trace =
        backendCalls (exampleFs 100 false 0).trace) ∧
    (cacheMiss (exampleFs 200 false 0) (exampleDir [("e", 3), ("d", 2), ("a", 1)]) "a" ∧
      backendCalls (LookUpInode ⟨1, "a"⟩ ⟨none, none⟩ (exampleFs 200 false 0)).2.trace =
        backendCalls (exampleFs 200 false 0).trace ++ [Ev.backendLookUp 0 "a"]) := by
  have hget : GoMap.get (exampleDir [("e", 3), ("d", 2), ("a", 1)]).Children "a" = some 1 := by
    decide
  have hvalid : ∀ now i,
      GoMap.get (exampleDir [("e", 3), ("d", 2), ("a", 1)]).Children "a" = some i →
      ∃ child, (exampleFs now false 0).heap[i]? = some child := by
    intro now i hi
    have e1 : i = 1 := (Option.some.inj (hget.symm.trans hi)).symm
    subst e1
    exact ⟨_, rfl⟩
  have hhit : ¬ cacheMiss (exampleFs 100 false 0)
      (exampleDir [("e", 3), ("d", 2), ("a", 1)]) "a" := by
    rintro (h | ⟨i, child, h1, h2, _, h4, _⟩)
    · exact absurd h (by decide)
    · have e1 : i = 1 := (Option.some.inj (hget.symm.trans h1)).symm
      subst e1
      have e2 : child = exampleInode 2 "a" (some 0) none 0 1 :=
        (Option.some.inj ((show (exampleFs 100 false 0).heap[1]? = some _ by rfl).symm.trans
          h2)).symm
      subst e2
      exact absurd h4 (by decide)
  have hmiss : cacheMiss (exampleFs 200 false 0)
      (exampleDir [("e", 3), ("d", 2), ("a", 1)]) "a" :=
    Or.inr ⟨1, exampleInode 2 "a" (some 0) none 0 1, hget, rfl, by decide, by decide, rfl⟩
  exact ⟨⟨hhit, ((C3_backend_consulted_exactly_on_miss (exampleFs 100 false 0) ⟨1, "a"⟩
      ⟨none, none⟩ 0
      (exampleInode 1 "" none (some (exampleDir [("e", 3), ("d", 2), ("a", 1)])) 0 1)
      (exampleDir [("e", 3), ("d", 2), ("a", 1)]) rfl (by decide) rfl rfl rfl
      (hvalid 100)).2 hhit).1⟩,
    ⟨hmiss, (C3_backend_consulted_exactly_on_miss (exampleFs 200 false 0) ⟨1, "a"⟩
      ⟨none, none⟩ 0
      (exampleInode 1 "" none (some (exampleDir [("e", 3), ("d", 2), ("a", 1)])) 0 1)
      (exampleDir [("e", 3), ("d", 2), ("a", 1)]) rfl (by decide) rfl rfl rfl
      (hvalid 200)).1 hmiss⟩⟩

/-- C4: for a cached child that is a directory, when the backend lookup reports
`ENOENT`, `LookUpInode` returns success with the cached inode's id, and the
table and the parent's child index are left as they are, so the inode stays in
both. -/
theorem C4_enoent_suppressed_for_cached_dir (s : FileSystem) (op : LookUpInodeOp)
    (resp : LookUpResp) (parent : Ptr) (par : Inode) (d : DirInodeData) (i : Ptr)
    (child : Inode)
    (hw : s.mu.writer = false)
    (hparent : GoMap.get s.inodes op.Parent = some parent)
    (hpar : s.heap[parent]? = some par) (hmu : par.mu = false) (hdir : par.dir = some d)
    (hsome : GoMap.get d.Children op.Name = some i) (hchild : s.heap[i]? = some child)
    (hexp : expiredAt s.clock child.AttrTime s.flags.StatCacheTTL = true)
    (hfh : child.fileHandles = 0)
    (hcdir : child.isDir = true) (hcmu : child.mu = false)
    (herr : resp.err = some Errno.ENOENT) :
    (LookUpInode op resp s).1 = Outcome.ok (none,
        { Child := child.Id
          AttributesExpiration := s.clock + s.flags.StatCacheTTL
          EntryExpiration := s.clock + s.flags.TypeCacheTTL }) ∧
    (LookUpInode op resp s).2.inodes = s.inodes ∧
    (∃ par1, (LookUpInode op resp s).2.heap[parent]? = some par1 ∧ par1.dir = some d) ∧
    (∃ c1, (LookUpInode op resp s).2.heap[i]? = some c1 ∧ c1.Id = child.Id ∧
      c1.isDir = true) :=
  LookUpInode_enoent_dir s op resp parent par d i child hw hparent hpar hmu hdir hsome hchild
    hexp hfh hcdir hcmu herr

/-- The instance of C4 at the example file system, at the instant 1000, for the
directory `d`: the lookup succeeds with the id 3. -/
theorem C4_witness :
    (LookUpInode ⟨1, "d"⟩ ⟨none, some Errno.ENOENT⟩ (exampleFs 1000 false 0)).1 =
      Outcome.ok (none, { Child := 3, AttributesExpiration := 1060, EntryExpiration := 1060 }) :=
  (C4_enoent_suppressed_for_cached_dir (exampleFs 1000 false 0) ⟨1, "d"⟩
    ⟨none, some Errno.ENOENT⟩ 0
    (exampleInode 1 "" none (some (exampleDir [("e", 3), ("d", 2), ("a", 1)])) 0 1)
    (exampleDir [("e", 3), ("d", 2), ("a", 1)]) 2
    (exampleInode 3 "d" (some 0) (some (exampleDir [])) 0 1)
    rfl (by decide) rfl rfl rfl (by decide) rfl (by decide) rfl rfl rfl rfl).1

/-- Counterexample to C5: with `Flags.ExplicitDir` set, the lookup of the cached
directory `d` whose backend lookup reports `ENOENT` does not report not-found;
it succeeds with the cached id 3. -/
theorem C5_counterexample :
    (exampleFs 1000 true 0).flags.ExplicitDir = true ∧
    (LookUpInode ⟨1, "d"⟩ ⟨none, some Errno.ENOENT⟩ (exampleFs 1000 true 0)).1 =
      Outcome.ok (none, { Child := 3, AttributesExpiration := 1060, EntryExpiration := 1060 }) ∧
    (LookUpInode ⟨1, "d"⟩ ⟨none, some Errno.ENOENT⟩ (exampleFs 1000 true 0)).1 ≠
      Outcome.ok (some Errno.ENOENT, ChildInodeEntry.zero) := by
  decide

/-- C5, amended: `LookUpInode` does not consult `Flags.ExplicitDir`; also when
the toggle is set, a backend `ENOENT` for a cached directory is suppressed and
the lookup succeeds with the cached inode's id. -/
theorem C5_explicit_dir_not_consulted (s : FileSystem) (op : LookUpInodeOp)
    (resp : LookUpResp) (parent : Ptr) (par : Inode) (d : DirInodeData) (i : Ptr)
    (child : Inode)
    (hflag : s.flags.ExplicitDir = true)
    (hw : s.mu.writer = false)
    (hparent : GoMap.get s.inodes op.Parent = some parent)
    (hpar : s.heap[parent]? = some par) (hmu : par.mu = false) (hdir : par.dir = some d)
    (hsome : GoMap.get d.Children op.Name = some i) (hchild : s.heap[i]? = some child)
    (hexp : expiredAt s.clock child.AttrTime s.flags.StatCacheTTL = true)
    (hfh : child.fileHandles = 0)
    (hcdir : child.isDir = true) (hcmu : child.mu = false)
    (herr : resp.err = some Errno.ENOENT) :
    s.flags.ExplicitDir = true ∧
    (LookUpInode op resp s).1 = Outcome.ok (none,
        { Child := child.Id
          AttributesExpiration := s.clock + s.flags.StatCacheTTL
          EntryExpiration := s.clock + s.flags.TypeCacheTTL }) :=
  ⟨hflag, (LookUpInode_enoent_dir s op resp parent par d i child hw hparent hpar hmu hdir hsome
    hchild hexp hfh hcdir hcmu herr).1⟩

/-- The instance of the amended C5 at the example file system with the toggle
set. -/
theorem C5_witness :
    (exampleFs 1000 true 0).flags.ExplicitDir = true ∧
    (LookUpInode ⟨1, "d"⟩ ⟨none, some Errno.ENOENT⟩ (exampleFs 1000 true 0)).1 =
      Outcome.ok (none, { Child := 3, AttributesExpiration := 1060, EntryExpiration := 1060 }) :=
  C5_explicit_dir_not_consulted (exampleFs 1000 true 0) ⟨1, "d"⟩
    ⟨none, some Errno.ENOENT⟩ 0
    (exampleInode 1 "" none (some (exampleDir [("e", 3), ("d", 2), ("a", 1)])) 0 1)
    (exampleDir [("e", 3), ("d", 2), ("a", 1)]) 2
    (exampleInode 3 "d" (some 0) (some (exampleDir [])) 0 1)
    rfl rfl (by decide) rfl rfl rfl (by decide) rfl (by decide) rfl rfl rfl rfl

end Fs

namespace Fs

theorem GoMap.get_delete_self {κ β : Type} [DecidableEq κ] (m : GoMap κ β) (k : κ) :
    GoMap.get (GoMap.delete m k) k = none := by
  rw [GoMap.get_delete, if_pos rfl]

set_option maxHeartbeats 1000000 in
/-- The effect of `ForgetInode` on a registered inode whose parent, if any, is an
unlocked directory, split on the answer of `DeRef`. -/
theorem ForgetInode_effect (s : FileSystem) (op : ForgetInodeOp) (p : Ptr) (ino : Inode)
    (hr : s.mu.readers = 0) (hw : s.mu.writer = false)
    (hp : GoMap.get s.inodes op.Inode = some p) (hino : s.heap[p]? = some ino)
    (hparent : ∀ q, ino.Parent = some q →
      ∃ par d, s.heap[q]? = some par ∧ par.mu = false ∧ par.dir = some d) :
    (ForgetInode op s).1 = Outcome.ok none ∧
    ((ino.deRef op.N).2 = true →
      (ForgetInode op s).2.inodes = GoMap.delete s.inodes op.Inode ∧
      (ForgetInode op s).2.forgotCnt = (s.forgotCnt + 1) % U32 ∧
      ∀ (x : Ptr) (o : Inode), s.heap[x]? = some o →
        ∃ o1 : Inode, (ForgetInode op s).2.heap[x]? = some o1 ∧
        o1.dir = if ino.Parent = some x
          then o.dir.map (fun d => { d with Children := GoMap.delete d.Children ino.Name })
          else o.dir) ∧
    ((ino.deRef op.N).2 = false →
      (ForgetInode op s).2.inodes = s.inodes ∧
      (ForgetInode op s).2.forgotCnt = s.forgotCnt ∧
      ∀ (x : Ptr) (o : Inode), s.heap[x]? = some o →
        ∃ o1 : Inode, (ForgetInode op s).2.heap[x]? = some o1 ∧
        o1.dir = o.dir) ∧
    (∃ o1 : Inode, (ForgetInode op s).2.heap[p]? = some o1 ∧ o1.refcnt = ino.refcnt - op.N ∧
      ((ino.deRef op.N).2 = true ↔ o1.refcnt = 0)) := by
  have hplt : p < s.heap.length := (List.getElem?_eq_some.mp hino).1
  have hino1 : s.heap[p] = ino := (List.getElem?_eq_some.mp hino).2
  cases hpar : ino.Parent with
  | none =>
    by_cases hstale : ino.refcnt - op.N = 0
    · simp [ForgetInode, forgetLocked, bind_apply, pure_apply, muRLock, muRUnlock, muLock,
        muUnlock, getInodeOrDie, deref, lockInode, unlockInode, withDefer, DeRef, modifyObj,
        removeChildUnlocked, Inode.deRef, goPanic, hr, hw, hp, hino, hpar, hstale,
        List.getElem?_set, hplt, hino1]
      intro x o hx
      by_cases hpx : p = x
      · subst hpx
        have e : o = ino := Option.some.inj (hx.symm.trans hino)
        subst e
        simp
      · simp [hpx, hx]
    · simp [ForgetInode, forgetLocked, bind_apply, pure_apply, muRLock, muRUnlock, muLock,
        muUnlock, getInodeOrDie, deref, lockInode, unlockInode, withDefer, DeRef, modifyObj,
        removeChildUnlocked, Inode.deRef, goPanic, hr, hw, hp, hino, hpar, hstale,
        List.getElem?_set, hplt, hino1]
      intro x o hx
      by_cases hpx : p = x
      · subst hpx
        have e : o = ino := Option.some.inj (hx.symm.trans hino)
        subst e
        simp
      · simp [hpx, hx]
  | some q =>
    obtain ⟨par, d, hq, hmu, hd⟩ := hparent q hpar
    have hqlt : q < s.heap.length := (List.getElem?_eq_some.mp hq).1
    have hq1 : s.heap[q] = par := (List.getElem?_eq_some.mp hq).2
    by_cases hpq : p = q
    · subst hpq
      have e : par = ino := Option.some.inj (hq.symm.trans hino)
      subst e
      by_cases hstale : par.refcnt - op.N = 0
      · simp [ForgetInode, forgetLocked, bind_apply, pure_apply, muRLock, muRUnlock, muLock,
          muUnlock, getInodeOrDie, deref, lockInode, unlockInode, withDefer, DeRef, modifyObj,
          removeChildUnlocked, Inode.deRef, goPanic, hr, hw, hp, hino, hpar, hstale,
          List.getElem?_set, hplt, hino1, hmu, hd]
        intro x o hx
        by_cases hpx : p = x
        · subst hpx
          have e : o = par := Option.some.inj (hx.symm.trans hino)
          subst e
          simp [hd]
        · simp [hpx, hx]
      · simp [ForgetInode, forgetLocked, bind_apply, pure_apply, muRLock, muRUnlock, muLock,
          muUnlock, getInodeOrDie, deref, lockInode, unlockInode, withDefer, DeRef, modifyObj,
          removeChildUnlocked, Inode.deRef, goPanic, hr, hw, hp, hino, hpar, hstale,
          List.getElem?_set, hplt, hino1, hmu, hd]
        intro x o hx
        by_cases hpx : p = x
        · subst hpx
          have e : o = par := Option.some.inj (hx.symm.trans hino)
          subst e
          simp [hd]
        · simp [hpx, hx]
    · by_cases hstale : ino.refcnt - op.N = 0
      · simp [ForgetInode, forgetLocked, bind_apply, pure_apply, muRLock, muRUnlock, muLock,
          muUnlock, getInodeOrDie, deref, lockInode, unlockInode, withDefer, DeRef, modifyObj,
          removeChildUnlocked, Inode.deRef, goPanic, hr, hw, hp, hino, hpar, hstale,
          List.getElem?_set, hplt, hino1, hmu, hd, hq, hqlt, hq1, hpq, Ne.symm hpq]
        intro x o hx
        by_cases hqx : q = x
        · subst hqx
          have e : o = par := Option.some.inj (hx.symm.trans hq)
          subst e
          simp [hd]
        · by_cases hpx : p = x
          · subst hpx
            have e : o = ino := Option.some.inj (hx.symm.trans hino)
            subst e
            simp [hqx]
          · simp [hqx, hpx, hx]
      · simp [ForgetInode, forgetLocked, bind_apply, pure_apply, muRLock, muRUnlock, muLock,
          muUnlock, getInodeOrDie, deref, lockInode, unlockInode, withDefer, DeRef, modifyObj,
          removeChildUnlocked, Inode.deRef, goPanic, hr, hw, hp, hino, hpar, hstale,
          List.getElem?_set, hplt, hino1, hmu, hd, hq, hqlt, hq1, hpq, Ne.symm hpq]
        intro x o hx
        by_cases hqx : q = x
        · subst hqx
          have e : o = par := Option.some.inj (hx.symm.trans hq)
          subst e
          simp [hd]
        · by_cases hpx : p = x
          · subst hpx
            have e : o = ino := Option.some.inj (hx.symm.trans hino)
            subst e
            simp [hqx]
          · simp [hqx, hpx, hx]

end Fs

namespace Fs

theorem TraceAdds.renameMove {P : Ev → Prop} (op : RenameOp) (parent newParent inode : Ptr) :
    TraceAdds P (renameMove op parent newParent inode) := by
  unfold Fs.renameMove
  apply TraceAdds.seq (TraceAdds.removeChildUnlocked parent inode)
  intro _
  apply TraceAdds.seq (TraceAdds.findChildUnlocked newParent op.NewName)
  intro newNode
  apply TraceAdds.seq
  · cases newNode with
    | none => exact TraceAdds.ret _
    | some n =>
      exact TraceAdds.seq (TraceAdds.removeChildUnlocked newParent n)
        (fun _ => TraceAdds.updates _ _)
  intro _
  exact TraceAdds.seq (TraceAdds.updates _ _) (fun _ =>
    TraceAdds.seq (TraceAdds.updates _ _) (fun _ => TraceAdds.insertChildUnlocked _ _))

theorem TraceAdds.renameSettle {P : Ev → Prop} (op : RenameOp) (err0 : GoError)
    (parent newParent : Ptr) (hP : ∀ p, P (Ev.lock p) ∧ P (Ev.unlock p)) :
    TraceAdds P (renameSettle op err0 parent newParent) := by
  unfold Fs.renameSettle
  apply TraceAdds.seq
  · split
    · apply TraceAdds.whileErr
      apply TraceAdds.seq (TraceAdds.findChildUnlocked parent op.OldName)
      intro inode
      cases inode with
      | none => exact TraceAdds.ret _
      | some i =>
        apply TraceAdds.seq (TraceAdds.reads i)
        intro ino
        dsimp only
        split
        · exact TraceAdds.ret _
        · exact TraceAdds.ret _
    · exact TraceAdds.ret _
  intro err
  split
  · apply TraceAdds.seq (TraceAdds.findChildUnlocked parent op.OldName)
    intro inode
    apply TraceAdds.seq
    · cases inode with
      | none => exact TraceAdds.ret _
      | some i =>
        exact TraceAdds.seq (TraceAdds.lockInode i (hP i).1) (fun _ =>
          TraceAdds.withDefer (TraceAdds.unlockInode i (hP i).2)
            (TraceAdds.renameMove op parent newParent i))
    intro _
    exact TraceAdds.ret _
  · exact TraceAdds.ret _

end Fs

namespace Fs

theorem renameLocked_eq (op : RenameOp) (resp : GoError) (a b : Ptr) (t : FileSystem) :
    renameLocked op resp a b t =
      renameSettle op resp a b
        { t with trace := t.trace ++ [Ev.backendRename a op.OldName b op.NewName] } := rfl

theorem withDefer_congr {α : Type} (c : M Unit) (m1 m2 : M α) (t1 t2 : FileSystem)
    (h : m1 t1 = m2 t2) : withDefer c m1 t1 = withDefer c m2 t2 := by
  unfold withDefer
  rw [h]

/-- The events of `Rename` when the two parents differ: up to the backend call
they are fixed, and after it only inode locks are taken and released. -/
theorem Rename_events_diff (P : Ev → Prop) (hP : ∀ p, P (Ev.lock p) ∧ P (Ev.unlock p))
    (s : FileSystem) (op : RenameOp) (resp : GoError) (a b : Ptr)
    (oa ob : Inode) (hne : op.OldParent ≠ op.NewParent) (hab : a ≠ b)
    (hw : s.mu.writer = false)
    (hA : GoMap.get s.inodes op.OldParent = some a)
    (hB : GoMap.get s.inodes op.NewParent = some b)
    (hoa : s.heap[a]? = some oa) (hob : s.heap[b]? = some ob)
    (hmua : oa.mu = false) (hmub : ob.mu = false) :
    ∃ rest, (Rename op resp s).2.trace = s.trace ++
      [Ev.muRLock, Ev.muRUnlock,
        Ev.lock (if op.OldParent < op.NewParent then a else b),
        Ev.lock (if op.OldParent < op.NewParent then b else a),
        Ev.backendRename a op.OldName b op.NewName] ++ rest ∧ ∀ e ∈ rest, P e := by
  have halt : a < s.heap.length := (List.getElem?_eq_some.mp hoa).1
  have hblt : b < s.heap.length := (List.getElem?_eq_some.mp hob).1
  have hoa1 : s.heap[a] = oa := (List.getElem?_eq_some.mp hoa).2
  have hob1 : s.heap[b] = ob := (List.getElem?_eq_some.mp hob).2
  have hpre : ∃ t, Rename op resp s =
      withDefer (unlockInode a) (withDefer (unlockInode b) (renameLocked op resp a b)) t ∧
      t.trace = s.trace ++ [Ev.muRLock, Ev.muRUnlock,
        Ev.lock (if op.OldParent < op.NewParent then a else b),
        Ev.lock (if op.OldParent < op.NewParent then b else a)] := by
    by_cases hlt : op.OldParent < op.NewParent
    · apply Exists.intro
      constructor
      · simp [Rename, bind_apply, pure_apply, muRLock, muRUnlock, getInodeOrDie, lockInode, hw,
          hA, hB, hoa, hob, hmua, hmub, hne, hlt, List.getElem?_set, hab, Ne.symm hab, halt, hblt,
          hoa1, hob1]
        rfl
      · simp [hlt]
    · apply Exists.intro
      constructor
      · simp [Rename, bind_apply, pure_apply, muRLock, muRUnlock, getInodeOrDie, lockInode, hw,
          hA, hB, hoa, hob, hmua, hmub, hne, hlt, List.getElem?_set, hab, Ne.symm hab, halt, hblt,
          hoa1, hob1]
        rfl
      · simp [hlt]
  obtain ⟨t, ht, htr⟩ := hpre
  have hmore := TraceAdds.withDefer (P := P)
    (TraceAdds.unlockInode a (hP a).2)
    (TraceAdds.withDefer (TraceAdds.unlockInode b (hP b).2)
      (TraceAdds.renameSettle op resp a b hP))
    { t with trace := t.trace ++ [Ev.backendRename a op.OldName b op.NewName] }
  obtain ⟨rest, hrest, hall⟩ := hmore
  refine ⟨rest, ?_, hall⟩
  rw [ht, withDefer_congr _ _ _ _ _ (withDefer_congr _ _ _ _ _ (renameLocked_eq op resp a b t)),
    hrest]
  show (t.trace ++ [Ev.backendRename a op.OldName b op.NewName]) ++ rest = _
  rw [htr]
  simp

/-- The events of `Rename` up to the backend call when the two parents
differ. -/
theorem Rename_trace_diff (s : FileSystem) (op : RenameOp) (resp : GoError) (a b : Ptr)
    (oa ob : Inode) (hne : op.OldParent ≠ op.NewParent) (hab : a ≠ b)
    (hw : s.mu.writer = false)
    (hA : GoMap.get s.inodes op.OldParent = some a)
    (hB : GoMap.get s.inodes op.NewParent = some b)
    (hoa : s.heap[a]? = some oa) (hob : s.heap[b]? = some ob)
    (hmua : oa.mu = false) (hmub : ob.mu = false) :
    ∃ rest, (Rename op resp s).2.trace = s.trace ++
      [Ev.muRLock, Ev.muRUnlock,
        Ev.lock (if op.OldParent < op.NewParent then a else b),
        Ev.lock (if op.OldParent < op.NewParent then b else a),
        Ev.backendRename a op.OldName b op.NewName] ++ rest := by
  obtain ⟨rest, h, _⟩ := Rename_events_diff (fun _ => True) (fun _ => ⟨trivial, trivial⟩)
    s op resp a b oa ob hne hab hw hA hB hoa hob hmua hmub
  exact ⟨rest, h⟩

end Fs

namespace Fs

/-- The events of `Rename` when the two parents are the same directory: up to
the backend call they are fixed, and after it only inode locks are taken and
released. -/
theorem Rename_events_same (P : Ev → Prop) (hP : ∀ p, P (Ev.lock p) ∧ P (Ev.unlock p))
    (s : FileSystem) (op : RenameOp) (resp : GoError) (a : Ptr)
    (oa : Inode) (heq : op.OldParent = op.NewParent)
    (hw : s.mu.writer = false)
    (hA : GoMap.get s.inodes op.OldParent = some a)
    (hoa : s.heap[a]? = some oa) (hmua : oa.mu = false) :
    ∃ rest, (Rename op resp s).2.trace = s.trace ++
      [Ev.muRLock, Ev.muRUnlock, Ev.lock a, Ev.backendRename a op.OldName a op.NewName]
        ++ rest ∧ ∀ e ∈ rest, P e := by
  have halt : a < s.heap.length := (List.getElem?_eq_some.mp hoa).1
  have hoa1 : s.heap[a] = oa := (List.getElem?_eq_some.mp hoa).2
  have hB : GoMap.get s.inodes op.NewParent = some a := heq ▸ hA
  have hpre : ∃ t, Rename op resp s =
      withDefer (unlockInode a) (renameLocked op resp a a) t ∧
      t.trace = s.trace ++ [Ev.muRLock, Ev.muRUnlock, Ev.lock a] := by
    apply Exists.intro
    constructor
    · simp [Rename, bind_apply, pure_apply, muRLock, muRUnlock, getInodeOrDie, lockInode, hw,
        hA, hB, hoa, hmua, heq, List.getElem?_set, halt, hoa1]
      rfl
    · simp
  obtain ⟨t, ht, htr⟩ := hpre
  have hmore := TraceAdds.withDefer (P := P)
    (TraceAdds.unlockInode a (hP a).2)
    (TraceAdds.renameSettle op resp a a hP)
    { t with trace := t.trace ++ [Ev.backendRename a op.OldName a op.NewName] }
  obtain ⟨rest, hrest, hall⟩ := hmore
  refine ⟨rest, ?_, hall⟩
  rw [ht, withDefer_congr _ _ _ _ _ (renameLocked_eq op resp a a t), hrest]
  show (t.trace ++ [Ev.backendRename a op.OldName a op.NewName]) ++ rest = _
  rw [htr]
  simp

/-- The events of `Rename` up to the backend call when the two parents are the
same directory. -/
theorem Rename_trace_same (s : FileSystem) (op : RenameOp) (resp : GoError) (a : Ptr)
    (oa : Inode) (heq : op.OldParent = op.NewParent)
    (hw : s.mu.writer = false)
    (hA : GoMap.get s.inodes op.OldParent = some a)
    (hoa : s.heap[a]? = some oa) (hmua : oa.mu = false) :
    ∃ rest, (Rename op resp s).2.trace = s.trace ++
      [Ev.muRLock, Ev.muRUnlock, Ev.lock a, Ev.backendRename a op.OldName a op.NewName]
        ++ rest := by
  obtain ⟨rest, h, _⟩ := Rename_events_same (fun _ => True) (fun _ => ⟨trivial, trivial⟩)
    s op resp a oa heq hw hA hoa hmua
  exact ⟨rest, h⟩

/-- C9: let `A < B` be the ids of two directories registered in the table at
`a` and `b`. A `Rename` from `A` to `B` and a `Rename` from `B` to `A` both
acquire first the lock of `a`, the directory with the smaller id, and then the
lock of `b`, before the backend rename is issued; a `Rename` within `A`
acquires exactly one directory lock before the backend rename. -/
theorem C9_rename_locks_in_id_order (s : FileSystem) (A B : InodeID) (a b : Ptr)
    (oa ob : Inode) (n1 n2 n3 n4 : String) (resp1 resp2 : GoError)
    (hAB : A < B) (hw : s.mu.writer = false)
    (hA : GoMap.get s.inodes A = some a) (hB : GoMap.get s.inodes B = some b)
    (hoa : s.heap[a]? = some oa) (hob : s.heap[b]? = some ob)
    (hida : oa.Id = A) (hidb : ob.Id = B)
    (hmua : oa.mu = false) (hmub : ob.mu = false) :
    oa.Id < ob.Id ∧
    (∃ rest, (Rename { OldParent := A, OldName := n1, NewParent := B, NewName := n2 } resp1
        s).2.trace = s.trace ++
      [Ev.muRLock, Ev.muRUnlock, Ev.lock a, Ev.lock b, Ev.backendRename a n1 b n2] ++ rest) ∧
    (∃ rest, (Rename { OldParent := B, OldName := n3, NewParent := A, NewName := n4 } resp2
        s).2.trace = s.trace ++
      [Ev.muRLock, Ev.muRUnlock, Ev.lock a, Ev.lock b, Ev.backendRename b n3 a n4] ++ rest) ∧
    (∃ rest, (Rename { OldParent := A, OldName := n1, NewParent := A, NewName := n2 } resp1
        s).2.trace = s.trace ++
      [Ev.muRLock, Ev.muRUnlock, Ev.lock a, Ev.backendRename a n1 a n2] ++ rest) := by
  have hne : A ≠ B := Nat.ne_of_lt hAB
  have hab : a ≠ b := by
    intro hc
    subst hc
    have e : oa = ob := Option.some.inj (hoa.symm.trans hob)
    exact hne (hida.symm.trans (e ▸ hidb))
  refine ⟨by rw [hida, hidb]; exact hAB, ?_, ?_, ?_⟩
  · have h := Rename_trace_diff s { OldParent := A, OldName := n1, NewParent := B, NewName := n2 }
      resp1 a b oa ob hne hab hw hA hB hoa hob hmua hmub
    simpa [hAB] using h
  · have h := Rename_trace_diff s { OldParent := B, OldName := n3, NewParent := A, NewName := n4 }
      resp2 b a ob oa (Ne.symm hne) (Ne.symm hab) hw hB hA hob hoa hmub hmua
    simpa [Nat.lt_asymm hAB] using h
  · exact Rename_trace_same s { OldParent := A, OldName := n1, NewParent := A, NewName := n2 }
      resp1 a oa rfl hw hA hoa hmua

/-- The instance of C9 at the example file system for the root (id 1) and the
directory `d` (id 3). -/
theorem C9_witness :
    (1 : InodeID) < 3 ∧
    (∃ rest, (Rename { OldParent := 1, OldName := "a", NewParent := 3, NewName := "b" } none
        (exampleFs 100 false 0)).2.trace = (exampleFs 100 false 0).trace ++
      [Ev.muRLock, Ev.muRUnlock, Ev.lock 0, Ev.lock 2, Ev.backendRename 0 "a" 2 "b"] ++ rest) ∧
    (∃ rest, (Rename { OldParent := 3, OldName := "b", NewParent := 1, NewName := "a" } none
        (exampleFs 100 false 0)).2.trace = (exampleFs 100 false 0).trace ++
      [Ev.muRLock, Ev.muRUnlock, Ev.lock 0, Ev.lock 2, Ev.backendRename 2 "b" 0 "a"] ++ rest) :=
  let h := C9_rename_locks_in_id_order (exampleFs 100 false 0) 1 3 0 2
    (exampleInode 1 "" none (some (exampleDir [("e", 3), ("d", 2), ("a", 1)])) 0 1)
    (exampleInode 3 "d" (some 0) (some (exampleDir [])) 0 1) "a" "b" "b" "a" none none
    (by decide) rfl (by decide) (by decide) rfl rfl rfl rfl rfl rfl
  ⟨h.1, h.2.1, h.2.2.1⟩

/-- C7: for an id that is not in the table, `ForgetInode` called through the
panic facade reports `EIO` and leaves the table, `forgotCnt` and every inode
object, hence every child index, as they are. -/
theorem C7_forget_unknown_inode (s : FileSystem) (op : ForgetInodeOp)
    (hw : s.mu.writer = false) (habsent : GoMap.get s.inodes op.Inode = none) :
    (FusePanicLogger.ForgetInode op s).1 = Outcome.ok (some Errno.ioFailure) ∧
    (FusePanicLogger.ForgetInode op s).2.inodes = s.inodes ∧
    (FusePanicLogger.ForgetInode op s).2.forgotCnt = s.forgotCnt ∧
    (FusePanicLogger.ForgetInode op s).2.heap = s.heap := by
  simp [FusePanicLogger.ForgetInode, LogPanic, ForgetInode, bind_apply, muRLock, getInodeOrDie,
    goPanic, hw, habsent]

/-- The instance of C7 after a forget that removed the inode: the file `a` of
the example file system is forgotten, and a second forget reports `EIO`. -/
theorem C7_witness :
    (ForgetInode ⟨2, 1⟩ (exampleFs 100 false 0)).1 = Outcome.ok none ∧
    (FusePanicLogger.ForgetInode ⟨2, 1⟩ (ForgetInode ⟨2, 1⟩ (exampleFs 100 false 0)).2).1 =
      Outcome.ok (some Errno.ioFailure) ∧
    (FusePanicLogger.ForgetInode ⟨2, 1⟩ (ForgetInode ⟨2, 1⟩ (exampleFs 100 false 0)).2).2.inodes =
      (ForgetInode ⟨2, 1⟩ (exampleFs 100 false 0)).2.inodes :=
  let h := C7_forget_unknown_inode (ForgetInode ⟨2, 1⟩ (exampleFs 100 false 0)).2 ⟨2, 1⟩
    (by decide!) (by decide!)
  ⟨by decide!, h.1, h.2.1⟩

/-- A request on an unknown file handle leaves one more reader on `fs.mu`, in
every state in which no writer holds the lock. -/
theorem WriteFile_unknown_handle (s : FileSystem) (op : WriteFileOp) (resp : GoError)
    (hw : s.mu.writer = false) (habsent : GoMap.get s.fileHandles op.Handle = none) :
    (FusePanicLogger.WriteFile op resp s).1 = Outcome.ok (some Errno.ioFailure) ∧
    (FusePanicLogger.WriteFile op resp s).2.mu.readers = s.mu.readers + 1 := by
  simp [FusePanicLogger.WriteFile, LogPanic, WriteFile, bind_apply, muRLock, goPanic, hw,
    habsent]

/-- C8, the code at the failing input: on the example file system, `WriteFile`
on the unknown handle 7 and `ForgetInode` on the unknown inode 9 are turned into
`EIO` by the facade, but the read lock on `fs.mu` taken before the panic is
still held (the reader count went from 0 to 1), and a later `LookUpInode` that
has to insert a new inode blocks on `fs.mu.Lock()`. -/
theorem C8_panic_leaves_table_lock_held :
    (FusePanicLogger.WriteFile ⟨7⟩ none (exampleFs 100 false 0)).1 =
      Outcome.ok (some Errno.ioFailure) ∧
    (exampleFs 100 false 0).mu.readers = 0 ∧
    (FusePanicLogger.WriteFile ⟨7⟩ none (exampleFs 100 false 0)).2.mu.readers = 1 ∧
    (FusePanicLogger.ForgetInode ⟨9, 1⟩ (exampleFs 100 false 0)).2.mu.readers = 1 ∧
    (LookUpInode ⟨1, "new"⟩ ⟨some (exampleInode 0 "new" (some 0) none 0 1), none⟩
      (exampleFs 100 false 0)).1 =
      Outcome.ok (none, { Child := 5, AttributesExpiration := 160, EntryExpiration := 160 }) ∧
    (LookUpInode ⟨1, "new"⟩ ⟨some (exampleInode 0 "new" (some 0) none 0 1), none⟩
      (FusePanicLogger.WriteFile ⟨7⟩ none (exampleFs 100 false 0)).2).1 =
      Outcome.abort Abort.blocked := by
  decide!

end Fs

namespace Fs

theorem Triple.withDeferTotal {α : Type} {P : FileSystem → Prop} {c : M Unit} {b : M α}
    {Q R : α → FileSystem → Prop}
    (hb : Triple P b Q (fun _ _ => False))
    (hc : ∀ a, Triple (Q a) c (fun _ t => R a t) (fun _ _ => False)) :
    Triple P (withDefer c b) R (fun _ _ => False) := by
  intro t ht
  have h := hb t ht
  unfold Fs.withDefer
  rcases hm : b t with ⟨o, t1⟩
  rw [hm] at h
  cases o with
  | abort r => exact absurd h id
  | ok a =>
    have h2 := hc a t1 h
    dsimp only
    rcases hcs : c t1 with ⟨o2, t2⟩
    rw [hcs] at h2
    cases o2 with
    | abort r => exact absurd h2 id
    | ok u => exact h2

theorem Triple.whileErrTotal {α : Type} {P : FileSystem → Prop} {b : M α}
    {Q : α → FileSystem → Prop} (e : GoError)
    (hb : Triple P b Q (fun _ _ => False)) :
    Triple P (whileErr e b) Q (fun _ _ => False) := by
  intro t ht
  have h := hb t ht
  unfold Fs.whileErr
  rcases hm : b t with ⟨o, t1⟩
  rw [hm] at h
  cases o with
  | abort r => exact absurd h id
  | ok a => exact h

theorem findChildUnlocked_eq (t : FileSystem) (x : Ptr) (nm : String) (o : Inode)
    (d : DirInodeData) (hx : t.heap[x]? = some o) (hd : o.dir = some d) :
    findChildUnlocked x nm t = (Outcome.ok (GoMap.get d.Children nm), t) := by
  simp [findChildUnlocked, bind_apply, pure_apply, deref, hx, hd]

theorem removeChildUnlocked_eq (t : FileSystem) (x y : Ptr) (o oy : Inode)
    (d : DirInodeData) (hx : t.heap[x]? = some o) (hd : o.dir = some d)
    (hy : t.heap[y]? = some oy) :
    removeChildUnlocked x y t = (Outcome.ok (),
      { t with heap := (t.heap.set x
          { o with dir := some { d with Children := GoMap.delete d.Children oy.Name } }) }) := by
  simp [removeChildUnlocked, bind_apply, pure_apply, deref, modifyObj, hx, hd, hy]

theorem insertChildUnlocked_eq (t : FileSystem) (x y : Ptr) (o oy : Inode)
    (d : DirInodeData) (hx : t.heap[x]? = some o) (hd : o.dir = some d)
    (hy : t.heap[y]? = some oy) :
    insertChildUnlocked x y t = (Outcome.ok (),
      { t with heap := (t.heap.set x
          { o with dir := some { d with Children := GoMap.set d.Children oy.Name y } }) }) := by
  simp [insertChildUnlocked, bind_apply, pure_apply, deref, modifyObj, hx, hd, hy]

theorem isDir_iff (o : Inode) : o.isDir = true ↔ ∃ d, o.dir = some d := by
  cases h : o.dir <;> simp [Inode.isDir, h]

/-- An update of one object that keeps its mutex and its kind and adds no entry
to its child index keeps `RenameInv`. -/
theorem RenameInv.setDir {a b i : Ptr} {li : Bool} {t : FileSystem} (h : RenameInv a b i li t)
    (x : Ptr) (o o1 : Inode) (hx : t.heap[x]? = some o) (hmu : o1.mu = o.mu)
    (hkind : o1.isDir = o.isDir)
    (hsub : ∀ d1 nm n, o1.dir = some d1 → GoMap.get d1.Children nm = some n →
      ∃ d, o.dir = some d ∧ GoMap.get d.Children nm = some n)
    (tr : List Ev) :
    RenameInv a b i li { t with heap := t.heap.set x o1, trace := tr } := by
  obtain ⟨⟨oa, hoa, hamu, hadir⟩, ⟨ob, hob, hbmu, hbdir, hbv⟩, ⟨oi, hoi, himu⟩⟩ := h
  have hlt : x < t.heap.length := (List.getElem?_eq_some.mp hx).1
  have hself : (t.heap.set x o1)[x]? = some o1 := by simp [List.getElem?_set, hlt]
  have hother : ∀ y, x ≠ y → (t.heap.set x o1)[y]? = t.heap[y]? := by
    intro y hy
    simp [List.getElem?_set, hy]
  refine ⟨?_, ?_, ?_⟩
  · by_cases hxa : x = a
    · subst hxa
      have e : oa = o := Option.some.inj (hoa.symm.trans hx)
      subst e
      exact ⟨o1, hself, hmu.trans hamu, hkind.trans hadir⟩
    · exact ⟨oa, (hother a hxa).trans hoa, hamu, hadir⟩
  · by_cases hxb : x = b
    · subst hxb
      have e : ob = o := Option.some.inj (hob.symm.trans hx)
      subst e
      refine ⟨o1, hself, hmu.trans hbmu, hkind.trans hbdir, ?_⟩
      intro d1 nm n hd1 hn
      obtain ⟨d, hd, hdn⟩ := hsub d1 nm n hd1 hn
      exact valid_set x o1 (hbv d nm n hd hdn)
    · refine ⟨ob, (hother b hxb).trans hob, hbmu, hbdir, ?_⟩
      intro d nm n hd hn
      exact valid_set x o1 (hbv d nm n hd hn)
  · by_cases hxi : x = i
    · subst hxi
      have e : oi = o := Option.some.inj (hoi.symm.trans hx)
      subst e
      exact ⟨o1, hself, hmu.trans himu⟩
    · exact ⟨oi, (hother i hxi).trans hoi, himu⟩

/-- Taking or releasing the mutex of the inode at `i`, which is neither
directory, keeps `RenameInv`. -/
theorem RenameInv.setMu {a b i : Ptr} {li : Bool} {t : FileSystem} (h : RenameInv a b i li t)
    (hia : i ≠ a) (hib : i ≠ b) (o : Inode) (hi : t.heap[i]? = some o) (m : Bool)
    (tr : List Ev) :
    RenameInv a b i m { t with heap := t.heap.set i { o with mu := m }, trace := tr } := by
  obtain ⟨⟨oa, hoa, hamu, hadir⟩, ⟨ob, hob, hbmu, hbdir, hbv⟩, ⟨oi, hoi, himu⟩⟩ := h
  have hlt : i < t.heap.length := (List.getElem?_eq_some.mp hi).1
  refine ⟨⟨oa, by simp [List.getElem?_set, hia, hoa], hamu, hadir⟩,
    ⟨ob, by simp [List.getElem?_set, hib, hob], hbmu, hbdir, ?_⟩,
    ⟨{ o with mu := m }, by simp [List.getElem?_set, hlt], rfl⟩⟩
  intro d nm n hd hn
  exact valid_set i _ (hbv d nm n hd hn)

end Fs

namespace Fs

/-- The local move of `Rename`: from a state in which both directories and the
moved inode are locked, the inode ends up listed in the new parent under the
new name, carrying that name and the new parent. -/
theorem renameMove_done (op : RenameOp) (a b i : Ptr) (hia : i ≠ a) (hib : i ≠ b) :
    Triple (RenameInv a b i true) (renameMove op a b i)
      (fun _ t => RenameDone a b i op.NewName true true true t) (fun _ _ => False) := by
  have hdel : ∀ (d : DirInodeData) (k nm : String) (n : Ptr),
      GoMap.get (GoMap.delete d.Children k) nm = some n → GoMap.get d.Children nm = some n := by
    intro d k nm n h
    rw [GoMap.get_delete] at h
    by_cases hk : k = nm
    · rw [if_pos hk] at h
      exact absurd h (by simp)
    · rw [if_neg hk] at h
      exact h
  have hrem : ∀ (x y : Ptr) (P : FileSystem → Prop),
      (∀ t, P t → RenameInv a b i true t ∧ (∃ o, t.heap[x]? = some o ∧ o.isDir = true) ∧
        ∃ oy, t.heap[y]? = some oy) →
      Triple P (removeChildUnlocked x y) (fun _ t => RenameInv a b i true t)
        (fun _ _ => False) := by
    intro x y P hP t ht
    obtain ⟨hinv, ⟨o, ho, hod⟩, ⟨oy, hoy⟩⟩ := hP t ht
    obtain ⟨d, hd⟩ := (isDir_iff o).mp hod
    rw [removeChildUnlocked_eq t x y o oy d ho hd hoy]
    refine RenameInv.setDir hinv x o
      { o with dir := some { d with Children := GoMap.delete d.Children oy.Name } } ho rfl ?_ ?_
      t.trace
    · simp [Inode.isDir, hd]
    · intro d1 nm n hd1 hn
      have e : d1 = { d with Children := GoMap.delete d.Children oy.Name } :=
        (Option.some.inj hd1).symm
      subst e
      exact ⟨d, hd, hdel d _ nm n hn⟩
  unfold renameMove
  apply Triple.bind (hrem a i _ (fun t ht => ⟨ht, let ⟨o, ho, _, hd⟩ := ht.1; ⟨o, ho, hd⟩,
    let ⟨o, ho, _⟩ := ht.2.2; ⟨o, ho⟩⟩))
  intro _
  apply Triple.bind (Q := fun newNode t => RenameInv a b i true t ∧
    ∀ n, newNode = some n → ∃ tgt, t.heap[n]? = some tgt)
  · intro t ht
    obtain ⟨ob, hob, _, hbd, hbv⟩ := ht.2.1
    obtain ⟨d, hd⟩ := (isDir_iff ob).mp hbd
    rw [findChildUnlocked_eq t b op.NewName ob d hob hd]
    exact ⟨ht, fun n hn => hbv d op.NewName n hd hn⟩
  intro newNode
  apply Triple.bind (Q := fun _ t => RenameInv a b i true t)
  · cases newNode with
    | none => exact Triple.pure () (fun _ h => h.1)
    | some n =>
      dsimp only
      apply Triple.bind (Q := fun _ t => RenameInv a b i true t ∧ ∃ tgt, t.heap[n]? = some tgt)
      · intro t ht
        obtain ⟨ob, hob, _, hbd, _⟩ := ht.1.2.1
        obtain ⟨d, hd⟩ := (isDir_iff ob).mp hbd
        obtain ⟨oy, hoy⟩ := ht.2 n rfl
        rw [removeChildUnlocked_eq t b n ob oy d hob hd hoy]
        refine ⟨RenameInv.setDir ht.1 b ob
          { ob with dir := some { d with Children := GoMap.delete d.Children oy.Name } } hob rfl
          ?_ ?_ t.trace, valid_set b _ ⟨oy, hoy⟩⟩
        · simp [Inode.isDir, hd]
        · intro d1 nm m hd1 hn
          have e : d1 = { d with Children := GoMap.delete d.Children oy.Name } :=
            (Option.some.inj hd1).symm
          subst e
          exact ⟨d, hd, hdel d _ nm m hn⟩
      intro _
      apply Triple.modifyObjTotal n (fun o => { o with Parent := none })
      · intro t o ht ho
        exact RenameInv.setDir ht.1 n o { o with Parent := none } ho rfl rfl
          (fun d1 nm m hd1 hn => ⟨d1, hd1, hn⟩) t.trace
      · exact fun t ht => ht.2
  intro _
  apply Triple.bind (Q := fun _ t => RenameInv a b i true t ∧
    ∃ ci, t.heap[i]? = some ci ∧ ci.Name = op.NewName)
  · apply Triple.modifyObjTotal i (fun o => { o with Name := op.NewName })
    · intro t o ht ho
      have hlt : i < t.heap.length := (List.getElem?_eq_some.mp ho).1
      exact ⟨RenameInv.setDir ht i o { o with Name := op.NewName } ho rfl rfl
        (fun d1 nm m hd1 hn => ⟨d1, hd1, hn⟩) t.trace,
        { o with Name := op.NewName }, by simp [List.getElem?_set, hlt], rfl⟩
    · exact fun t ht => let ⟨o, ho, _⟩ := ht.2.2; ⟨o, ho⟩
  intro _
  apply Triple.bind (Q := fun _ t => RenameInv a b i true t ∧
    ∃ ci, t.heap[i]? = some ci ∧ ci.Name = op.NewName ∧ ci.Parent = some b)
  · apply Triple.modifyObjTotal i (fun o => { o with Parent := some b })
    · intro t o ht ho
      have hlt : i < t.heap.length := (List.getElem?_eq_some.mp ho).1
      obtain ⟨ci, hci, hcn⟩ := ht.2
      have e : ci = o := Option.some.inj (hci.symm.trans ho)
      subst e
      exact ⟨RenameInv.setDir ht.1 i ci { ci with Parent := some b } ho rfl rfl
        (fun d1 nm m hd1 hn => ⟨d1, hd1, hn⟩) t.trace,
        { ci with Parent := some b }, by simp [List.getElem?_set, hlt], hcn, rfl⟩
    · exact fun t ht => let ⟨o, ho, _⟩ := ht.2; ⟨o, ho⟩
  intro _
  intro t ht
  obtain ⟨⟨⟨oa, hoa, hamu, _⟩, ⟨ob, hob, hbmu, hbd, _⟩, ⟨oi, hoi, himu⟩⟩, ci, hci, hcn, hcp⟩ := ht
  have e : oi = ci := Option.some.inj (hoi.symm.trans hci)
  subst e
  obtain ⟨d, hd⟩ := (isDir_iff ob).mp hbd
  have hblt : b < t.heap.length := (List.getElem?_eq_some.mp hob).1
  rw [insertChildUnlocked_eq t b i ob oi d hob hd hoi]
  have hnb : (t.heap.set b
      { ob with dir := some { d with Children := GoMap.set d.Children oi.Name i } })[b]? =
      some { ob with dir := some { d with Children := GoMap.set d.Children oi.Name i } } := by
    simp [List.getElem?_set, hblt]
  have hget : GoMap.get (GoMap.set d.Children oi.Name i) op.NewName = some i := by
    rw [GoMap.get_set, if_pos hcn]
  refine ⟨?_, ⟨{ ob with dir := some { d with Children := GoMap.set d.Children oi.Name i } },
    { d with Children := GoMap.set d.Children oi.Name i }, hnb, hbmu, rfl, hget⟩,
    ⟨oi, by simp [List.getElem?_set, Ne.symm hib, hoi], himu, hcn, hcp⟩⟩
  by_cases hab : b = a
  · subst hab
    exact ⟨_, hnb, hbmu⟩
  · exact ⟨oa, by simp [List.getElem?_set, hab, hoa], hamu⟩

end Fs

namespace Fs

/-- Releasing a mutex keeps `RenameDone`, with the released mutex free. -/
theorem RenameDone.unlock {a b i : Ptr} {nm : String} {la lb li la1 lb1 li1 : Bool}
    {t : FileSystem} (h : RenameDone a b i nm la lb li t) (x : Ptr) (o : Inode)
    (hx : t.heap[x]? = some o) (tr : List Ev)
    (ha : x = a → la1 = false) (ha1 : x ≠ a → la1 = la)
    (hb : x = b → lb1 = false) (hb1 : x ≠ b → lb1 = lb)
    (hi : x = i → li1 = false) (hi1 : x ≠ i → li1 = li) :
    RenameDone a b i nm la1 lb1 li1
      { t with heap := t.heap.set x { o with mu := false }, trace := tr } := by
  obtain ⟨⟨oa, hoa, hamu⟩, ⟨nb, dn, hnb, hbmu, hbd, hbget⟩, ⟨ci, hci, himu, hcn, hcp⟩⟩ := h
  have hlt : x < t.heap.length := (List.getElem?_eq_some.mp hx).1
  have hself : (t.heap.set x { o with mu := false })[x]? = some { o with mu := false } := by
    simp [List.getElem?_set, hlt]
  have hother : ∀ y, x ≠ y → (t.heap.set x { o with mu := false })[y]? = t.heap[y]? := by
    intro y hy
    simp [List.getElem?_set, hy]
  refine ⟨?_, ?_, ?_⟩
  · by_cases hxa : x = a
    · subst hxa
      exact ⟨_, hself, (ha rfl).symm⟩
    · exact ⟨oa, (hother a hxa).trans hoa, (ha1 hxa) ▸ hamu⟩
  · by_cases hxb : x = b
    · subst hxb
      have e : nb = o := Option.some.inj (hnb.symm.trans hx)
      subst e
      exact ⟨_, dn, hself, (hb rfl).symm, hbd, hbget⟩
    · exact ⟨nb, dn, (hother b hxb).trans hnb, (hb1 hxb) ▸ hbmu, hbd, hbget⟩
  · by_cases hxi : x = i
    · subst hxi
      have e : ci = o := Option.some.inj (hci.symm.trans hx)
      subst e
      exact ⟨_, hself, (hi rfl).symm, hcn, hcp⟩
    · exact ⟨ci, (hother i hxi).trans hci, (hi1 hxi) ▸ himu, hcn, hcp⟩

/-- The state in which `Rename` finds an unflushed local creation: both
directories are locked, the old parent lists the inode at `i` under the old
name, and the inode has an open file handle. -/
theorem renameSettle_unflushed (op : RenameOp) (a b i : Ptr) (hia : i ≠ a) (hib : i ≠ b) :
    Triple (fun t => RenameInv a b i false t ∧
        (∃ o d, t.heap[a]? = some o ∧ o.dir = some d ∧
          GoMap.get d.Children op.OldName = some i) ∧
        (∃ c, t.heap[i]? = some c ∧ c.fileHandles ≠ 0))
      (renameSettle op (some Errno.ENOENT) a b)
      (fun r t => r = none ∧ RenameDone a b i op.NewName true true false t)
      (fun _ _ => False) := by
  unfold renameSettle
  rw [if_pos rfl]
  apply Triple.bind (Q := fun err t => err = none ∧ RenameInv a b i false t ∧
    (∃ o d, t.heap[a]? = some o ∧ o.dir = some d ∧ GoMap.get d.Children op.OldName = some i))
  · apply Triple.whileErrTotal
    intro t ht
    obtain ⟨hinv, ⟨o, d, ho, hd, hget⟩, ⟨c, hc, hfh⟩⟩ := ht
    simp only [bind_apply, findChildUnlocked_eq t a op.OldName o d ho hd, hget, deref, hc]
    simp only [hfh, ne_eq, not_false_eq_true, if_true, pure_apply]
    exact ⟨trivial, hinv, o, d, ho, hd, hget⟩
  intro err
  apply Triple.assume
  rintro t0 ⟨herr, -, -⟩
  subst herr
  rw [if_pos rfl]
  apply Triple.bind (Q := fun inode t => inode = some i ∧ RenameInv a b i false t)
  · intro t ht
    obtain ⟨_, hinv, o, d, ho, hd, hget⟩ := ht
    rw [findChildUnlocked_eq t a op.OldName o d ho hd]
    exact ⟨hget, hinv⟩
  intro inode
  apply Triple.assume
  rintro t1 ⟨hin, -⟩
  subst hin
  apply Triple.bind (Q := fun _ t => RenameDone a b i op.NewName true true false t)
  · dsimp only
    apply Triple.bind (Q := fun _ t => RenameInv a b i true t)
    · apply Triple.lockInodeTotal i
      · intro t o ht ho _
        exact RenameInv.setMu ht.2 hia hib o ho true _
      · intro t ht
        exact ht.2.2.2
    intro _
    apply Triple.withDeferTotal (renameMove_done op a b i hia hib)
    intro _
    apply Triple.unlockInodeTotal i
    · intro t o ht ho _
      exact RenameDone.unlock ht i o ho _ (fun h => absurd h hia) (fun _ => rfl)
        (fun h => absurd h hib) (fun _ => rfl) (fun _ => rfl) (fun h => absurd rfl h)
    · intro t ht
      obtain ⟨ci, hci, himu, _⟩ := ht.2.2
      exact ⟨ci, hci, himu⟩
  intro _
  exact Triple.pure _ (fun t ht => ⟨rfl, ht⟩)

end Fs

namespace Fs

/-- The state in which `Rename` calls the backend when the two parents differ:
both directory mutexes are held and nothing else in the heap has changed. -/
theorem Rename_locked_diff (s : FileSystem) (op : RenameOp) (resp : GoError) (a b : Ptr)
    (oa ob : Inode) (hne : op.OldParent ≠ op.NewParent) (hab : a ≠ b)
    (hw : s.mu.writer = false)
    (hA : GoMap.get s.inodes op.OldParent = some a)
    (hB : GoMap.get s.inodes op.NewParent = some b)
    (hoa : s.heap[a]? = some oa) (hob : s.heap[b]? = some ob)
    (hmua : oa.mu = false) (hmub : ob.mu = false) :
    ∃ t, Rename op resp s =
        withDefer (unlockInode a) (withDefer (unlockInode b) (renameLocked op resp a b)) t ∧
      t.heap = (s.heap.set a { oa with mu := true }).set b { ob with mu := true } ∧
      t.inodes = s.inodes := by
  have halt : a < s.heap.length := (List.getElem?_eq_some.mp hoa).1
  have hblt : b < s.heap.length := (List.getElem?_eq_some.mp hob).1
  have hoa1 : s.heap[a] = oa := (List.getElem?_eq_some.mp hoa).2
  have hob1 : s.heap[b] = ob := (List.getElem?_eq_some.mp hob).2
  by_cases hlt : op.OldParent < op.NewParent
  · apply Exists.intro
    constructor
    · simp [Rename, bind_apply, pure_apply, muRLock, muRUnlock, getInodeOrDie, lockInode, hw,
        hA, hB, hoa, hob, hmua, hmub, hne, hlt, List.getElem?_set, hab, Ne.symm hab, halt, hblt,
        hoa1, hob1]
      rfl
    · exact ⟨rfl, rfl⟩
  · apply Exists.intro
    constructor
    · simp [Rename, bind_apply, pure_apply, muRLock, muRUnlock, getInodeOrDie, lockInode, hw,
        hA, hB, hoa, hob, hmua, hmub, hne, hlt, List.getElem?_set, hab, Ne.symm hab, halt, hblt,
        hoa1, hob1]
      rfl
    · exact ⟨List.set_comm _ _ _ (Ne.symm hab), rfl⟩

/-- The state in which `Rename` calls the backend when the two parents are the
same directory. -/
theorem Rename_locked_same (s : FileSystem) (op : RenameOp) (resp : GoError) (a : Ptr)
    (oa : Inode) (hsame : op.OldParent = op.NewParent)
    (hw : s.mu.writer = false)
    (hA : GoMap.get s.inodes op.OldParent = some a)
    (hoa : s.heap[a]? = some oa) (hmua : oa.mu = false) :
    ∃ t, Rename op resp s = withDefer (unlockInode a) (renameLocked op resp a a) t ∧
      t.heap = s.heap.set a { oa with mu := true } ∧ t.inodes = s.inodes := by
  have hB : GoMap.get s.inodes op.NewParent = some a := hsame ▸ hA
  have halt : a < s.heap.length := (List.getElem?_eq_some.mp hoa).1
  have hoa1 : s.heap[a] = oa := (List.getElem?_eq_some.mp hoa).2
  apply Exists.intro
  constructor
  · simp [Rename, bind_apply, pure_apply, muRLock, muRUnlock, getInodeOrDie, lockInode, hw,
      hA, hB, hoa, hmua, hsame, List.getElem?_set, halt, hoa1]
    rfl
  · exact ⟨rfl, rfl⟩

end Fs

namespace Fs

theorem renameSettle_other (op : RenameOp) (e : Errno) (a b : Ptr) (t : FileSystem)
    (he : e ≠ Errno.ENOENT) :
    renameSettle op (some e) a b t = (Outcome.ok (some e), t) := by
  simp [renameSettle, bind_apply, pure_apply, he]

theorem renameSettle_enoent (op : RenameOp) (a b : Ptr) (t : FileSystem) (o : Inode)
    (d : DirInodeData) (ho : t.heap[a]? = some o) (hd : o.dir = some d)
    (hnone : ∀ i, GoMap.get d.Children op.OldName = some i →
      ∃ c, t.heap[i]? = some c ∧ c.fileHandles = 0) :
    renameSettle op (some Errno.ENOENT) a b t = (Outcome.ok (some Errno.ENOENT), t) := by
  cases hg : GoMap.get d.Children op.OldName with
  | none =>
    simp [renameSettle, bind_apply, pure_apply, whileErr, findChildUnlocked_eq t a _ o d ho hd, hg]
  | some i =>
    obtain ⟨c, hc, hz⟩ := hnone i hg
    simp [renameSettle, bind_apply, pure_apply, whileErr, findChildUnlocked_eq t a _ o d ho hd, hg,
      deref, hc, hz]

theorem withDefer_unlock_ok {α : Type} (p : Ptr) (m : M α) (t t1 : FileSystem) (r : α)
    (o : Inode) (hm : m t = (Outcome.ok r, t1)) (ho : t1.heap[p]? = some o)
    (hmu : o.mu = true) :
    withDefer (unlockInode p) m t = (Outcome.ok r,
      { t1 with heap := t1.heap.set p { o with mu := false },
                trace := t1.trace ++ [Ev.unlock p] }) := by
  simp [withDefer, hm, unlockInode, ho, hmu]

theorem Inode.mu_false_eq (o : Inode) (h : o.mu = false) : { o with mu := false } = o := by
  cases o
  simp at h
  subst h
  rfl

/-- A `Rename` whose statements after the backend call return `r` and leave the
state as it is returns `r`, and the heap is the one it started from. -/
theorem Rename_error (s : FileSystem) (op : RenameOp) (resp r : GoError) (a b : Ptr)
    (oa ob : Inode)
    (hw : s.mu.writer = false)
    (hA : GoMap.get s.inodes op.OldParent = some a)
    (hB : GoMap.get s.inodes op.NewParent = some b)
    (hoa : s.heap[a]? = some oa) (hob : s.heap[b]? = some ob)
    (hmua : oa.mu = false) (hmub : ob.mu = false)
    (hida : oa.Id = op.OldParent) (hidb : ob.Id = op.NewParent)
    (hbody : ∀ t, t.heap = (s.heap.set a { oa with mu := true }).set b { ob with mu := true } →
      renameSettle op resp a b t = (Outcome.ok r, t)) :
    ∃ t, Rename op resp s = (Outcome.ok r, t) ∧ t.heap = s.heap ∧ t.inodes = s.inodes := by
  have halt : a < s.heap.length := (List.getElem?_eq_some.mp hoa).1
  have hblt : b < s.heap.length := (List.getElem?_eq_some.mp hob).1
  by_cases hsame : op.OldParent = op.NewParent
  · have hab : a = b := Option.some.inj (hA.symm.trans (hsame ▸ hB))
    subst hab
    obtain ⟨t0, hpre, hheap, hino⟩ := Rename_locked_same s op resp a oa hsame hw hA hoa hmua
    have hh : t0.heap = (s.heap.set a { oa with mu := true }).set a { ob with mu := true } := by
      have e : ob = oa := Option.some.inj (hob.symm.trans hoa)
      rw [hheap, e]
      simp
    have hb1 := hbody { t0 with trace := t0.trace ++ [Ev.backendRename a op.OldName a op.NewName] } hh
    have hl : renameLocked op resp a a t0 = _ := (renameLocked_eq op resp a a t0).trans hb1
    have ho1 : t0.heap[a]? = some { oa with mu := true } := by
      rw [hheap]
      simp [List.getElem?_set, halt]
    rw [hpre, withDefer_unlock_ok a _ t0 _ r _ hl ho1 rfl]
    refine ⟨_, rfl, ?_, ?_⟩
    · show t0.heap.set a _ = s.heap
      rw [hheap]
      apply List.ext_getElem?
      intro x
      by_cases hx : x = a
      · subst hx
        simp [List.getElem?_set, halt, hoa]
        exact Inode.mu_false_eq oa hmua
      · simp [List.getElem?_set, Ne.symm hx]
    · exact hino
  · have hab : a ≠ b := by
      intro h
      subst h
      have e : ob = oa := Option.some.inj (hob.symm.trans hoa)
      exact hsame (by rw [← hida, ← hidb, e])
    obtain ⟨t0, hpre, hheap, hino⟩ :=
      Rename_locked_diff s op resp a b oa ob hsame hab hw hA hB hoa hob hmua hmub
    have hb1 := hbody
      { t0 with trace := t0.trace ++ [Ev.backendRename a op.OldName b op.NewName] } hheap
    have hl : renameLocked op resp a b t0 = _ := (renameLocked_eq op resp a b t0).trans hb1
    have ho1 : t0.heap[b]? = some { ob with mu := true } := by
      rw [hheap]
      simp [List.getElem?_set, hblt]
    have hin := withDefer_unlock_ok b _ t0 _ r _ hl ho1 rfl
    have ho2 : (t0.heap.set b { ob with mu := false })[a]? = some { oa with mu := true } := by
      rw [hheap]
      simp [List.getElem?_set, halt, hab, Ne.symm hab]
    rw [hpre, withDefer_unlock_ok a _ t0 _ r _ hin ho2 rfl]
    refine ⟨_, rfl, ?_, ?_⟩
    · show (t0.heap.set b _).set a _ = s.heap
      rw [hheap]
      apply List.ext_getElem?
      intro x
      by_cases hx : x = a
      · subst hx
        simp [List.getElem?_set, halt, hoa]
        exact Inode.mu_false_eq oa hmua
      · by_cases hxb : x = b
        · subst hxb
          simp [List.getElem?_set, hblt, hob, hx, Ne.symm hx]
          exact Inode.mu_false_eq ob hmub
        · simp [List.getElem?_set, Ne.symm hx, Ne.symm hxb]
    · exact hino

end Fs

namespace Fs

/-! ### Partial correctness: what holds if the run returns -/

theorem Triple.partModify {P Q : FileSystem → Prop} (p : Ptr) (f : Inode → Inode)
    (h : ∀ t o, P t → t.heap[p]? = some o → Q { t with heap := t.heap.set p (f o) }) :
    Triple P (Fs.modifyObj p f) (fun _ t => Q t) (fun _ _ => True) := by
  intro t ht
  unfold Fs.modifyObj
  cases ho : t.heap[p]? with
  | none => trivial
  | some o => exact h t o ht ho

theorem Triple.partLock {P Q : FileSystem → Prop} (p : Ptr)
    (h : ∀ t o, P t → t.heap[p]? = some o →
      Q { t with heap := t.heap.set p { o with mu := true }, trace := t.trace ++ [Ev.lock p] }) :
    Triple P (Fs.lockInode p) (fun _ t => Q t) (fun _ _ => True) := by
  intro t ht
  unfold Fs.lockInode
  cases ho : t.heap[p]? with
  | none => trivial
  | some o =>
    cases hm : o.mu with
    | true => simp [hm]
    | false =>
      simp only [hm]
      exact h t o ht ho

theorem Triple.partUnlock {P Q : FileSystem → Prop} (p : Ptr)
    (h : ∀ t o, P t → t.heap[p]? = some o →
      Q { t with heap := t.heap.set p { o with mu := false },
                 trace := t.trace ++ [Ev.unlock p] }) :
    Triple P (Fs.unlockInode p) (fun _ t => Q t) (fun _ _ => True) := by
  intro t ht
  unfold Fs.unlockInode
  cases ho : t.heap[p]? with
  | none => trivial
  | some o =>
    cases hm : o.mu with
    | false => simp [hm]
    | true =>
      simp only [hm]
      exact h t o ht ho

theorem Triple.partDeref {P : FileSystem → Prop} (p : Ptr) :
    Triple P (Fs.deref p) (fun o t => P t ∧ t.heap[p]? = some o) (fun _ _ => True) := by
  intro t ht
  unfold Fs.deref
  cases ho : t.heap[p]? with
  | none => trivial
  | some o => exact ⟨ht, ho⟩

theorem Triple.partFind {P : FileSystem → Prop} (x : Ptr) (nm : String) :
    Triple P (Fs.findChildUnlocked x nm)
      (fun r t => P t ∧ ∃ o d, t.heap[x]? = some o ∧ o.dir = some d ∧
        r = GoMap.get d.Children nm) (fun _ _ => True) := by
  intro t ht
  cases ho : t.heap[x]? with
  | none => simp [Fs.findChildUnlocked, bind_apply, Fs.deref, ho]
  | some o =>
    cases hd : o.dir with
    | none => simp [Fs.findChildUnlocked, bind_apply, Fs.deref, ho, hd, Fs.goPanic]
    | some d =>
      rw [findChildUnlocked_eq t x nm o d ho hd]
      exact ⟨ht, o, d, ho, hd, rfl⟩

theorem Triple.partRemove {P Q : FileSystem → Prop} (x y : Ptr)
    (h : ∀ t o d oy, P t → t.heap[x]? = some o → o.dir = some d → t.heap[y]? = some oy →
      Q { t with heap := (t.heap.set x
        { o with dir := some { d with Children := GoMap.delete d.Children oy.Name } }) }) :
    Triple P (Fs.removeChildUnlocked x y) (fun _ t => Q t) (fun _ _ => True) := by
  intro t ht
  cases ho : t.heap[x]? with
  | none => simp [Fs.removeChildUnlocked, bind_apply, Fs.deref, ho]
  | some o =>
    cases hd : o.dir with
    | none => simp [Fs.removeChildUnlocked, bind_apply, Fs.deref, ho, hd, Fs.goPanic]
    | some d =>
      cases hy : t.heap[y]? with
      | none => simp [Fs.removeChildUnlocked, bind_apply, Fs.deref, ho, hd, hy]
      | some oy =>
        rw [removeChildUnlocked_eq t x y o oy d ho hd hy]
        exact h t o d oy ht ho hd hy

theorem Triple.partInsert {P Q : FileSystem → Prop} (x y : Ptr)
    (h : ∀ t o d oy, P t → t.heap[x]? = some o → o.dir = some d → t.heap[y]? = some oy →
      Q { t with heap := (t.heap.set x
        { o with dir := some { d with Children := GoMap.set d.Children oy.Name y } }) }) :
    Triple P (Fs.insertChildUnlocked x y) (fun _ t => Q t) (fun _ _ => True) := by
  intro t ht
  cases ho : t.heap[x]? with
  | none => simp [Fs.insertChildUnlocked, bind_apply, Fs.deref, ho]
  | some o =>
    cases hd : o.dir with
    | none => simp [Fs.insertChildUnlocked, bind_apply, Fs.deref, ho, hd, Fs.goPanic]
    | some d =>
      cases hy : t.heap[y]? with
      | none => simp [Fs.insertChildUnlocked, bind_apply, Fs.deref, ho, hd, hy]
      | some oy =>
        rw [insertChildUnlocked_eq t x y o oy d ho hd hy]
        exact h t o d oy ht ho hd hy

theorem Triple.partDefer {α : Type} {P : FileSystem → Prop} {c : M Unit} {b : M α}
    {Q R : α → FileSystem → Prop}
    (hb : Triple P b Q (fun _ _ => True))
    (hc : ∀ a, Triple (Q a) c (fun _ t => R a t) (fun _ _ => True)) :
    Triple P (withDefer c b) R (fun _ _ => True) := by
  intro t ht
  have h := hb t ht
  unfold Fs.withDefer
  rcases hm : b t with ⟨o, t1⟩
  rw [hm] at h
  cases o with
  | abort r =>
    cases r with
    | panic msg e =>
      dsimp only
      rcases c t1 with ⟨o2, t2⟩
      cases o2 <;> trivial
    | blocked => trivial
    | fatal msg => trivial
    | outOfFuel => trivial
  | ok a =>
    have h2 := hc a t1 h
    dsimp only
    rcases hcs : c t1 with ⟨o2, t2⟩
    rw [hcs] at h2
    cases o2 with
    | abort r => trivial
    | ok u => exact h2

theorem Triple.partWhileErr {α : Type} {P : FileSystem → Prop} {b : M α}
    {Q : α → FileSystem → Prop} (e : GoError)
    (hb : Triple P b Q (fun _ _ => True)) :
    Triple P (whileErr e b) Q (fun _ _ => True) := by
  intro t ht
  have h := hb t ht
  unfold Fs.whileErr
  rcases hm : b t with ⟨o, t1⟩
  rw [hm] at h
  cases o with
  | abort r => cases r <;> trivial
  | ok a => exact h

/-- An update of one object keeps `NotListed` when, in case the object is the
directory itself, its new child index has no entry under the name either. -/
theorem NotListed.keep {a : Ptr} {nm : String} {t : FileSystem} (h : NotListed a nm t)
    (x : Ptr) (o o1 : Inode) (hx : t.heap[x]? = some o)
    (hkeep : x = a → ∀ d, o.dir = some d → GoMap.get d.Children nm = none →
      ∃ d1, o1.dir = some d1 ∧ GoMap.get d1.Children nm = none)
    (tr : List Ev) :
    NotListed a nm { t with heap := t.heap.set x o1, trace := tr } := by
  obtain ⟨oa, d, hoa, hd, hg⟩ := h
  have hlt : x < t.heap.length := (List.getElem?_eq_some.mp hx).1
  by_cases hxa : x = a
  · subst hxa
    have e : oa = o := Option.some.inj (hoa.symm.trans hx)
    subst e
    obtain ⟨d1, hd1, hg1⟩ := hkeep rfl d hd hg
    exact ⟨o1, d1, by simp [List.getElem?_set, hlt], hd1, hg1⟩
  · exact ⟨oa, d, by simp [List.getElem?_set, hxa, hoa], hd, hg⟩

end Fs

namespace Fs

/-- The local move of `Rename` takes the moved inode out of the old parent's
child index: if it returns, the old parent has no entry under the old name,
unless the inode is put back there under the same name. -/
theorem renameMove_unlists (op : RenameOp) (a b i : Ptr)
    (hne : a ≠ b ∨ op.OldName ≠ op.NewName) :
    Triple (fun t => ∃ c, t.heap[i]? = some c ∧ c.Name = op.OldName) (renameMove op a b i)
      (fun _ t => NotListed a op.OldName t) (fun _ _ => True) := by
  unfold renameMove
  apply Triple.bind (Q := fun _ t => NotListed a op.OldName t)
  · apply Triple.partRemove a i
    intro t o d oy ht ho hd hoy
    obtain ⟨c, hc, hcn⟩ := ht
    have e : c = oy := Option.some.inj (hc.symm.trans hoy)
    subst e
    have hlt : a < t.heap.length := (List.getElem?_eq_some.mp ho).1
    refine ⟨{ o with dir := some { d with Children := GoMap.delete d.Children c.Name } },
      { d with Children := GoMap.delete d.Children c.Name }, ?_, rfl, ?_⟩
    · simp [List.getElem?_set, hlt]
    · rw [hcn]
      exact GoMap.get_delete_self _ _
  intro _
  apply Triple.bind (Q := fun _ t => NotListed a op.OldName t)
  · exact Triple.weaken (Triple.partFind b op.NewName) (fun _ h => h) (fun _ _ h => h.1)
      (fun _ _ h => h)
  intro newNode
  apply Triple.bind (Q := fun _ t => NotListed a op.OldName t)
  · cases newNode with
    | none => exact Triple.pure () (fun _ h => h)
    | some n =>
      dsimp only
      apply Triple.bind (Q := fun _ t => NotListed a op.OldName t)
      · apply Triple.partRemove b n
        intro t o d oy ht ho hd _
        refine NotListed.keep ht b o
          { o with dir := some { d with Children := GoMap.delete d.Children oy.Name } } ho ?_
          t.trace
        intro _ d0 hd0 hg
        have e : d0 = d := Option.some.inj (hd0.symm.trans hd)
        subst e
        refine ⟨_, rfl, ?_⟩
        show GoMap.get (GoMap.delete d0.Children oy.Name) op.OldName = none
        rw [GoMap.get_delete]
        split
        · rfl
        · exact hg
      intro _
      apply Triple.partModify n (fun o => { o with Parent := none })
      intro t o ht ho
      exact NotListed.keep ht n o { o with Parent := none } ho
        (fun _ d0 hd0 hg => ⟨d0, hd0, hg⟩) t.trace
  intro _
  apply Triple.bind (Q := fun _ t => NotListed a op.OldName t ∧
    ∀ ci, t.heap[i]? = some ci → ci.Name = op.NewName)
  · apply Triple.partModify i (fun o => { o with Name := op.NewName })
    intro t o ht ho
    have hlt : i < t.heap.length := (List.getElem?_eq_some.mp ho).1
    refine ⟨NotListed.keep ht i o { o with Name := op.NewName } ho
      (fun _ d0 hd0 hg => ⟨d0, hd0, hg⟩) t.trace, ?_⟩
    intro ci hci
    have e : ci = { o with Name := op.NewName } := by
      simpa [List.getElem?_set, hlt] using hci.symm
    rw [e]
  intro _
  apply Triple.bind (Q := fun _ t => NotListed a op.OldName t ∧
    ∀ ci, t.heap[i]? = some ci → ci.Name = op.NewName)
  · apply Triple.partModify i (fun o => { o with Parent := some b })
    intro t o ht ho
    have hlt : i < t.heap.length := (List.getElem?_eq_some.mp ho).1
    refine ⟨NotListed.keep ht.1 i o { o with Parent := some b } ho
      (fun _ d0 hd0 hg => ⟨d0, hd0, hg⟩) t.trace, ?_⟩
    intro ci hci
    have e : ci = { o with Parent := some b } := by
      simpa [List.getElem?_set, hlt] using hci.symm
    rw [e]
    exact ht.2 o ho
  intro _
  apply Triple.partInsert b i
  intro t o d oy ht ho hd hoy
  refine NotListed.keep ht.1 b o
    { o with dir := some { d with Children := GoMap.set d.Children oy.Name i } } ho ?_ t.trace
  intro hba d0 hd0 hg
  have e : d0 = d := Option.some.inj (hd0.symm.trans hd)
  subst e
  refine ⟨_, rfl, ?_⟩
  show GoMap.get (GoMap.set d0.Children oy.Name i) op.OldName = none
  rw [GoMap.get_set, ht.2 oy hoy]
  have hnn : op.OldName ≠ op.NewName := by
    rcases hne with h | h
    · exact absurd hba.symm h
    · exact h
  rw [if_neg (Ne.symm hnn)]
  exact hg

end Fs

namespace Fs

/-- An update of one object that keeps its parent field keeps `Detached`. -/
theorem Detached.update {n : Ptr} {t : FileSystem} (h : Detached n t)
    (x : Ptr) (o o1 : Inode) (hx : t.heap[x]? = some o)
    (hkeep : x = n → o.Parent = none → o1.Parent = none) (tr : List Ev) :
    Detached n { t with heap := t.heap.set x o1, trace := tr } := by
  obtain ⟨tgt, htgt, hp⟩ := h
  have hlt : x < t.heap.length := (List.getElem?_eq_some.mp hx).1
  by_cases hxn : x = n
  · subst hxn
    have e : tgt = o := Option.some.inj (htgt.symm.trans hx)
    subst e
    exact ⟨o1, by simp [List.getElem?_set, hlt], hkeep rfl hp⟩
  · exact ⟨tgt, by simp [List.getElem?_set, hxn, htgt], hp⟩

theorem NotListed.keptByMutex (a : Ptr) (nm : String) : KeptByMutex (NotListed a nm) :=
  fun x _ o m tr h hx =>
    NotListed.keep h x o { o with mu := m } hx (fun _ d hd hg => ⟨d, hd, hg⟩) tr

theorem Detached.mutexFree (n : Ptr) : KeptByMutex (Detached n) :=
  fun x _ o m tr h hx => Detached.update h x o { o with mu := m } hx (fun _ hp => hp) tr

/-- The local move of `Rename` detaches the inode that the new parent listed
under the new name. -/
theorem renameMove_detaches (op : RenameOp) (a b i n : Ptr) (hni : n ≠ i)
    (hne : a ≠ b ∨ op.OldName ≠ op.NewName) :
    Triple (fun t => (∃ c, t.heap[i]? = some c ∧ c.Name = op.OldName) ∧
        ∃ o d, t.heap[b]? = some o ∧ o.dir = some d ∧
          GoMap.get d.Children op.NewName = some n)
      (renameMove op a b i) (fun _ t => Detached n t) (fun _ _ => True) := by
  unfold renameMove
  apply Triple.bind (Q := fun _ t => ∃ o d, t.heap[b]? = some o ∧ o.dir = some d ∧
    GoMap.get d.Children op.NewName = some n)
  · apply Triple.partRemove a i
    intro t o d oy ht ho hd hoy
    obtain ⟨⟨c, hc, hcn⟩, ob, db, hob, hdb, hgb⟩ := ht
    have e : c = oy := Option.some.inj (hc.symm.trans hoy)
    subst e
    have hlt : a < t.heap.length := (List.getElem?_eq_some.mp ho).1
    by_cases hab : a = b
    · subst hab
      have e1 : ob = o := Option.some.inj (hob.symm.trans ho)
      subst e1
      have e2 : db = d := Option.some.inj (hdb.symm.trans hd)
      subst e2
      have hnn : op.OldName ≠ op.NewName := hne.elim (fun h => absurd rfl h) (fun h => h)
      refine ⟨{ ob with dir := some { db with Children := GoMap.delete db.Children c.Name } },
        { db with Children := GoMap.delete db.Children c.Name }, ?_, rfl, ?_⟩
      · simp [List.getElem?_set, hlt]
      · show GoMap.get (GoMap.delete db.Children c.Name) op.NewName = some n
        rw [GoMap.get_delete, hcn, if_neg hnn]
        exact hgb
    · exact ⟨ob, db, by simp [List.getElem?_set, hab, hob], hdb, hgb⟩
  intro _
  apply Triple.bind (Triple.partFind b op.NewName)
  intro newNode
  apply Triple.assume
  rintro t0 ⟨⟨o1, d1, ho1, hd1, hg1⟩, o, d, ho, hd, hr⟩
  have e1 : o1 = o := Option.some.inj (ho1.symm.trans ho)
  subst e1
  have e2 : d1 = d := Option.some.inj (hd1.symm.trans hd)
  subst e2
  rw [hg1] at hr
  subst hr
  apply Triple.bind (Q := fun _ t => Detached n t)
  · dsimp only
    apply Triple.bind (Q := fun _ _ => True)
    · exact Triple.partRemove b n (fun _ _ _ _ _ _ _ _ => trivial)
    intro _
    apply Triple.partModify n (fun o => { o with Parent := none })
    intro t o _ ho
    have hlt : n < t.heap.length := (List.getElem?_eq_some.mp ho).1
    exact ⟨{ o with Parent := none }, by simp [List.getElem?_set, hlt], rfl⟩
  intro _
  apply Triple.bind (Q := fun _ t => Detached n t)
  · apply Triple.partModify i (fun o => { o with Name := op.NewName })
    intro t o ht ho
    exact Detached.update ht i o { o with Name := op.NewName } ho (fun _ hp => hp) t.trace
  intro _
  apply Triple.bind (Q := fun _ t => Detached n t)
  · apply Triple.partModify i (fun o => { o with Parent := some b })
    intro t o ht ho
    exact Detached.update ht i o { o with Parent := some b } ho
      (fun h => absurd h.symm hni) t.trace
  intro _
  apply Triple.partInsert b i
  intro t o d oy ht ho _ _
  exact Detached.update ht b o
    { o with dir := some { d with Children := GoMap.set d.Children oy.Name i } } ho
    (fun _ hp => hp) t.trace

/-- The statements of `Rename` after the backend call: what the local move
establishes holds when they return no error. `P0` is any state predicate that
lets the move start once the moved inode is locked, and `Q` what the move
establishes. -/
theorem renameSettle_part (op : RenameOp) (err0 : GoError) (a b i : Ptr)
    (P0 P1 Q : FileSystem → Prop)
    (hfind : ∀ t, P0 t → ∃ o d, t.heap[a]? = some o ∧ o.dir = some d ∧
      GoMap.get d.Children op.OldName = some i)
    (hlock : ∀ t o, P0 t → t.heap[i]? = some o →
      P1 { t with heap := t.heap.set i { o with mu := true }, trace := t.trace ++ [Ev.lock i] })
    (hmove : Triple P1 (renameMove op a b i) (fun _ t => Q t) (fun _ _ => True))
    (hQ : KeptByMutex Q) :
    Triple P0 (renameSettle op err0 a b) (fun r t => r = none → Q t) (fun _ _ => True) := by
  unfold renameSettle
  apply Triple.bind (Q := fun _ t => P0 t)
  · split
    · apply Triple.partWhileErr
      apply Triple.bind (Triple.partFind a op.OldName)
      intro inode
      cases inode with
      | none => exact Triple.pure _ (fun _ h => h.1)
      | some j =>
        dsimp only
        apply Triple.bind (Triple.partDeref j)
        intro ino
        split
        · exact Triple.pure _ (fun _ h => h.1.1)
        · exact Triple.pure _ (fun _ h => h.1.1)
    · exact Triple.pure _ (fun _ h => h)
  intro err
  split
  · apply Triple.bind (Triple.partFind a op.OldName)
    intro inode
    apply Triple.assume
    rintro t0 ⟨hP, o, d, ho, hd, hr⟩
    obtain ⟨o1, d1, ho1, hd1, hg1⟩ := hfind t0 hP
    have e1 : o1 = o := Option.some.inj (ho1.symm.trans ho)
    subst e1
    have e2 : d1 = d := Option.some.inj (hd1.symm.trans hd)
    subst e2
    rw [hg1] at hr
    subst hr
    apply Triple.bind (Q := fun _ t => Q t)
    · dsimp only
      apply Triple.bind (Q := fun _ t => P1 t)
      · apply Triple.partLock i
        intro t o ht ho
        exact hlock t o ht.1 ho
      intro _
      apply Triple.partDefer hmove
      intro _
      apply Triple.partUnlock i
      intro t o ht ho
      exact hQ i t o false _ ht ho
    intro _
    exact Triple.pure _ (fun _ h _ => h)
  · rename_i herr
    exact Triple.pure _ (fun _ _ h => absurd h herr)

/-- The deferred unlock of a directory keeps what the local move
established. -/
theorem Triple.partUnlockKept {P Q : FileSystem → Prop} {m : M GoError} (x : Ptr)
    (hQ : KeptByMutex Q)
    (h : Triple P m (fun r t => r = none → Q t) (fun _ _ => True)) :
    Triple P (withDefer (Fs.unlockInode x) m)
      (fun r t => r = none → Q t) (fun _ _ => True) := by
  apply Triple.partDefer h
  intro r
  apply Triple.partUnlock x
  intro t o ht ho hr
  exact hQ x t o false _ (ht hr) ho

/-- When the statements of `Rename` after the backend call return no error, the
old parent no longer lists the old name (unless the inode was put back there
under the same name). -/
theorem renameSettle_unlists (op : RenameOp) (err0 : GoError) (a b i : Ptr)
    (hne : a ≠ b ∨ op.OldName ≠ op.NewName) :
    Triple (fun t => (∃ o d, t.heap[a]? = some o ∧ o.dir = some d ∧
          GoMap.get d.Children op.OldName = some i) ∧
        ∃ c, t.heap[i]? = some c ∧ c.Name = op.OldName)
      (renameSettle op err0 a b)
      (fun r t => r = none → NotListed a op.OldName t) (fun _ _ => True) := by
  refine renameSettle_part op err0 a b i _
    (fun t => ∃ c, t.heap[i]? = some c ∧ c.Name = op.OldName) _ (fun _ h => h.1) ?_
    (renameMove_unlists op a b i hne) (NotListed.keptByMutex a op.OldName)
  intro t o ht ho
  obtain ⟨c, hc, hcn⟩ := ht.2
  have e : c = o := Option.some.inj (hc.symm.trans ho)
  subst e
  have hlt : i < t.heap.length := (List.getElem?_eq_some.mp ho).1
  exact ⟨{ c with mu := true }, by simp [List.getElem?_set, hlt], hcn⟩

/-- When the statements of `Rename` after the backend call return no error, the
inode that the new parent listed under the new name is detached. -/
theorem renameSettle_detaches (op : RenameOp) (err0 : GoError) (a b i n : Ptr)
    (hib : i ≠ b) (hni : n ≠ i) (hne : a ≠ b ∨ op.OldName ≠ op.NewName) :
    Triple (fun t => ((∃ o d, t.heap[a]? = some o ∧ o.dir = some d ∧
          GoMap.get d.Children op.OldName = some i) ∧
        ∃ c, t.heap[i]? = some c ∧ c.Name = op.OldName) ∧
        ∃ o d, t.heap[b]? = some o ∧ o.dir = some d ∧
          GoMap.get d.Children op.NewName = some n)
      (renameSettle op err0 a b)
      (fun r t => r = none → Detached n t) (fun _ _ => True) := by
  refine renameSettle_part op err0 a b i _
    (fun t => (∃ c, t.heap[i]? = some c ∧ c.Name = op.OldName) ∧
        ∃ o d, t.heap[b]? = some o ∧ o.dir = some d ∧
          GoMap.get d.Children op.NewName = some n) _ (fun _ h => h.1.1) ?_
    (renameMove_detaches op a b i n hni hne) (Detached.mutexFree n)
  intro t o ht ho
  obtain ⟨⟨_, c, hc, hcn⟩, ob, db, hob, hdb, hgb⟩ := ht
  have e : c = o := Option.some.inj (hc.symm.trans ho)
  subst e
  have hlt : i < t.heap.length := (List.getElem?_eq_some.mp ho).1
  exact ⟨⟨{ c with mu := true }, by simp [List.getElem?_set, hlt], hcn⟩,
    ob, db, by simp [List.getElem?_set, hib, hob], hdb, hgb⟩

end Fs

namespace Fs

/-- A total triple gives the result of a run. -/
theorem Triple.run {α : Type} {P : FileSystem → Prop} {m : M α}
    {Q : α → FileSystem → Prop} (h : Triple P m Q (fun _ _ => False)) (t : FileSystem)
    (ht : P t) : ∃ r t1, m t = (Outcome.ok r, t1) ∧ Q r t1 := by
  have h1 := h t ht
  rcases hm : m t with ⟨o, t1⟩
  rw [hm] at h1
  cases o with
  | abort r => exact absurd h1 id
  | ok r => exact ⟨r, t1, rfl, h1⟩

/-- The deferred unlocks of the two different directories after the local
move. -/
theorem renameUnlock_diff (op : RenameOp) (a b i : Ptr) (hia : i ≠ a) (hib : i ≠ b)
    (hab : a ≠ b) :
    Triple (fun t => RenameInv a b i false t ∧
        (∃ o d, t.heap[a]? = some o ∧ o.dir = some d ∧
          GoMap.get d.Children op.OldName = some i) ∧
        (∃ c, t.heap[i]? = some c ∧ c.fileHandles ≠ 0))
      (withDefer (unlockInode a)
        (withDefer (unlockInode b) (renameSettle op (some Errno.ENOENT) a b)))
      (fun r t => r = none ∧ RenameDone a b i op.NewName false false false t)
      (fun _ _ => False) := by
  apply Triple.withDeferTotal
    (Q := fun r t => r = none ∧ RenameDone a b i op.NewName true false false t)
  · apply Triple.withDeferTotal (renameSettle_unflushed op a b i hia hib)
    intro r
    apply Triple.unlockInodeTotal b
    · intro t o ht ho _
      exact ⟨ht.1, RenameDone.unlock ht.2 b o ho _ (fun h => absurd h.symm hab) (fun _ => rfl)
        (fun _ => rfl) (fun h => absurd rfl h) (fun h => absurd h.symm hib) (fun _ => rfl)⟩
    · intro t ht
      obtain ⟨nb, dn, hnb, hbmu, _⟩ := ht.2.2.1
      exact ⟨nb, hnb, hbmu⟩
  · intro r
    apply Triple.unlockInodeTotal a
    · intro t o ht ho _
      exact ⟨ht.1, RenameDone.unlock ht.2 a o ho _ (fun _ => rfl) (fun h => absurd rfl h)
        (fun h => absurd h hab) (fun _ => rfl) (fun h => absurd h.symm hia) (fun _ => rfl)⟩
    · intro t ht
      exact ht.2.1

/-- The deferred unlock of the one directory after the local move. -/
theorem renameUnlock_same (op : RenameOp) (a i : Ptr) (hia : i ≠ a) :
    Triple (fun t => RenameInv a a i false t ∧
        (∃ o d, t.heap[a]? = some o ∧ o.dir = some d ∧
          GoMap.get d.Children op.OldName = some i) ∧
        (∃ c, t.heap[i]? = some c ∧ c.fileHandles ≠ 0))
      (withDefer (unlockInode a) (renameSettle op (some Errno.ENOENT) a a))
      (fun r t => r = none ∧ RenameDone a a i op.NewName false false false t)
      (fun _ _ => False) := by
  apply Triple.withDeferTotal (renameSettle_unflushed op a a i hia hia)
  intro r
  apply Triple.unlockInodeTotal a
  · intro t o ht ho _
    exact ⟨ht.1, RenameDone.unlock ht.2 a o ho _ (fun _ => rfl) (fun h => absurd rfl h)
      (fun _ => rfl) (fun h => absurd rfl h) (fun h => absurd h.symm hia) (fun _ => rfl)⟩
  · intro t ht
    exact ht.2.1

/-- `Rename` of an inode that the backend does not know and that has an open
file handle: the call returns no error and the local move is done; when the
inode carried the old name, the old parent no longer lists it (unless the move
put it back in the same directory under the same name), and an inode that the
new parent listed under the new name is detached. -/
theorem Rename_unflushed (s : FileSystem) (op : RenameOp) (a b i : Ptr)
    (oa ob c : Inode) (da : DirInodeData)
    (hw : s.mu.writer = false)
    (hA : GoMap.get s.inodes op.OldParent = some a)
    (hB : GoMap.get s.inodes op.NewParent = some b)
    (hoa : s.heap[a]? = some oa) (hob : s.heap[b]? = some ob)
    (hmua : oa.mu = false) (hmub : ob.mu = false)
    (hida : oa.Id = op.OldParent) (hidb : ob.Id = op.NewParent)
    (hda : oa.dir = some da) (hbdir : ob.isDir = true)
    (hvalid : ∀ d nm n, ob.dir = some d → GoMap.get d.Children nm = some n →
      ∃ tgt, s.heap[n]? = some tgt)
    (hget : GoMap.get da.Children op.OldName = some i)
    (hc : s.heap[i]? = some c) (hfh : c.fileHandles ≠ 0) (hcmu : c.mu = false)
    (hia : i ≠ a) (hib : i ≠ b) :
    ∃ t, Rename op (some Errno.ENOENT) s = (Outcome.ok none, t) ∧
      RenameDone a b i op.NewName false false false t ∧
      (c.Name = op.OldName → (a ≠ b ∨ op.OldName ≠ op.NewName) →
        NotListed a op.OldName t ∧
        ∀ n db, ob.dir = some db → GoMap.get db.Children op.NewName = some n → n ≠ i →
          Detached n t) := by
  have halt : a < s.heap.length := (List.getElem?_eq_some.mp hoa).1
  have hblt : b < s.heap.length := (List.getElem?_eq_some.mp hob).1
  have hadir : oa.isDir = true := (isDir_iff oa).mpr ⟨da, hda⟩
  by_cases hsame : op.OldParent = op.NewParent
  · have hab : a = b := Option.some.inj (hA.symm.trans (hsame ▸ hB))
    subst hab
    have e : ob = oa := Option.some.inj (hob.symm.trans hoa)
    subst e
    obtain ⟨t0, hpre, hheap, -⟩ :=
      Rename_locked_same s op (some Errno.ENOENT) a ob hsame hw hA hoa hmua
    have ha0 : t0.heap[a]? = some { ob with mu := true } := by
      rw [hheap]
      simp [List.getElem?_set, halt]
    have hi0 : t0.heap[i]? = some c := by
      rw [hheap]
      simp [List.getElem?_set, Ne.symm hia, hc]
    have hv0 : ∀ d nm n, ob.dir = some d → GoMap.get d.Children nm = some n →
        ∃ tgt, t0.heap[n]? = some tgt := by
      intro d nm n hd hn
      rw [hheap]
      exact valid_set a _ (hvalid d nm n hd hn)
    obtain ⟨r, t, hrun, hr, hdone⟩ := (renameUnlock_same op a i hia).run
      { t0 with trace := t0.trace ++ [Ev.backendRename a op.OldName a op.NewName] }
      ⟨⟨⟨_, ha0, rfl, hadir⟩, ⟨_, ha0, rfl, hadir, hv0⟩, ⟨c, hi0, hcmu⟩⟩,
        ⟨_, da, ha0, hda, hget⟩, ⟨c, hi0, hfh⟩⟩
    subst hr
    refine ⟨t, ?_, hdone, ?_⟩
    · rw [hpre, withDefer_congr _ _ _ _ _ (renameLocked_eq op _ a a t0), hrun]
    · intro hname hne
      constructor
      · have h2 := Triple.partUnlockKept a (NotListed.keptByMutex a op.OldName)
          (renameSettle_unlists op (some Errno.ENOENT) a a i hne)
          { t0 with trace := t0.trace ++ [Ev.backendRename a op.OldName a op.NewName] }
          ⟨⟨_, da, ha0, hda, hget⟩, c, hi0, hname⟩
        rw [hrun] at h2
        exact h2 rfl
      · intro n db hdb hn hni
        have h2 := Triple.partUnlockKept a (Detached.mutexFree n)
          (renameSettle_detaches op (some Errno.ENOENT) a a i n hia hni hne)
          { t0 with trace := t0.trace ++ [Ev.backendRename a op.OldName a op.NewName] }
          ⟨⟨⟨_, da, ha0, hda, hget⟩, c, hi0, hname⟩, _, db, ha0, hdb, hn⟩
        rw [hrun] at h2
        exact h2 rfl
  · have hab : a ≠ b := by
      intro h
      subst h
      have e : ob = oa := Option.some.inj (hob.symm.trans hoa)
      exact hsame (by rw [← hida, ← hidb, e])
    obtain ⟨t0, hpre, hheap, -⟩ :=
      Rename_locked_diff s op (some Errno.ENOENT) a b oa ob hsame hab hw hA hB hoa hob hmua hmub
    have ha0 : t0.heap[a]? = some { oa with mu := true } := by
      rw [hheap]
      simp [List.getElem?_set, halt, hab, Ne.symm hab]
    have hb0 : t0.heap[b]? = some { ob with mu := true } := by
      rw [hheap]
      simp [List.getElem?_set, hblt]
    have hi0 : t0.heap[i]? = some c := by
      rw [hheap]
      simp [List.getElem?_set, Ne.symm hia, Ne.symm hib, hc]
    have hv0 : ∀ d nm n, ob.dir = some d → GoMap.get d.Children nm = some n →
        ∃ tgt, t0.heap[n]? = some tgt := by
      intro d nm n hd hn
      rw [hheap]
      exact valid_set b _ (valid_set a _ (hvalid d nm n hd hn))
    obtain ⟨r, t, hrun, hr, hdone⟩ := (renameUnlock_diff op a b i hia hib hab).run
      { t0 with trace := t0.trace ++ [Ev.backendRename a op.OldName b op.NewName] }
      ⟨⟨⟨_, ha0, rfl, hadir⟩, ⟨_, hb0, rfl, hbdir, hv0⟩, ⟨c, hi0, hcmu⟩⟩,
        ⟨_, da, ha0, hda, hget⟩, ⟨c, hi0, hfh⟩⟩
    subst hr
    refine ⟨t, ?_, hdone, ?_⟩
    · rw [hpre, withDefer_congr _ _ _ _ _
        (withDefer_congr _ _ _ _ _ (renameLocked_eq op _ a b t0)), hrun]
    · intro hname hne
      constructor
      · have h2 := Triple.partUnlockKept a (NotListed.keptByMutex a op.OldName)
          (Triple.partUnlockKept b (NotListed.keptByMutex a op.OldName)
            (renameSettle_unlists op (some Errno.ENOENT) a b i hne))
          { t0 with trace := t0.trace ++ [Ev.backendRename a op.OldName b op.NewName] }
          ⟨⟨_, da, ha0, hda, hget⟩, c, hi0, hname⟩
        rw [hrun] at h2
        exact h2 rfl
      · intro n db hdb hn hni
        have h2 := Triple.partUnlockKept a (Detached.mutexFree n)
          (Triple.partUnlockKept b (Detached.mutexFree n)
            (renameSettle_detaches op (some Errno.ENOENT) a b i n hib hni hne))
          { t0 with trace := t0.trace ++ [Ev.backendRename a op.OldName b op.NewName] }
          ⟨⟨⟨_, da, ha0, hda, hget⟩, c, hi0, hname⟩, _, db, hb0, hdb, hn⟩
        rw [hrun] at h2
        exact h2 rfl

end Fs

namespace Fs

/-- C10: let the old and the new parent be registered, unlocked inodes, the old
parent a directory, and let the backend rename fail. If the error is not
`ENOENT`, `Rename` returns it unchanged. If it is `ENOENT` and the old parent's
child index holds no inode for `OldName`, or one without an open file handle,
`Rename` returns `ENOENT`. In both cases the heap and the table, hence every
child index, are as before the call. If it is `ENOENT` and the child index of
the old parent holds for `OldName` an unlocked inode, other than the two
parents, with an open file handle, and the new parent is a directory whose
entries point to inodes, `Rename` returns no error and the local move is done:
the new parent lists the inode under `NewName`, the inode carries that name and
the new parent, all three mutexes are released, and, the inode having carried
`OldName`, the old parent no longer lists it under that name (unless the move
is within one directory and keeps the name) and an inode that the new parent
listed under `NewName` has lost its parent. -/
theorem C10_rename_enoent_only_for_unflushed (s : FileSystem) (op : RenameOp) (a b : Ptr)
    (oa ob : Inode) (da : DirInodeData)
    (hw : s.mu.writer = false)
    (hA : GoMap.get s.inodes op.OldParent = some a)
    (hB : GoMap.get s.inodes op.NewParent = some b)
    (hoa : s.heap[a]? = some oa) (hob : s.heap[b]? = some ob)
    (hmua : oa.mu = false) (hmub : ob.mu = false)
    (hida : oa.Id = op.OldParent) (hidb : ob.Id = op.NewParent)
    (hda : oa.dir = some da) :
    (∀ e, e ≠ Errno.ENOENT →
      ∃ t, Rename op (some e) s = (Outcome.ok (some e), t) ∧
        t.heap = s.heap ∧ t.inodes = s.inodes ∧ childIndexesUnchanged s t) ∧
    ((∀ i, GoMap.get da.Children op.OldName = some i →
        ∃ c, s.heap[i]? = some c ∧ c.fileHandles = 0) →
      ∃ t, Rename op (some Errno.ENOENT) s = (Outcome.ok (some Errno.ENOENT), t) ∧
        t.heap = s.heap ∧ t.inodes = s.inodes ∧ childIndexesUnchanged s t) ∧
    (∀ i c, GoMap.get da.Children op.OldName = some i → s.heap[i]? = some c →
      c.fileHandles ≠ 0 → c.mu = false → i ≠ a → i ≠ b → ob.isDir = true →
      (∀ d nm n, ob.dir = some d → GoMap.get d.Children nm = some n →
        ∃ tgt, s.heap[n]? = some tgt) →
      ∃ t, Rename op (some Errno.ENOENT) s = (Outcome.ok none, t) ∧
        RenameDone a b i op.NewName false false false t ∧
        (c.Name = op.OldName → (a ≠ b ∨ op.OldName ≠ op.NewName) →
          NotListed a op.OldName t ∧
          ∀ n db, ob.dir = some db → GoMap.get db.Children op.NewName = some n → n ≠ i →
            Detached n t)) := by
  have halt : a < s.heap.length := (List.getElem?_eq_some.mp hoa).1
  have hblt : b < s.heap.length := (List.getElem?_eq_some.mp hob).1
  have hkeep : ∀ t : FileSystem, t.heap = s.heap → childIndexesUnchanged s t := by
    intro t ht x o hx
    exact ⟨o, by rw [ht]; exact hx, rfl⟩
  refine ⟨?_, ?_, ?_⟩
  · intro e he
    obtain ⟨t, hrun, hheap, hino⟩ := Rename_error s op (some e) (some e) a b oa ob hw hA hB hoa
      hob hmua hmub hida hidb (fun t _ => renameSettle_other op e a b t he)
    exact ⟨t, hrun, hheap, hino, hkeep t hheap⟩
  · intro hnone
    obtain ⟨t, hrun, hheap, hino⟩ := Rename_error s op (some Errno.ENOENT) (some Errno.ENOENT)
      a b oa ob hw hA hB hoa hob hmua hmub hida hidb (by
        intro t ht
        have hlocked : ∀ (x : Ptr) (o : Inode), s.heap[x]? = some o →
            ∃ o1 : Inode, t.heap[x]? = some o1 ∧ o1.dir = o.dir ∧
              o1.fileHandles = o.fileHandles := by
          intro x o hx
          rw [ht]
          by_cases hxb : x = b
          · subst hxb
            have e : o = ob := Option.some.inj (hx.symm.trans hob)
            subst e
            exact ⟨{ o with mu := true }, by simp [List.getElem?_set, hblt], rfl, rfl⟩
          · by_cases hxa : x = a
            · subst hxa
              have e : o = oa := Option.some.inj (hx.symm.trans hoa)
              subst e
              exact ⟨{ o with mu := true }, by simp [List.getElem?_set, halt, Ne.symm hxb], rfl, rfl⟩
            · exact ⟨o, by simp [List.getElem?_set, Ne.symm hxa, Ne.symm hxb, hx], rfl, rfl⟩
        obtain ⟨o1, ho1, hd1, _⟩ := hlocked a oa hoa
        refine renameSettle_enoent op a b t o1 da ho1 (hd1.trans hda) ?_
        intro i hi
        obtain ⟨c, hc, hz⟩ := hnone i hi
        obtain ⟨c1, hc1, _, hf1⟩ := hlocked i c hc
        exact ⟨c1, hc1, hf1.trans hz⟩)
    exact ⟨t, hrun, hheap, hino, hkeep t hheap⟩
  · intro i c hget hc hfh hcmu hia hib hbdir hvalid
    exact Rename_unflushed s op a b i oa ob c da hw hA hB hoa hob hmua hmub hida hidb hda hbdir
      hvalid hget hc hfh hcmu hia hib

/-- The instance of C10 at the example file system, where the file `a` under
the root has one open file handle: a `Rename` of `a` into the directory `d`
returns `EACCES` when the backend reports it, and succeeds with the local move
done when the backend reports `ENOENT`. -/
theorem C10_witness :
    (∃ t, Rename { OldParent := 1, OldName := "a", NewParent := 3, NewName := "b" }
        (some Errno.EACCES) (exampleFs 100 false 1) = (Outcome.ok (some Errno.EACCES), t) ∧
      t.heap = (exampleFs 100 false 1).heap) ∧
    (∃ t, Rename { OldParent := 1, OldName := "a", NewParent := 3, NewName := "b" }
        (some Errno.ENOENT) (exampleFs 100 false 1) = (Outcome.ok none, t) ∧
      RenameDone 0 2 1 "b" false false false t ∧ NotListed 0 "a" t) :=
  let h := C10_rename_enoent_only_for_unflushed (exampleFs 100 false 1)
    { OldParent := 1, OldName := "a", NewParent := 3, NewName := "b" } 0 2
    (exampleInode 1 "" none (some (exampleDir [("e", 3), ("d", 2), ("a", 1)])) 0 1)
    (exampleInode 3 "d" (some 0) (some (exampleDir [])) 0 1)
    (exampleDir [("e", 3), ("d", 2), ("a", 1)])
    rfl (by decide) (by decide) rfl rfl rfl rfl rfl rfl rfl
  ⟨(h.1 Errno.EACCES (by decide)).imp (fun _ ht => ⟨ht.1, ht.2.1⟩),
    (h.2.2 1 (exampleInode 2 "a" (some 0) none 1 1) (by decide) rfl (by decide) rfl
      (by decide) (by decide) rfl
      (by
        intro d nm n hd hn
        have e : d = exampleDir [] := (Option.some.inj hd).symm
        subst e
        exact absurd hn (by simp [exampleDir, GoMap.get]))).imp
      (fun _ ht => ⟨ht.1, ht.2.1, (ht.2.2 rfl (Or.inl (by decide))).1⟩)⟩

end Fs

namespace Fs

/-- C6: let `op.Inode` be registered at `p`, with a parent that, if any, is an
unlocked directory, and let `op.N` not exceed the reference count. Then
`ForgetInode` returns no error and the reference count drops by `op.N`. If
`DeRef` reports the inode unreferenced, which it does exactly when the new
count is zero, the id is deleted from `fs.inodes`, `forgotCnt` is incremented
and the parent's child index loses the entry under the inode's name, every
other child index staying as it is. Otherwise `fs.inodes`, `forgotCnt` and every
child index are unchanged. Hence the id has left the table after the call
exactly when the reference count is zero. -/
theorem C6_forget_deletes_exactly_when_stale (s : FileSystem) (op : ForgetInodeOp) (p : Ptr)
    (ino : Inode)
    (hr : s.mu.readers = 0) (hw : s.mu.writer = false)
    (hp : GoMap.get s.inodes op.Inode = some p) (hino : s.heap[p]? = some ino)
    (hparent : ∀ q, ino.Parent = some q →
      ∃ par d, s.heap[q]? = some par ∧ par.mu = false ∧ par.dir = some d)
    (hN : op.N ≤ ino.refcnt) :
    ∃ (t : FileSystem) (o1 : Inode), ForgetInode op s = (Outcome.ok none, t) ∧
      t.heap[p]? = some o1 ∧ o1.refcnt + op.N = ino.refcnt ∧
      ((ino.deRef op.N).2 = true ↔ o1.refcnt = 0) ∧
      (o1.refcnt = 0 →
        t.inodes = GoMap.delete s.inodes op.Inode ∧
        t.forgotCnt = (s.forgotCnt + 1) % U32 ∧
        ∀ (x : Ptr) (o : Inode), s.heap[x]? = some o →
          ∃ o2 : Inode, t.heap[x]? = some o2 ∧
          o2.dir = if ino.Parent = some x
            then o.dir.map (fun d => { d with Children := GoMap.delete d.Children ino.Name })
            else o.dir) ∧
      (o1.refcnt ≠ 0 →
        t.inodes = s.inodes ∧ t.forgotCnt = s.forgotCnt ∧ childIndexesUnchanged s t) ∧
      (GoMap.get t.inodes op.Inode = none ↔ o1.refcnt = 0) := by
  obtain ⟨hres, hstale, hlive, o1, ho1, hcnt, hiff⟩ :=
    ForgetInode_effect s op p ino hr hw hp hino hparent
  refine ⟨(ForgetInode op s).2, o1, Prod.ext hres rfl, ho1, ?_, hiff, ?_, ?_, ?_⟩
  · rw [hcnt]
    exact Nat.sub_add_cancel hN
  · intro h0
    exact hstale (hiff.mpr h0)
  · intro h0
    have hf : (ino.deRef op.N).2 = false := by
      cases hb : (ino.deRef op.N).2 with
      | false => rfl
      | true => exact absurd (hiff.mp hb) h0
    exact hlive hf
  · constructor
    · intro hgone
      by_contra h0
      have hf : (ino.deRef op.N).2 = false := by
        cases hb : (ino.deRef op.N).2 with
        | false => rfl
        | true => exact absurd (hiff.mp hb) h0
      rw [(hlive hf).1, hp] at hgone
      exact absurd hgone (by simp)
    · intro h0
      rw [(hstale (hiff.mpr h0)).1]
      exact GoMap.get_delete_self _ _

/-- The instance of C6 at the example file system: forgetting the one reference
to the file `a` (id 2) takes the id out of the table. -/
theorem C6_witness :
    ∃ (t : FileSystem) (o1 : Inode),
      ForgetInode { Inode := 2, N := 1 } (exampleFs 100 false 0) = (Outcome.ok none, t) ∧
      t.heap[1]? = some o1 ∧ o1.refcnt = 0 ∧ GoMap.get t.inodes 2 = none :=
  let ⟨t, o1, h1, h2, h3, _, _, _, h7⟩ := C6_forget_deletes_exactly_when_stale
    (exampleFs 100 false 0) { Inode := 2, N := 1 } 1 (exampleInode 2 "a" (some 0) none 0 1)
    rfl rfl (by decide) rfl
    (fun q hq => ⟨exampleInode 1 "" none (some (exampleDir [("e", 3), ("d", 2), ("a", 1)])) 0 1,
      exampleDir [("e", 3), ("d", 2), ("a", 1)],
      by rw [← Option.some.inj hq]; rfl, rfl, rfl⟩)
    (by decide)
  have h0 : o1.refcnt = 0 := Nat.add_right_cancel (m := 1) (by rw [Nat.zero_add]; exact h3)
  ⟨t, o1, h1, h2, h0, h7.mpr h0⟩

end Fs

namespace Fs

theorem runCalls_newObject_inodes (o : Inode) (s : FileSystem) :
    (runCalls [InsertCall.newObject o] s).inodes = s.inodes := rfl

/-- The instance of C1 for one insert before and one insert after: a file object
is created and inserted under the root, then a second one. -/
theorem C1_witness :
    (allocated (runCalls
        [InsertCall.newObject (exampleInode 0 "g" none none 0 1), InsertCall.insertInode 0 4]
        (runCalls
          [InsertCall.newObject (exampleInode 0 "f" none none 0 1), InsertCall.insertInode 0 3]
          (NewFileSystem 7 (exampleFlags false) 100))).trace).Pairwise (fun a b => a < b) :=
  (C1_ids_strictly_increasing 7 (exampleFlags false) 100
    [InsertCall.newObject (exampleInode 0 "f" none none 0 1), InsertCall.insertInode 0 3]
    [InsertCall.newObject (exampleInode 0 "g" none none 0 1), InsertCall.insertInode 0 4]
    (by decide)).1

/-- The instance of C2 for the insertion of a new file object under the root of
the file system that `NewFileSystem` builds. -/
theorem C2_witness :
    tableInvariant (insertInode 0 3
      (runCalls [InsertCall.newObject (exampleInode 0 "f" none none 0 1)]
        (NewFileSystem 7 (exampleFlags false) 100))).2 ∧
    (insertInode 0 3
      (runCalls [InsertCall.newObject (exampleInode 0 "f" none none 0 1)]
        (NewFileSystem 7 (exampleFlags false) 100))).1 ≠ Outcome.abort Abort.outOfFuel :=
  let h := C2_table_invariant 7 (exampleFlags false) 100
    (runCalls [InsertCall.newObject (exampleInode 0 "f" none none 0 1)]
      (NewFileSystem 7 (exampleFlags false) 100)) 0 3 []
    (runCalls_inv [InsertCall.newObject (exampleInode 0 "f" none none 0 1)] _
      (NewFileSystem_reachInv 7 (exampleFlags false) 100)
      (by rw [NewFileSystem_next]; decide)).1.1
    (Nat.lt_of_le_of_lt (Nat.add_le_add_right
      (runCalls_next [InsertCall.newObject (exampleInode 0 "f" none none 0 1)] _
        (NewFileSystem_reachInv 7 (exampleFlags false) 100)
        (by rw [NewFileSystem_next]; decide)) 1)
      (by rw [NewFileSystem_next]; decide))
    (fun k hk => absurd (NewFileSystem_get 7 (exampleFlags false) 100 k 3
      ((congrArg (fun m => GoMap.get m k) (runCalls_newObject_inodes _ _)).symm.trans hk)).2
      (by decide))
    (by decide)
  ⟨h.2.1, h.2.2.1⟩

end Fs

namespace Fs

/-! ## Tickets -/

theorem Ticket.Take_outstanding (t : Ticket) (n : Nat) (h : t.outstanding ≤ t.total) :
    ((TicketCall.take n).run t).outstanding ≤ t.total ∧
    ((TicketCall.take n).run t).total = t.total := by
  unfold TicketCall.run Ticket.Take
  by_cases hc : (t.outstanding + n) % U32 > t.total
  · simp [hc, h]
  · simp only [hc, if_false]
    exact ⟨Nat.le_of_not_gt hc, trivial⟩

theorem Ticket.Return_outstanding (t : Ticket) (n : Nat) (h : t.outstanding ≤ t.total)
    (hC : t.total < U32) (hn : n ≤ t.outstanding) :
    ((TicketCall.giveBack n).run t).outstanding ≤ t.total ∧
    ((TicketCall.giveBack n).run t).total = t.total := by
  have hnlt : n < U32 := Nat.lt_of_le_of_lt (Nat.le_trans hn h) hC
  have e : (t.outstanding + (U32 - n % U32)) % U32 = t.outstanding - n := by
    rw [Nat.mod_eq_of_lt hnlt]
    have e1 : t.outstanding + (U32 - n) = (t.outstanding - n) + U32 := by omega
    rw [e1, Nat.add_mod_right]
    exact Nat.mod_eq_of_lt (by omega)
  refine ⟨?_, rfl⟩
  show (t.outstanding + (U32 - n % U32)) % U32 ≤ t.total
  rw [e]
  omega

theorem runTicket_bounded (calls : List TicketCall) :
    ∀ t : Ticket, t.total < U32 → t.outstanding ≤ t.total → returnsCovered calls t = true →
      (runTicket calls t).outstanding ≤ t.total := by
  induction calls with
  | nil =>
    intro t _ h _
    exact h
  | cons c rest ih =>
    intro t hC h hcov
    cases c with
    | take n =>
      obtain ⟨h1, h2⟩ := Ticket.Take_outstanding t n h
      have := ih ((TicketCall.take n).run t) (h2 ▸ hC) (h2 ▸ h1) hcov
      rw [h2] at this
      exact this
    | giveBack n =>
      simp only [returnsCovered, Bool.and_eq_true, decide_eq_true_eq] at hcov
      obtain ⟨h1, h2⟩ := Ticket.Return_outstanding t n h hC hcov.1
      have := ih ((TicketCall.giveBack n).run t) (h2 ▸ hC) (h2 ▸ h1) hcov.2
      rw [h2] at this
      exact this

/-- Counterexample to C13: on a ticket of capacity 16 fresh from `Init`, the
one-call sequence `Return(1)` leaves 4294967295 units outstanding. -/
theorem C13_counterexample :
    (runTicket [TicketCall.giveBack 1]
      (Ticket.Init { Total := 16, total := 0, outstanding := 0 })).outstanding = 4294967295 ∧
    ¬ (runTicket [TicketCall.giveBack 1]
      (Ticket.Init { Total := 16, total := 0, outstanding := 0 })).outstanding ≤ 16 := by
  decide

/-- C13, amended: for a ticket created by `Init` with capacity `Total = C`,
after every finite sequence of non-blocking `Take` and `Return` calls in which
no `Return` gives back more than is outstanding at that moment, the
outstanding count is at most `C`. -/
theorem C13_outstanding_at_most_capacity (C : Nat) (calls : List TicketCall)
    (hC : C < U32)
    (hcov : returnsCovered calls (Ticket.Init { Total := C, total := 0, outstanding := 0 })
      = true) :
    (runTicket calls (Ticket.Init { Total := C, total := 0, outstanding := 0 })).outstanding
      ≤ C :=
  runTicket_bounded calls (Ticket.Init { Total := C, total := 0, outstanding := 0 }) hC
    (Nat.zero_le _) hcov

/-- The instance of the amended C13 for capacity 16 and the calls `Take(10)`,
`Take(10)` (refused), `Return(4)`, `Take(10)`. -/
theorem C13_witness :
    (runTicket [TicketCall.take 10, TicketCall.take 10, TicketCall.giveBack 4,
        TicketCall.take 10]
      (Ticket.Init { Total := 16, total := 0, outstanding := 0 })).outstanding ≤ 16 :=
  C13_outstanding_at_most_capacity 16
    [TicketCall.take 10, TicketCall.take 10, TicketCall.giveBack 4, TicketCall.take 10]
    (by decide) (by decide)

/-- Counterexample to C14: with one unit outstanding and capacity 16, the
non-blocking `Take(4294967295)` returns true and leaves nothing outstanding,
although the sum of the two numbers, 4294967296, exceeds 16. -/
theorem C14_counterexample :
    Ticket.Take { Total := 16, total := 16, outstanding := 1 } 4294967295 false =
      TakeResult.returned true { Total := 16, total := 16, outstanding := 0 } ∧
    ¬ (1 + 4294967295 ≤ 16) := by
  decide

/-- C14, amended: for every ticket with outstanding count `o` and capacity `C`
and every `n` whose sum with `o` fits a `uint32`, the non-blocking `Take(n)`
returns true exactly when `o + n <= C`, and the outstanding count then becomes
`o + n`; otherwise it returns false at once and leaves the ticket as it is. In
general the test is made on the `uint32` sum `(o + n) mod 2^32`. -/
theorem C14_take_nonblocking (t : Ticket) (n : Nat) (hfit : t.outstanding + n < U32) :
    (t.outstanding + n ≤ t.total →
      t.Take n false = TakeResult.returned true { t with outstanding := t.outstanding + n }) ∧
    (¬ t.outstanding + n ≤ t.total → t.Take n false = TakeResult.returned false t) ∧
    (∀ t1, t.Take n false = TakeResult.returned true t1 ↔
      (t.outstanding + n ≤ t.total ∧ t1 = { t with outstanding := t.outstanding + n })) ∧
    (∀ m, (t.Take m false = TakeResult.returned true
        { t with outstanding := (t.outstanding + m) % U32 } ↔
          (t.outstanding + m) % U32 ≤ t.total) ∧
      (¬ (t.outstanding + m) % U32 ≤ t.total → t.Take m false = TakeResult.returned false t)) := by
  have hmod : (t.outstanding + n) % U32 = t.outstanding + n := Nat.mod_eq_of_lt hfit
  refine ⟨?_, ?_, ?_, ?_⟩
  · intro h
    simp [Ticket.Take, hmod, Nat.not_lt.mpr h]
  · intro h
    simp [Ticket.Take, hmod, Nat.lt_of_not_le h]
  · intro t1
    by_cases h : t.outstanding + n ≤ t.total
    · simp [Ticket.Take, hmod, Nat.not_lt.mpr h, h, eq_comm]
    · simp [Ticket.Take, hmod, Nat.lt_of_not_le h, h]
  · intro m
    by_cases h : (t.outstanding + m) % U32 ≤ t.total
    · simp [Ticket.Take, Nat.not_lt.mpr h, h]
    · simp [Ticket.Take, Nat.lt_of_not_le h, h]

/-- The instance of the amended C14 for three units outstanding of sixteen and
`Take(5)`. -/
theorem C14_witness :
    Ticket.Take { Total := 16, total := 16, outstanding := 3 } 5 false =
      TakeResult.returned true { Total := 16, total := 16, outstanding := 8 } :=
  (C14_take_nonblocking { Total := 16, total := 16, outstanding := 3 } 5 (by decide)).1
    (by decide)

/-! ## Error mapping -/

/-- C15: `mapHttpError` maps 400 to `EINVAL`, 401 and 403 to `EACCES`, 404 to
`ENOENT`, 405 to `ENOTSUP`, 409 to `EINTR`, 429 and 500 to `EAGAIN`, and every
other status code to nil. -/
theorem C15_mapHttpError_table :
    mapHttpError 400 = some Errno.EINVAL ∧
    mapHttpError 401 = some Errno.EACCES ∧
    mapHttpError 403 = some Errno.EACCES ∧
    mapHttpError 404 = some Errno.ENOENT ∧
    mapHttpError 405 = some Errno.ENOTSUP ∧
    mapHttpError 409 = some Errno.EINTR ∧
    mapHttpError 429 = some Errno.EAGAIN ∧
    mapHttpError 500 = some Errno.EAGAIN ∧
    ∀ status : Int, status ∉ [400, 401, 403, 404, 405, 409, 429, 500] →
      mapHttpError status = none := by
  refine ⟨rfl, rfl, rfl, rfl, rfl, rfl, rfl, rfl, ?_⟩
  intro status h
  simp only [List.mem_cons, List.mem_singleton, not_or, List.not_mem_nil] at h
  obtain ⟨h1, h2, h3, h4, h5, h6, h7, h8, _⟩ := h
  simp [mapHttpError, h1, h2, h3, h4, h5, h6, h7, h8]

/-- The instance of C15 for the status 418, which is in no case of the
switch. -/
theorem C15_witness : mapHttpError 418 = none :=
  C15_mapHttpError_table.2.2.2.2.2.2.2.2 418 (by decide)

/-- C16, the code at the failing input: `mapStorageError` turns the not-found
sentinel `storage.ErrNoSuchKey` into `ENXIO`, not into `ENOENT`, while
`mapHttpError` turns the not-found status 404 into `ENOENT`. -/
theorem C16_no_such_key_maps_to_enxio :
    mapStorageError (some (GoErr.storage StorageErr.ErrNoSuchKey)) =
      some (GoErr.errno Errno.ENXIO) ∧
    mapStorageError (some (GoErr.storage StorageErr.ErrNoSuchKey)) ≠
      some (GoErr.errno Errno.ENOENT) ∧
    mapHttpError 404 = some Errno.ENOENT := by
  decide

end Fs

namespace Fs

/-! ## Expiry of the never-expire horizon -/

theorem expiredAt_TIMEMAX (now : Time) (ttl : Duration) (h : now < TIMEMAX) :
    expiredAt now TIMEMAX ttl = false := by
  unfold expiredAt
  rw [if_pos h]

/-- C19: for every time to live and every current instant earlier than
`TIMEMAX`, `expired(TIMEMAX, ttl)` is false. The `.` and `..` entries that
`NewFileSystem` synthesizes through `addDotAndDotDot` carry `AttrTime =
TIMEMAX`, and `LookUpInode` answers a lookup of a child with that `AttrTime`
from the cache, without a backend call. -/
theorem C19_timemax_never_expires (now : Time) (ttl : Duration) (hnow : now < TIMEMAX) :
    expiredAt now TIMEMAX ttl = false ∧
    (∀ (cloud : Backend) (flags : Flags) (t0 : Time),
      ∃ root dot dotdot dr,
        (NewFileSystem cloud flags t0).heap[0]? = some root ∧ root.dir = some dr ∧
        GoMap.get dr.Children "." = some 1 ∧ GoMap.get dr.Children ".." = some 2 ∧
        (NewFileSystem cloud flags t0).heap[1]? = some dot ∧ dot.AttrTime = TIMEMAX ∧
        (NewFileSystem cloud flags t0).heap[2]? = some dotdot ∧ dotdot.AttrTime = TIMEMAX) ∧
    (∀ (s : FileSystem) (op : LookUpInodeOp) (resp : LookUpResp) (parent : Ptr) (par : Inode)
        (d : DirInodeData) (i : Ptr) (child : Inode),
      s.clock = now → s.flags.StatCacheTTL = ttl → s.mu.writer = false →
      GoMap.get s.inodes op.Parent = some parent →
      s.heap[parent]? = some par → par.mu = false → par.dir = some d →
      GoMap.get d.Children op.Name = some i → s.heap[i]? = some child →
      child.AttrTime = TIMEMAX →
      (LookUpInode op resp s).1 = Outcome.ok (none,
        { Child := child.Id
          AttributesExpiration := s.clock + s.flags.StatCacheTTL
          EntryExpiration := s.clock + s.flags.TypeCacheTTL }) ∧
      backendCalls (LookUpInode op resp s).2.trace = backendCalls s.trace) := by
  refine ⟨expiredAt_TIMEMAX now ttl hnow, ?_, ?_⟩
  · intro cloud flags t0
    rw [NewFileSystem_eq]
    exact ⟨_, _, _, _, rfl, rfl, by simp [GoMap.get], by simp [GoMap.get], rfl, rfl, rfl, rfl⟩
  · intro s op resp parent par d i child hclock httl hw hparent hpar hmu hdir hsome hchild hat
    refine LookUpInode_hit s op resp parent par d i child hw hparent hpar hmu hdir hsome hchild ?_
    intro hc
    rw [hat, hclock, httl, expiredAt_TIMEMAX now ttl hnow] at hc
    exact absurd hc.1 (by simp)

/-- The instance of C19 at the Unix epoch with a time to live of one minute. -/
theorem C19_witness : expiredAt 0 TIMEMAX 60000000000 = false :=
  (C19_timemax_never_expires 0 60000000000 (by decide)).1

/-! ## FlushFile -/

theorem flushCalls_append (a b : List Ev) :
    flushCalls (a ++ b) = flushCalls a ++ flushCalls b := by
  simp [flushCalls, List.filter_append]

theorem flushCalls_quiet (l : List Ev) (h : ∀ e ∈ l, e.isFlush = false) :
    flushCalls l = [] := by
  simp only [flushCalls, List.filter_eq_nil_iff]
  intro e he
  simp [h e he]

/-- From the call of the handle's flush on, `FlushFile` records exactly that
one flush. -/
theorem flushHandle_flushCalls (op : FlushFileOp) (flushResp : GoError) (t : FileSystem) :
    flushCalls (flushHandle op flushResp t).2.trace =
      flushCalls t.trace ++ [Ev.handleFlush op.Handle] := by
  have htail : ∀ u : FileSystem, ∃ rest,
      ((if flushResp ≠ none then do
        whileErr flushResp (do
          muRLock
          let inode ← getInodeOrDie op.Inode
          muRUnlock
          let ino ← deref inode
          if ino.KnownSize = none then
            modifyObj inode (fun o => { o with AttrTime := zeroTime })
          else pure ())
        pure flushResp
      else pure flushResp : M GoError) u).2.trace = u.trace ++ rest ∧
      ∀ e ∈ rest, e.isFlush = false := by
    intro u
    have h : TraceAdds (fun e => e.isFlush = false)
        (if flushResp ≠ none then do
          whileErr flushResp (do
            muRLock
            let inode ← getInodeOrDie op.Inode
            muRUnlock
            let ino ← deref inode
            if ino.KnownSize = none then
              modifyObj inode (fun o => { o with AttrTime := zeroTime })
            else pure ())
          pure flushResp
        else pure flushResp : M GoError) := by
      split
      · apply TraceAdds.seq
        · apply TraceAdds.whileErr
          apply TraceAdds.seq (TraceAdds.muRLock (P := fun e => e.isFlush = false) rfl)
          intro _
          apply TraceAdds.seq (TraceAdds.getInodeOrDie _)
          intro inode
          apply TraceAdds.seq (TraceAdds.muRUnlock (P := fun e => e.isFlush = false) rfl)
          intro _
          apply TraceAdds.seq (TraceAdds.reads inode)
          intro ino
          split
          · exact TraceAdds.updates _ _
          · exact TraceAdds.ret _
        · intro _
          exact TraceAdds.ret _
      · exact TraceAdds.ret _
    exact h u
  obtain ⟨rest, hrest, hq⟩ :=
    htail { t with trace := t.trace ++ [Ev.handleFlush op.Handle] }
  have e : (flushHandle op flushResp t).2.trace =
      (t.trace ++ [Ev.handleFlush op.Handle]) ++ rest := hrest
  rw [e, flushCalls_append, flushCalls_append, flushCalls_quiet rest hq]
  simp [flushCalls, Ev.isFlush]

end Fs

namespace Fs

/-- C20: for an open file handle with a recorded `Tgid`, a `FlushFile` whose
caller's tgid differs returns success without a flush of the handle and leaves
every inode object, hence the inode's `AttrTime`, as it is; when the handle has
no recorded `Tgid`, or the caller's tgid equals it, the handle's flush is
invoked, exactly once. -/
theorem C20_flush_ignored_for_other_tgid (s : FileSystem) (op : FlushFileOp)
    (callerTgid : Option Int) (flushResp : GoError) (h : FileHandle)
    (hw : s.mu.writer = false)
    (hh : GoMap.get s.fileHandles op.Handle = some h) :
    (∀ own caller, h.Tgid = some own → callerTgid = some caller → own ≠ caller →
      ∃ t, FlushFile op callerTgid flushResp s = (Outcome.ok none, t) ∧
        t.heap = s.heap ∧ flushCalls t.trace = flushCalls s.trace) ∧
    ((h.Tgid = none ∨ ∃ own, h.Tgid = some own ∧ callerTgid = some own) →
      flushCalls (FlushFile op callerTgid flushResp s).2.trace =
        flushCalls s.trace ++ [Ev.handleFlush op.Handle]) := by
  constructor
  · intro own caller hown hcaller hne
    apply Exists.intro
    constructor
    · simp [FlushFile, bind_apply, pure_apply, muRLock, muRUnlock, hw, hh, hown, hcaller, hne]
      rfl
    · exact ⟨rfl, by simp [flushCalls, List.filter_append, Ev.isFlush]⟩
  · intro hcase
    have hpre : ∃ t0, FlushFile op callerTgid flushResp s = flushHandle op flushResp t0 ∧
        t0.trace = s.trace ++ [Ev.muRLock, Ev.muRUnlock] := by
      rcases hcase with hnone | ⟨own, hown, hcaller⟩
      · apply Exists.intro
        constructor
        · simp [FlushFile, bind_apply, muRLock, muRUnlock, hw, hh, hnone]
          rfl
        · simp
      · apply Exists.intro
        constructor
        · simp [FlushFile, bind_apply, muRLock, muRUnlock, hw, hh, hown, hcaller]
          rfl
        · simp
    obtain ⟨t0, ht0, htr⟩ := hpre
    rw [ht0, flushHandle_flushCalls, htr]
    simp [flushCalls, List.filter_append, Ev.isFlush]

/-- The instance of C20 for a handle opened by the process group 40 and a flush
request from the process group 41. -/
theorem C20_witness :
    ∃ t, FlushFile { Inode := 2, Handle := 1, Pid := 900 } (some 41) none
        { exampleFs 100 false 1 with
          fileHandles := [(1, { inode := 1, Tgid := some 40, keepPageCache := true })] } =
        (Outcome.ok none, t) ∧
      t.heap = (exampleFs 100 false 1).heap :=
  ((C20_flush_ignored_for_other_tgid
    { exampleFs 100 false 1 with
      fileHandles := [(1, { inode := 1, Tgid := some 40, keepPageCache := true })] }
    { Inode := 2, Handle := 1, Pid := 900 } (some 41) none
    { inode := 1, Tgid := some 40, keepPageCache := true } rfl (by decide)).1
    40 41 rfl rfl (by decide)).imp (fun _ ht => ⟨ht.1, ht.2.1⟩)

end Fs

namespace Fs

/-- The statements of `Rename` after a backend rename that succeeded, or that
reported `ENOENT` for an inode with an open file handle: from a state in which
both directories are locked and the old parent lists the inode at `i` under the
old name, they return no error and the local move is done. -/
theorem renameSettle_moves (op : RenameOp) (err0 : GoError) (a b i : Ptr) (hia : i ≠ a)
    (hib : i ≠ b) (hsucc : err0 = none ∨ err0 = some Errno.ENOENT) :
    Triple (fun t => RenameInv a b i false t ∧
        (∃ o d, t.heap[a]? = some o ∧ o.dir = some d ∧
          GoMap.get d.Children op.OldName = some i) ∧
        (err0 = some Errno.ENOENT → ∃ c, t.heap[i]? = some c ∧ c.fileHandles ≠ 0))
      (renameSettle op err0 a b)
      (fun r t => r = none ∧ RenameDone a b i op.NewName true true false t)
      (fun _ _ => False) := by
  rcases hsucc with h | h
  · subst h
    unfold renameSettle
    rw [if_neg (by simp)]
    apply Triple.bind (Q := fun err t => err = none ∧ RenameInv a b i false t ∧
      (∃ o d, t.heap[a]? = some o ∧ o.dir = some d ∧ GoMap.get d.Children op.OldName = some i))
    · exact Triple.pure _ (fun t ht => ⟨rfl, ht.1, ht.2.1⟩)
    intro err
    apply Triple.assume
    rintro t0 ⟨herr, -, -⟩
    subst herr
    rw [if_pos rfl]
    apply Triple.bind (Q := fun inode t => inode = some i ∧ RenameInv a b i false t)
    · intro t ht
      obtain ⟨_, hinv, o, d, ho, hd, hget⟩ := ht
      rw [findChildUnlocked_eq t a op.OldName o d ho hd]
      exact ⟨hget, hinv⟩
    intro inode
    apply Triple.assume
    rintro t1 ⟨hin, -⟩
    subst hin
    apply Triple.bind (Q := fun _ t => RenameDone a b i op.NewName true true false t)
    · dsimp only
      apply Triple.bind (Q := fun _ t => RenameInv a b i true t)
      · apply Triple.lockInodeTotal i
        · intro t o ht ho _
          exact RenameInv.setMu ht.2 hia hib o ho true _
        · intro t ht
          exact ht.2.2.2
      intro _
      apply Triple.withDeferTotal (renameMove_done op a b i hia hib)
      intro _
      apply Triple.unlockInodeTotal i
      · intro t o ht ho _
        exact RenameDone.unlock ht i o ho _ (fun h => absurd h hia) (fun _ => rfl)
          (fun h => absurd h hib) (fun _ => rfl) (fun _ => rfl) (fun h => absurd rfl h)
      · intro t ht
        obtain ⟨ci, hci, himu, _⟩ := ht.2.2
        exact ⟨ci, hci, himu⟩
    intro _
    exact Triple.pure _ (fun t ht => ⟨rfl, ht⟩)
  · subst h
    exact Triple.weaken (renameSettle_unflushed op a b i hia hib)
      (fun t ht => ⟨ht.1, ht.2.1, ht.2.2 rfl⟩) (fun _ _ h => h) (fun _ _ h => h)

/-- The deferred unlocks of two different directories after the local move. -/
theorem Triple.unlockBoth {P : FileSystem → Prop} {m : M GoError} (a b i : Ptr)
    (nm : String) (hia : i ≠ a) (hib : i ≠ b) (hab : a ≠ b)
    (h : Triple P m (fun r t => r = none ∧ RenameDone a b i nm true true false t)
      (fun _ _ => False)) :
    Triple P (withDefer (Fs.unlockInode a) (withDefer (Fs.unlockInode b) m))
      (fun r t => r = none ∧ RenameDone a b i nm false false false t)
      (fun _ _ => False) := by
  apply Triple.withDeferTotal
    (Q := fun r t => r = none ∧ RenameDone a b i nm true false false t)
  · apply Triple.withDeferTotal h
    intro r
    apply Triple.unlockInodeTotal b
    · intro t o ht ho _
      exact ⟨ht.1, RenameDone.unlock ht.2 b o ho _ (fun h => absurd h.symm hab) (fun _ => rfl)
        (fun _ => rfl) (fun h => absurd rfl h) (fun h => absurd h.symm hib) (fun _ => rfl)⟩
    · intro t ht
      obtain ⟨nb, dn, hnb, hbmu, _⟩ := ht.2.2.1
      exact ⟨nb, hnb, hbmu⟩
  · intro r
    apply Triple.unlockInodeTotal a
    · intro t o ht ho _
      exact ⟨ht.1, RenameDone.unlock ht.2 a o ho _ (fun _ => rfl) (fun h => absurd rfl h)
        (fun h => absurd h hab) (fun _ => rfl) (fun h => absurd h.symm hia) (fun _ => rfl)⟩
    · intro t ht
      exact ht.2.1

/-- The deferred unlock of the one directory after the local move. -/
theorem Triple.unlockOne {P : FileSystem → Prop} {m : M GoError} (a i : Ptr)
    (nm : String) (hia : i ≠ a)
    (h : Triple P m (fun r t => r = none ∧ RenameDone a a i nm true true false t)
      (fun _ _ => False)) :
    Triple P (withDefer (Fs.unlockInode a) m)
      (fun r t => r = none ∧ RenameDone a a i nm false false false t)
      (fun _ _ => False) := by
  apply Triple.withDeferTotal h
  intro r
  apply Triple.unlockInodeTotal a
  · intro t o ht ho _
    exact ⟨ht.1, RenameDone.unlock ht.2 a o ho _ (fun _ => rfl) (fun h => absurd rfl h)
      (fun _ => rfl) (fun h => absurd rfl h) (fun h => absurd h.symm hia) (fun _ => rfl)⟩
  · intro t ht
    exact ht.2.1

end Fs

namespace Fs

/-! ### Code that leaves the inode table alone -/

theorem Keeps.unit {α β : Type} (f : FileSystem → β) (a : α) : Keeps f (pure a : M α) :=
  fun _ => rfl

theorem Keeps.andThen {α β γ : Type} {f : FileSystem → γ} {m : M α} {k : α → M β}
    (h1 : Keeps f m) (h2 : ∀ a, Keeps f (k a)) : Keeps f (m >>= k) := by
  intro s
  rw [bind_apply]
  have e1 := h1 s
  rcases hm : m s with ⟨o, t⟩
  rw [hm] at e1
  cases o with
  | ok a => exact (h2 a t).trans e1
  | abort r => exact e1

theorem Keeps.deferred {α γ : Type} {f : FileSystem → γ} {c : M Unit} {b : M α}
    (hc : Keeps f c) (hb : Keeps f b) : Keeps f (withDefer c b) := by
  intro s
  unfold Fs.withDefer
  have e1 := hb s
  rcases hm : b s with ⟨o, t⟩
  rw [hm] at e1
  have e2 := hc t
  cases o with
  | ok a =>
    dsimp only
    rcases hcs : c t with ⟨o2, t2⟩
    rw [hcs] at e2
    cases o2 <;> exact e2.trans e1
  | abort r =>
    cases r with
    | panic msg e =>
      dsimp only
      rcases hcs : c t with ⟨o2, t2⟩
      rw [hcs] at e2
      cases o2 <;> exact e2.trans e1
    | blocked => exact e1
    | fatal msg => exact e1
    | outOfFuel => exact e1

theorem Keeps.tagged {α γ : Type} {f : FileSystem → γ} {b : M α} (e : GoError)
    (hb : Keeps f b) : Keeps f (whileErr e b) := by
  intro s
  unfold Fs.whileErr
  have e1 := hb s
  rcases hm : b s with ⟨o, t⟩
  rw [hm] at e1
  cases o with
  | ok a => exact e1
  | abort r => cases r <;> exact e1

theorem Keeps.inodes_panic {α : Type} (msg : String) :
    Keeps (fun s => s.inodes) (goPanic msg : M α) :=
  fun _ => rfl

theorem Keeps.inodes_emit (e : Ev) : Keeps (fun s => s.inodes) (emit e) :=
  fun _ => rfl

theorem Keeps.inodes_deref (p : Ptr) : Keeps (fun s => s.inodes) (deref p) := by
  intro s
  unfold Fs.deref
  cases s.heap[p]? <;> rfl

theorem Keeps.inodes_modifyObj (p : Ptr) (g : Inode → Inode) :
    Keeps (fun s => s.inodes) (modifyObj p g) := by
  intro s
  unfold Fs.modifyObj
  cases s.heap[p]? <;> rfl

theorem Keeps.inodes_getInodeOrDie (id : InodeID) :
    Keeps (fun s => s.inodes) (getInodeOrDie id) := by
  intro s
  unfold Fs.getInodeOrDie
  cases GoMap.get s.inodes id <;> rfl

theorem Keeps.inodes_muRLock : Keeps (fun s => s.inodes) muRLock := by
  intro s
  unfold Fs.muRLock
  split <;> rfl

theorem Keeps.inodes_muRUnlock : Keeps (fun s => s.inodes) muRUnlock := by
  intro s
  unfold Fs.muRUnlock
  split <;> rfl

theorem Keeps.inodes_lockInode (p : Ptr) : Keeps (fun s => s.inodes) (lockInode p) := by
  intro s
  unfold Fs.lockInode
  cases s.heap[p]? with
  | none => rfl
  | some o =>
    dsimp only
    cases o.mu <;> rfl

theorem Keeps.inodes_unlockInode (p : Ptr) : Keeps (fun s => s.inodes) (unlockInode p) := by
  intro s
  unfold Fs.unlockInode
  cases s.heap[p]? with
  | none => rfl
  | some o =>
    dsimp only
    cases o.mu <;> rfl

theorem Keeps.inodes_findChildUnlocked (p : Ptr) (nm : String) :
    Keeps (fun s => s.inodes) (findChildUnlocked p nm) := by
  unfold Fs.findChildUnlocked
  apply Keeps.andThen (Keeps.inodes_deref p)
  intro par
  cases par.dir with
  | none => exact Keeps.inodes_panic _
  | some d => exact Keeps.unit _ _

theorem Keeps.inodes_removeChildUnlocked (p q : Ptr) :
    Keeps (fun s => s.inodes) (removeChildUnlocked p q) := by
  unfold Fs.removeChildUnlocked
  apply Keeps.andThen (Keeps.inodes_deref p)
  intro par
  cases par.dir with
  | none => exact Keeps.inodes_panic _
  | some d =>
    exact Keeps.andThen (Keeps.inodes_deref q) (fun _ => Keeps.inodes_modifyObj _ _)

theorem Keeps.inodes_insertChildUnlocked (p q : Ptr) :
    Keeps (fun s => s.inodes) (insertChildUnlocked p q) := by
  unfold Fs.insertChildUnlocked
  apply Keeps.andThen (Keeps.inodes_deref p)
  intro par
  cases par.dir with
  | none => exact Keeps.inodes_panic _
  | some d =>
    exact Keeps.andThen (Keeps.inodes_deref q) (fun _ => Keeps.inodes_modifyObj _ _)

theorem Keeps.inodes_renameMove (op : RenameOp) (a b i : Ptr) :
    Keeps (fun s => s.inodes) (renameMove op a b i) := by
  unfold Fs.renameMove
  apply Keeps.andThen (Keeps.inodes_removeChildUnlocked a i)
  intro _
  apply Keeps.andThen (Keeps.inodes_findChildUnlocked b op.NewName)
  intro newNode
  apply Keeps.andThen
  · cases newNode with
    | none => exact Keeps.unit _ _
    | some n =>
      exact Keeps.andThen (Keeps.inodes_removeChildUnlocked b n)
        (fun _ => Keeps.inodes_modifyObj _ _)
  intro _
  apply Keeps.andThen (Keeps.inodes_modifyObj _ _)
  intro _
  apply Keeps.andThen (Keeps.inodes_modifyObj _ _)
  intro _
  exact Keeps.inodes_insertChildUnlocked b i

theorem Keeps.inodes_renameSettle (op : RenameOp) (err0 : GoError) (a b : Ptr) :
    Keeps (fun s => s.inodes) (renameSettle op err0 a b) := by
  unfold Fs.renameSettle
  apply Keeps.andThen
  · split
    · apply Keeps.tagged
      apply Keeps.andThen (Keeps.inodes_findChildUnlocked a op.OldName)
      intro inode
      cases inode with
      | none => exact Keeps.unit _ _
      | some j =>
        dsimp only
        apply Keeps.andThen (Keeps.inodes_deref j)
        intro ino
        split
        · exact Keeps.unit _ _
        · exact Keeps.unit _ _
    · exact Keeps.unit _ _
  intro err
  split
  · apply Keeps.andThen (Keeps.inodes_findChildUnlocked a op.OldName)
    intro inode
    apply Keeps.andThen
    · cases inode with
      | none => exact Keeps.unit _ _
      | some j =>
        exact Keeps.andThen (Keeps.inodes_lockInode j)
          (fun _ => Keeps.deferred (Keeps.inodes_unlockInode j)
            (Keeps.inodes_renameMove op a b j))
    intro _
    exact Keeps.unit _ _
  · exact Keeps.unit _ _

theorem Keeps.inodes_renameLocked (op : RenameOp) (resp : GoError) (a b : Ptr) :
    Keeps (fun s => s.inodes) (renameLocked op resp a b) := by
  unfold Fs.renameLocked Fs.parentRename
  apply Keeps.andThen
  · exact Keeps.andThen (Keeps.inodes_emit _) (fun _ => Keeps.unit _ _)
  intro err0
  exact Keeps.inodes_renameSettle op err0 a b

/-- `Rename` never adds to nor deletes from `fs.inodes`, however it ends. -/
theorem Keeps.inodes_Rename (op : RenameOp) (resp : GoError) :
    Keeps (fun s => s.inodes) (Fs.Rename op resp) := by
  unfold Fs.Rename
  apply Keeps.andThen Keeps.inodes_muRLock
  intro _
  apply Keeps.andThen (Keeps.inodes_getInodeOrDie _)
  intro parent
  apply Keeps.andThen (Keeps.inodes_getInodeOrDie _)
  intro newParent
  apply Keeps.andThen Keeps.inodes_muRUnlock
  intro _
  split
  · exact Keeps.andThen (Keeps.inodes_lockInode parent)
      (fun _ => Keeps.deferred (Keeps.inodes_unlockInode parent)
        (Keeps.inodes_renameLocked op resp parent newParent))
  · have hrest := Keeps.deferred (Keeps.inodes_unlockInode parent)
      (Keeps.deferred (Keeps.inodes_unlockInode newParent)
        (Keeps.inodes_renameLocked op resp parent newParent))
    dsimp only
    split
    · exact Keeps.andThen (Keeps.inodes_lockInode parent)
        (fun _ => Keeps.andThen (Keeps.inodes_lockInode newParent) (fun _ => hrest))
    · exact Keeps.andThen (Keeps.inodes_lockInode newParent)
        (fun _ => Keeps.andThen (Keeps.inodes_lockInode parent) (fun _ => hrest))

end Fs

namespace Fs

/-- An update of one object that keeps its id keeps `FrameAt`. -/
theorem FrameAt.setOther {m0 : RWMutex} {i : Ptr} {id : InodeID} {t : FileSystem}
    (h : FrameAt m0 i id t) (x : Ptr) (o o1 : Inode) (hx : t.heap[x]? = some o)
    (hid : o1.Id = o.Id) (tr : List Ev) :
    FrameAt m0 i id { t with heap := t.heap.set x o1, trace := tr } := by
  obtain ⟨hmu, ci, hci, hcid⟩ := h
  have hlt : x < t.heap.length := (List.getElem?_eq_some.mp hx).1
  refine ⟨hmu, ?_⟩
  by_cases hxi : x = i
  · subst hxi
    have e : ci = o := Option.some.inj (hci.symm.trans hx)
    subst e
    exact ⟨o1, by simp [List.getElem?_set, hlt], hid.trans hcid⟩
  · exact ⟨ci, by simp [List.getElem?_set, hxi, hci], hcid⟩

theorem FrameAt.lockFree (m0 : RWMutex) (i : Ptr) (id : InodeID) :
    KeptByMutex (FrameAt m0 i id) :=
  fun x _ o m tr h hx => FrameAt.setOther h x o { o with mu := m } hx rfl tr

/-- The local move of `Rename` changes neither the table lock nor the id of the
moved inode. -/
theorem renameMove_frame (op : RenameOp) (a b i : Ptr) (m0 : RWMutex) (id : InodeID) :
    Triple (FrameAt m0 i id) (renameMove op a b i) (fun _ t => FrameAt m0 i id t)
      (fun _ _ => True) := by
  unfold renameMove
  apply Triple.bind (Q := fun _ t => FrameAt m0 i id t)
  · apply Triple.partRemove a i
    intro t o d oy ht ho _ _
    exact FrameAt.setOther ht a o
      { o with dir := some { d with Children := GoMap.delete d.Children oy.Name } } ho rfl
      t.trace
  intro _
  apply Triple.bind (Q := fun _ t => FrameAt m0 i id t)
  · exact Triple.weaken (Triple.partFind b op.NewName) (fun _ h => h) (fun _ _ h => h.1)
      (fun _ _ h => h)
  intro newNode
  apply Triple.bind (Q := fun _ t => FrameAt m0 i id t)
  · cases newNode with
    | none => exact Triple.pure () (fun _ h => h)
    | some n =>
      dsimp only
      apply Triple.bind (Q := fun _ t => FrameAt m0 i id t)
      · apply Triple.partRemove b n
        intro t o d oy ht ho _ _
        exact FrameAt.setOther ht b o
          { o with dir := some { d with Children := GoMap.delete d.Children oy.Name } } ho rfl
          t.trace
      intro _
      apply Triple.partModify n (fun o => { o with Parent := none })
      intro t o ht ho
      exact FrameAt.setOther ht n o { o with Parent := none } ho rfl t.trace
  intro _
  apply Triple.bind (Q := fun _ t => FrameAt m0 i id t)
  · apply Triple.partModify i (fun o => { o with Name := op.NewName })
    intro t o ht ho
    exact FrameAt.setOther ht i o { o with Name := op.NewName } ho rfl t.trace
  intro _
  apply Triple.bind (Q := fun _ t => FrameAt m0 i id t)
  · apply Triple.partModify i (fun o => { o with Parent := some b })
    intro t o ht ho
    exact FrameAt.setOther ht i o { o with Parent := some b } ho rfl t.trace
  intro _
  apply Triple.partInsert b i
  intro t o d oy ht ho _ _
  exact FrameAt.setOther ht b o
    { o with dir := some { d with Children := GoMap.set d.Children oy.Name i } } ho rfl t.trace

/-- When the statements of `Rename` after the backend call return no error, the
table lock and the id of the moved inode are as before. -/
theorem renameSettle_frame (op : RenameOp) (err0 : GoError) (a b i : Ptr) (m0 : RWMutex)
    (id : InodeID) :
    Triple (fun t => (∃ o d, t.heap[a]? = some o ∧ o.dir = some d ∧
          GoMap.get d.Children op.OldName = some i) ∧ FrameAt m0 i id t)
      (renameSettle op err0 a b)
      (fun r t => r = none → FrameAt m0 i id t) (fun _ _ => True) := by
  refine renameSettle_part op err0 a b i _ (FrameAt m0 i id) _ (fun _ h => h.1) ?_
    (renameMove_frame op a b i m0 id) (FrameAt.lockFree m0 i id)
  intro t o ht ho
  exact FrameAt.setOther ht.2 i o { o with mu := true } ho rfl _

/-- The state in which `Rename` calls the backend: the table lock is as it was
before the call. -/
theorem Rename_locked_mu (s : FileSystem) (op : RenameOp) (resp : GoError) (a b : Ptr)
    (oa ob : Inode) (hw : s.mu.writer = false)
    (hA : GoMap.get s.inodes op.OldParent = some a)
    (hB : GoMap.get s.inodes op.NewParent = some b)
    (hoa : s.heap[a]? = some oa) (hob : s.heap[b]? = some ob)
    (hmua : oa.mu = false) (hmub : ob.mu = false)
    (hida : oa.Id = op.OldParent) (hidb : ob.Id = op.NewParent) :
    ∃ t, Rename op resp s =
        (if op.OldParent = op.NewParent then
          withDefer (unlockInode a) (renameLocked op resp a b)
        else withDefer (unlockInode a) (withDefer (unlockInode b) (renameLocked op resp a b)))
          t ∧
      t.heap = (s.heap.set a { oa with mu := true }).set b { ob with mu := true } ∧
      t.mu = s.mu := by
  have halt : a < s.heap.length := (List.getElem?_eq_some.mp hoa).1
  have hblt : b < s.heap.length := (List.getElem?_eq_some.mp hob).1
  have hoa1 : s.heap[a] = oa := (List.getElem?_eq_some.mp hoa).2
  have hob1 : s.heap[b] = ob := (List.getElem?_eq_some.mp hob).2
  have hmu : ({ readers := s.mu.readers + 1 - 1, writer := s.mu.writer } : RWMutex) = s.mu := by
    cases hm : s.mu
    simp
  by_cases hsame : op.OldParent = op.NewParent
  · have hab : a = b := Option.some.inj (hA.symm.trans (hsame ▸ hB))
    subst hab
    have e : ob = oa := Option.some.inj (hob.symm.trans hoa)
    subst e
    rw [if_pos hsame]
    apply Exists.intro
    constructor
    · simp [Rename, bind_apply, pure_apply, muRLock, muRUnlock, getInodeOrDie, lockInode, hw,
        hA, hB, hoa, hmua, hsame, List.getElem?_set, halt, hoa1]
      rfl
    · refine ⟨by simp, ?_⟩
      simpa [hw] using hmu
  · have hab : a ≠ b := by
      intro h
      subst h
      have e : ob = oa := Option.some.inj (hob.symm.trans hoa)
      exact hsame (by rw [← hida, ← hidb, e])
    rw [if_neg hsame]
    by_cases hlt : op.OldParent < op.NewParent
    · apply Exists.intro
      constructor
      · simp [Rename, bind_apply, pure_apply, muRLock, muRUnlock, getInodeOrDie, lockInode, hw,
          hA, hB, hoa, hob, hmua, hmub, hsame, hlt, List.getElem?_set, hab, Ne.symm hab, halt,
          hblt, hoa1, hob1]
        rfl
      · refine ⟨rfl, ?_⟩
        simpa [hw] using hmu
    · apply Exists.intro
      constructor
      · simp [Rename, bind_apply, pure_apply, muRLock, muRUnlock, getInodeOrDie, lockInode, hw,
          hA, hB, hoa, hob, hmua, hmub, hsame, hlt, List.getElem?_set, hab, Ne.symm hab, halt,
          hblt, hoa1, hob1]
        rfl
      · refine ⟨List.set_comm _ _ _ (Ne.symm hab), ?_⟩
        simpa [hw] using hmu

end Fs

namespace Fs

/-- A successful `Rename` of the inode that the old parent lists under the old
name: the backend rename succeeded, or it reported `ENOENT` for an inode with an
open file handle. The call returns no error; the local move is done; the table,
the table lock and the id of the moved inode are as before; when the inode
carried the old name, the old parent no longer lists it (unless the move put it
back in the same directory under the same name), and an inode that the new
parent listed under the new name is detached. -/
theorem Rename_moves (s : FileSystem) (op : RenameOp) (resp : GoError) (a b i : Ptr)
    (oa ob c : Inode) (da : DirInodeData)
    (hw : s.mu.writer = false)
    (hA : GoMap.get s.inodes op.OldParent = some a)
    (hB : GoMap.get s.inodes op.NewParent = some b)
    (hoa : s.heap[a]? = some oa) (hob : s.heap[b]? = some ob)
    (hmua : oa.mu = false) (hmub : ob.mu = false)
    (hida : oa.Id = op.OldParent) (hidb : ob.Id = op.NewParent)
    (hda : oa.dir = some da) (hbdir : ob.isDir = true)
    (hvalid : ∀ d nm n, ob.dir = some d → GoMap.get d.Children nm = some n →
      ∃ tgt, s.heap[n]? = some tgt)
    (hget : GoMap.get da.Children op.OldName = some i)
    (hc : s.heap[i]? = some c) (hcmu : c.mu = false)
    (hia : i ≠ a) (hib : i ≠ b)
    (hsucc : resp = none ∨ (resp = some Errno.ENOENT ∧ c.fileHandles ≠ 0)) :
    ∃ t, Rename op resp s = (Outcome.ok none, t) ∧
      RenameDone a b i op.NewName false false false t ∧
      t.inodes = s.inodes ∧ FrameAt s.mu i c.Id t ∧
      (c.Name = op.OldName → (a ≠ b ∨ op.OldName ≠ op.NewName) →
        NotListed a op.OldName t ∧
        ∀ n db, ob.dir = some db → GoMap.get db.Children op.NewName = some n → n ≠ i →
          Detached n t) := by
  have halt : a < s.heap.length := (List.getElem?_eq_some.mp hoa).1
  have hblt : b < s.heap.length := (List.getElem?_eq_some.mp hob).1
  have hadir : oa.isDir = true := (isDir_iff oa).mpr ⟨da, hda⟩
  have hs2 : resp = none ∨ resp = some Errno.ENOENT := hsucc.imp id (fun h => h.1)
  obtain ⟨t0, hpre, hheap, hmu0⟩ :=
    Rename_locked_mu s op resp a b oa ob hw hA hB hoa hob hmua hmub hida hidb
  have hkeep := Keeps.inodes_Rename op resp s
  by_cases hsame : op.OldParent = op.NewParent
  · have hab : a = b := Option.some.inj (hA.symm.trans (hsame ▸ hB))
    subst hab
    have e : ob = oa := Option.some.inj (hob.symm.trans hoa)
    subst e
    rw [if_pos hsame] at hpre
    have ha0 : t0.heap[a]? = some { ob with mu := true } := by
      rw [hheap]
      simp [List.getElem?_set, halt]
    have hi0 : t0.heap[i]? = some c := by
      rw [hheap]
      simp [List.getElem?_set, Ne.symm hia, hc]
    have hv0 : ∀ d nm n, ob.dir = some d → GoMap.get d.Children nm = some n →
        ∃ tgt, t0.heap[n]? = some tgt := by
      intro d nm n hd hn
      rw [hheap]
      exact valid_set a _ (valid_set a _ (hvalid d nm n hd hn))
    obtain ⟨r, t, hrun, hr, hdone⟩ :=
      (Triple.unlockOne a i op.NewName hia (renameSettle_moves op resp a a i hia hia hs2)).run
      { t0 with trace := t0.trace ++ [Ev.backendRename a op.OldName a op.NewName] }
      ⟨⟨⟨_, ha0, rfl, hadir⟩, ⟨_, ha0, rfl, hadir, hv0⟩, ⟨c, hi0, hcmu⟩⟩,
        ⟨_, da, ha0, hda, hget⟩,
        fun hr => ⟨c, hi0, (hsucc.elim (fun h => absurd (h.symm.trans hr) (by simp))
          (fun h => h.2))⟩⟩
    subst hr
    have hR : Rename op resp s = (Outcome.ok none, t) := by
      rw [hpre, withDefer_congr _ _ _ _ _ (renameLocked_eq op _ a a t0), hrun]
    rw [hR] at hkeep
    refine ⟨t, hR, hdone, hkeep, ?_, ?_⟩
    · have h2 := Triple.partUnlockKept a (FrameAt.lockFree s.mu i c.Id)
        (renameSettle_frame op resp a a i s.mu c.Id)
        { t0 with trace := t0.trace ++ [Ev.backendRename a op.OldName a op.NewName] }
        ⟨⟨_, da, ha0, hda, hget⟩, hmu0, c, hi0, rfl⟩
      rw [hrun] at h2
      exact h2 rfl
    · intro hname hne
      constructor
      · have h2 := Triple.partUnlockKept a (NotListed.keptByMutex a op.OldName)
          (renameSettle_unlists op resp a a i hne)
          { t0 with trace := t0.trace ++ [Ev.backendRename a op.OldName a op.NewName] }
          ⟨⟨_, da, ha0, hda, hget⟩, c, hi0, hname⟩
        rw [hrun] at h2
        exact h2 rfl
      · intro n db hdb hn hni
        have h2 := Triple.partUnlockKept a (Detached.mutexFree n)
          (renameSettle_detaches op resp a a i n hia hni hne)
          { t0 with trace := t0.trace ++ [Ev.backendRename a op.OldName a op.NewName] }
          ⟨⟨⟨_, da, ha0, hda, hget⟩, c, hi0, hname⟩, _, db, ha0, hdb, hn⟩
        rw [hrun] at h2
        exact h2 rfl
  · have hab : a ≠ b := by
      intro h
      subst h
      have e : ob = oa := Option.some.inj (hob.symm.trans hoa)
      exact hsame (by rw [← hida, ← hidb, e])
    rw [if_neg hsame] at hpre
    have ha0 : t0.heap[a]? = some { oa with mu := true } := by
      rw [hheap]
      simp [List.getElem?_set, halt, hab, Ne.symm hab]
    have hb0 : t0.heap[b]? = some { ob with mu := true } := by
      rw [hheap]
      simp [List.getElem?_set, hblt]
    have hi0 : t0.heap[i]? = some c := by
      rw [hheap]
      simp [List.getElem?_set, Ne.symm hia, Ne.symm hib, hc]
    have hv0 : ∀ d nm n, ob.dir = some d → GoMap.get d.Children nm = some n →
        ∃ tgt, t0.heap[n]? = some tgt := by
      intro d nm n hd hn
      rw [hheap]
      exact valid_set b _ (valid_set a _ (hvalid d nm n hd hn))
    obtain ⟨r, t, hrun, hr, hdone⟩ :=
      (Triple.unlockBoth a b i op.NewName hia hib hab
        (renameSettle_moves op resp a b i hia hib hs2)).run
      { t0 with trace := t0.trace ++ [Ev.backendRename a op.OldName b op.NewName] }
      ⟨⟨⟨_, ha0, rfl, hadir⟩, ⟨_, hb0, rfl, hbdir, hv0⟩, ⟨c, hi0, hcmu⟩⟩,
        ⟨_, da, ha0, hda, hget⟩,
        fun hr => ⟨c, hi0, (hsucc.elim (fun h => absurd (h.symm.trans hr) (by simp))
          (fun h => h.2))⟩⟩
    subst hr
    have hR : Rename op resp s = (Outcome.ok none, t) := by
      rw [hpre, withDefer_congr _ _ _ _ _
        (withDefer_congr _ _ _ _ _ (renameLocked_eq op _ a b t0)), hrun]
    rw [hR] at hkeep
    refine ⟨t, hR, hdone, hkeep, ?_, ?_⟩
    · have h2 := Triple.partUnlockKept a (FrameAt.lockFree s.mu i c.Id)
        (Triple.partUnlockKept b (FrameAt.lockFree s.mu i c.Id)
          (renameSettle_frame op resp a b i s.mu c.Id))
        { t0 with trace := t0.trace ++ [Ev.backendRename a op.OldName b op.NewName] }
        ⟨⟨_, da, ha0, hda, hget⟩, hmu0, c, hi0, rfl⟩
      rw [hrun] at h2
      exact h2 rfl
    · intro hname hne
      constructor
      · have h2 := Triple.partUnlockKept a (NotListed.keptByMutex a op.OldName)
          (Triple.partUnlockKept b (NotListed.keptByMutex a op.OldName)
            (renameSettle_unlists op resp a b i hne))
          { t0 with trace := t0.trace ++ [Ev.backendRename a op.OldName b op.NewName] }
          ⟨⟨_, da, ha0, hda, hget⟩, c, hi0, hname⟩
        rw [hrun] at h2
        exact h2 rfl
      · intro n db hdb hn hni
        have h2 := Triple.partUnlockKept a (Detached.mutexFree n)
          (Triple.partUnlockKept b (Detached.mutexFree n)
            (renameSettle_detaches op resp a b i n hib hni hne))
          { t0 with trace := t0.trace ++ [Ev.backendRename a op.OldName b op.NewName] }
          ⟨⟨⟨_, da, ha0, hda, hget⟩, c, hi0, hname⟩, _, db, hb0, hdb, hn⟩
        rw [hrun] at h2
        exact h2 rfl

end Fs

namespace Fs

/-- C11: let `Rename` succeed (the backend rename succeeded, or it reported
`ENOENT` for an inode with an open file handle) on registered, unlocked parents,
where the old parent's child index holds, under `OldName`, an unlocked inode
that carries this name. Afterwards that same inode, with the id it had, is the
child of `NewParent` under `NewName`; its `Name` is `NewName` and its `Parent`
is `NewParent`, so the child index and the back-reference agree; and the old
parent's index has no entry under `OldName`, unless old and new parent and name
coincide. -/
theorem C11_rename_moves_inode (s : FileSystem) (op : RenameOp) (resp : GoError)
    (a b i : Ptr) (oa ob c : Inode) (da : DirInodeData)
    (hw : s.mu.writer = false)
    (hA : GoMap.get s.inodes op.OldParent = some a)
    (hB : GoMap.get s.inodes op.NewParent = some b)
    (hoa : s.heap[a]? = some oa) (hob : s.heap[b]? = some ob)
    (hmua : oa.mu = false) (hmub : ob.mu = false)
    (hida : oa.Id = op.OldParent) (hidb : ob.Id = op.NewParent)
    (hda : oa.dir = some da) (hbdir : ob.isDir = true)
    (hvalid : ∀ d nm n, ob.dir = some d → GoMap.get d.Children nm = some n →
      ∃ tgt, s.heap[n]? = some tgt)
    (hget : GoMap.get da.Children op.OldName = some i)
    (hc : s.heap[i]? = some c) (hcmu : c.mu = false) (hname : c.Name = op.OldName)
    (hia : i ≠ a) (hib : i ≠ b)
    (hsucc : resp = none ∨ (resp = some Errno.ENOENT ∧ c.fileHandles ≠ 0)) :
    ∃ t ci nb dn, Rename op resp s = (Outcome.ok none, t) ∧
      t.heap[i]? = some ci ∧ ci.Id = c.Id ∧ ci.Name = op.NewName ∧ ci.Parent = some b ∧
      t.heap[b]? = some nb ∧ nb.dir = some dn ∧ GoMap.get dn.Children ci.Name = some i ∧
      ((a ≠ b ∨ op.OldName ≠ op.NewName) → NotListed a op.OldName t) := by
  obtain ⟨t, hR, ⟨_, ⟨nb, dn, hnb, _, hbd, hbget⟩, ⟨ci, hci, _, hcn, hcp⟩⟩, _,
      ⟨_, ci1, hci1, hid⟩, hrest⟩ :=
    Rename_moves s op resp a b i oa ob c da hw hA hB hoa hob hmua hmub hida hidb hda hbdir
      hvalid hget hc hcmu hia hib hsucc
  have e : ci1 = ci := Option.some.inj (hci1.symm.trans hci)
  subst e
  exact ⟨t, ci1, nb, dn, hR, hci, hid, hcn, hcp, hnb, hbd, hcn ▸ hbget,
    fun hne => (hrest hname hne).1⟩

/-- The instance of C11 at the example file system: the file `a` (id 2) is
moved from the root into the directory `d` under the name `b`, the backend
rename having succeeded. -/
theorem C11_witness :
    ∃ t ci nb dn, Rename { OldParent := 1, OldName := "a", NewParent := 3, NewName := "b" }
        none (exampleFs 100 false 0) = (Outcome.ok none, t) ∧
      t.heap[1]? = some ci ∧ ci.Id = 2 ∧ ci.Name = "b" ∧ ci.Parent = some 2 ∧
      t.heap[2]? = some nb ∧ nb.dir = some dn ∧ GoMap.get dn.Children ci.Name = some 1 ∧
      NotListed 0 "a" t :=
  let ⟨t, ci, nb, dn, h1, h2, h3, h4, h5, h6, h7, h8, h9⟩ :=
    C11_rename_moves_inode (exampleFs 100 false 0)
      { OldParent := 1, OldName := "a", NewParent := 3, NewName := "b" } none 0 2 1
      (exampleInode 1 "" none (some (exampleDir [("e", 3), ("d", 2), ("a", 1)])) 0 1)
      (exampleInode 3 "d" (some 0) (some (exampleDir [])) 0 1)
      (exampleInode 2 "a" (some 0) none 0 1)
      (exampleDir [("e", 3), ("d", 2), ("a", 1)])
      rfl (by decide) (by decide) rfl rfl rfl rfl rfl rfl rfl rfl
      (by
        intro d nm n hd hn
        have e : d = exampleDir [] := (Option.some.inj hd).symm
        subst e
        exact absurd hn (by simp [exampleDir, GoMap.get]))
      (by decide) rfl rfl rfl (by decide) (by decide) (Or.inl rfl)
  ⟨t, ci, nb, dn, h1, h2, h3, h4, h5, h6, h7, h8, h9 (Or.inl (by decide))⟩

/-- A `ForgetInode` of a registered inode without parent changes no child
index. -/
theorem ForgetInode_detached (t : FileSystem) (k : InodeID) (N : Nat) (n : Ptr) (tn : Inode)
    (hr : t.mu.readers = 0) (hw : t.mu.writer = false)
    (hk : GoMap.get t.inodes k = some n) (hn : t.heap[n]? = some tn)
    (hp : tn.Parent = none) :
    (ForgetInode { Inode := k, N := N } t).1 = Outcome.ok none ∧
    childIndexesUnchanged t (ForgetInode { Inode := k, N := N } t).2 := by
  obtain ⟨hres, hstale, hlive, _⟩ := ForgetInode_effect t { Inode := k, N := N } n tn hr hw hk hn
    (fun q hq => absurd (hp.symm.trans hq) (by simp))
  refine ⟨hres, ?_⟩
  intro x o hx
  cases hb : (tn.deRef N).2 with
  | true =>
    obtain ⟨o1, ho1, hd1⟩ := (hstale hb).2.2 x o hx
    refine ⟨o1, ho1, ?_⟩
    rw [hd1, if_neg]
    rw [hp]
    simp
  | false => exact (hlive hb).2.2 x o hx

/-- C12: let a successful `Rename` find, under `NewName` in `NewParent`, an
inode other than the moved one, registered in `fs.inodes` under the id `k`.
Afterwards that inode has no `Parent`, `NewParent` lists the moved inode under
`NewName` instead, `fs.inodes` is as before, so the entry of `k` stays (no
`Rename` adds to or deletes from `fs.inodes`); and a later `ForgetInode` of `k`,
for any count, returns no error and changes no directory's child index. -/
theorem C12_rename_overwrite_detaches (s : FileSystem) (op : RenameOp) (resp : GoError)
    (a b i n : Ptr) (k : InodeID) (oa ob c : Inode) (da db : DirInodeData)
    (hr : s.mu.readers = 0) (hw : s.mu.writer = false)
    (hA : GoMap.get s.inodes op.OldParent = some a)
    (hB : GoMap.get s.inodes op.NewParent = some b)
    (hoa : s.heap[a]? = some oa) (hob : s.heap[b]? = some ob)
    (hmua : oa.mu = false) (hmub : ob.mu = false)
    (hida : oa.Id = op.OldParent) (hidb : ob.Id = op.NewParent)
    (hda : oa.dir = some da) (hdb : ob.dir = some db)
    (hvalid : ∀ d nm n, ob.dir = some d → GoMap.get d.Children nm = some n →
      ∃ tgt, s.heap[n]? = some tgt)
    (hget : GoMap.get da.Children op.OldName = some i)
    (hc : s.heap[i]? = some c) (hcmu : c.mu = false) (hname : c.Name = op.OldName)
    (hia : i ≠ a) (hib : i ≠ b)
    (hsucc : resp = none ∨ (resp = some Errno.ENOENT ∧ c.fileHandles ≠ 0))
    (hne : a ≠ b ∨ op.OldName ≠ op.NewName)
    (hn : GoMap.get db.Children op.NewName = some n) (hni : n ≠ i)
    (hk : GoMap.get s.inodes k = some n) :
    (∃ t tn nb dn, Rename op resp s = (Outcome.ok none, t) ∧
      t.heap[n]? = some tn ∧ tn.Parent = none ∧
      t.heap[b]? = some nb ∧ nb.dir = some dn ∧ GoMap.get dn.Children op.NewName = some i ∧
      t.inodes = s.inodes ∧ GoMap.get t.inodes k = some n ∧
      ∀ N, (ForgetInode { Inode := k, N := N } t).1 = Outcome.ok none ∧
        childIndexesUnchanged t (ForgetInode { Inode := k, N := N } t).2) ∧
    (∀ (op1 : RenameOp) (resp1 : GoError) (s1 : FileSystem),
      (Rename op1 resp1 s1).2.inodes = s1.inodes) := by
  refine ⟨?_, fun op1 resp1 s1 => Keeps.inodes_Rename op1 resp1 s1⟩
  obtain ⟨t, hR, ⟨_, ⟨nb, dn, hnb, _, hbd, hbget⟩, _⟩, hino, ⟨hmu, _⟩, hrest⟩ :=
    Rename_moves s op resp a b i oa ob c da hw hA hB hoa hob hmua hmub hida hidb hda
      ((isDir_iff ob).mpr ⟨db, hdb⟩) hvalid hget hc hcmu hia hib hsucc
  obtain ⟨tn, htn, hpar⟩ := (hrest hname hne).2 n db hdb hn hni
  have hk1 : GoMap.get t.inodes k = some n := by rw [hino]; exact hk
  refine ⟨t, tn, nb, dn, hR, htn, hpar, hnb, hbd, hbget, hino, hk1, ?_⟩
  intro N
  exact ForgetInode_detached t k N n tn (by rw [hmu]; exact hr) (by rw [hmu]; exact hw) hk1 htn
    hpar

/-- The instance of C12 at the example file system: the file `a` is renamed to
`d` within the root, over the directory `d` (id 3). -/
theorem C12_witness :
    ∃ t tn, Rename { OldParent := 1, OldName := "a", NewParent := 1, NewName := "d" }
        none (exampleFs 100 false 0) = (Outcome.ok none, t) ∧
      t.heap[2]? = some tn ∧ tn.Parent = none ∧ GoMap.get t.inodes 3 = some 2 :=
  let ⟨t, tn, _, _, h1, h2, h3, _, _, _, _, h8, _⟩ :=
    (C12_rename_overwrite_detaches (exampleFs 100 false 0)
      { OldParent := 1, OldName := "a", NewParent := 1, NewName := "d" } none 0 0 1 2 3
      (exampleInode 1 "" none (some (exampleDir [("e", 3), ("d", 2), ("a", 1)])) 0 1)
      (exampleInode 1 "" none (some (exampleDir [("e", 3), ("d", 2), ("a", 1)])) 0 1)
      (exampleInode 2 "a" (some 0) none 0 1)
      (exampleDir [("e", 3), ("d", 2), ("a", 1)])
      (exampleDir [("e", 3), ("d", 2), ("a", 1)])
      rfl rfl (by decide) (by decide) rfl rfl rfl rfl rfl rfl rfl rfl
      (by
        intro d nm n hd hn
        have e : d = exampleDir [("e", 3), ("d", 2), ("a", 1)] := (Option.some.inj hd).symm
        subst e
        have hlt : n < 4 := by
          simp only [exampleDir, GoMap.get] at hn
          split at hn
          · cases hn
            decide
          · split at hn
            · cases hn
              decide
            · split at hn
              · cases hn
                decide
              · cases hn
        exact ⟨_, (List.getElem?_eq_getElem (l := (exampleFs 100 false 0).heap) hlt)⟩)
      (by decide) rfl rfl rfl (by decide) (by decide) (Or.inl rfl)
      (Or.inr (by decide)) (by decide) (by decide) (by decide)).1
  ⟨t, tn, h1, h2, h3, h8⟩

end Fs

namespace Fs

/-- The insertion of a `.` entry: it takes the id of its parent and is linked
into the parent's child index. -/
theorem insertInodeFuel_dot (k : Nat) (parent dot : Ptr) (t : FileSystem) (od par : Inode)
    (dp : DirInodeData) (hdot : t.heap[dot]? = some od) (hname : od.Name = ".")
    (hpar : t.heap[parent]? = some par) (hdp : par.dir = some dp) (hne : dot ≠ parent) :
    insertInodeFuel (k + 1) parent dot t = (Outcome.ok (),
      { t with heap := ((t.heap.set dot { od with Id := par.Id }).set parent
          { par with dir := some { dp with Children := GoMap.set dp.Children "." dot } }) }) := by
  have hdlt : dot < t.heap.length := (List.getElem?_eq_some.mp hdot).1
  have hplt : parent < t.heap.length := (List.getElem?_eq_some.mp hpar).1
  have hd1 : t.heap[dot] = od := (List.getElem?_eq_some.mp hdot).2
  have hp1 : t.heap[parent] = par := (List.getElem?_eq_some.mp hpar).2
  simp [insertInodeFuel, bind_apply, pure_apply, deref, modifyObj, insertChildUnlocked, hdot,
    hname, hpar, hdp, hne, Ne.symm hne, List.getElem?_set, hdlt, hplt, hd1, hp1]

/-- The insertion of a `..` entry under a directory that has a parent: it
takes the id of that parent. -/
theorem insertInodeFuel_dotdot (k : Nat) (parent dot pp : Ptr) (t : FileSystem)
    (od par grand : Inode) (dp : DirInodeData)
    (hdot : t.heap[dot]? = some od) (hname : od.Name = "..")
    (hpar : t.heap[parent]? = some par) (hdp : par.dir = some dp)
    (hpp : par.Parent = some pp) (hgrand : t.heap[pp]? = some grand)
    (hne : dot ≠ parent) (hne2 : dot ≠ pp) :
    insertInodeFuel (k + 1) parent dot t = (Outcome.ok (),
      { t with heap := ((t.heap.set dot { od with Id := grand.Id }).set parent
          { par with dir := some { dp with Children := GoMap.set dp.Children ".." dot } }) }) := by
  have hdlt : dot < t.heap.length := (List.getElem?_eq_some.mp hdot).1
  have hplt : parent < t.heap.length := (List.getElem?_eq_some.mp hpar).1
  have hd1 : t.heap[dot] = od := (List.getElem?_eq_some.mp hdot).2
  have hp1 : t.heap[parent] = par := (List.getElem?_eq_some.mp hpar).2
  have hglt : pp < t.heap.length := (List.getElem?_eq_some.mp hgrand).1
  have hg1 : t.heap[pp] = grand := (List.getElem?_eq_some.mp hgrand).2
  simp [insertInodeFuel, bind_apply, pure_apply, deref, modifyObj, insertChildUnlocked, hdot,
    hname, hpar, hdp, hpp, hgrand, hne, Ne.symm hne, hne2, Ne.symm hne2, List.getElem?_set,
    hdlt, hplt, hglt, hd1, hp1, hg1]

end Fs

namespace Fs

/-- A new directory object that never expires: `NewInode`, `ToDir` and the
assignment of `AttrTime` append one object to the heap. -/
theorem newDir_eq {α : Type} (parent : Ptr) (nm : String) (F : Ptr → M α) (t : FileSystem) :
    (NewInode (some parent) nm >>= fun d =>
      ToDir d >>= fun _ =>
      modifyObj d (fun o => { o with AttrTime := TIMEMAX }) >>= fun _ => F d) t =
    F t.heap.length { t with heap := t.heap ++ [dotEntry t.clock parent nm 0] } := by
  simp [NewInode, newObj, ToDir, modifyObj, bind_apply, newInodeObj, dotEntry]

theorem set_last {α : Type} (l : List α) (x y : α) : (l ++ [x]).set l.length y = l ++ [y] := by
  rw [List.set_append_right _ _ (Nat.le_refl _)]
  simp

/-- The `.` entry of the directory at `p`: one object is appended to the heap
and linked into the child index of the directory. -/
theorem addDot_eq {α : Type} (k : Nat) (p : Ptr) (u : FileSystem) (o : Inode)
    (d0 : DirInodeData) (R : M α) (hp : u.heap[p]? = some o) (hd : o.dir = some d0) :
    (NewInode (some p) "." >>= fun d =>
      ToDir d >>= fun _ =>
      modifyObj d (fun o => { o with AttrTime := TIMEMAX }) >>= fun _ =>
      insertInodeFuel (k + 1) p d >>= fun _ => R) u =
    R { u with heap := (u.heap.set p
          { o with dir := some { d0 with Children := GoMap.set d0.Children "." u.heap.length } }
        ++ [dotEntry u.clock p "." o.Id]) } := by
  have hplt : p < u.heap.length := (List.getElem?_eq_some.mp hp).1
  rw [newDir_eq, bind_apply, insertInodeFuel_dot k p u.heap.length _ (dotEntry u.clock p "." 0) o
    d0 (List.getElem?_concat_length _ _) rfl
    ((List.getElem?_append_left hplt).trans hp) hd (Nat.ne_of_gt hplt)]
  dsimp only
  rw [set_last, List.set_append_left _ _ hplt]
  rfl

/-- The `..` entry of the directory at `p`, whose parent is at `pp`: one object
is appended to the heap and linked into the child index of the directory. -/
theorem addDotDot_eq (k : Nat) (p pp : Ptr) (u : FileSystem) (o grand : Inode)
    (d0 : DirInodeData) (hp : u.heap[p]? = some o) (hd : o.dir = some d0)
    (hpp : o.Parent = some pp) (hgrand : u.heap[pp]? = some grand) :
    (NewInode (some p) ".." >>= fun d =>
      ToDir d >>= fun _ =>
      modifyObj d (fun o => { o with AttrTime := TIMEMAX }) >>= fun _ =>
      insertInodeFuel (k + 1) p d) u =
    (Outcome.ok (), { u with heap := (u.heap.set p
          { o with dir := some { d0 with Children := GoMap.set d0.Children ".." u.heap.length } }
        ++ [dotEntry u.clock p ".." grand.Id]) }) := by
  have hplt : p < u.heap.length := (List.getElem?_eq_some.mp hp).1
  have hglt : pp < u.heap.length := (List.getElem?_eq_some.mp hgrand).1
  rw [newDir_eq, insertInodeFuel_dotdot k p u.heap.length pp _ (dotEntry u.clock p ".." 0) o
    grand d0 (List.getElem?_concat_length _ _) rfl
    ((List.getElem?_append_left hplt).trans hp) hd hpp
    ((List.getElem?_append_left hglt).trans hgrand) (Nat.ne_of_gt hplt) (Nat.ne_of_gt hglt)]
  dsimp only
  rw [set_last, List.set_append_left _ _ hplt]
  rfl

/-- The two synthesized entries of a directory that has a parent: two objects
are appended to the heap and linked into the child index of the directory. -/
theorem addDotAndDotDotWith_eq (k : Nat) (p pp : Ptr) (t : FileSystem) (o grand : Inode)
    (d0 : DirInodeData) (hp : t.heap[p]? = some o) (hd : o.dir = some d0)
    (hpp : o.Parent = some pp) (hgrand : t.heap[pp]? = some grand) (hne : pp ≠ p) :
    addDotAndDotDotWith (insertInodeFuel (k + 1)) p t = (Outcome.ok (),
      { t with heap := (t.heap.set p
          { o with dir := some { d0 with Children := withDots d0.Children t.heap.length } }
        ++ [dotEntry t.clock p "." o.Id, dotEntry t.clock p ".." grand.Id]) }) := by
  have hplt : p < t.heap.length := (List.getElem?_eq_some.mp hp).1
  have hglt : pp < t.heap.length := (List.getElem?_eq_some.mp hgrand).1
  unfold addDotAndDotDotWith
  rw [addDot_eq k p t o d0 _ hp hd]
  rw [addDotDot_eq k p pp _
    { o with dir := some { d0 with Children := GoMap.set d0.Children "." t.heap.length } }
    grand { d0 with Children := GoMap.set d0.Children "." t.heap.length }
    (by simp [List.getElem?_append, hplt]) rfl hpp
    (by
      rw [List.getElem?_append_left (by simpa using hglt), List.getElem?_set_ne (Ne.symm hne)]
      exact hgrand)]
  have hfin : ∀ (o1 o2 : Inode) (x y : Inode),
      (t.heap.set p o1 ++ [x]).set p o2 ++ [y] = t.heap.set p o2 ++ [x, y] := by
    intro o1 o2 x y
    rw [List.set_append_left _ _ (by simpa using hplt), List.set_set, List.append_assoc]
    rfl
  simp only [hfin, withDots, List.length_append, List.length_set, List.length_singleton]

end Fs

namespace Fs

set_option maxHeartbeats 1000000 in
/-- The insertion of a new directory object under a directory: the object gets
the next id, is linked into the parent's child index, registered in the table,
and receives its `.` and `..` entries. -/
theorem insertInodeFuel_dir (k : Nat) (parent d : Ptr) (t : FileSystem) (od par : Inode)
    (dd dp : DirInodeData)
    (hd : t.heap[d]? = some od) (hn1 : od.Name ≠ ".") (hn2 : od.Name ≠ "..")
    (hid : od.Id = 0) (hdd : od.dir = some dd) (hpd : od.Parent = some parent)
    (hpar : t.heap[parent]? = some par) (hdp : par.dir = some dp) (hne : d ≠ parent) :
    insertInodeFuel (k + 2) parent d t = (Outcome.ok (),
      { t with
        nextInodeID := (t.nextInodeID + 1) % U64
        inodes := GoMap.set t.inodes t.nextInodeID d
        trace := t.trace ++ [Ev.allocId t.nextInodeID]
        heap := (((t.heap.set d { od with Id := t.nextInodeID }).set parent
            { par with dir := some { dp with Children := GoMap.set dp.Children od.Name d } }).set d
            { od with Id := t.nextInodeID,
                      dir := some { dd with Children := withDots dd.Children t.heap.length } }
          ++ [dotEntry t.clock d "." t.nextInodeID, dotEntry t.clock d ".." par.Id]) }) := by
  have hdlt : d < t.heap.length := (List.getElem?_eq_some.mp hd).1
  have hplt : parent < t.heap.length := (List.getElem?_eq_some.mp hpar).1
  have hd1 : t.heap[d] = od := (List.getElem?_eq_some.mp hd).2
  have hp1 : t.heap[parent] = par := (List.getElem?_eq_some.mp hpar).2
  have hpre : insertInodeFuel (k + 1 + 1) parent d t =
      addDotAndDotDotWith (insertInodeFuel (k + 1)) d
        { t with
          nextInodeID := (t.nextInodeID + 1) % U64
          inodes := GoMap.set t.inodes t.nextInodeID d
          trace := t.trace ++ [Ev.allocId t.nextInodeID]
          heap := ((t.heap.set d { od with Id := t.nextInodeID }).set parent
            { par with dir := some { dp with Children := GoMap.set dp.Children od.Name d } }) } := by
    simp [insertInodeFuel, bind_apply, pure_apply, deref, modifyObj, insertChildUnlocked,
      allocateInodeId, hd, hn1, hn2, hid, hdd, hpar, hdp, hne, Ne.symm hne, List.getElem?_set,
      hdlt, hplt, hd1, hp1, Inode.isDir]
  rw [hpre, addDotAndDotDotWith_eq k d parent _ { od with Id := t.nextInodeID }
    { par with dir := some { dp with Children := GoMap.set dp.Children od.Name d } } dd
    (by simp [List.getElem?_set, Ne.symm hne, hdlt]) hdd hpd
    (by simp [List.getElem?_set, hplt]) (Ne.symm hne)]
  simp

end Fs

namespace Fs

theorem lockInode_eq (p : Ptr) (t : FileSystem) (o : Inode) (ho : t.heap[p]? = some o)
    (hmu : o.mu = false) :
    lockInode p t = (Outcome.ok (),
      { t with heap := t.heap.set p { o with mu := true }, trace := t.trace ++ [Ev.lock p] }) := by
  simp [lockInode, ho, hmu]

theorem unlockInode_eq (p : Ptr) (t : FileSystem) (o : Inode) (ho : t.heap[p]? = some o)
    (hmu : o.mu = true) :
    unlockInode p t = (Outcome.ok (),
      { t with heap := t.heap.set p { o with mu := false },
               trace := t.trace ++ [Ev.unlock p] }) := by
  simp [unlockInode, ho, hmu]

theorem muLock_eq (t : FileSystem) (hr : t.mu.readers = 0) (hw : t.mu.writer = false) :
    muLock t = (Outcome.ok (),
      { t with mu := { readers := 0, writer := true }, trace := t.trace ++ [Ev.muLock] }) := by
  simp [muLock, hr, hw]

theorem muUnlock_eq (t : FileSystem) (hw : t.mu.writer = true) :
    muUnlock t = (Outcome.ok (),
      { t with mu := { readers := t.mu.readers, writer := false },
               trace := t.trace ++ [Ev.muUnlock] }) := by
  simp [muUnlock, hw]

set_option maxHeartbeats 1000000 in
/-- A round of the loop of `mount` for a segment that is not under `mp`: the
directory is created and returned. -/
theorem mountStep_fresh (mp : Ptr) (seg : String) (t : FileSystem) (omp : Inode)
    (dmp : DirInodeData)
    (hr : t.mu.readers = 0) (hw : t.mu.writer = false)
    (hmp : t.heap[mp]? = some omp) (hmu : omp.mu = false) (hdmp : omp.dir = some dmp)
    (hnone : GoMap.get dmp.Children seg = none) (hn1 : seg ≠ ".") (hn2 : seg ≠ "..") :
    mountStep mp seg t = (Outcome.ok t.heap.length, afterMountStep t mp omp dmp seg none "") := by
  have hlt : mp < t.heap.length := (List.getElem?_eq_some.mp hmp).1
  have hmuEq : ({ readers := 0, writer := false } : RWMutex) = t.mu := by
    cases hm : t.mu
    simp_all
  unfold mountStep
  rw [bind_apply, lockInode_eq mp t omp hmp hmu]
  dsimp only
  rw [bind_apply, findChildUnlocked_eq _ mp seg { omp with mu := true } dmp
    (by simp [List.getElem?_set, hlt]) hdmp, hnone]
  dsimp only
  rw [bind_apply, bind_apply, muLock_eq] <;> [skip; exact hr; exact hw]
  dsimp only
  rw [newDir_eq]
  unfold insertInode
  rw [bind_apply, insertInodeFuel_dir 0 mp _ _ (dotEntry t.clock mp seg 0) { omp with mu := true }
    { cloud := none, mountPrefix := "", DirTime := zeroTime, Children := [] } dmp
    (by simp) hn1 hn2 rfl rfl rfl
    (by simp [List.getElem?_append, List.getElem?_set, hlt]) hdmp
    (by simp; exact Nat.ne_of_gt hlt)]
  dsimp only
  rw [bind_apply, muUnlock_eq _ rfl]
  dsimp only
  have hne : t.heap.length ≠ mp := Nat.ne_of_gt hlt
  have hne2 : mp ≠ t.heap.length := Nat.ne_of_lt hlt
  simp [bind_apply, pure_apply, newInodeObj, hmu, unlockInode, afterMountStep, newDirObj, dotEntry, List.getElem?_append, List.getElem?_set,
    hlt, hne, hne2, List.set_append_left, List.set_append_right, List.set_set, List.set_comm,
    hmuEq, hdmp]

end Fs

namespace Fs

/-- A new directory object bound to a backend that never expires: `NewInode`,
`ToDir` and the assignments of `mount` append one object to the heap. -/
theorem newMountDir_eq {α : Type} (parent : Ptr) (nm : String) (c : Backend) (pfx : String)
    (F : Ptr → M α) (t : FileSystem) :
    (NewInode (some parent) nm >>= fun d =>
      ToDir d >>= fun _ =>
      setDirCloud d c >>= fun _ =>
      setDirMountPrefix d pfx >>= fun _ =>
      modifyObj d (fun o => { o with AttrTime := TIMEMAX }) >>= fun _ => F d) t =
    F t.heap.length { t with heap := t.heap ++ [{ dotEntry t.clock parent nm 0 with
      dir := some { cloud := some c, mountPrefix := pfx, DirTime := zeroTime,
                    Children := [] } }] } := by
  simp [NewInode, newObj, ToDir, setDirCloud, setDirMountPrefix, deref, modifyObj, bind_apply,
    pure_apply, newInodeObj, dotEntry]

set_option maxHeartbeats 1000000 in
/-- The statements of `mount` after the loop, for a terminal segment that is
not under `mp`: the directory is created with the binding of the mount. -/
theorem mountTerminal_fresh (mp : Ptr) (seg : String) (b : Mount) (t : FileSystem) (omp : Inode)
    (dmp : DirInodeData)
    (hr : t.mu.readers = 0) (hw : t.mu.writer = false)
    (hmp : t.heap[mp]? = some omp) (hmu : omp.mu = false) (hdmp : omp.dir = some dmp)
    (hnone : GoMap.get dmp.Children seg = none) (hn1 : seg ≠ ".") (hn2 : seg ≠ "..") :
    mountTerminal mp seg b t = (Outcome.ok { b with mounted := true },
      afterMountStep t mp omp dmp seg (some b.cloud) b.keyPrefix) := by
  have hlt : mp < t.heap.length := (List.getElem?_eq_some.mp hmp).1
  have hmuEq : ({ readers := 0, writer := false } : RWMutex) = t.mu := by
    cases hm : t.mu
    simp_all
  have hne : t.heap.length ≠ mp := Nat.ne_of_gt hlt
  have hne2 : mp ≠ t.heap.length := Nat.ne_of_lt hlt
  unfold mountTerminal
  rw [bind_apply, lockInode_eq mp t omp hmp hmu]
  dsimp only
  unfold withDefer
  rw [bind_apply, findChildUnlocked_eq _ mp seg { omp with mu := true } dmp
    (by simp [List.getElem?_set, hlt]) hdmp, hnone]
  dsimp only
  rw [newMountDir_eq]
  rw [bind_apply, muLock_eq] <;> [skip; exact hr; exact hw]
  dsimp only
  unfold insertInode
  rw [bind_apply, insertInodeFuel_dir 0 mp _ _
    { dotEntry t.clock mp seg 0 with
      dir := some { cloud := some b.cloud, mountPrefix := b.keyPrefix, DirTime := zeroTime,
                    Children := [] } }
    { omp with mu := true }
    { cloud := some b.cloud, mountPrefix := b.keyPrefix, DirTime := zeroTime, Children := [] } dmp
    (by simp) hn1 hn2 rfl rfl rfl
    (by simp [List.getElem?_append, List.getElem?_set, hlt]) hdmp
    (by simp; exact Nat.ne_of_gt hlt)]
  dsimp only
  rw [muUnlock_eq _ rfl]
  dsimp only
  rw [unlockInode_eq mp _
    { omp with mu := true,
               dir := some { dmp with Children := GoMap.set dmp.Children seg t.heap.length } }
    (by simp [List.getElem?_append, List.getElem?_set, hlt, hne, hne2, dotEntry, newInodeObj])
    rfl]
  simp [newInodeObj, hmu, afterMountStep, newDirObj, dotEntry, List.getElem?_append,
    List.getElem?_set, hlt, hne, hne2, List.set_append_left, List.set_append_right,
    List.set_set, List.set_comm, hmuEq, hdmp]

end Fs

namespace Fs

theorem indexSlash_none (xs : List Char) (h : '/' ∉ xs) : indexSlash xs = none := by
  induction xs with
  | nil => rfl
  | cons c cs ih =>
    have hc : c ≠ '/' := fun e => h (by simp [e])
    have hcs : '/' ∉ cs := fun e => h (by simp [e])
    simp [indexSlash, hc, ih hcs]

theorem indexSlash_append (xs rest : List Char) (h : '/' ∉ xs) :
    indexSlash (xs ++ '/' :: rest) = some xs.length := by
  induction xs with
  | nil => simp [indexSlash]
  | cons c cs ih =>
    have hc : c ≠ '/' := fun e => h (by simp [e])
    have hcs : '/' ∉ cs := fun e => h (by simp [e])
    simp [indexSlash, hc, ih hcs]

/-- Without a slash in the name the loop of `mount` is not entered. -/
theorem mountFrom_nil (fuel : Nat) (mp : Ptr) (term : String) (b : Mount)
    (h : '/' ∉ term.toList) :
    mountFrom (fuel + 1) mp term.toList b = mountTerminal mp term b := by
  funext t
  have h0 : indexSlash term.data = none := indexSlash_none _ h
  simp [mountFrom, mountWalk, h0, bind_apply, pure_apply]

/-- A round of the loop of `mount` takes the first segment off the name. -/
theorem mountFrom_cons (fuel : Nat) (mp : Ptr) (x : String) (rest : List String) (term : String)
    (b : Mount) (h : '/' ∉ x.toList) :
    mountFrom (fuel + 1) mp (joinPath (x :: rest) term) b =
      (mountStep mp x >>= fun d => mountFrom fuel d (joinPath rest term) b) := by
  funext t
  have hj : joinPath (x :: rest) term = x.data ++ '/' :: joinPath rest term := rfl
  have h0 : indexSlash (x.data ++ '/' :: joinPath rest term) = some x.data.length :=
    indexSlash_append _ _ h
  have hdrop : List.drop (x.length + 1) (x.data ++ '/' :: joinPath rest term) =
      joinPath rest term := by
    have hl : x.length = x.data.length := rfl
    rw [hl, List.drop_append]
    rfl
  simp [mountFrom, mountWalk, hj, h0, bind_apply, hdrop]
  cases hstep : mountStep mp x t with
  | mk r u =>
    cases r <;> simp

theorem get_withDots_none (l : Ptr) (nm : String) (h1 : nm ≠ ".") (h2 : nm ≠ "..") :
    GoMap.get (withDots [] l) nm = none := by
  simp [withDots, GoMap.get_set, GoMap.get, h1, h2, Ne.symm h1, Ne.symm h2]

end Fs

namespace Fs

theorem childDirAt_eq (heap : List Inode) (mp p : Ptr) (x : String) (o oc : Inode)
    (d dc : DirInodeData) (h1 : heap[mp]? = some o) (h2 : o.dir = some d)
    (h3 : GoMap.get d.Children x = some p) (h4 : heap[p]? = some oc) (h5 : oc.dir = some dc) :
    childDirAt heap mp x = some (p, oc, dc) := by
  simp [childDirAt, h1, h2, h3, h4, h5]

theorem afterMountStep_old (t : FileSystem) (mp : Ptr) (omp : Inode) (dmp : DirInodeData)
    (seg : String) (c : Option Backend) (pfx : String) (q : Ptr) (hq : q < t.heap.length)
    (hne : q ≠ mp) : (afterMountStep t mp omp dmp seg c pfx).heap[q]? = t.heap[q]? := by
  simp [afterMountStep, List.getElem?_append, hq, List.getElem?_set, Ne.symm hne]

theorem afterMountStep_parent (t : FileSystem) (mp : Ptr) (omp : Inode) (dmp : DirInodeData)
    (seg : String) (c : Option Backend) (pfx : String) (hmp : mp < t.heap.length) :
    (afterMountStep t mp omp dmp seg c pfx).heap[mp]? = some
      { omp with dir := some { dmp with Children := GoMap.set dmp.Children seg t.heap.length } } := by
  simp [afterMountStep, List.getElem?_append, hmp, List.getElem?_set]

theorem afterMountStep_new (t : FileSystem) (mp : Ptr) (omp : Inode) (dmp : DirInodeData)
    (seg : String) (c : Option Backend) (pfx : String) :
    (afterMountStep t mp omp dmp seg c pfx).heap[t.heap.length]? = some
      (newDirObj t.clock mp seg t.nextInodeID c pfx (t.heap.length + 1)) := by
  unfold afterMountStep
  dsimp only
  rw [List.getElem?_append_right (by simp)]
  simp

theorem afterMountStep_allocated (t : FileSystem) (mp : Ptr) (omp : Inode) (dmp : DirInodeData)
    (seg : String) (c : Option Backend) (pfx : String) :
    allocated (afterMountStep t mp omp dmp seg c pfx).trace =
      allocated t.trace ++ [t.nextInodeID] := by
  simp [afterMountStep, allocated_append, allocated]

set_option maxHeartbeats 1000000 in
/-- The body of `mount` on a path that is not there: every segment is created
as a directory under the one before, the terminal one with the binding of the
mount, and one inode id is allocated for each. -/
theorem mountFrom_fresh (b : Mount) (term : String) (hterm : '/' ∉ term.toList)
    (ht1 : term ≠ ".") (ht2 : term ≠ "..") (segs : List String) :
    (∀ x ∈ segs, '/' ∉ x.toList ∧ x ≠ "." ∧ x ≠ "..") →
    ∀ (fuel : Nat) (mp : Ptr) (t : FileSystem) (omp : Inode) (dmp : DirInodeData) (l0 : Nat),
      segs.length < fuel → l0 ≤ t.heap.length → t.mu.readers = 0 → t.mu.writer = false →
      t.heap[mp]? = some omp → omp.mu = false → omp.dir = some dmp →
      GoMap.get dmp.Children (segs.headD term) = none →
      ∃ u, mountFrom fuel mp (joinPath segs term) b t = (Outcome.ok { b with mounted := true }, u) ∧
        u.mu = t.mu ∧ (∀ q, q < t.heap.length → q ≠ mp → u.heap[q]? = t.heap[q]?) ∧
        u.heap[mp]? = some { omp with dir := some { dmp with
          Children := GoMap.set dmp.Children (segs.headD term) t.heap.length } } ∧
        allocated u.trace = allocated t.trace ++ idsFrom t.nextInodeID (segs.length + 1) ∧
        mountedPath u.heap b l0 mp t.nextInodeID segs term = true := by
  induction segs with
  | nil =>
    intro _ fuel mp t omp dmp l0 hfuel hl0 hr hw hmp hmu hdmp hnone
    have hlt : mp < t.heap.length := (List.getElem?_eq_some.mp hmp).1
    obtain ⟨f, rfl⟩ : ∃ f, fuel = f + 1 := ⟨fuel - 1, by omega⟩
    have hj : joinPath [] term = term.toList := rfl
    rw [hj, mountFrom_nil f mp term b hterm,
      mountTerminal_fresh mp term b t omp dmp hr hw hmp hmu hdmp hnone ht1 ht2]
    refine ⟨_, rfl, rfl, ?_, ?_, ?_, ?_⟩
    · intro q hq hne
      exact afterMountStep_old t mp omp dmp term _ _ q hq hne
    · exact afterMountStep_parent t mp omp dmp term _ _ hlt
    · rw [afterMountStep_allocated]
      rfl
    · have hc := childDirAt_eq _ mp t.heap.length term _ _ _ _
        (afterMountStep_parent t mp omp dmp term (some b.cloud) b.keyPrefix hlt) rfl
        (by simp [GoMap.get_set]) (afterMountStep_new t mp omp dmp term _ _) rfl
      simp [mountedPath, hc, newDirObj, dotEntry, newInodeObj, hl0]
  | cons x rest ih =>
    intro hsegs fuel mp t omp dmp l0 hfuel hl0 hr hw hmp hmu hdmp hnone
    have hlt : mp < t.heap.length := (List.getElem?_eq_some.mp hmp).1
    obtain ⟨f, rfl⟩ : ∃ f, fuel = f + 1 := ⟨fuel - 1, by omega⟩
    obtain ⟨hx, hx1, hx2⟩ := hsegs x (by simp)
    have hrest : ∀ y ∈ rest, '/' ∉ y.toList ∧ y ≠ "." ∧ y ≠ ".." :=
      fun y hy => hsegs y (by simp [hy])
    have hhead : (rest.headD term) ≠ "." ∧ (rest.headD term) ≠ ".." := by
      cases rest with
      | nil => exact ⟨ht1, ht2⟩
      | cons y ys => exact (hsegs y (by simp)).2
    rw [mountFrom_cons f mp x rest term b hx, bind_apply,
      mountStep_fresh mp x t omp dmp hr hw hmp hmu hdmp hnone hx1 hx2]
    dsimp only
    obtain ⟨u, hu, humu, hframe, hpar, halloc, hpath⟩ := ih hrest f t.heap.length
      (afterMountStep t mp omp dmp x none "")
      (newDirObj t.clock mp x t.nextInodeID none "" (t.heap.length + 1))
      { cloud := none, mountPrefix := "", DirTime := zeroTime,
        Children := withDots [] (t.heap.length + 1) } l0
      (by simpa using hfuel) (by simp [afterMountStep]; omega) hr hw
      (afterMountStep_new t mp omp dmp x _ _) rfl rfl
      (get_withDots_none _ _ hhead.1 hhead.2)
    have hlen : (afterMountStep t mp omp dmp x none "").heap.length = t.heap.length + 3 := by
      simp [afterMountStep]
    have hmpu : u.heap[mp]? = some
        { omp with dir := some { dmp with Children := GoMap.set dmp.Children x t.heap.length } } := by
      rw [hframe mp (by rw [hlen]; exact Nat.lt_add_right 3 hlt) (Nat.ne_of_lt hlt)]
      exact afterMountStep_parent t mp omp dmp x _ _ hlt
    refine ⟨u, hu, humu, ?_, hmpu, ?_, ?_⟩
    · intro q hq hne
      rw [hframe q (by rw [hlen]; exact Nat.lt_add_right 3 hq) (Nat.ne_of_lt hq)]
      exact afterMountStep_old t mp omp dmp x _ _ q hq hne
    · rw [halloc, afterMountStep_allocated]
      simp [idsFrom, afterMountStep]
    · have hc := childDirAt_eq u.heap mp t.heap.length x _ _ _ _ hmpu rfl
        (by simp [GoMap.get_set]) hpar rfl
      have hpath1 : mountedPath u.heap b l0 t.heap.length ((t.nextInodeID + 1) % U64) rest term
          = true := hpath
      simp [mountedPath, hc, newDirObj, dotEntry, newInodeObj, hl0, hpath1]

end Fs

namespace Fs

theorem setDirTime_self (o : Inode) : ∃ tm, setDirTime o tm = o := by
  cases hd : o.dir with
  | none => exact ⟨zeroTime, by cases o; simp_all [setDirTime]⟩
  | some d => exact ⟨d.DirTime, by cases o; simp_all [setDirTime]⟩

theorem setDirTime_twice (o : Inode) (a c : Time) :
    setDirTime (setDirTime o a) c = setDirTime o c := by
  cases hd : o.dir <;> simp [setDirTime, hd]

/-- The recursive reset of the listing horizon changes nothing but the field
`DirTime` of directory objects. -/
theorem resetDirTimes_get (ps : List Ptr) : ∀ (heap : List Inode) (q : Ptr) (o : Inode),
    heap[q]? = some o → ∃ tm, (resetDirTimes heap ps)[q]? = some (setDirTime o tm) := by
  induction ps with
  | nil =>
    intro heap q o h
    obtain ⟨tm, htm⟩ := setDirTime_self o
    exact ⟨tm, by simpa [resetDirTimes, htm] using h⟩
  | cons x ps ih =>
    intro heap q o h
    have hstep : ∃ tm, (match heap[x]? with
        | some o1 => heap.set x (setDirTime o1 zeroTime)
        | none => heap)[q]? = some (setDirTime o tm) := by
      cases hx : heap[x]? with
      | none =>
        obtain ⟨tm, htm⟩ := setDirTime_self o
        exact ⟨tm, by simpa [htm] using h⟩
      | some o1 =>
        by_cases hq : x = q
        · subst hq
          have ho : o1 = o := by simpa [hx] using h
          subst ho
          have hlt : x < heap.length := (List.getElem?_eq_some.mp hx).1
          exact ⟨zeroTime, by simp [List.getElem?_set, hlt, setDirTime]⟩
        · obtain ⟨tm, htm⟩ := setDirTime_self o
          exact ⟨tm, by simp [List.getElem?_set_ne hq, h, htm]⟩
    obtain ⟨tm1, h1⟩ := hstep
    obtain ⟨tm, h2⟩ := ih _ q _ h1
    refine ⟨tm, ?_⟩
    rw [setDirTime_twice] at h2
    rw [← h2]
    rfl

end Fs

namespace Fs

/-- The binding of an existing directory to a mount, under its lock. -/
theorem bindExisting_eq {α : Type} (p : Ptr) (c : Backend) (pfx : String) (r : α)
    (s1 : FileSystem) (o1 : Inode) (d1 : DirInodeData)
    (hp : s1.heap[p]? = some o1) (hmu : o1.mu = false) (hd : o1.dir = some d1) :
    (lockInode p >>= fun _ =>
      withDefer (unlockInode p) (
        setDirCloud p c >>= fun _ =>
        setDirMountPrefix p pfx >>= fun _ =>
        modifyObj p (fun o => { o with AttrTime := TIMEMAX }) >>= fun _ =>
        pure r)) s1 =
    (Outcome.ok r, { s1 with
      heap := s1.heap.set p { o1 with
        AttrTime := TIMEMAX
        dir := some { d1 with cloud := some c, mountPrefix := pfx } }
      trace := s1.trace ++ [Ev.lock p, Ev.unlock p] }) := by
  have hlt : p < s1.heap.length := (List.getElem?_eq_some.mp hp).1
  simp [bind_apply, pure_apply, withDefer, lockInode, unlockInode, setDirCloud,
    setDirMountPrefix, modifyObj, Fs.deref, hp, hmu, hd, List.getElem?_set, hlt]

theorem deref_at (p : Ptr) (t : FileSystem) (o : Inode) (h : t.heap[p]? = some o) :
    Fs.deref p t = (Outcome.ok o, t) := by
  simp [Fs.deref, h]

set_option maxHeartbeats 1000000 in
/-- The statements of `mount` after the loop, for a terminal segment that is
a directory under `mp`: the directory keeps its object but for the binding, the
attribute horizon and the listing horizon, and no inode id is allocated. -/
theorem mountTerminal_existing (mp p : Ptr) (seg : String) (b : Mount) (t : FileSystem)
    (omp od : Inode) (dmp dd : DirInodeData)
    (hmp : t.heap[mp]? = some omp) (hmu : omp.mu = false) (hdmp : omp.dir = some dmp)
    (hget : GoMap.get dmp.Children seg = some p)
    (hp : t.heap[p]? = some od) (hpmu : od.mu = false) (hdd : od.dir = some dd) (hne : p ≠ mp) :
    ∃ u tm, mountTerminal mp seg b t = (Outcome.ok { b with mounted := true }, u) ∧
      u.heap[p]? = some { od with
        AttrTime := TIMEMAX
        dir := some { dd with cloud := some b.cloud, mountPrefix := b.keyPrefix,
                              DirTime := tm } } ∧
      allocated u.trace = allocated t.trace ∧ u.nextInodeID = t.nextInodeID ∧
      u.inodes = t.inodes ∧ u.mu = t.mu := by
  have hlt : mp < t.heap.length := (List.getElem?_eq_some.mp hmp).1
  have hH1 : (t.heap.set mp { omp with mu := true })[mp]? = some { omp with mu := true } := by
    simp [List.getElem?_set, hlt]
  have hH2 : (t.heap.set mp { omp with mu := true })[p]? = some od := by
    rw [List.getElem?_set_ne (Ne.symm hne)]
    exact hp
  obtain ⟨heap1, hheap1⟩ : ∃ h, h = resetDirTimes (t.heap.set mp { omp with mu := true })
    (descendants (t.heap.set mp { omp with mu := true }).length
      (t.heap.set mp { omp with mu := true }) p) := ⟨_, rfl⟩
  obtain ⟨tm1, hr1⟩ := resetDirTimes_get
    (descendants (t.heap.set mp { omp with mu := true }).length
      (t.heap.set mp { omp with mu := true }) p) _ mp _ hH1
  obtain ⟨tm2, hr2⟩ := resetDirTimes_get
    (descendants (t.heap.set mp { omp with mu := true }).length
      (t.heap.set mp { omp with mu := true }) p) _ p _ hH2
  rw [← hheap1] at hr1 hr2
  have h1lt : mp < heap1.length := (List.getElem?_eq_some.mp hr1).1
  have h1plt : p < heap1.length := (List.getElem?_eq_some.mp hr2).1
  have hrun : mountTerminal mp seg b t = (Outcome.ok { b with mounted := true },
      { t with
        heap := (heap1.set p { od with
            AttrTime := TIMEMAX
            dir := some { dd with cloud := some b.cloud, mountPrefix := b.keyPrefix,
                                  DirTime := tm2 } }).set mp
          (setDirTime omp tm1)
        trace := t.trace ++ [Ev.lock mp, Ev.lock p, Ev.unlock p, Ev.unlock mp] }) := by
    unfold mountTerminal
    rw [bind_apply, lockInode_eq mp t omp hmp hmu]
    dsimp only
    unfold withDefer
    rw [bind_apply, findChildUnlocked_eq _ mp seg { omp with mu := true } dmp hH1 hdmp, hget]
    dsimp only
    rw [bind_apply, deref_at p _ od hH2]
    dsimp only
    have hisDir : (!od.isDir) = false := by simp [Inode.isDir, hdd]
    rw [if_neg (by simp [hisDir])]
    rw [bind_apply]
    unfold resetDirTimeRec
    dsimp only
    rw [← hheap1]
    have hb := bindExisting_eq p b.cloud b.keyPrefix { b with mounted := true }
      { t with heap := heap1, trace := t.trace ++ [Ev.lock mp] } (setDirTime od tm2)
      { dd with DirTime := tm2 } hr2 hpmu (by simp [setDirTime, hdd])
    unfold withDefer at hb
    rw [hb]
    dsimp only
    rw [unlockInode_eq mp _ (setDirTime { omp with mu := true } tm1)
      (by
        dsimp only
        rw [List.getElem?_set_ne hne]
        exact hr1) rfl]
    simp [setDirTime, hdd, hdmp, hmu]
  refine ⟨_, tm2, hrun, ?_, ?_, rfl, rfl, rfl⟩
  · simp [List.getElem?_set_ne (Ne.symm hne), List.getElem?_set, h1plt, hdd]
  · simp [allocated_append, allocated]

end Fs

namespace Fs

/-- A round of the loop of `mount` for a segment that is under `mp`: the
directory found is returned and nothing but the trace changes. -/
theorem mountStep_existing (mp p : Ptr) (seg : String) (t : FileSystem) (omp : Inode)
    (dmp : DirInodeData) (hmp : t.heap[mp]? = some omp) (hmu : omp.mu = false)
    (hdmp : omp.dir = some dmp) (hget : GoMap.get dmp.Children seg = some p) :
    mountStep mp seg t = (Outcome.ok p,
      { t with trace := t.trace ++ [Ev.lock mp, Ev.unlock mp] }) := by
  have hlt : mp < t.heap.length := (List.getElem?_eq_some.mp hmp).1
  have hself : t.heap.set mp omp = t.heap := by
    apply List.ext_getElem?
    intro i
    by_cases hi : mp = i
    · subst hi
      simp [List.getElem?_set, hlt, hmp]
    · rw [List.getElem?_set_ne hi]
  have homp : ({ omp with mu := false } : Inode) = omp := by
    cases omp
    simp_all
  unfold mountStep
  rw [bind_apply, lockInode_eq mp t omp hmp hmu]
  dsimp only
  rw [bind_apply, findChildUnlocked_eq _ mp seg { omp with mu := true } dmp
    (by simp [List.getElem?_set, hlt]) hdmp, hget]
  dsimp only
  rw [bind_apply, pure_apply]
  dsimp only
  rw [bind_apply, unlockInode_eq mp _ { omp with mu := true }
    (by simp [List.getElem?_set, hlt]) rfl]
  simp [pure_apply, homp, hself]

theorem joinPath_length (term : String) (segs : List String) :
    segs.length ≤ (joinPath segs term).length := by
  induction segs with
  | nil => simp
  | cons x rest ih =>
    have hj : joinPath (x :: rest) term = x.toList ++ '/' :: joinPath rest term := rfl
    rw [hj]
    simp
    omega

/-- The body of `mount` on a path whose intermediate directories are there:
the loop walks down to the last of them and changes nothing but the trace, to
which it adds no allocation. -/
theorem mountFrom_existing (b : Mount) (term : String) (hterm : '/' ∉ term.toList)
    (dir : Ptr) (segs : List String) :
    (∀ x ∈ segs, '/' ∉ x.toList) →
    ∀ (fuel : Nat) (mp : Ptr) (t : FileSystem),
      segs.length < fuel → resolveDirs t.heap mp segs = some dir →
      ∃ tr, mountFrom fuel mp (joinPath segs term) b t =
          mountTerminal dir term b { t with trace := tr } ∧
        allocated tr = allocated t.trace := by
  induction segs with
  | nil =>
    intro _ fuel mp t hfuel hres
    obtain ⟨f, rfl⟩ : ∃ f, fuel = f + 1 := ⟨fuel - 1, by omega⟩
    have hj : joinPath [] term = term.toList := rfl
    have hd : mp = dir := by simpa [resolveDirs] using hres
    subst hd
    rw [hj, mountFrom_nil f mp term b hterm]
    exact ⟨t.trace, rfl, rfl⟩
  | cons x rest ih =>
    intro hsegs fuel mp t hfuel hres
    obtain ⟨f, rfl⟩ : ∃ f, fuel = f + 1 := ⟨fuel - 1, by omega⟩
    have hx := hsegs x (by simp)
    have hrest : ∀ y ∈ rest, '/' ∉ y.toList := fun y hy => hsegs y (by simp [hy])
    unfold resolveDirs at hres
    cases hmp : t.heap[mp]? with
    | none => simp [hmp] at hres
    | some omp =>
      simp only [hmp] at hres
      cases hmu : omp.mu with
      | true => simp [hmu] at hres
      | false =>
        simp only [hmu] at hres
        cases hdmp : omp.dir with
        | none => simp [hdmp] at hres
        | some dmp =>
          simp only [hdmp] at hres
          cases hget : GoMap.get dmp.Children x with
          | none => simp [hget] at hres
          | some p =>
            simp only [hget] at hres
            rw [mountFrom_cons f mp x rest term b hx, bind_apply,
              mountStep_existing mp p x t omp dmp hmp hmu hdmp hget]
            dsimp only
            obtain ⟨tr, h1, h2⟩ := ih hrest f p
              { t with trace := t.trace ++ [Ev.lock mp, Ev.unlock mp] }
              (by simpa using hfuel) (by simpa using hres)
            refine ⟨tr, h1, ?_⟩
            rw [h2]
            simp [allocated_append, allocated]

end Fs

namespace Fs

/-- C17: a mount record `b` that is not yet mounted is grafted under the
directory at `mp`. (1) When the slash-trimmed name is `s1/.../sk/t`, no segment
is `.` or `..` and the first one is not a child of `mp`, `mount` returns the
record with `mounted` set; every `si` and `t` is then a new directory object
under the one before, with `AttrTime = TIMEMAX` and the next inode id, `t` has
`dir.cloud = b.cloud` and `dir.mountPrefix = b.prefix`, and exactly `k + 1`
inode ids are allocated. (2) When the intermediate directories are there and
the terminal segment is a directory, `mount` returns the record with `mounted`
set; the terminal directory keeps its object, so its `Id`, but for the binding
of `b`, `AttrTime = TIMEMAX` and its listing horizon, and no inode id is
allocated. -/
theorem C17_mount_grafts_path (mp : Ptr) (b : Mount) (s : FileSystem) (segs : List String)
    (term : String) (hb : b.mounted = false)
    (hname : trimSlash b.name.toList = joinPath segs term)
    (hsegs : ∀ x ∈ segs, '/' ∉ x.toList) (hterm : '/' ∉ term.toList) :
    (∀ (omp : Inode) (dmp : DirInodeData),
      (∀ x ∈ segs, x ≠ "." ∧ x ≠ "..") → term ≠ "." → term ≠ ".." →
      s.mu.readers = 0 → s.mu.writer = false →
      s.heap[mp]? = some omp → omp.mu = false → omp.dir = some dmp →
      GoMap.get dmp.Children (segs.headD term) = none →
      ∃ t, mount mp b s = (Outcome.ok { b with mounted := true }, t) ∧
        mountedPath t.heap b s.heap.length mp s.nextInodeID segs term = true ∧
        allocated t.trace = allocated s.trace ++ idsFrom s.nextInodeID (segs.length + 1) ∧
        (allocated t.trace).length = (allocated s.trace).length + (segs.length + 1)) ∧
    (∀ (dir p : Ptr) (odir od : Inode) (ddir dd : DirInodeData),
      resolveDirs s.heap mp segs = some dir →
      s.heap[dir]? = some odir → odir.mu = false → odir.dir = some ddir →
      GoMap.get ddir.Children term = some p →
      s.heap[p]? = some od → od.mu = false → od.dir = some dd → p ≠ dir →
      ∃ u tm, mount mp b s = (Outcome.ok { b with mounted := true }, u) ∧
        u.heap[p]? = some { od with
          AttrTime := TIMEMAX
          dir := some { dd with cloud := some b.cloud, mountPrefix := b.keyPrefix,
                                DirTime := tm } } ∧
        allocated u.trace = allocated s.trace ∧ u.nextInodeID = s.nextInodeID ∧
        u.inodes = s.inodes) := by
  have hfuel : segs.length < (joinPath segs term).length + 1 :=
    Nat.lt_succ_of_le (joinPath_length term segs)
  have hmount : mount mp b s = mountFrom ((joinPath segs term).length + 1) mp
      (joinPath segs term) b s := by
    unfold mount
    rw [if_neg (by simp [hb]), hname]
  constructor
  · intro omp dmp hdots ht1 ht2 hr hw hmp hmu hdmp hnone
    obtain ⟨t, h1, _, _, _, h5, h6⟩ := mountFrom_fresh b term hterm ht1 ht2 segs
      (fun x hx => ⟨hsegs x hx, hdots x hx⟩) _ mp s omp dmp s.heap.length hfuel
      (Nat.le_refl _) hr hw hmp hmu hdmp hnone
    refine ⟨t, hmount.trans h1, h6, h5, ?_⟩
    have hlen : ∀ k n, (idsFrom n k).length = k := by
      intro k
      induction k with
      | zero => intro n; rfl
      | succ k ih => intro n; simp [idsFrom, ih]
    rw [h5, List.length_append, hlen]
  · intro dir p odir od ddir dd hres hdir hdmu hddir hget hp hpmu hdd hne
    obtain ⟨tr, h1, h2⟩ := mountFrom_existing b term hterm dir segs hsegs _ mp s hfuel hres
    obtain ⟨u, tm, h3, h4, h5, h6, h7, _⟩ := mountTerminal_existing dir p term b
      { s with trace := tr } odir od ddir dd hdir hdmu hddir hget hp hpmu hdd hne
    exact ⟨u, tm, hmount.trans (h1.trans h3), h4, h5.trans h2, h6, h7⟩

/-- The instances of C17 at the example file system: the mount `/m/n/` creates
the directories `m` (id 5) and `n` (id 6) under the root, and the mount `/d/`
binds the directory `d` (address 2, id 3) that is there. -/
theorem C17_witness :
    (∃ t, mount 0 { name := "/m/n/", cloud := 9, keyPrefix := "pre/", mounted := false }
        (exampleFs 100 false 0) =
        (Outcome.ok { name := "/m/n/", cloud := 9, keyPrefix := "pre/", mounted := true }, t) ∧
      mountedPath t.heap { name := "/m/n/", cloud := 9, keyPrefix := "pre/", mounted := false }
        4 0 5 ["m"] "n" = true ∧
      allocated t.trace = [5, 6]) ∧
    (∃ u tm, mount 0 { name := "/d/", cloud := 9, keyPrefix := "pre/", mounted := false }
        (exampleFs 100 false 0) =
        (Outcome.ok { name := "/d/", cloud := 9, keyPrefix := "pre/", mounted := true }, u) ∧
      u.heap[2]? = some { exampleInode 3 "d" (some 0) (some (exampleDir [])) 0 1 with
        AttrTime := TIMEMAX
        dir := some { cloud := some 9, mountPrefix := "pre/", DirTime := tm, Children := [] } } ∧
      allocated u.trace = []) :=
  ⟨(let ⟨t, h1, h2, h3, _⟩ :=
      (C17_mount_grafts_path 0
        { name := "/m/n/", cloud := 9, keyPrefix := "pre/", mounted := false }
        (exampleFs 100 false 0) ["m"] "n" rfl (by decide) (by decide) (by decide)).1
        (exampleInode 1 "" none (some (exampleDir [("e", 3), ("d", 2), ("a", 1)])) 0 1)
        (exampleDir [("e", 3), ("d", 2), ("a", 1)])
        (by decide) (by decide) (by decide) rfl rfl rfl rfl rfl (by decide)
    ⟨t, h1, h2, h3⟩),
   (let ⟨u, tm, h1, h2, h3, _⟩ :=
      (C17_mount_grafts_path 0
        { name := "/d/", cloud := 9, keyPrefix := "pre/", mounted := false }
        (exampleFs 100 false 0) [] "d" rfl (by decide) (by decide) (by decide)).2
        0 2
        (exampleInode 1 "" none (some (exampleDir [("e", 3), ("d", 2), ("a", 1)])) 0 1)
        (exampleInode 3 "d" (some 0) (some (exampleDir [])) 0 1)
        (exampleDir [("e", 3), ("d", 2), ("a", 1)]) (exampleDir [])
        rfl rfl rfl rfl (by decide) rfl rfl rfl (by decide)
    ⟨u, tm, h1, h2, h3⟩)⟩

end Fs

namespace Fs

/-- A fact that does not depend on the state holds after any code. -/
theorem Triple.anyOk {α : Type} (p : Prop) (m : M α) :
    Triple (fun _ => p) m (fun _ _ => p) (fun _ _ => True) := by
  intro s hs
  rcases hm : m s with ⟨o, s1⟩
  cases o with
  | ok a => exact hs
  | abort r => trivial

/-- When the statements of `mount` after the loop return, they return the
record with `mounted` set. -/
theorem mountTerminal_sets (mp : Ptr) (name : String) (b : Mount) :
    Triple (fun _ => True) (mountTerminal mp name b)
      (fun r _ => r = { b with mounted := true }) (fun _ _ => True) := by
  unfold mountTerminal
  refine Triple.bind (Triple.anyOk True _) (fun _ => ?_)
  refine Triple.partDefer (Q := fun r _ => r = { b with mounted := true }) ?_
    (fun a => Triple.anyOk _ _)
  refine Triple.bind (Triple.anyOk True _) (fun prev => ?_)
  cases prev with
  | none =>
    dsimp only
    refine Triple.bind (Triple.anyOk True _) (fun d => ?_)
    refine Triple.bind (Triple.anyOk True _) (fun _ => ?_)
    refine Triple.bind (Triple.anyOk True _) (fun _ => ?_)
    refine Triple.bind (Triple.anyOk True _) (fun _ => ?_)
    refine Triple.bind (Triple.anyOk True _) (fun _ => ?_)
    refine Triple.bind (Triple.anyOk True _) (fun _ => ?_)
    refine Triple.partDefer (Q := fun r _ => r = { b with mounted := true }) ?_
      (fun a => Triple.anyOk _ _)
    refine Triple.bind (Triple.anyOk True _) (fun _ => ?_)
    exact Triple.pure _ (fun _ _ => rfl)
  | some p =>
    dsimp only
    refine Triple.bind (Triple.anyOk True _) (fun o => ?_)
    split
    · intro s _
      simp [goPanic]
    · refine Triple.bind (Triple.anyOk True _) (fun _ => ?_)
      refine Triple.bind (Triple.anyOk True _) (fun _ => ?_)
      refine Triple.partDefer (Q := fun r _ => r = { b with mounted := true }) ?_
        (fun a => Triple.anyOk _ _)
      refine Triple.bind (Triple.anyOk True _) (fun _ => ?_)
      refine Triple.bind (Triple.anyOk True _) (fun _ => ?_)
      refine Triple.bind (Triple.anyOk True _) (fun _ => ?_)
      exact Triple.pure _ (fun _ _ => rfl)

/-- C18: mounting is idempotent per mount record. When `mount(mp, b)` has
completed, the record it leaves has `mounted` set, and a later `mount` of that
record, in whatever state, returns it and leaves the state as it is: `fs.inodes`,
`nextInodeID` and every inode, so its children, its backend binding and its
`AttrTime`, are unchanged. -/
theorem C18_mount_idempotent (mp : Ptr) (b b1 : Mount) (s t : FileSystem)
    (h : mount mp b s = (Outcome.ok b1, t)) :
    b1.mounted = true ∧
    ∀ (mp1 : Ptr) (u : FileSystem), mount mp1 b1 u = (Outcome.ok b1, u) ∧
      (mount mp1 b1 u).2.inodes = u.inodes ∧
      (mount mp1 b1 u).2.nextInodeID = u.nextInodeID ∧
      (mount mp1 b1 u).2.heap = u.heap := by
  have hset : b1.mounted = true := by
    unfold mount at h
    split at h
    · rename_i hm
      have e : b = b1 := by
        simp [pure_apply] at h
        exact h.1
      rw [← e]
      exact hm
    · have htr : Triple (fun _ => True)
          (mountFrom ((trimSlash b.name.toList).length + 1) mp (trimSlash b.name.toList) b)
          (fun r _ => r = { b with mounted := true }) (fun _ _ => True) := by
        unfold mountFrom
        exact Triple.bind (Triple.anyOk True _) (fun r => mountTerminal_sets _ _ b)
      have h0 := htr s trivial
      rw [h] at h0
      have e : b1 = { b with mounted := true } := h0
      rw [e]
  refine ⟨hset, fun mp1 u => ?_⟩
  have hrun : mount mp1 b1 u = (Outcome.ok b1, u) := by
    simp [mount, hset, pure_apply]
  rw [hrun]
  exact ⟨rfl, rfl, rfl, rfl⟩

/-- The instance of C18 at the example file system: after the mount `/m/n/`, a
second call with the mounted record changes nothing. -/
theorem C18_witness :
    mount 0 { name := "/m/n/", cloud := 9, keyPrefix := "pre/", mounted := true }
        (mount 0 { name := "/m/n/", cloud := 9, keyPrefix := "pre/", mounted := false }
          (exampleFs 100 false 0)).2 =
      (Outcome.ok { name := "/m/n/", cloud := 9, keyPrefix := "pre/", mounted := true },
        (mount 0 { name := "/m/n/", cloud := 9, keyPrefix := "pre/", mounted := false }
          (exampleFs 100 false 0)).2) :=
  ((C18_mount_idempotent 0
    { name := "/m/n/", cloud := 9, keyPrefix := "pre/", mounted := false }
    { name := "/m/n/", cloud := 9, keyPrefix := "pre/", mounted := true }
    (exampleFs 100 false 0)
    (mount 0 { name := "/m/n/", cloud := 9, keyPrefix := "pre/", mounted := false }
      (exampleFs 100 false 0)).2
    (by decide!)).2 0 _).1

end Fs

namespace Fs

/-- C21: let the flush of the handle be invoked by `FlushFile` (the handle has
no recorded `Tgid`, or the caller's tgid equals it) and fail with `e`, for a
registered inode. The error `e` is returned. When the inode's `KnownSize` is
unset its `AttrTime` is reset to the zero time, so that `expired(AttrTime, ttl)`
holds for every `ttl` with zero time + `ttl` not after the current time (the
current time being not before the zero time); when `KnownSize` is set, the
inode objects, so the `AttrTime`, are left unchanged. -/
theorem C21_flush_failure_resets_attr_time (s : FileSystem) (op : FlushFileOp)
    (callerTgid : Option Int) (e : Errno) (h : FileHandle) (inode : Ptr) (ino : Inode)
    (hw : s.mu.writer = false)
    (hh : GoMap.get s.fileHandles op.Handle = some h)
    (htgid : h.Tgid = none ∨ ∃ own, h.Tgid = some own ∧ callerTgid = some own)
    (hreg : GoMap.get s.inodes op.Inode = some inode) (ho : s.heap[inode]? = some ino) :
    (ino.KnownSize = none →
      ∃ t, FlushFile op callerTgid (some e) s = (Outcome.ok (some e), t) ∧
        t.heap = s.heap.set inode { ino with AttrTime := zeroTime } ∧ t.clock = s.clock ∧
        ∀ ttl : Duration, zeroTime ≤ t.clock → ¬ (zeroTime + ttl > t.clock) →
          expired zeroTime ttl t = (Outcome.ok true, t)) ∧
    (ino.KnownSize ≠ none →
      ∃ t, FlushFile op callerTgid (some e) s = (Outcome.ok (some e), t) ∧
        t.heap = s.heap) := by
  have hpre : ∃ t0, FlushFile op callerTgid (some e) s = flushHandle op (some e) t0 ∧
      t0.heap = s.heap ∧ t0.inodes = s.inodes ∧ t0.mu = s.mu ∧ t0.clock = s.clock := by
    rcases htgid with hnone | ⟨own, hown, hcaller⟩
    · apply Exists.intro
      constructor
      · simp [FlushFile, bind_apply, muRLock, muRUnlock, hw, hh, hnone]
        rfl
      · refine ⟨rfl, rfl, ?_, rfl⟩
        cases hm : s.mu
        simp [hm] at hw
        simp [hw]
    · apply Exists.intro
      constructor
      · simp [FlushFile, bind_apply, muRLock, muRUnlock, hw, hh, hown, hcaller]
        rfl
      · refine ⟨rfl, rfl, ?_, rfl⟩
        cases hm : s.mu
        simp [hm] at hw
        simp [hw]
  obtain ⟨t0, ht0, hheap, hinodes, hmu, hclock⟩ := hpre
  have hw0 : t0.mu.writer = false := by rw [hmu]; exact hw
  have hreg0 : GoMap.get t0.inodes op.Inode = some inode := by rw [hinodes]; exact hreg
  have ho0 : t0.heap[inode]? = some ino := by rw [hheap]; exact ho
  constructor
  · intro hk
    apply Exists.intro
    constructor
    · rw [ht0]
      simp [flushHandle, bind_apply, pure_apply, emit, whileErr, muRLock, muRUnlock,
        getInodeOrDie, Fs.deref, modifyObj, hw0, hreg0, ho0, hk]
      rfl
    · refine ⟨by simp [hheap, hk], hclock, ?_⟩
      intro ttl h1 h2
      have h1' : ¬ (zeroTime > s.clock) := by
        simpa [hclock] using h1
      have h2' : ¬ (zeroTime + ttl > s.clock) := by
        simpa [hclock] using h2
      simp [expired, expiredAt, hclock, h1', h2']
  · intro hk
    apply Exists.intro
    constructor
    · rw [ht0]
      simp [flushHandle, bind_apply, pure_apply, emit, whileErr, muRLock, muRUnlock,
        getInodeOrDie, Fs.deref, modifyObj, hw0, hreg0, ho0, hk]
      rfl
    · exact hheap

end Fs

namespace Fs

/-- The instance of C21 at the example file system: the flush of the handle 1
on the file `a` (address 1, id 2), whose size is not known, fails with
`EAGAIN`. -/
theorem C21_witness :
    ∃ t, FlushFile { Inode := 2, Handle := 1, Pid := 900 } (some 40) (some Errno.EAGAIN)
        { exampleFs 100 false 1 with
          fileHandles := [(1, { inode := 1, Tgid := some 40, keepPageCache := true })] } =
        (Outcome.ok (some Errno.EAGAIN), t) ∧
      t.heap = (exampleFs 100 false 1).heap.set 1
        { exampleInode 2 "a" (some 0) none 1 1 with AttrTime := zeroTime } :=
  let ⟨t, h1, h2, _⟩ :=
    (C21_flush_failure_resets_attr_time
      { exampleFs 100 false 1 with
        fileHandles := [(1, { inode := 1, Tgid := some 40, keepPageCache := true })] }
      { Inode := 2, Handle := 1, Pid := 900 } (some 40) Errno.EAGAIN
      { inode := 1, Tgid := some 40, keepPageCache := true } 1
      (exampleInode 2 "a" (some 0) none 1 1)
      rfl (by decide) (Or.inr ⟨40, rfl, rfl⟩) (by decide) rfl).1 rfl
  ⟨t, h1, h2⟩

end Fs

namespace Fs

/-- The state of the wrapper around the backend `r` with the key `key`: either
nothing has run, or `init.Do` has run once, the result of the backend's `Init`
is memoized and a failed backend has been replaced by the error value. -/
theorem wrapper_step (r : BackendImpl) (key : String) (cap : Capabilities)
    (hcap : ∀ e, r.initResult key = some e → r.caps = some cap)
    (c : WrapperCall) (w : ObjectBackendInitWrapper)
    (hkey : w.initKey = key)
    (hw : (w.init = false ∧ w.initCalls = 0 ∧ w.ObjectBackend = ObjectBackend.impl r) ∨
      (w.init = true ∧ w.initCalls = 1 ∧ w.initErr = r.initResult key ∧
        w.ObjectBackend = (match r.initResult key with
          | none => ObjectBackend.impl r
          | some e => ObjectBackend.initError e cap))) :
    (c.run w).1 = (match c with
      | WrapperCall.Init _ => CallResult.initReturned (r.initResult key)
      | WrapperCall.blob op param =>
        match r.initResult key with
        | none => CallResult.blobReturned (r.answer op param).1 (r.answer op param).2
        | some e =>
          CallResult.blobReturned none (some (StoreError.ObjectBackendInitError e cap))) ∧
    (c.run w).2.initKey = key ∧
    (c.run w).2.init = true ∧ (c.run w).2.initCalls = 1 ∧
    (c.run w).2.initErr = r.initResult key ∧
    (c.run w).2.ObjectBackend = (match r.initResult key with
      | none => ObjectBackend.impl r
      | some e => ObjectBackend.initError e cap) := by
  rcases hw with ⟨h1, h2, h3⟩ | ⟨h1, h2, h3, h4⟩
  · cases hres : r.initResult key with
    | none =>
      cases c <;>
        simp [WrapperCall.run, ObjectBackendInitWrapper.Init, ObjectBackendInitWrapper.blob,
          ObjectBackend.Init, ObjectBackend.blob, h1, h2, h3, hkey, hres]
    | some e =>
      have hc := hcap e hres
      cases c <;>
        simp [WrapperCall.run, ObjectBackendInitWrapper.Init, ObjectBackendInitWrapper.blob,
          ObjectBackend.Init, ObjectBackend.blob, ObjectBackend.Capabilities, h1, h2, h3, hkey,
          hres, hc]
  · cases hres : r.initResult key with
    | none =>
      rw [hres] at h3 h4
      cases c <;>
        simp [WrapperCall.run, ObjectBackendInitWrapper.Init, ObjectBackendInitWrapper.blob,
          ObjectBackend.Init, ObjectBackend.blob, h1, h2, h3, h4, hkey]
    | some e =>
      rw [hres] at h3 h4
      cases c <;>
        simp [WrapperCall.run, ObjectBackendInitWrapper.Init, ObjectBackendInitWrapper.blob,
          ObjectBackend.Init, ObjectBackend.blob, h1, h2, h3, h4, hkey]

theorem wrapper_blob_state (w : ObjectBackendInitWrapper) (op : BlobOp) (param : Nat) :
    (w.blob op param).2 = (w.Init "").2 := by
  unfold ObjectBackendInitWrapper.blob
  cases h : w.Init "" with
  | mk res s1 =>
    cases res <;> rfl

/-- Whatever the backend does, a call on the wrapper runs `init.Do` at most
once. -/
theorem wrapper_once (c : WrapperCall) (w : ObjectBackendInitWrapper)
    (hw : (w.init = false ∧ w.initCalls = 0) ∨ (w.init = true ∧ w.initCalls = 1)) :
    (c.run w).2.init = true ∧ (c.run w).2.initCalls = 1 := by
  have hinit : ∀ k, (w.Init k).2.init = true ∧ (w.Init k).2.initCalls = 1 := by
    intro k
    rcases hw with ⟨h1, h2⟩ | ⟨h1, h2⟩
    · cases hI : w.ObjectBackend.Init w.initKey with
      | none => simp [ObjectBackendInitWrapper.Init, h1, h2, hI]
      | some e =>
        cases hC : w.ObjectBackend.Capabilities <;>
          simp [ObjectBackendInitWrapper.Init, h1, h2, hI, hC]
    · simp [ObjectBackendInitWrapper.Init, h1, h2]
  cases c with
  | Init k => exact hinit k
  | blob op param =>
    show (w.blob op param).2.init = true ∧ (w.blob op param).2.initCalls = 1
    rw [wrapper_blob_state]
    exact hinit ""

theorem runWrapper_once (calls : List WrapperCall) : ∀ (w : ObjectBackendInitWrapper),
    ((w.init = false ∧ w.initCalls = 0) ∨ (w.init = true ∧ w.initCalls = 1)) →
    (runWrapper calls w).2.initCalls ≤ 1 := by
  induction calls with
  | nil =>
    intro w hw
    rcases hw with ⟨_, h⟩ | ⟨_, h⟩ <;> simp [runWrapper, h]
  | cons c cs ih =>
    intro w hw
    exact ih _ (Or.inr (wrapper_once c w hw))

theorem runWrapper_results (r : BackendImpl) (key : String) (cap : Capabilities)
    (hcap : ∀ e, r.initResult key = some e → r.caps = some cap)
    (calls : List WrapperCall) : ∀ (w : ObjectBackendInitWrapper),
    w.initKey = key →
    ((w.init = false ∧ w.initCalls = 0 ∧ w.ObjectBackend = ObjectBackend.impl r) ∨
      (w.init = true ∧ w.initCalls = 1 ∧ w.initErr = r.initResult key ∧
        w.ObjectBackend = (match r.initResult key with
          | none => ObjectBackend.impl r
          | some e => ObjectBackend.initError e cap))) →
    (runWrapper calls w).1 = calls.map (fun c =>
      match c with
      | WrapperCall.Init _ => CallResult.initReturned (r.initResult key)
      | WrapperCall.blob op param =>
        match r.initResult key with
        | none => CallResult.blobReturned (r.answer op param).1 (r.answer op param).2
        | some e =>
          CallResult.blobReturned none (some (StoreError.ObjectBackendInitError e cap))) := by
  induction calls with
  | nil =>
    intro w _ _
    rfl
  | cons c cs ih =>
    intro w hkey hw
    obtain ⟨h1, h2, h3, h4, h5, h6⟩ := wrapper_step r key cap hcap c w hkey hw
    have hrest := ih (c.run w).2 h2 (Or.inr ⟨h3, h4, h5, h6⟩)
    simp only [runWrapper, List.map_cons]
    rw [h1, hrest]

/-- C22, counterexample: around a backend whose `Init` fails with `denied`, an
`Init` call on the wrapper returns that error, and the `HeadBlob` that follows
returns a nil output with another error value, the `ObjectBackendInitError`
that embeds it. And around such a backend whose `Capabilities()` is nil, the
first `Init` call on the wrapper panics instead of returning, while the second
returns the error. -/
theorem C22_counterexample :
    (runWrapper [WrapperCall.Init "k", WrapperCall.blob BlobOp.HeadBlob 1]
        (newWrapper (exampleBackend "denied") "key")).1 =
      [CallResult.initReturned (some (StoreError.backend "denied")),
        CallResult.blobReturned none (some (StoreError.ObjectBackendInitError
          (StoreError.backend "denied")
          { NoParallelMultipart := false, MaxMultipartSize := 5, DirBlob := false,
            Name := "example", Base := none }))] ∧
    StoreError.ObjectBackendInitError (StoreError.backend "denied")
        { NoParallelMultipart := false, MaxMultipartSize := 5, DirBlob := false,
          Name := "example", Base := none } ≠ StoreError.backend "denied" ∧
    (runWrapper [WrapperCall.Init "k", WrapperCall.Init "k"]
        (newWrapper { exampleBackend "denied" with caps := none } "key")).1 =
      [CallResult.panicked, CallResult.initReturned (some (StoreError.backend "denied"))] := by
  decide

/-- C22, amended: over any sequence of `Init` calls and blob operations on an
`ObjectBackendInitWrapper` freshly built around a backend, the backend's `Init`
is invoked at most once. When the backend's `Capabilities()` is not nil in case
its `Init` fails, every `Init` call returns the same memoized result, the one
of the backend's `Init` on the wrapper's key, and once that result is a
failure `e` every blob operation returns a nil output and the
`ObjectBackendInitError` that embeds `e`, whose `Error()` is that of `e`. -/
theorem C22_init_memoized (r : BackendImpl) (key : String) (cap : Capabilities)
    (calls : List WrapperCall)
    (hcap : ∀ e, r.initResult key = some e → r.caps = some cap) :
    (runWrapper calls (newWrapper r key)).2.initCalls ≤ 1 ∧
    (runWrapper calls (newWrapper r key)).1 = calls.map (fun c =>
      match c with
      | WrapperCall.Init _ => CallResult.initReturned (r.initResult key)
      | WrapperCall.blob op param =>
        match r.initResult key with
        | none => CallResult.blobReturned (r.answer op param).1 (r.answer op param).2
        | some e =>
          CallResult.blobReturned none (some (StoreError.ObjectBackendInitError e cap))) ∧
    (∀ e, (StoreError.ObjectBackendInitError e cap).Error = e.Error) :=
  ⟨runWrapper_once calls _ (Or.inl ⟨rfl, rfl⟩),
    runWrapper_results r key cap hcap calls _ rfl (Or.inl ⟨rfl, rfl, rfl⟩),
    fun _ => rfl⟩

/-- The instance of C22 for a backend whose `Init` fails with `denied`: a
`HeadBlob`, an `Init` and a `PutBlob` run the backend's `Init` once and all
report the failure. -/
theorem C22_witness :
    (runWrapper [WrapperCall.blob BlobOp.HeadBlob 1, WrapperCall.Init "k",
        WrapperCall.blob BlobOp.PutBlob 2] (newWrapper (exampleBackend "denied") "key")).2.initCalls
      ≤ 1 ∧
    (runWrapper [WrapperCall.blob BlobOp.HeadBlob 1, WrapperCall.Init "k",
        WrapperCall.blob BlobOp.PutBlob 2] (newWrapper (exampleBackend "denied") "key")).1 =
      [CallResult.blobReturned none (some (StoreError.ObjectBackendInitError
          (StoreError.backend "denied")
          { NoParallelMultipart := false, MaxMultipartSize := 5, DirBlob := false,
            Name := "example", Base := none })),
        CallResult.initReturned (some (StoreError.backend "denied")),
        CallResult.blobReturned none (some (StoreError.ObjectBackendInitError
          (StoreError.backend "denied")
          { NoParallelMultipart := false, MaxMultipartSize := 5, DirBlob := false,
            Name := "example", Base := none }))] :=
  let h := C22_init_memoized (exampleBackend "denied") "key"
    { NoParallelMultipart := false, MaxMultipartSize := 5, DirBlob := false,
      Name := "example", Base := none }
    [WrapperCall.blob BlobOp.HeadBlob 1, WrapperCall.Init "k", WrapperCall.blob BlobOp.PutBlob 2]
    (fun _ _ => rfl)
  ⟨h.1, h.2.1⟩

end Fs

namespace Fs

/-- The insertion of a `..` entry under a directory that has no parent: it
takes the id of the root. -/
theorem insertInodeFuel_dotdot_root (k : Nat) (parent dot : Ptr) (t : FileSystem)
    (od par : Inode) (dp : DirInodeData)
    (hdot : t.heap[dot]? = some od) (hname : od.Name = "..")
    (hpar : t.heap[parent]? = some par) (hdp : par.dir = some dp)
    (hpp : par.Parent = none) (hne : dot ≠ parent) :
    insertInodeFuel (k + 1) parent dot t = (Outcome.ok (),
      { t with heap := ((t.heap.set dot { od with Id := RootInodeID }).set parent
          { par with dir := some { dp with Children := GoMap.set dp.Children ".." dot } }) }) := by
  have hdlt : dot < t.heap.length := (List.getElem?_eq_some.mp hdot).1
  have hplt : parent < t.heap.length := (List.getElem?_eq_some.mp hpar).1
  have hd1 : t.heap[dot] = od := (List.getElem?_eq_some.mp hdot).2
  have hp1 : t.heap[parent] = par := (List.getElem?_eq_some.mp hpar).2
  simp [insertInodeFuel, bind_apply, pure_apply, deref, modifyObj, insertChildUnlocked, hdot,
    hname, hpar, hdp, hpp, hne, Ne.symm hne, List.getElem?_set, hdlt, hplt, hd1, hp1]

/-- The insertion of an inode with an ordinary name that is not a directory:
it takes the next id, is registered and is linked into the child index. -/
theorem insertInodeFuel_file (k : Nat) (parent inode : Ptr) (t : FileSystem)
    (o par : Inode) (dp : DirInodeData)
    (ho : t.heap[inode]? = some o) (hn1 : o.Name ≠ ".") (hn2 : o.Name ≠ "..")
    (hid : o.Id = 0) (hfile : o.dir = none)
    (hpar : t.heap[parent]? = some par) (hdp : par.dir = some dp) (hne : inode ≠ parent) :
    insertInodeFuel (k + 1) parent inode t = (Outcome.ok (),
      { t with
        nextInodeID := (t.nextInodeID + 1) % U64
        inodes := GoMap.set t.inodes t.nextInodeID inode
        trace := t.trace ++ [Ev.allocId t.nextInodeID]
        heap := ((t.heap.set inode { o with Id := t.nextInodeID }).set parent
          { par with dir := some { dp with Children := GoMap.set dp.Children o.Name inode } }) }) := by
  have hdlt : inode < t.heap.length := (List.getElem?_eq_some.mp ho).1
  have hplt : parent < t.heap.length := (List.getElem?_eq_some.mp hpar).1
  have hd1 : t.heap[inode] = o := (List.getElem?_eq_some.mp ho).2
  have hp1 : t.heap[parent] = par := (List.getElem?_eq_some.mp hpar).2
  simp [insertInodeFuel, bind_apply, pure_apply, deref, modifyObj, insertChildUnlocked,
    allocateInodeId, Inode.isDir, ho, hn1, hn2, hid, hfile, hpar, hdp, hne, Ne.symm hne,
    List.getElem?_set, hdlt, hplt, hd1, hp1]

/-- The insertion of an inode with an ordinary name that carries an id is
rejected. -/
theorem insertInodeFuel_rejected (k : Nat) (parent inode : Ptr) (t : FileSystem) (o : Inode)
    (ho : t.heap[inode]? = some o) (hn1 : o.Name ≠ ".") (hn2 : o.Name ≠ "..")
    (hid : o.Id ≠ 0) :
    insertInodeFuel (k + 1) parent inode t =
      (Outcome.abort (Abort.panic "inode id is set" none), t) := by
  simp [insertInodeFuel, bind_apply, deref, goPanic, ho, hn1, hn2, hid]

end Fs

namespace Fs

theorem set_set_first {α : Type} (h : List α) (i p : Nat) (a b : α) (hne : i ≠ p)
    (hlt : i < h.length) : ((h.set i a).set p b)[i]? = some a := by
  rw [List.getElem?_set_ne (Ne.symm hne)]
  simp [List.getElem?_set, hlt]

theorem set_set_second {α : Type} (h : List α) (i p : Nat) (a b : α)
    (hlt : p < h.length) : ((h.set i a).set p b)[p]? = some b := by
  simp [List.getElem?_set, hlt]

theorem dirHeap_self {α : Type} (h : List α) (i p : Nat) (a b c x y : α)
    (hlt : i < h.length) : ((((h.set i a).set p b).set i c) ++ [x, y])[i]? = some c := by
  rw [List.getElem?_append_left (by simpa using hlt)]
  simp [List.getElem?_set, hlt]

theorem dirHeap_parent {α : Type} (h : List α) (i p : Nat) (a b c x y : α) (hne : i ≠ p)
    (hlt : p < h.length) : ((((h.set i a).set p b).set i c) ++ [x, y])[p]? = some b := by
  rw [List.getElem?_append_left (by simpa using hlt), List.getElem?_set_ne hne]
  simp [List.getElem?_set, hlt]

theorem dirHeap_dot {α : Type} (h : List α) (i p : Nat) (a b c x y : α) :
    ((((h.set i a).set p b).set i c) ++ [x, y])[h.length]? = some x := by
  rw [List.getElem?_append_right (by simp)]
  simp

theorem dirHeap_dotdot {α : Type} (h : List α) (i p : Nat) (a b c x y : α) :
    ((((h.set i a).set p b).set i c) ++ [x, y])[h.length + 1]? = some y := by
  rw [List.getElem?_append_right (by simp)]
  simp

set_option maxHeartbeats 1000000 in
/-- C23: `insertInode(parent, inode)` on a directory `parent`. For the name `.`
the inode's `Id` becomes `parent.Id`, and for `..` it becomes
`parent.Parent.Id`, or `RootInodeID` when `parent` has no parent; in both cases
`fs.inodes` and `nextInodeID` are unchanged. For any other name with `Id == 0`
the inode receives the previous `nextInodeID`, is registered as
`fs.inodes[Id]` and linked into the child index of `parent`, and `nextInodeID`
advances by one (as a `uint64`), exactly one id being allocated, also when the
inode is a directory (created under `parent`), whose `.` and `..` children are
synthesized with the ids of the directory and of `parent`. For any other name
with `Id != 0` the insert panics and leaves the state as it is. -/
theorem C23_insertInode_assigns_ids (s : FileSystem) (parent inode : Ptr) (o par : Inode)
    (d : DirInodeData)
    (ho : s.heap[inode]? = some o) (hpar : s.heap[parent]? = some par)
    (hd : par.dir = some d) (hne : inode ≠ parent) :
    (o.Name = "." →
      ∃ t o1, insertInode parent inode s = (Outcome.ok (), t) ∧
        t.heap[inode]? = some o1 ∧ o1.Id = par.Id ∧
        t.inodes = s.inodes ∧ t.nextInodeID = s.nextInodeID) ∧
    (o.Name = ".." →
      (∀ pp grand, par.Parent = some pp → s.heap[pp]? = some grand → inode ≠ pp →
        ∃ t o1, insertInode parent inode s = (Outcome.ok (), t) ∧
          t.heap[inode]? = some o1 ∧ o1.Id = grand.Id ∧
          t.inodes = s.inodes ∧ t.nextInodeID = s.nextInodeID) ∧
      (par.Parent = none →
        ∃ t o1, insertInode parent inode s = (Outcome.ok (), t) ∧
          t.heap[inode]? = some o1 ∧ o1.Id = RootInodeID ∧
          t.inodes = s.inodes ∧ t.nextInodeID = s.nextInodeID)) ∧
    (o.Name ≠ "." → o.Name ≠ ".." → o.Id = 0 →
      (o.dir = none ∨ (o.isDir = true ∧ o.Parent = some parent)) →
      ∃ t o1 p1 d1, insertInode parent inode s = (Outcome.ok (), t) ∧
        t.heap[inode]? = some o1 ∧ o1.Id = s.nextInodeID ∧
        GoMap.get t.inodes s.nextInodeID = some inode ∧
        t.heap[parent]? = some p1 ∧ p1.dir = some d1 ∧
        GoMap.get d1.Children o.Name = some inode ∧
        t.nextInodeID = (s.nextInodeID + 1) % U64 ∧
        (s.nextInodeID + 1 < U64 → t.nextInodeID = s.nextInodeID + 1) ∧
        allocated t.trace = allocated s.trace ++ [s.nextInodeID] ∧
        (o.isDir = true → ∃ dd1 dot dotdot,
          o1.dir = some dd1 ∧
          GoMap.get dd1.Children "." = some s.heap.length ∧
          t.heap[s.heap.length]? = some dot ∧ dot.Id = s.nextInodeID ∧
          GoMap.get dd1.Children ".." = some (s.heap.length + 1) ∧
          t.heap[s.heap.length + 1]? = some dotdot ∧ dotdot.Id = par.Id)) ∧
    (o.Name ≠ "." → o.Name ≠ ".." → o.Id ≠ 0 →
      insertInode parent inode s = (Outcome.abort (Abort.panic "inode id is set" none), s)) := by
  have hilt : inode < s.heap.length := (List.getElem?_eq_some.mp ho).1
  have hplt : parent < s.heap.length := (List.getElem?_eq_some.mp hpar).1
  refine ⟨?_, ?_, ?_, ?_⟩
  · intro hname
    refine ⟨_, { o with Id := par.Id },
      insertInodeFuel_dot 1 parent inode s o par d ho hname hpar hd hne, ?_, rfl, rfl, rfl⟩
    exact set_set_first _ _ _ _ _ hne hilt
  · intro hname
    constructor
    · intro pp grand hpp hgrand hne2
      refine ⟨_, { o with Id := grand.Id },
        insertInodeFuel_dotdot 1 parent inode pp s o par grand d ho hname hpar hd hpp
          hgrand hne hne2, ?_, rfl, rfl, rfl⟩
      exact set_set_first _ _ _ _ _ hne hilt
    · intro hpp
      refine ⟨_, { o with Id := RootInodeID },
        insertInodeFuel_dotdot_root 1 parent inode s o par d ho hname hpar hd hpp hne, ?_, rfl,
        rfl, rfl⟩
      exact set_set_first _ _ _ _ _ hne hilt
  · intro hn1 hn2 hid hkind
    have hmod : s.nextInodeID + 1 < U64 → (s.nextInodeID + 1) % U64 = s.nextInodeID + 1 :=
      fun h => Nat.mod_eq_of_lt h
    rcases hkind with hfile | ⟨hdir, hparent⟩
    · refine ⟨_, { o with Id := s.nextInodeID },
        { par with dir := some { d with Children := GoMap.set d.Children o.Name inode } },
        { d with Children := GoMap.set d.Children o.Name inode },
        insertInodeFuel_file 1 parent inode s o par d ho hn1 hn2 hid hfile hpar hd hne,
        ?_, rfl, ?_, ?_, rfl, ?_, rfl, hmod, ?_, ?_⟩
      · exact set_set_first _ _ _ _ _ hne hilt
      · simp [GoMap.get_set]
      · exact set_set_second _ _ _ _ _ hplt
      · simp [GoMap.get_set]
      · simp [allocated_append, allocated]
      · intro hc
        simp [Inode.isDir, hfile] at hc
    · obtain ⟨dd, hdd⟩ := (isDir_iff o).mp hdir
      refine ⟨_, { o with Id := s.nextInodeID,
                          dir := some { dd with Children := withDots dd.Children s.heap.length } },
        { par with dir := some { d with Children := GoMap.set d.Children o.Name inode } },
        { d with Children := GoMap.set d.Children o.Name inode },
        insertInodeFuel_dir 0 parent inode s o par dd d ho hn1 hn2 hid hdd hparent hpar hd hne,
        ?_, rfl, ?_, ?_, rfl, ?_, rfl, hmod, ?_, ?_⟩
      · exact dirHeap_self _ _ _ _ _ _ _ _ hilt
      · simp [GoMap.get_set]
      · exact dirHeap_parent _ _ _ _ _ _ _ _ hne hplt
      · simp [GoMap.get_set]
      · simp [allocated_append, allocated]
      · intro _
        refine ⟨_, dotEntry s.clock inode "." s.nextInodeID,
          dotEntry s.clock inode ".." par.Id, rfl, ?_, ?_, rfl, ?_, ?_, rfl⟩
        · simp [withDots, GoMap.get_set]
        · exact dirHeap_dot _ _ _ _ _ _ _ _
        · simp [withDots, GoMap.get_set]
        · exact dirHeap_dotdot _ _ _ _ _ _ _ _
  · intro hn1 hn2 hid
    exact insertInodeFuel_rejected 1 parent inode s o ho hn1 hn2 hid

end Fs

namespace Fs

/-- The instance of C23 at the example file system with a new directory object
`x` (address 4, no id yet) created under the root: the insert gives it the id
5, its `.` entry (address 5) carries the id 5 too, and the next id is 6. -/
theorem C23_witness :
    ∃ t o1 dot, insertInode 0 4
        { exampleFs 100 false 0 with
          heap := (exampleFs 100 false 0).heap ++
            [exampleInode 0 "x" (some 0) (some (exampleDir [])) 0 1] } = (Outcome.ok (), t) ∧
      t.heap[4]? = some o1 ∧ o1.Id = 5 ∧ GoMap.get t.inodes 5 = some 4 ∧
      t.nextInodeID = 6 ∧ allocated t.trace = [5] ∧
      t.heap[5]? = some dot ∧ dot.Id = 5 :=
  let ⟨t, o1, _, _, h1, h2, h3, h4, _, _, _, _, h9, h10, h11⟩ :=
    (C23_insertInode_assigns_ids
      { exampleFs 100 false 0 with
        heap := (exampleFs 100 false 0).heap ++
          [exampleInode 0 "x" (some 0) (some (exampleDir [])) 0 1] }
      0 4 (exampleInode 0 "x" (some 0) (some (exampleDir [])) 0 1)
      (exampleInode 1 "" none (some (exampleDir [("e", 3), ("d", 2), ("a", 1)])) 0 1)
      (exampleDir [("e", 3), ("d", 2), ("a", 1)])
      rfl rfl rfl (by decide)).2.2.1 (by decide) (by decide) rfl (Or.inr ⟨rfl, rfl⟩)
  let ⟨_, dot, _, _, _, h13, h14, _⟩ := h11 rfl
  ⟨t, o1, dot, h1, h2, h3, h4, h9 (by decide), h10, h13, h14⟩

end Fs

namespace Fs

theorem set_self {α : Type} (h : List α) (i : Nat) (a : α) (hi : h[i]? = some a) :
    h.set i a = h := by
  apply List.ext_getElem?
  intro j
  by_cases hj : i = j
  · subst hj
    simp [List.getElem?_set, (List.getElem?_eq_some.mp hi).1, hi]
  · rw [List.getElem?_set_ne hj]

set_option maxHeartbeats 1000000 in
/-- The statements of `LookUpInode` up to the backend query, when the cached
child is expired and has no open handle: the probe has taken a reference on the
child, and no lock is held any more. -/
theorem LookUpInode_probe_eq (s : FileSystem) (op : LookUpInodeOp) (resp : LookUpResp)
    (parent : Ptr) (par : Inode) (d : DirInodeData) (i : Ptr) (child : Inode)
    (hw : s.mu.writer = false)
    (hparent : GoMap.get s.inodes op.Parent = some parent)
    (hpar : s.heap[parent]? = some par) (hmu : par.mu = false) (hdir : par.dir = some d)
    (hsome : GoMap.get d.Children op.Name = some i) (hchild : s.heap[i]? = some child)
    (hexp : expiredAt s.clock child.AttrTime s.flags.StatCacheTTL = true)
    (hfh : child.fileHandles = 0) (hip : i ≠ parent) :
    LookUpInode op resp s = lookUpMiss parent (some i) op.Name resp
      { s with
        heap := s.heap.set i { child with refcnt := child.refcnt + 1 }
        trace := s.trace ++ [Ev.muRLock, Ev.muRUnlock, Ev.lock parent, Ev.unlock parent] } := by
  have hlt : parent < s.heap.length := (List.getElem?_eq_some.mp hpar).1
  have hpar1 : s.heap[parent] = par := (List.getElem?_eq_some.mp hpar).2
  have hilt : i < s.heap.length := (List.getElem?_eq_some.mp hchild).1
  have hch1 : s.heap[i] = child := (List.getElem?_eq_some.mp hchild).2
  simp [LookUpInode, lookUpProbe, bind_apply, pure_apply, muRLock, muRUnlock, getInodeOrDie,
    lockInode, unlockInode, findChildUnlocked, deref, Ref, modifyObj, expired, hw, hparent,
    hpar, hmu, hdir, hsome, hchild, hexp, hfh, List.getElem?_set, hlt, hpar1, hilt, hch1, hip,
    Ne.symm hip]
  congr 2
  · cases hm : s.mu
    simp_all
  · have hC : s.heap[parent]? = some ({ par with mu := false, dir := some d } : Inode) := by
      rw [hpar]
      cases par
      simp_all
    rw [List.set_comm _ _ _ (Ne.symm hip), List.set_set, List.set_comm _ _ _ hip,
      set_self s.heap parent _ hC]

end Fs

namespace Fs

set_option maxHeartbeats 1000000 in
/-- The merge of the fetched object at `n` into the cached object at `i`: the
cache is invalidated when the attributes are not `Equal` or both ETags are
known and differ, a zero fetched `Mtime` is replaced by the cached one, and
the attributes and the ETag of the fetched object are taken over. -/
theorem lookUpMergeAttrs_eq (i n : Ptr) (t : FileSystem) (c new : Inode)
    (hc : t.heap[i]? = some c) (hn : t.heap[n]? = some new) (hne : i ≠ n) :
    lookUpMergeAttrs i n t = (Outcome.ok (),
      { t with
        heap := (t.heap.set n
          { new with Attributes := ({ new.Attributes with
              Mtime := if new.Attributes.Mtime = zeroTime then c.Attributes.Mtime
                else new.Attributes.Mtime } : InodeAttributes) }).set i
          { c with
            invalidateCache := c.invalidateCache || !(c.Attributes.Equal new.Attributes) ||
              decide (c.knownETag ≠ none ∧ new.knownETag ≠ none ∧ c.knownETag ≠ new.knownETag)
            Attributes := ({ new.Attributes with
              Mtime := if new.Attributes.Mtime = zeroTime then c.Attributes.Mtime
                else new.Attributes.Mtime } : InodeAttributes)
            knownETag := new.knownETag } }) := by
  have hilt : i < t.heap.length := (List.getElem?_eq_some.mp hc).1
  have hnlt : n < t.heap.length := (List.getElem?_eq_some.mp hn).1
  have hc1 : t.heap[i] = c := (List.getElem?_eq_some.mp hc).2
  have hn1 : t.heap[n] = new := (List.getElem?_eq_some.mp hn).2
  have hself : t.heap.set n new = t.heap := set_self t.heap n new hn
  have hself2 : t.heap.set n ({ new with Attributes :=
      ({ new.Attributes with Mtime := new.Attributes.Mtime } : InodeAttributes) } : Inode) =
      t.heap := hself
  by_cases hz : new.Attributes.Mtime = zeroTime <;>
  by_cases heq : c.Attributes.Equal new.Attributes = true <;>
  by_cases het : c.knownETag ≠ none ∧ new.knownETag ≠ none ∧ c.knownETag ≠ new.knownETag <;>
  simp [lookUpMergeAttrs, bind_apply, pure_apply, deref, modifyObj, hc, hn, hne,
    Ne.symm hne, List.getElem?_set, hilt, hnlt, hc1, hn1, hz, heq, het,
    List.set_comm _ _ _ (Ne.symm hne), List.set_set] <;>
  rw [List.set_comm _ _ _ hne, hself2]

end Fs

namespace Fs

set_option maxHeartbeats 1000000 in
/-- The merge of `LookUpInode` under the cached inode's lock, with a fetched
object: the merged attributes, the instant of the merge as `AttrTime`. -/
theorem lookUpMerge_eq (i n : Ptr) (t : FileSystem) (c new : Inode)
    (hc : t.heap[i]? = some c) (hmu : c.mu = false) (hn : t.heap[n]? = some new)
    (hne : i ≠ n) :
    lookUpMerge i (some n) t = (Outcome.ok (),
      { t with
        trace := t.trace ++ [Ev.lock i, Ev.unlock i]
        heap := (t.heap.set n
          { new with Attributes := ({ new.Attributes with
              Mtime := if new.Attributes.Mtime = zeroTime then c.Attributes.Mtime
                else new.Attributes.Mtime } : InodeAttributes) }).set i
          { c with
            invalidateCache := c.invalidateCache || !(c.Attributes.Equal new.Attributes) ||
              decide (c.knownETag ≠ none ∧ new.knownETag ≠ none ∧ c.knownETag ≠ new.knownETag)
            Attributes := ({ new.Attributes with
              Mtime := if new.Attributes.Mtime = zeroTime then c.Attributes.Mtime
                else new.Attributes.Mtime } : InodeAttributes)
            knownETag := new.knownETag
            AttrTime := t.clock
            mu := false } }) := by
  have hilt : i < t.heap.length := (List.getElem?_eq_some.mp hc).1
  have hnlt : n < t.heap.length := (List.getElem?_eq_some.mp hn).1
  unfold lookUpMerge
  rw [bind_apply, lockInode_eq i t c hc hmu]
  dsimp only
  rw [bind_apply, lookUpMergeAttrs_eq i n _ { c with mu := true } new
    (by simp [List.getElem?_set, hilt]) (by rw [List.getElem?_set_ne hne]; exact hn) hne]
  dsimp only
  simp [bind_apply, modifyObj, unlockInode, List.getElem?_set, hilt, hnlt, hne, Ne.symm hne,
    List.set_set, List.set_comm _ _ _ (Ne.symm hne)]

end Fs

namespace Fs

/-- After a successful backend query, or a suppressed `ENOENT` for a cached
directory, `LookUpInode` merges into the cached inode and replies with it. -/
theorem lookUpSettle_merge (parent i : Ptr) (name : String) (newInode : Option Ptr)
    (err : GoError) (t : FileSystem) (c : Inode) (hc : t.heap[i]? = some c)
    (hmerge : err = none ∨ (err = some Errno.ENOENT ∧ c.isDir = true)) :
    lookUpSettle parent (some i) name newInode err t =
      (lookUpMerge i newInode >>= fun _ => lookUpReply i) t := by
  rcases hmerge with h | ⟨h1, h2⟩
  · simp [lookUpSettle, bind_apply, pure_apply, Fs.deref, hc, h]
  · simp [lookUpSettle, bind_apply, pure_apply, Fs.deref, hc, h1, h2]

set_option maxHeartbeats 1000000 in
/-- `LookUpInode` on an expired cached child without open handles, when the
backend query answers with a fetched object and succeeds (or reports the
`ENOENT` that is suppressed for a directory): the fetched object is merged into
the cached one, which keeps its place. -/
theorem LookUpInode_merges (s : FileSystem) (op : LookUpInodeOp) (resp : LookUpResp)
    (parent : Ptr) (par : Inode) (d : DirInodeData) (i : Ptr) (child fetched : Inode)
    (hw : s.mu.writer = false)
    (hparent : GoMap.get s.inodes op.Parent = some parent)
    (hpar : s.heap[parent]? = some par) (hmu : par.mu = false) (hdir : par.dir = some d)
    (hsome : GoMap.get d.Children op.Name = some i) (hchild : s.heap[i]? = some child)
    (hexp : expiredAt s.clock child.AttrTime s.flags.StatCacheTTL = true)
    (hfh : child.fileHandles = 0) (hip : i ≠ parent) (hcmu : child.mu = false)
    (hnew : resp.newInode = some fetched)
    (hmerge : resp.err = none ∨ (resp.err = some Errno.ENOENT ∧ child.isDir = true)) :
    ∃ t, LookUpInode op resp s = (Outcome.ok (none,
        { Child := child.Id
          AttributesExpiration := s.clock + s.flags.StatCacheTTL
          EntryExpiration := s.clock + s.flags.TypeCacheTTL }), t) ∧
      t.heap[i]? = some { child with
        refcnt := child.refcnt + 1
        invalidateCache := child.invalidateCache ||
          !(child.Attributes.Equal fetched.Attributes) ||
          decide (child.knownETag ≠ none ∧ fetched.knownETag ≠ none ∧
            child.knownETag ≠ fetched.knownETag)
        Attributes := ({ fetched.Attributes with
          Mtime := if fetched.Attributes.Mtime = zeroTime then child.Attributes.Mtime
            else fetched.Attributes.Mtime } : InodeAttributes)
        knownETag := fetched.knownETag
        AttrTime := s.clock
        mu := false } ∧
      t.inodes = s.inodes ∧ t.nextInodeID = s.nextInodeID ∧ t.heap[parent]? = some par := by
  have hlt : parent < s.heap.length := (List.getElem?_eq_some.mp hpar).1
  have hilt : i < s.heap.length := (List.getElem?_eq_some.mp hchild).1
  have hne : i ≠ s.heap.length := Nat.ne_of_lt hilt
  have hpne : parent ≠ s.heap.length := Nat.ne_of_lt hlt
  apply Exists.intro
  constructor
  · rw [LookUpInode_probe_eq s op resp parent par d i child hw hparent hpar hmu hdir hsome
      hchild hexp hfh hip]
    unfold lookUpMiss parentLookUp
    simp only [bind_apply, emit, hnew, newObj, pure_apply, List.length_set]
    rw [lookUpSettle_merge parent i op.Name _ resp.err _ { child with refcnt := child.refcnt + 1 }
      (by simp [List.getElem?_append, List.getElem?_set, hilt]) hmerge]
    rw [bind_apply, lookUpMerge_eq i s.heap.length _ { child with refcnt := child.refcnt + 1 }
      fetched (by simp [List.getElem?_append, List.getElem?_set, hilt]) hcmu
      (by simp [List.getElem?_append]) hne]
    dsimp only
    simp [lookUpReply, bind_apply, Fs.deref, List.getElem?_set, List.getElem?_append, hilt]
    rfl
  · refine ⟨?_, rfl, rfl, ?_⟩
    · simp [List.getElem?_set, List.getElem?_append, hilt]
    · simp [List.getElem?_set, List.getElem?_append, hilt, hlt, hip, hpne, hpar,
        (List.getElem?_eq_some.mp hpar).2]

end Fs

namespace Fs

/-- C24: let `LookUpInode` merge a fetched inode into a cached one (the cached
child is expired and has no open handle, the backend query answers with an
object and succeeds, or reports the `ENOENT` suppressed for a directory). After
the merge `invalidateCache` is set exactly when it was set before, or the
cached and fetched attributes are not `Equal`, or the cached `knownETag` and
the fetched one are both present and unequal. A cached inode with no
`knownETag` whose attributes are `Equal` keeps the flag as it was, whatever the
fetched ETag; and a flag that was set stays set. -/
theorem C24_merge_invalidates_cache (s : FileSystem) (op : LookUpInodeOp) (resp : LookUpResp)
    (parent : Ptr) (par : Inode) (d : DirInodeData) (i : Ptr) (child fetched : Inode)
    (hw : s.mu.writer = false)
    (hparent : GoMap.get s.inodes op.Parent = some parent)
    (hpar : s.heap[parent]? = some par) (hmu : par.mu = false) (hdir : par.dir = some d)
    (hsome : GoMap.get d.Children op.Name = some i) (hchild : s.heap[i]? = some child)
    (hexp : expiredAt s.clock child.AttrTime s.flags.StatCacheTTL = true)
    (hfh : child.fileHandles = 0) (hip : i ≠ parent) (hcmu : child.mu = false)
    (hnew : resp.newInode = some fetched)
    (hmerge : resp.err = none ∨ (resp.err = some Errno.ENOENT ∧ child.isDir = true)) :
    ∃ t c1, (LookUpInode op resp s).1 = Outcome.ok (none,
        { Child := child.Id
          AttributesExpiration := s.clock + s.flags.StatCacheTTL
          EntryExpiration := s.clock + s.flags.TypeCacheTTL }) ∧
      (LookUpInode op resp s).2 = t ∧ t.heap[i]? = some c1 ∧
      (c1.invalidateCache = true ↔
        (child.invalidateCache = true ∨
          child.Attributes.Equal fetched.Attributes = false ∨
          ∃ a b, child.knownETag = some a ∧ fetched.knownETag = some b ∧ a ≠ b)) ∧
      (child.knownETag = none → child.Attributes.Equal fetched.Attributes = true →
        c1.invalidateCache = child.invalidateCache) ∧
      (child.invalidateCache = true → c1.invalidateCache = true) := by
  obtain ⟨t, ht, hc1, _⟩ := LookUpInode_merges s op resp parent par d i child fetched hw hparent
    hpar hmu hdir hsome hchild hexp hfh hip hcmu hnew hmerge
  refine ⟨t, _, by rw [ht], by rw [ht], hc1, ?_, ?_, ?_⟩
  · cases h1 : child.invalidateCache <;> cases h2 : child.Attributes.Equal fetched.Attributes <;>
      cases h3 : child.knownETag <;> cases h4 : fetched.knownETag <;> simp
  · intro h3 h2
    simp [h3, h2]
  · intro h1
    simp [h1]

/-- The instance of C24 at the example file system, at the instant 1000: the
file `a` is looked up and the backend answers with an object whose `Mtime`
differs, so the cache of `a` is invalidated. -/
theorem C24_witness :
    ∃ c1, (LookUpInode ⟨1, "a"⟩
        ⟨some { exampleInode 0 "a" (some 0) none 0 1 with
          Attributes := { Size := 9, Mtime := 70 }, knownETag := some "e2" }, none⟩
        (exampleFs 1000 false 0)).2.heap[1]? = some c1 ∧ c1.invalidateCache = true :=
  let ⟨_, c1, _, h2, h3, h4, _⟩ :=
    C24_merge_invalidates_cache (exampleFs 1000 false 0) ⟨1, "a"⟩
      ⟨some { exampleInode 0 "a" (some 0) none 0 1 with
        Attributes := { Size := 9, Mtime := 70 }, knownETag := some "e2" }, none⟩ 0
      (exampleInode 1 "" none (some (exampleDir [("e", 3), ("d", 2), ("a", 1)])) 0 1)
      (exampleDir [("e", 3), ("d", 2), ("a", 1)]) 1
      (exampleInode 2 "a" (some 0) none 0 1)
      { exampleInode 0 "a" (some 0) none 0 1 with
        Attributes := { Size := 9, Mtime := 70 }, knownETag := some "e2" }
      rfl (by decide) rfl rfl rfl (by decide) rfl (by decide) rfl (by decide) rfl rfl
      (Or.inl rfl)
  ⟨c1, h2 ▸ h3, h4.mpr (Or.inr (Or.inl (by decide)))⟩

/-- C25: let `LookUpInode` merge a fetched inode into a cached one (as in
C24). The cached inode keeps its `Id` and `fs.inodes` is as before, so the
inode keeps its place in it; when the fetched `Mtime` is the zero time, the
cached `Attributes.Mtime` after the merge is its value before the merge,
otherwise it is the fetched `Mtime`; the remaining attributes and `knownETag`
are the fetched ones. -/
theorem C25_merge_keeps_identity (s : FileSystem) (op : LookUpInodeOp) (resp : LookUpResp)
    (parent : Ptr) (par : Inode) (d : DirInodeData) (i : Ptr) (child fetched : Inode)
    (hw : s.mu.writer = false)
    (hparent : GoMap.get s.inodes op.Parent = some parent)
    (hpar : s.heap[parent]? = some par) (hmu : par.mu = false) (hdir : par.dir = some d)
    (hsome : GoMap.get d.Children op.Name = some i) (hchild : s.heap[i]? = some child)
    (hexp : expiredAt s.clock child.AttrTime s.flags.StatCacheTTL = true)
    (hfh : child.fileHandles = 0) (hip : i ≠ parent) (hcmu : child.mu = false)
    (hnew : resp.newInode = some fetched)
    (hmerge : resp.err = none ∨ (resp.err = some Errno.ENOENT ∧ child.isDir = true)) :
    ∃ t c1, (LookUpInode op resp s).1 = Outcome.ok (none,
        { Child := child.Id
          AttributesExpiration := s.clock + s.flags.StatCacheTTL
          EntryExpiration := s.clock + s.flags.TypeCacheTTL }) ∧
      (LookUpInode op resp s).2 = t ∧ t.heap[i]? = some c1 ∧
      c1.Id = child.Id ∧ t.inodes = s.inodes ∧
      (fetched.Attributes.Mtime = zeroTime → c1.Attributes.Mtime = child.Attributes.Mtime) ∧
      (fetched.Attributes.Mtime ≠ zeroTime → c1.Attributes.Mtime = fetched.Attributes.Mtime) ∧
      c1.Attributes.Size = fetched.Attributes.Size ∧ c1.knownETag = fetched.knownETag ∧
      c1.dir = child.dir ∧ c1.fileHandles = child.fileHandles ∧ c1.Name = child.Name ∧
      c1.Parent = child.Parent := by
  obtain ⟨t, ht, hc1, hino, _⟩ := LookUpInode_merges s op resp parent par d i child fetched hw
    hparent hpar hmu hdir hsome hchild hexp hfh hip hcmu hnew hmerge
  refine ⟨t, _, by rw [ht], by rw [ht], hc1, rfl, hino, ?_, ?_, rfl, rfl, rfl, rfl, rfl, rfl⟩
  · intro hz
    simp [hz]
  · intro hz
    simp [hz]

/-- The instance of C25 at the example file system, at the instant 1000: the
directory `d` (id 3, `Mtime` 50) is looked up and the backend answers with an
object without `Mtime`; the cached `Mtime` stays. -/
theorem C25_witness :
    ∃ c1, (LookUpInode ⟨1, "d"⟩
        ⟨some { exampleInode 0 "d" (some 0) (some (exampleDir [])) 0 1 with
          Attributes := { Size := 9, Mtime := zeroTime }, knownETag := some "e2" }, none⟩
        (exampleFs 1000 false 0)).2.heap[2]? = some c1 ∧ c1.Id = 3 ∧
      c1.Attributes = { Size := 9, Mtime := 50 } ∧ c1.knownETag = some "e2" :=
  let ⟨_, c1, _, h2, h3, h4, _, h6, _, h8, h9, _⟩ :=
    C25_merge_keeps_identity (exampleFs 1000 false 0) ⟨1, "d"⟩
      ⟨some { exampleInode 0 "d" (some 0) (some (exampleDir [])) 0 1 with
        Attributes := { Size := 9, Mtime := zeroTime }, knownETag := some "e2" }, none⟩ 0
      (exampleInode 1 "" none (some (exampleDir [("e", 3), ("d", 2), ("a", 1)])) 0 1)
      (exampleDir [("e", 3), ("d", 2), ("a", 1)]) 2
      (exampleInode 3 "d" (some 0) (some (exampleDir [])) 0 1)
      { exampleInode 0 "d" (some 0) (some (exampleDir [])) 0 1 with
        Attributes := { Size := 9, Mtime := zeroTime }, knownETag := some "e2" }
      rfl (by decide) rfl rfl rfl (by decide) rfl (by decide) rfl (by decide) rfl rfl
      (Or.inl rfl)
  ⟨c1, h2 ▸ h3, h4, by
    cases hA : c1.Attributes with
    | mk sz mt =>
      have e1 : sz = 9 := by simpa [hA] using h8
      have e2 : mt = 50 := by simpa [hA] using h6 rfl
      rw [e1, e2], h9⟩

end Fs

namespace Fs

set_option maxHeartbeats 1000000 in
/-- The roll-back of `LookUpInode`: the reference taken on the cache probe is
given back, and an entry left without references is deleted from the table and
from the child index of its parent, under the table lock. -/
theorem lookUpRollback_eq (parent i : Ptr) (t : FileSystem) (c par : Inode) (d : DirInodeData)
    (hr : t.mu.readers = 0) (hw : t.mu.writer = false)
    (hc : t.heap[i]? = some c) (hpar : t.heap[parent]? = some par) (hmu : par.mu = false)
    (hdir : par.dir = some d) (hip : i ≠ parent) :
    lookUpRollback parent i t = (Outcome.ok (),
      if c.refcnt - 1 = 0 then
        { t with
          inodes := GoMap.delete t.inodes c.Id
          trace := t.trace ++ [Ev.muLock, Ev.lock parent, Ev.unlock parent, Ev.muUnlock]
          heap := (t.heap.set i { c with refcnt := c.refcnt - 1 }).set parent
            { par with dir := some { d with Children := GoMap.delete d.Children c.Name } } }
      else
        { t with
          trace := t.trace ++ [Ev.muLock, Ev.muUnlock]
          heap := t.heap.set i { c with refcnt := c.refcnt - 1 } }) := by
  have hilt : i < t.heap.length := (List.getElem?_eq_some.mp hc).1
  have hplt : parent < t.heap.length := (List.getElem?_eq_some.mp hpar).1
  have hc1 : t.heap[i] = c := (List.getElem?_eq_some.mp hc).2
  have hp1 : t.heap[parent] = par := (List.getElem?_eq_some.mp hpar).2
  have hmuEq : ({ readers := 0, writer := false } : RWMutex) = t.mu := by
    cases hm : t.mu
    simp_all
  by_cases hstale : c.refcnt - 1 = 0
  · rw [if_pos hstale]
    simp [lookUpRollback, removeChild, removeChildUnlocked, bind_apply, pure_apply, withDefer,
      muLock, muUnlock, DeRef, Inode.deRef, Fs.deref, modifyObj, lockInode, unlockInode, hr, hw,
      hc, hpar, hmu, hdir, hip, Ne.symm hip, List.getElem?_set, hilt, hplt, hc1, hp1, hstale,
      hmuEq, List.set_set]
  · rw [if_neg hstale]
    simp [lookUpRollback, bind_apply, pure_apply, withDefer, muLock, muUnlock, DeRef,
      Inode.deRef, Fs.deref, modifyObj, hr, hw, hc, hilt, hc1, hstale, hmuEq]

end Fs

namespace Fs

/-- After a failed backend query that is not the suppressed `ENOENT` of a
directory, `LookUpInode` rolls the probe back and returns the error. -/
theorem lookUpSettle_error (parent i : Ptr) (name : String) (newInode : Option Ptr)
    (e : Errno) (t : FileSystem) (c : Inode) (hc : t.heap[i]? = some c)
    (hnot : ¬ (e = Errno.ENOENT ∧ c.isDir = true)) :
    lookUpSettle parent (some i) name newInode (some e) t =
      (whileErr (some e) (lookUpRollback parent i) >>= fun _ =>
        pure (some e, ChildInodeEntry.zero)) t := by
  by_cases h1 : e = Errno.ENOENT
  · have h2 : c.isDir = false := by
      cases h : c.isDir
      · rfl
      · exact absurd ⟨h1, h⟩ hnot
    simp [lookUpSettle, bind_apply, pure_apply, Fs.deref, hc, h1, h2]
  · simp [lookUpSettle, bind_apply, pure_apply, Fs.deref, hc, h1]

set_option maxHeartbeats 1000000 in
/-- `LookUpInode` on an expired cached child without open handles, when the
backend query fails with an error that is not suppressed: the error is
returned, the child has the reference count it had, and it is deleted from the
table and from the parent's child index exactly when that count is zero. -/
theorem LookUpInode_rollback (s : FileSystem) (op : LookUpInodeOp) (resp : LookUpResp)
    (parent : Ptr) (par : Inode) (d : DirInodeData) (i : Ptr) (child : Inode) (e : Errno)
    (hr : s.mu.readers = 0) (hw : s.mu.writer = false)
    (hparent : GoMap.get s.inodes op.Parent = some parent)
    (hpar : s.heap[parent]? = some par) (hmu : par.mu = false) (hdir : par.dir = some d)
    (hsome : GoMap.get d.Children op.Name = some i) (hchild : s.heap[i]? = some child)
    (hexp : expiredAt s.clock child.AttrTime s.flags.StatCacheTTL = true)
    (hfh : child.fileHandles = 0) (hip : i ≠ parent)
    (herr : resp.err = some e) (hnot : ¬ (e = Errno.ENOENT ∧ child.isDir = true)) :
    ∃ t, LookUpInode op resp s = (Outcome.ok (some e, ChildInodeEntry.zero), t) ∧
      t.heap[i]? = some child ∧ t.mu = s.mu ∧ t.nextInodeID = s.nextInodeID ∧
      t.trace = s.trace ++ ([Ev.muRLock, Ev.muRUnlock, Ev.lock parent, Ev.unlock parent,
        Ev.backendLookUp parent op.Name] ++
        (if child.refcnt = 0 then [Ev.muLock, Ev.lock parent, Ev.unlock parent, Ev.muUnlock]
          else [Ev.muLock, Ev.muUnlock])) ∧
      (child.refcnt = 0 →
        t.inodes = GoMap.delete s.inodes child.Id ∧
        t.heap[parent]? = some
          { par with dir := some { d with Children := GoMap.delete d.Children child.Name } }) ∧
      (child.refcnt ≠ 0 → t.inodes = s.inodes ∧ t.heap[parent]? = some par) := by
  have hlt : parent < s.heap.length := (List.getElem?_eq_some.mp hpar).1
  have hilt : i < s.heap.length := (List.getElem?_eq_some.mp hchild).1
  have hp1 : s.heap[parent] = par := (List.getElem?_eq_some.mp hpar).2
  have hceq : ({ child with refcnt := child.refcnt } : Inode) = child := rfl
  have hci : (s.heap.set i { child with refcnt := child.refcnt + 1 })[i]? =
      some { child with refcnt := child.refcnt + 1 } := by
    simp [List.getElem?_set, hilt]
  have hpi : (s.heap.set i { child with refcnt := child.refcnt + 1 })[parent]? = some par := by
    rw [List.getElem?_set_ne hip]
    exact hpar
  rw [LookUpInode_probe_eq s op resp parent par d i child hw hparent hpar hmu hdir hsome
    hchild hexp hfh hip]
  unfold lookUpMiss parentLookUp
  cases hnew : resp.newInode with
  | none =>
    simp only [bind_apply, emit, pure_apply, herr]
    rw [lookUpSettle_error parent i op.Name none e
      { s with
        heap := s.heap.set i { child with refcnt := child.refcnt + 1 }
        trace := s.trace ++ [Ev.muRLock, Ev.muRUnlock, Ev.lock parent, Ev.unlock parent] ++
          [Ev.backendLookUp parent op.Name] }
      { child with refcnt := child.refcnt + 1 } hci hnot]
    rw [bind_apply]
    unfold whileErr
    rw [lookUpRollback_eq parent i
      { s with
        heap := s.heap.set i { child with refcnt := child.refcnt + 1 }
        trace := s.trace ++ [Ev.muRLock, Ev.muRUnlock, Ev.lock parent, Ev.unlock parent] ++
          [Ev.backendLookUp parent op.Name] }
      { child with refcnt := child.refcnt + 1 } par d hr hw hci hpi hmu hdir hip]
    by_cases hz : child.refcnt = 0
    · have hc0 : ({ child with refcnt := 0 } : Inode) = child := by
        have h := hceq
        rw [hz] at h
        exact h
      refine ⟨_, rfl, ?_⟩
      simp [hz, List.getElem?_set, hilt, hlt, hip, Ne.symm hip, List.set_set, hp1, hc0]
    · refine ⟨_, rfl, ?_⟩
      simp [hz, List.getElem?_set, hilt, hlt, hip, Ne.symm hip, List.set_set, hp1]
  | some fetched =>
    have hci2 : (s.heap.set i { child with refcnt := child.refcnt + 1 } ++ [fetched])[i]? =
        some { child with refcnt := child.refcnt + 1 } := by
      rw [List.getElem?_append_left (by simpa using hilt)]
      exact hci
    have hpi2 : (s.heap.set i { child with refcnt := child.refcnt + 1 } ++ [fetched])[parent]? =
        some par := by
      rw [List.getElem?_append_left (by simpa using hlt)]
      exact hpi
    simp only [bind_apply, emit, pure_apply, herr, newObj, List.length_set]
    rw [lookUpSettle_error parent i op.Name (some s.heap.length) e
      { s with
        heap := s.heap.set i { child with refcnt := child.refcnt + 1 } ++ [fetched]
        trace := s.trace ++ [Ev.muRLock, Ev.muRUnlock, Ev.lock parent, Ev.unlock parent] ++
          [Ev.backendLookUp parent op.Name] }
      { child with refcnt := child.refcnt + 1 } hci2 hnot]
    rw [bind_apply]
    unfold whileErr
    rw [lookUpRollback_eq parent i
      { s with
        heap := s.heap.set i { child with refcnt := child.refcnt + 1 } ++ [fetched]
        trace := s.trace ++ [Ev.muRLock, Ev.muRUnlock, Ev.lock parent, Ev.unlock parent] ++
          [Ev.backendLookUp parent op.Name] }
      { child with refcnt := child.refcnt + 1 } par d hr hw hci2 hpi2 hmu hdir hip]
    by_cases hz : child.refcnt = 0
    · have hc0 : ({ child with refcnt := 0 } : Inode) = child := by
        have h := hceq
        rw [hz] at h
        exact h
      refine ⟨_, rfl, ?_⟩
      simp [hz, List.getElem?_set, List.getElem?_append, hilt, hlt, hip, Ne.symm hip,
        List.set_set, hp1, hc0]
    · refine ⟨_, rfl, ?_⟩
      simp [hz, List.getElem?_set, List.getElem?_append, hilt, hlt, hip, Ne.symm hip,
        List.set_set, hp1]

end Fs

namespace Fs

set_option maxHeartbeats 1000000 in
/-- `LookUpInode` on a name that is not in the parent's child index, when the
backend query fails: the error is returned and nothing but the trace changes,
apart from the object that the query may have built. -/
theorem LookUpInode_error_uncached (s : FileSystem) (op : LookUpInodeOp) (resp : LookUpResp)
    (parent : Ptr) (par : Inode) (d : DirInodeData) (e : Errno)
    (hw : s.mu.writer = false)
    (hparent : GoMap.get s.inodes op.Parent = some parent)
    (hpar : s.heap[parent]? = some par) (hmu : par.mu = false) (hdir : par.dir = some d)
    (hnone : GoMap.get d.Children op.Name = none) (herr : resp.err = some e) :
    LookUpInode op resp s = (Outcome.ok (some e, ChildInodeEntry.zero),
      { s with
        heap := s.heap ++ resp.newInode.toList
        trace := s.trace ++ [Ev.muRLock, Ev.muRUnlock, Ev.lock parent, Ev.unlock parent,
          Ev.backendLookUp parent op.Name] }) := by
  have hlt : parent < s.heap.length := (List.getElem?_eq_some.mp hpar).1
  have hpar1 : s.heap[parent] = par := (List.getElem?_eq_some.mp hpar).2
  have hC : s.heap[parent]? = some ({ par with mu := false, dir := some d } : Inode) := by
    rw [hpar]
    cases par
    simp_all
  have hself := set_self s.heap parent _ hC
  cases hnew : resp.newInode with
  | none =>
    simp [LookUpInode, lookUpProbe, lookUpMiss, parentLookUp, lookUpSettle, bind_apply,
      pure_apply, emit, muRLock, muRUnlock, getInodeOrDie, lockInode, unlockInode,
      findChildUnlocked, deref, hw, hparent, hpar, hmu, hdir, hnone, List.getElem?_set, hlt,
      hpar1, hnew, herr, List.set_set, hself]
    cases hm : s.mu
    simp_all
  | some fetched =>
    simp [LookUpInode, lookUpProbe, lookUpMiss, parentLookUp, lookUpSettle, bind_apply,
      pure_apply, emit, newObj, muRLock, muRUnlock, getInodeOrDie, lockInode, unlockInode,
      findChildUnlocked, deref, hw, hparent, hpar, hmu, hdir, hnone, List.getElem?_set, hlt,
      hpar1, hnew, herr, List.set_set, hself]
    cases hm : s.mu
    simp_all

end Fs

namespace Fs

/-- C26: let the backend query of `LookUpInode` fail with `e`, on a registered,
unlocked parent directory with the table lock free. (1) When a cached entry
existed (expired, without open handle, carrying the name looked up) and `e` is
not the `ENOENT` suppressed for a directory, `LookUpInode` returns `e`; the
entry's reference count ends equal to its value before the lookup; when that
count is zero the entry is deleted from `fs.inodes` and removed from the
parent's child index, and when it is not, `fs.inodes` and the parent's child
index are as before. (2) When no cached entry existed, `LookUpInode` returns
`e` and the table, the id allocator, the table lock and every inode object are
unchanged. -/
theorem C26_lookup_error_rolls_back (s : FileSystem) (op : LookUpInodeOp) (resp : LookUpResp)
    (parent : Ptr) (par : Inode) (d : DirInodeData) (e : Errno)
    (hr : s.mu.readers = 0) (hw : s.mu.writer = false)
    (hparent : GoMap.get s.inodes op.Parent = some parent)
    (hpar : s.heap[parent]? = some par) (hmu : par.mu = false) (hdir : par.dir = some d)
    (herr : resp.err = some e) :
    (∀ (i : Ptr) (child : Inode),
      GoMap.get d.Children op.Name = some i → s.heap[i]? = some child →
      expiredAt s.clock child.AttrTime s.flags.StatCacheTTL = true → child.fileHandles = 0 →
      i ≠ parent → child.Name = op.Name → ¬ (e = Errno.ENOENT ∧ child.isDir = true) →
      ∃ t c1, LookUpInode op resp s = (Outcome.ok (some e, ChildInodeEntry.zero), t) ∧
        t.heap[i]? = some c1 ∧ c1.refcnt = child.refcnt ∧
        (child.refcnt = 0 →
          t.inodes = GoMap.delete s.inodes child.Id ∧ GoMap.get t.inodes child.Id = none ∧
          NotListed parent op.Name t) ∧
        (child.refcnt ≠ 0 →
          t.inodes = s.inodes ∧
          ∃ p1 d1, t.heap[parent]? = some p1 ∧ p1.dir = some d1 ∧
            GoMap.get d1.Children op.Name = some i)) ∧
    (GoMap.get d.Children op.Name = none →
      ∃ t, LookUpInode op resp s = (Outcome.ok (some e, ChildInodeEntry.zero), t) ∧
        t.inodes = s.inodes ∧ t.nextInodeID = s.nextInodeID ∧ t.mu = s.mu ∧
        (∀ (p : Ptr) (o : Inode), s.heap[p]? = some o → t.heap[p]? = some o) ∧
        (resp.newInode = none → t.heap = s.heap)) := by
  constructor
  · intro i child hsome hchild hexp hfh hip hname hnot
    obtain ⟨t, ht, hc, _, _, _, hzero, hpos⟩ := LookUpInode_rollback s op resp parent par d i child e
      hr hw hparent hpar hmu hdir hsome hchild hexp hfh hip herr hnot
    refine ⟨t, child, ht, hc, rfl, ?_, ?_⟩
    · intro hz
      obtain ⟨h1, h2⟩ := hzero hz
      refine ⟨h1, by rw [h1]; exact GoMap.get_delete_self _ _, _, _, h2, rfl, ?_⟩
      rw [hname]
      exact GoMap.get_delete_self _ _
    · intro hz
      obtain ⟨h1, h2⟩ := hpos hz
      exact ⟨h1, par, d, h2, hdir, hsome⟩
  · intro hnone
    refine ⟨_, LookUpInode_error_uncached s op resp parent par d e hw hparent hpar hmu hdir hnone
      herr, rfl, rfl, rfl, ?_, ?_⟩
    · intro p o hp
      have hlt : p < s.heap.length := (List.getElem?_eq_some.mp hp).1
      show (s.heap ++ resp.newInode.toList)[p]? = some o
      rw [List.getElem?_append_left hlt]
      exact hp
    · intro hn
      show s.heap ++ resp.newInode.toList = s.heap
      rw [hn]
      simp

/-- The instance of C26 at the example file system, at the instant 1000: the
lookup of the file `a` (one reference) fails with `EAGAIN`; the file keeps its
reference and its place. -/
theorem C26_witness :
    ∃ t c1, LookUpInode ⟨1, "a"⟩ ⟨none, some Errno.EAGAIN⟩ (exampleFs 1000 false 0) =
        (Outcome.ok (some Errno.EAGAIN, ChildInodeEntry.zero), t) ∧
      t.heap[1]? = some c1 ∧ c1.refcnt = 1 ∧ t.inodes = (exampleFs 1000 false 0).inodes :=
  let ⟨t, c1, h1, h2, h3, _, h5⟩ :=
    (C26_lookup_error_rolls_back (exampleFs 1000 false 0) ⟨1, "a"⟩ ⟨none, some Errno.EAGAIN⟩ 0
      (exampleInode 1 "" none (some (exampleDir [("e", 3), ("d", 2), ("a", 1)])) 0 1)
      (exampleDir [("e", 3), ("d", 2), ("a", 1)]) Errno.EAGAIN
      rfl rfl (by decide) rfl rfl rfl rfl).1 1 (exampleInode 2 "a" (some 0) none 0 1)
      (by decide) rfl (by decide) rfl (by decide) rfl (by decide)
  ⟨t, c1, h1, h2, h3, (h5 (by decide)).1⟩

end Fs

namespace Fs

set_option maxHeartbeats 1000000 in
/-- A successful `OpenFile` on a registered, unlocked inode with the table lock
free: the handle is registered under the next handle id with the negation of
the inode's `invalidateCache` as `keepPageCache`, and the flag is cleared. -/
theorem OpenFile_eq (s : FileSystem) (op : OpenFileOp) (tgid : Option Int) (p : Ptr)
    (o : Inode) (hr : s.mu.readers = 0) (hw : s.mu.writer = false)
    (hreg : GoMap.get s.inodes op.Inode = some p) (ho : s.heap[p]? = some o)
    (hmu : o.mu = false) :
    OpenFile op tgid none s = (Outcome.ok (none,
        { Handle := s.nextHandleID, KeepPageCache := !o.invalidateCache }),
      { s with
        nextHandleID := (s.nextHandleID + 1) % U64
        fileHandles := GoMap.set
          (GoMap.set s.fileHandles s.nextHandleID
            { inode := p, Tgid := tgid, keepPageCache := false })
          s.nextHandleID { inode := p, Tgid := tgid, keepPageCache := !o.invalidateCache }
        heap := s.heap.set p
          { o with fileHandles := o.fileHandles + 1, invalidateCache := false }
        trace := s.trace ++ [Ev.muRLock, Ev.muRUnlock, Ev.muLock, Ev.muUnlock, Ev.lock p,
          Ev.unlock p] }) := by
  have hlt : p < s.heap.length := (List.getElem?_eq_some.mp ho).1
  have ho1 : s.heap[p] = o := (List.getElem?_eq_some.mp ho).2
  have hmuEq : ({ readers := 0, writer := false } : RWMutex) = s.mu := by
    cases hm : s.mu
    simp_all
  simp [OpenFile, Inode.OpenFile, openFileFlag, bind_apply, pure_apply, withDefer, muRLock,
    muRUnlock, muLock, muUnlock, getInodeOrDie, lockInode, unlockInode, Fs.deref, modifyObj, hr,
    hw, hreg, ho, hmu, List.getElem?_set, hlt, ho1, List.set_set, hmuEq]

end Fs

namespace Fs

/-- C27: a successful `OpenFile` on a registered, unlocked inode, with the
table lock free, reports `KeepPageCache` equal to the negation of the inode's
`invalidateCache` flag, records the same value on the file handle it registers,
and clears the flag; an `OpenFile` of the same inode that follows immediately
reports `KeepPageCache = true` and records it on its handle. So an
invalidation bypasses the page cache for exactly the next open. -/
theorem C27_open_clears_invalidation (s : FileSystem) (op : OpenFileOp) (tgid tgid2 : Option Int)
    (p : Ptr) (o : Inode) (hr : s.mu.readers = 0) (hw : s.mu.writer = false)
    (hreg : GoMap.get s.inodes op.Inode = some p) (ho : s.heap[p]? = some o)
    (hmu : o.mu = false) :
    ∃ t o1, OpenFile op tgid none s = (Outcome.ok (none,
        { Handle := s.nextHandleID, KeepPageCache := !o.invalidateCache }), t) ∧
      GoMap.get t.fileHandles s.nextHandleID =
        some { inode := p, Tgid := tgid, keepPageCache := !o.invalidateCache } ∧
      t.heap[p]? = some o1 ∧ o1.invalidateCache = false ∧
      ∃ u, OpenFile op tgid2 none t = (Outcome.ok (none,
          { Handle := t.nextHandleID, KeepPageCache := true }), u) ∧
        GoMap.get u.fileHandles t.nextHandleID =
          some { inode := p, Tgid := tgid2, keepPageCache := true } := by
  have hlt : p < s.heap.length := (List.getElem?_eq_some.mp ho).1
  obtain ⟨t, ht, htr, htw, htreg, hto, hth⟩ : ∃ t, OpenFile op tgid none s = (Outcome.ok (none,
        { Handle := s.nextHandleID, KeepPageCache := !o.invalidateCache }), t) ∧
      t.mu.readers = 0 ∧ t.mu.writer = false ∧ GoMap.get t.inodes op.Inode = some p ∧
      t.heap[p]? = some { o with fileHandles := o.fileHandles + 1, invalidateCache := false } ∧
      GoMap.get t.fileHandles s.nextHandleID =
        some { inode := p, Tgid := tgid, keepPageCache := !o.invalidateCache } :=
    ⟨_, OpenFile_eq s op tgid p o hr hw hreg ho hmu, hr, hw, hreg,
      by simp [List.getElem?_set, hlt], by simp [GoMap.get_set]⟩
  have h2 := OpenFile_eq t op tgid2 p
    { o with fileHandles := o.fileHandles + 1, invalidateCache := false } htr htw htreg hto hmu
  refine ⟨t, _, ht, hth, hto, rfl, _, h2, ?_⟩
  simp [GoMap.get_set]

end Fs

namespace Fs

/-- The instance of C27 at the example file system with the cache of the file
`a` (address 1, id 2) invalidated: the open reports `KeepPageCache = false`
under the handle 1, and the open that follows reports `true` under the
handle 2. -/
theorem C27_witness :
    ∃ t u, OpenFile { Inode := 2, Pid := 900 } (some 40) none
        { exampleFs 100 false 0 with
          heap := (exampleFs 100 false 0).heap.set 1
            { exampleInode 2 "a" (some 0) none 0 1 with invalidateCache := true } } =
        (Outcome.ok (none, { Handle := 1, KeepPageCache := false }), t) ∧
      OpenFile { Inode := 2, Pid := 900 } (some 41) none t =
        (Outcome.ok (none, { Handle := t.nextHandleID, KeepPageCache := true }), u) :=
  let ⟨t, _, h1, _, _, _, u, h5, _⟩ :=
    C27_open_clears_invalidation
      { exampleFs 100 false 0 with
        heap := (exampleFs 100 false 0).heap.set 1
          { exampleInode 2 "a" (some 0) none 0 1 with invalidateCache := true } }
      { Inode := 2, Pid := 900 } (some 40) (some 41) 1
      { exampleInode 2 "a" (some 0) none 0 1 with invalidateCache := true }
      rfl rfl (by decide) rfl rfl
  ⟨t, u, h1, h5⟩

end Fs

namespace Fs

end Fs

namespace Fs

end Fs

namespace Fs

end Fs

namespace Fs

end Fs

namespace Fs

end Fs

namespace Fs

/-- Events without a backend call issue no backend call under a lock. -/
theorem backendUnderLock_quiet (rest : List Ev) (h : ∀ e ∈ rest, e.isBackend = false) :
    ∀ mu held, backendUnderLock mu held rest = false := by
  induction rest with
  | nil => intro mu held; rfl
  | cons e rest ih =>
    intro mu held
    have ih1 := ih (fun x hx => h x (List.mem_cons_of_mem _ hx))
    have he := h e (List.mem_cons_self _ _)
    cases e <;> first
      | exact ih1 _ _
      | (simp only [backendUnderLock, ih1, Bool.or_false]
         simp [Ev.isBackend] at he ⊢)

/-- The events of `LookUpInode` on a name that is not in the parent's child
index: the table lock and the parent's lock are released before the backend
query, and no other backend call follows. -/
theorem LookUpInode_query_uncached (s : FileSystem) (op : LookUpInodeOp) (resp : LookUpResp)
    (parent : Ptr) (par : Inode) (d : DirInodeData)
    (hw : s.mu.writer = false)
    (hparent : GoMap.get s.inodes op.Parent = some parent)
    (hpar : s.heap[parent]? = some par) (hmu : par.mu = false) (hdir : par.dir = some d)
    (hnone : GoMap.get d.Children op.Name = none) :
    ∃ rest, (LookUpInode op resp s).2.trace = s.trace ++
      [Ev.muRLock, Ev.muRUnlock, Ev.lock parent, Ev.unlock parent,
        Ev.backendLookUp parent op.Name] ++ rest ∧ ∀ e ∈ rest, e.isBackend = false := by
  have hlt : parent < s.heap.length := (List.getElem?_eq_some.mp hpar).1
  have hpar1 : s.heap[parent] = par := (List.getElem?_eq_some.mp hpar).2
  have hpre : ∃ t, LookUpInode op resp s = lookUpMiss parent none op.Name resp t ∧
      t.trace = s.trace ++ [Ev.muRLock, Ev.muRUnlock, Ev.lock parent, Ev.unlock parent] := by
    apply Exists.intro
    constructor
    · simp [LookUpInode, lookUpProbe, bind_apply, pure_apply, muRLock, muRUnlock, getInodeOrDie,
        lockInode, unlockInode, findChildUnlocked, deref, hw, hparent, hpar, hmu, hdir, hnone,
        List.getElem?_set, hlt, hpar1]
      rfl
    · simp
  obtain ⟨t, ht, htr⟩ := hpre
  have hsettle := fun (n : Option Ptr) (u : FileSystem) =>
    TraceAdds.lookUpSettle (P := fun e => e.isBackend = false) parent none op.Name n resp.err
      (fun _ h => h) u
  rw [ht]
  unfold lookUpMiss parentLookUp
  cases hnew : resp.newInode with
  | none =>
    obtain ⟨rest, h1, h2⟩ := hsettle none
      { t with trace := t.trace ++ [Ev.backendLookUp parent op.Name] }
    refine ⟨rest, ?_, h2⟩
    simp only [bind_apply, emit, pure_apply]
    rw [h1]
    show (t.trace ++ [Ev.backendLookUp parent op.Name]) ++ rest = _
    rw [htr]
    simp
  | some fetched =>
    obtain ⟨rest, h1, h2⟩ := hsettle (some t.heap.length)
      { t with trace := t.trace ++ [Ev.backendLookUp parent op.Name],
               heap := t.heap ++ [fetched] }
    refine ⟨rest, ?_, h2⟩
    simp only [bind_apply, emit, pure_apply, newObj]
    rw [h1]
    show (t.trace ++ [Ev.backendLookUp parent op.Name]) ++ rest = _
    rw [htr]
    simp

/-- The events of `LookUpInode` on an expired cached child without open
handles: the table lock and the parent's lock are released before the backend
query, and no other backend call follows. -/
theorem LookUpInode_query_cached (s : FileSystem) (op : LookUpInodeOp) (resp : LookUpResp)
    (parent : Ptr) (par : Inode) (d : DirInodeData) (i : Ptr) (child : Inode)
    (hw : s.mu.writer = false)
    (hparent : GoMap.get s.inodes op.Parent = some parent)
    (hpar : s.heap[parent]? = some par) (hmu : par.mu = false) (hdir : par.dir = some d)
    (hsome : GoMap.get d.Children op.Name = some i) (hchild : s.heap[i]? = some child)
    (hexp : expiredAt s.clock child.AttrTime s.flags.StatCacheTTL = true)
    (hfh : child.fileHandles = 0) (hip : i ≠ parent) :
    ∃ rest, (LookUpInode op resp s).2.trace = s.trace ++
      [Ev.muRLock, Ev.muRUnlock, Ev.lock parent, Ev.unlock parent,
        Ev.backendLookUp parent op.Name] ++ rest ∧ ∀ e ∈ rest, e.isBackend = false := by
  have hsettle := fun (n : Option Ptr) (u : FileSystem) =>
    TraceAdds.lookUpSettle (P := fun e => e.isBackend = false) parent (some i) op.Name n
      resp.err (fun _ h => h) u
  rw [LookUpInode_probe_eq s op resp parent par d i child hw hparent hpar hmu hdir hsome
    hchild hexp hfh hip]
  unfold lookUpMiss parentLookUp
  cases hnew : resp.newInode with
  | none =>
    simp only [bind_apply, emit, pure_apply]
    obtain ⟨rest, h1, h2⟩ := hsettle none
      { s with
        heap := s.heap.set i { child with refcnt := child.refcnt + 1 }
        trace := s.trace ++ [Ev.muRLock, Ev.muRUnlock, Ev.lock parent, Ev.unlock parent] ++
          [Ev.backendLookUp parent op.Name] }
    refine ⟨rest, ?_, h2⟩
    rw [h1]
    simp
  | some fetched =>
    simp only [bind_apply, emit, pure_apply, newObj, List.length_set]
    obtain ⟨rest, h1, h2⟩ := hsettle (some s.heap.length)
      { s with
        heap := s.heap.set i { child with refcnt := child.refcnt + 1 } ++ [fetched]
        trace := s.trace ++ [Ev.muRLock, Ev.muRUnlock, Ev.lock parent, Ev.unlock parent] ++
          [Ev.backendLookUp parent op.Name] }
    refine ⟨rest, ?_, h2⟩
    rw [h1]
    simp

end Fs

namespace Fs

/-- C29, the code: let the table lock be free and the directories be
unlocked. `Rename` issues the backend rename after it has taken the lock of the
old and of the new parent directory (one lock when the two are the same
directory) and before it releases any of them: the backend call is in flight
under the parent directories' locks; the table lock is not held then.
`LookUpInode`, on a name that is not cached or whose cached entry is expired
and has no open handle, releases the table lock and the parent's lock before
`parent.LookUp` runs, and makes no backend call after it. -/
theorem C29_rename_calls_backend_under_parent_locks (s : FileSystem) (parent : Ptr)
    (par : Inode) (d : DirInodeData) (hw : s.mu.writer = false)
    (hpar : s.heap[parent]? = some par) (hmu : par.mu = false) (hdir : par.dir = some d) :
    (∀ (op : RenameOp) (resp : GoError) (b : Ptr) (ob : Inode),
      op.OldParent ≠ op.NewParent → parent ≠ b →
      GoMap.get s.inodes op.OldParent = some parent →
      GoMap.get s.inodes op.NewParent = some b →
      s.heap[b]? = some ob → ob.mu = false →
      ∃ rest, (Rename op resp s).2.trace = s.trace ++
        [Ev.muRLock, Ev.muRUnlock,
          Ev.lock (if op.OldParent < op.NewParent then parent else b),
          Ev.lock (if op.OldParent < op.NewParent then b else parent),
          Ev.backendRename parent op.OldName b op.NewName] ++ rest ∧
        heldAfter [] [Ev.muRLock, Ev.muRUnlock,
          Ev.lock (if op.OldParent < op.NewParent then parent else b),
          Ev.lock (if op.OldParent < op.NewParent then b else parent)] =
          [if op.OldParent < op.NewParent then b else parent,
            if op.OldParent < op.NewParent then parent else b] ∧
        backendUnderLock 0 [] ([Ev.muRLock, Ev.muRUnlock,
          Ev.lock (if op.OldParent < op.NewParent then parent else b),
          Ev.lock (if op.OldParent < op.NewParent then b else parent),
          Ev.backendRename parent op.OldName b op.NewName] ++ rest) = true) ∧
    (∀ (op : RenameOp) (resp : GoError),
      op.OldParent = op.NewParent → GoMap.get s.inodes op.OldParent = some parent →
      ∃ rest, (Rename op resp s).2.trace = s.trace ++
        [Ev.muRLock, Ev.muRUnlock, Ev.lock parent,
          Ev.backendRename parent op.OldName parent op.NewName] ++ rest ∧
        heldAfter [] [Ev.muRLock, Ev.muRUnlock, Ev.lock parent] = [parent] ∧
        backendUnderLock 0 [] ([Ev.muRLock, Ev.muRUnlock, Ev.lock parent,
          Ev.backendRename parent op.OldName parent op.NewName] ++ rest) = true) ∧
    (∀ (op : LookUpInodeOp) (resp : LookUpResp),
      GoMap.get s.inodes op.Parent = some parent →
      (GoMap.get d.Children op.Name = none ∨
        ∃ i child, GoMap.get d.Children op.Name = some i ∧ s.heap[i]? = some child ∧
          expiredAt s.clock child.AttrTime s.flags.StatCacheTTL = true ∧
          child.fileHandles = 0 ∧ i ≠ parent) →
      ∃ rest, (LookUpInode op resp s).2.trace = s.trace ++
        [Ev.muRLock, Ev.muRUnlock, Ev.lock parent, Ev.unlock parent,
          Ev.backendLookUp parent op.Name] ++ rest ∧
        heldAfter [] [Ev.muRLock, Ev.muRUnlock, Ev.lock parent, Ev.unlock parent] = [] ∧
        backendUnderLock 0 [] ([Ev.muRLock, Ev.muRUnlock, Ev.lock parent, Ev.unlock parent,
          Ev.backendLookUp parent op.Name] ++ rest) = false) := by
  refine ⟨?_, ?_, ?_⟩
  · intro op resp b ob hne hab hA hB hob hmub
    obtain ⟨rest, h1⟩ := Rename_trace_diff s op resp parent b par ob hne hab hw hA hB hpar hob
      hmu hmub
    refine ⟨rest, h1, rfl, ?_⟩
    simp [backendUnderLock, Ev.isBackend]
  · intro op resp heq hA
    obtain ⟨rest, h1⟩ := Rename_trace_same s op resp parent par heq hw hA hpar hmu
    refine ⟨rest, h1, rfl, ?_⟩
    simp [backendUnderLock, Ev.isBackend]
  · intro op resp hreg hmiss
    have hq : ∃ rest, (LookUpInode op resp s).2.trace = s.trace ++
        [Ev.muRLock, Ev.muRUnlock, Ev.lock parent, Ev.unlock parent,
          Ev.backendLookUp parent op.Name] ++ rest ∧ ∀ e ∈ rest, e.isBackend = false := by
      rcases hmiss with hnone | ⟨i, child, hsome, hchild, hexp, hfh, hip⟩
      · exact LookUpInode_query_uncached s op resp parent par d hw hreg hpar hmu hdir hnone
      · exact LookUpInode_query_cached s op resp parent par d i child hw hreg hpar hmu hdir hsome
          hchild hexp hfh hip
    obtain ⟨rest, h1, h2⟩ := hq
    refine ⟨rest, h1, ?_, ?_⟩
    · simp [heldAfter]
    · simp [backendUnderLock, Ev.isBackend, backendUnderLock_quiet rest h2]

/-- The instance of C29 at the example file system: `Rename` of `a` from the
root (id 1, address 0) to the directory `d` (id 3, address 2) issues the
backend rename with the locks of both directories held; `LookUpInode` of the
name `z`, which is not cached, queries the backend with no lock held. -/
theorem C29_witness :
    (∃ rest, (Rename { OldParent := 1, OldName := "a", NewParent := 3, NewName := "b" } none
        (exampleFs 100 false 0)).2.trace = (exampleFs 100 false 0).trace ++
        [Ev.muRLock, Ev.muRUnlock, Ev.lock 0, Ev.lock 2, Ev.backendRename 0 "a" 2 "b"] ++ rest ∧
      heldAfter [] [Ev.muRLock, Ev.muRUnlock, Ev.lock 0, Ev.lock 2] = [2, 0] ∧
      backendUnderLock 0 [] ([Ev.muRLock, Ev.muRUnlock, Ev.lock 0, Ev.lock 2,
        Ev.backendRename 0 "a" 2 "b"] ++ rest) = true) ∧
    (∃ rest, (LookUpInode { Parent := 1, Name := "z" } { newInode := none, err := none }
        (exampleFs 100 false 0)).2.trace = (exampleFs 100 false 0).trace ++
        [Ev.muRLock, Ev.muRUnlock, Ev.lock 0, Ev.unlock 0, Ev.backendLookUp 0 "z"] ++ rest ∧
      heldAfter [] [Ev.muRLock, Ev.muRUnlock, Ev.lock 0, Ev.unlock 0] = [] ∧
      backendUnderLock 0 [] ([Ev.muRLock, Ev.muRUnlock, Ev.lock 0, Ev.unlock 0,
        Ev.backendLookUp 0 "z"] ++ rest) = false) :=
  let h := C29_rename_calls_backend_under_parent_locks (exampleFs 100 false 0) 0
    (exampleInode 1 "" none (some (exampleDir [("e", 3), ("d", 2), ("a", 1)])) 0 1)
    (exampleDir [("e", 3), ("d", 2), ("a", 1)]) rfl rfl rfl rfl
  ⟨h.1 { OldParent := 1, OldName := "a", NewParent := 3, NewName := "b" } none 2
      (exampleInode 3 "d" (some 0) (some (exampleDir [])) 0 1)
      (by decide) (by decide) (by decide) (by decide) rfl rfl,
    h.2.2 { Parent := 1, Name := "z" } { newInode := none, err := none } (by decide)
      (Or.inl (by decide))⟩

end Fs
